import Mathlib

/-!
# Texas Hold'em backend: cards, deck, hand evaluation, state machine, betting round, room, hub

Shallow embedding of `internal/game/poker/card.go`, `internal/game/poker/deck.go`,
`internal/game/poker/evaluator.go`, `internal/game/statemachine/game_state.go`,
`internal/game/room/room.go` and the hub of `internal/websocket/manager.go`.

Modelling conventions.

* Go `int` (and the named types `Suit`, `Rank`, `HandType` built on it) is `Int`;
  arithmetic that the code performs on values it does not control wraps at
  64 bits through `wrapInt`.
* A Go slice is a `List`; a `nil` slice is `[]`.
* A Go `map[K]int` is an association list whose keys appear in order of first
  insertion.  Go leaves the iteration order of a map unspecified; every loop over
  a map in the evaluator returns a result that does not depend on that order when
  the input has five cards (at most one key can satisfy each test that ends a
  loop), and the model iterates in insertion order.
* The seats of a room, a Go `map[int64]*Player`, are the list of the map's values.
  Go takes a fresh, unspecified order for every loop over a map.  The order of the
  list is the order of the loops of the call under study, so a statement about every
  room covers every such order; the order of a loop of an earlier call, where a
  statement depends on it, is a permutation of its own (claim C34).  A call with
  several loops over the map (`StartGame`) is modelled with one order for all of
  them: the general theorems about such a call state what holds whatever these
  orders are, and the sample runs are runs in which the loops take the same order.
* A callback of the state machine is held as what it does to the machine: it
  returns an error or `nil`, or it fires a further event (`Callback`).
* A Go string is a Lean `String`, read through its UTF-8 bytes.
* A run-time panic is `none`.
* Time stamps, the mutex of a room and the text of the game log are left out: the
  code writes them and never reads them.
* The hub is the pair of its two maps; the goroutine `run` handles one message of
  one channel at a time, and each of these steps is a function on that pair.
-/

deriving instance DecidableEq for Except

namespace Poker

/-! ## card.go -/

/-- Go `type Suit int`.  Signatures below write `Int` for it. -/
abbrev Suit := Int

def Spades : Int := 0
def Hearts : Int := 1
def Diamonds : Int := 2
def Clubs : Int := 3

/-- Go `type Rank int`.  Signatures below write `Int` for it. -/
abbrev Rank := Int

def Two : Int := 2
def Three : Int := 3
def Four : Int := 4
def Five : Int := 5
def Six : Int := 6
def Seven : Int := 7
def Eight : Int := 8
def Nine : Int := 9
def Ten : Int := 10
def Jack : Int := 11
def Queen : Int := 12
def King : Int := 13
def Ace : Int := 14

/-- Go `type Card struct { Suit Suit; Rank Rank }`. -/
structure Card where
  Suit : Int
  Rank : Int
deriving DecidableEq, Repr

/-- Go `NewCard(rank, suit)`. -/
def NewCard (rank : Int) (suit : Int) : Card := { Rank := rank, Suit := suit }

/-- Go `Suit.String`. -/
def Suit.String (s : Int) : String :=
  if s = Spades then "♠"
  else if s = Hearts then "♥"
  else if s = Diamonds then "♦"
  else if s = Clubs then "♣"
  else "?"

/-- Go `Rank.String`. -/
def Rank.String (r : Int) : String :=
  if r = Two then "2"
  else if r = Three then "3"
  else if r = Four then "4"
  else if r = Five then "5"
  else if r = Six then "6"
  else if r = Seven then "7"
  else if r = Eight then "8"
  else if r = Nine then "9"
  else if r = Ten then "T"
  else if r = Jack then "J"
  else if r = Queen then "Q"
  else if r = King then "K"
  else if r = Ace then "A"
  else "?"

/-- Go `Card.String`: `fmt.Sprintf("%s%s", c.Rank.String(), c.Suit.String())`. -/
def Card.String (c : Card) : String := Rank.String c.Rank ++ Suit.String c.Suit

/-- The `switch s[0]` of `ParseCard`, on the byte value. -/
def parseRankByte (b : Nat) : Option Int :=
  if b = '2'.toNat then some Two
  else if b = '3'.toNat then some Three
  else if b = '4'.toNat then some Four
  else if b = '5'.toNat then some Five
  else if b = '6'.toNat then some Six
  else if b = '7'.toNat then some Seven
  else if b = '8'.toNat then some Eight
  else if b = '9'.toNat then some Nine
  else if b = 'T'.toNat then some Ten
  else if b = 'J'.toNat then some Jack
  else if b = 'Q'.toNat then some Queen
  else if b = 'K'.toNat then some King
  else if b = 'A'.toNat then some Ace
  else none

/-- The `switch s[1]` of `ParseCard`, on the byte value. -/
def parseSuitByte (b : Nat) : Option Int :=
  if b = 'S'.toNat then some Spades
  else if b = 'H'.toNat then some Hearts
  else if b = 'D'.toNat then some Diamonds
  else if b = 'C'.toNat then some Clubs
  else none

/-- Go `ParseCard`.  `len(s)` and `s[i]` are the byte length and the bytes of the
string; the error carries the message of `fmt.Errorf`. -/
def ParseCard (s : String) : Except String Card :=
  let bytes := s.toUTF8
  if bytes.size ≠ 2 then .error ("invalid card string: " ++ s)
  else
    match parseRankByte (bytes.get! 0).toNat with
    | none => .error ("invalid rank: " ++ String.singleton (Char.ofNat (bytes.get! 0).toNat))
    | some rank =>
      match parseSuitByte (bytes.get! 1).toNat with
      | none => .error ("invalid suit: " ++ String.singleton (Char.ofNat (bytes.get! 1).toNat))
      | some suit => .ok (NewCard rank suit)

/-- Go `type HandType int`.  Signatures below write `Int` for it. -/
abbrev HandType := Int

def HighCard : Int := 0
def OnePair : Int := 1
def TwoPair : Int := 2
def ThreeOfAKind : Int := 3
def Straight : Int := 4
def Flush : Int := 5
def FullHouse : Int := 6
def FourOfAKind : Int := 7
def StraightFlush : Int := 8
def RoyalFlush : Int := 9

/-- Go `type Cards []Card`. -/
abbrev Cards := List Card

/-- Go `type Hand struct { Cards []Card; Type HandType; Ranks []Rank }`; the field
`Type` is written `Typ`. -/
structure Hand where
  Cards : List Card
  Typ : Int
  Ranks : List Int
deriving DecidableEq, Repr

/-- The composite literal `Hand{Type: -1}` that the `check…` functions return when
the hand is not of their category. -/
def noHand : Hand := { Cards := [], Typ := -1, Ranks := [] }

/-- Go `Cards.Clone`: a copy of the slice. -/
def Cards.Clone (c : Cards) : Cards := c

/-- Inner loop of the insertion sort that `sort.Sort` runs on slices of at most
twelve elements, with `Less(i, j) = c[i].Rank > c[j].Rank`.  The second argument is
the sorted prefix in reverse order (nearest neighbour first); the new card moves
towards the front while it is `Less` than its neighbour.  The result is again in
reverse order. -/
def Cards.sortInsert (x : Card) : List Card → List Card
  | [] => [x]
  | p :: ps => if x.Rank > p.Rank then p :: Cards.sortInsert x ps else x :: p :: ps

/-- Go `Cards.Sort` (`sort.Sort(c)`), for slices of at most twelve cards: cards in
descending rank order. -/
def Cards.Sort (c : Cards) : Cards :=
  (c.foldl (fun pre x => Cards.sortInsert x pre) []).reverse

/-! ## evaluator.go: helpers -/

/-- Two's-complement wrap-around of a 64-bit Go `int`. -/
def wrapInt (x : Int) : Int :=
  (x + 9223372036854775808) % 18446744073709551616 - 9223372036854775808

/-- The statement `counts[key]++` on a map held as an association list. -/
def mapIncr (key : Int) : List (Int × Nat) → List (Int × Nat)
  | [] => [(key, 1)]
  | (k, v) :: rest => if k = key then (k, v + 1) :: rest else (k, v) :: mapIncr key rest

/-- Go `getRankCounts`. -/
def getRankCounts (cards : Cards) : List (Int × Nat) :=
  (cards.map (fun card => card.Rank)).foldl (fun counts rank => mapIncr rank counts) []

/-- Go `getSuitCounts`. -/
def getSuitCounts (cards : Cards) : List (Int × Nat) :=
  (cards.map (fun card => card.Suit)).foldl (fun counts suit => mapIncr suit counts) []

/-- `sort.Slice(ranks, func(i, j) { return ranks[i] > ranks[j] })`: the ranks in
descending order.  The elements are plain integers, so every correct sorting
algorithm returns this list. -/
def sortRanksDesc (ranks : List Int) : List Int :=
  ranks.insertionSort (fun a b => a ≥ b)

/-- Go `removeDuplicateRanks`; the state is the pair `(keys, result)`. -/
def removeDuplicateRanks (ranks : List Int) : List Int :=
  (ranks.foldl
    (fun (st : List Int × List Int) rank =>
      if st.1.contains rank then st else (rank :: st.1, st.2 ++ [rank]))
    ([], [])).2

/-- Go `isConsecutive`. -/
def isConsecutive : List Int → Bool
  | [] => true
  | [_] => true
  | a :: b :: rest => if wrapInt (a - b) ≠ 1 then false else isConsecutive (b :: rest)

/-- Go `containsRanks`. -/
def containsRanks (ranks : List Int) (target : List Int) : Bool :=
  target.all (fun rank => ranks.contains rank)

/-- The loop `for i := 0; i <= len(uniqueRanks)-5; i++` of `checkStraight`: the first
window of five consecutive ranks, if any.  The argument is `uniqueRanks[i:]`. -/
def straightWindow : List Int → Option Int
  | [] => none
  | r :: rest =>
    if (r :: rest).length < 5 then none
    else if isConsecutive ((r :: rest).take 5) then some r
    else straightWindow rest

/-! ## evaluator.go: the category checks -/

/-- Go `checkStraight`. -/
def checkStraight (cards : Cards) : Hand :=
  let ranks := cards.map (fun card => card.Rank)
  let uniqueRanks := sortRanksDesc (removeDuplicateRanks ranks)
  match straightWindow uniqueRanks with
  | some top => { Cards := cards, Typ := Straight, Ranks := [top] }
  | none =>
    if containsRanks uniqueRanks [Ace, Five, Four, Three, Two] then
      { Cards := cards, Typ := Straight, Ranks := [Five] }
    else noHand

/-- The loop `for i, card := range cards { ranks[i] = card.Rank }` of `checkFlush`,
writing into a slice of fixed length; an index out of range panics. -/
def writeRanks : List Card → Nat → List Int → Option (List Int)
  | [], _, ranks => some ranks
  | card :: rest, i, ranks =>
    if i < ranks.length then writeRanks rest (i + 1) (ranks.set i card.Rank) else none

/-- Go `checkFlush`.  `none` is the index-out-of-range panic on more than five
cards. -/
def checkFlush (cards : Cards) : Option Hand :=
  if (getSuitCounts cards).any (fun e => e.2 == 5) then
    (writeRanks cards 0 (List.replicate 5 0)).map fun ranks =>
      { Cards := cards, Typ := Flush, Ranks := sortRanksDesc ranks }
  else some noHand

/-- Go `checkStraightFlush`. -/
def checkStraightFlush (cards : Cards) : Option Hand :=
  (checkFlush cards).map fun flushHand =>
    if flushHand.Typ = Flush then
      let straightHand := checkStraight cards
      if straightHand.Typ = Straight then
        { Cards := cards, Typ := StraightFlush, Ranks := straightHand.Ranks }
      else noHand
    else noHand

/-- Go `checkRoyalFlush`. -/
def checkRoyalFlush (cards : Cards) : Option Hand :=
  (checkStraightFlush cards).map fun hand =>
    if hand.Typ = StraightFlush then
      if hand.Ranks.head? = some Ace then
        { Cards := cards, Typ := RoyalFlush, Ranks := [Ace] }
      else noHand
    else noHand

/-- Go `checkFourOfAKind`. -/
def checkFourOfAKind (cards : Cards) : Hand :=
  let rankCounts := getRankCounts cards
  match rankCounts.find? (fun e => e.2 == 4) with
  | some (rank, _) =>
    let kicker : Int :=
      match rankCounts.find? (fun e => e.1 != rank && e.2 == 1) with
      | some (r, _) => r
      | none => 0
    { Cards := cards, Typ := FourOfAKind, Ranks := [rank, kicker] }
  | none => noHand

/-- Loop state of `checkFullHouse`. -/
structure FullHouseScan where
  threeRank : Int
  pairRank : Int
  hasThree : Bool
  hasPair : Bool

/-- Go `checkFullHouse`. -/
def checkFullHouse (cards : Cards) : Hand :=
  let rankCounts := getRankCounts cards
  let st := rankCounts.foldl
    (fun (st : FullHouseScan) e =>
      if e.2 = 3 then { st with threeRank := e.1, hasThree := true }
      else if e.2 = 2 then { st with pairRank := e.1, hasPair := true }
      else st)
    { threeRank := 0, pairRank := 0, hasThree := false, hasPair := false }
  if st.hasThree && st.hasPair then
    { Cards := cards, Typ := FullHouse, Ranks := [st.threeRank, st.pairRank] }
  else noHand

/-- Go `checkThreeOfAKind`. -/
def checkThreeOfAKind (cards : Cards) : Hand :=
  let rankCounts := getRankCounts cards
  match rankCounts.find? (fun e => e.2 == 3) with
  | some (rank, _) =>
    let kickers := (rankCounts.filter (fun e => e.1 != rank && e.2 == 1)).map (fun e => e.1)
    { Cards := cards, Typ := ThreeOfAKind, Ranks := rank :: sortRanksDesc kickers }
  | none => noHand

/-- Go `checkTwoPair`; the loop state is `(pairs, kicker)`. -/
def checkTwoPair (cards : Cards) : Hand :=
  let rankCounts := getRankCounts cards
  let st := rankCounts.foldl
    (fun (st : List Int × Int) e =>
      if e.2 = 2 then (st.1 ++ [e.1], st.2)
      else if e.2 = 1 then (st.1, e.1)
      else st)
    (([] : List Int), (0 : Int))
  if st.1.length = 2 then
    match sortRanksDesc st.1 with
    | [p0, p1] => { Cards := cards, Typ := TwoPair, Ranks := [p0, p1, st.2] }
    | _ => noHand
  else noHand

/-- Go `checkOnePair`. -/
def checkOnePair (cards : Cards) : Hand :=
  let rankCounts := getRankCounts cards
  match rankCounts.find? (fun e => e.2 == 2) with
  | some (rank, _) =>
    let kickers := (rankCounts.filter (fun e => e.1 != rank && e.2 == 1)).map (fun e => e.1)
    { Cards := cards, Typ := OnePair, Ranks := rank :: sortRanksDesc kickers }
  | none => noHand

/-- Go `checkHighCard`. -/
def checkHighCard (cards : Cards) : Hand :=
  { Cards := cards, Typ := HighCard, Ranks := sortRanksDesc (cards.map (fun card => card.Rank)) }

/-- The chain of category checks of `evaluateFiveCards`, strongest category first,
on the sorted copy of the cards. -/
def evaluateSortedCards (sortedCards : Cards) : Option Hand :=
  (checkRoyalFlush sortedCards).bind fun royal =>
  if royal.Typ ≠ -1 then some royal else
  (checkStraightFlush sortedCards).bind fun straightFlush =>
  if straightFlush.Typ ≠ -1 then some straightFlush else
  if (checkFourOfAKind sortedCards).Typ ≠ -1 then some (checkFourOfAKind sortedCards) else
  if (checkFullHouse sortedCards).Typ ≠ -1 then some (checkFullHouse sortedCards) else
  (checkFlush sortedCards).bind fun flush =>
  if flush.Typ ≠ -1 then some flush else
  if (checkStraight sortedCards).Typ ≠ -1 then some (checkStraight sortedCards) else
  if (checkThreeOfAKind sortedCards).Typ ≠ -1 then some (checkThreeOfAKind sortedCards) else
  if (checkTwoPair sortedCards).Typ ≠ -1 then some (checkTwoPair sortedCards) else
  if (checkOnePair sortedCards).Typ ≠ -1 then some (checkOnePair sortedCards) else
  some (checkHighCard sortedCards)

/-- Go `evaluateFiveCards`: sort a copy of the cards, then run the checks. -/
def evaluateFiveCards (cards : List Card) : Option Hand :=
  evaluateSortedCards (Cards.Sort (Cards.Clone cards))

/-! ## evaluator.go: combinations, hand value, comparison -/

/-- The `for i := start; i < len(cards); i++` loop of the closure `backtrack` in
`generateCombinations`, entered with `len(combination) < k`; the first list is
`cards[start:]`.  Returns the combinations appended to `result`, in order. -/
def backtrackLoop (k : Nat) : List Card → List Card → List (List Card)
  | [], _ => []
  | c :: rest, combination =>
    (if (combination ++ [c]).length = k then [combination ++ [c]]
     else backtrackLoop k rest (combination ++ [c]))
    ++ backtrackLoop k rest combination

/-- Go `generateCombinations`. -/
def generateCombinations (cards : List Card) (k : Nat) : List (List Card) :=
  if ([] : List Card).length = k then [[]] else backtrackLoop k cards []

/-- The loop of `getHandValue`: `value += int(rank) * (100000 / (i + 1))`. -/
def getHandValueLoop : Nat → List Int → Int → Int
  | _, [], value => value
  | i, rank :: rest, value =>
    getHandValueLoop (i + 1) rest
      (wrapInt (value + wrapInt (rank * wrapInt (((100000 / (i + 1) : Nat) : Int)))))

/-- Go `getHandValue`. -/
def getHandValue (hand : Hand) : Int :=
  getHandValueLoop 0 hand.Ranks (wrapInt (hand.Typ * 1000000))

/-- Go `CompareHands`. -/
def CompareHands (hand1 hand2 : Hand) : Int :=
  let value1 := getHandValue hand1
  let value2 := getHandValue hand2
  if value1 > value2 then 1
  else if value1 < value2 then -1
  else 0

/-- The `for _, combination := range combinations` loop of `EvaluateHand`, with
state `(bestHand, bestHandValue)`. -/
def evaluateLoop : List (List Card) → Hand → Int → Option Hand
  | [], bestHand, _ => some bestHand
  | combination :: rest, bestHand, bestHandValue =>
    match evaluateFiveCards combination with
    | none => none
    | some hand =>
      if getHandValue hand > bestHandValue then evaluateLoop rest hand (getHandValue hand)
      else evaluateLoop rest bestHand bestHandValue

/-- Go `EvaluateHand`.  `none` is a panic (the explicit one on an input that does not
have seven cards). -/
def EvaluateHand (cards : List Card) : Option Hand :=
  if cards.length ≠ 7 then none
  else evaluateLoop (generateCombinations cards 5) { Cards := [], Typ := 0, Ranks := [] } (-1)

/-! ## deck.go -/

/-- Go `type Deck struct { cards []Card; index int }`.  The cursor `index` starts at
0 and is only ever incremented or reset to 0, so it is a `Nat`. -/
structure Deck where
  cards : List Card
  index : Nat
deriving DecidableEq, Repr

/-- Go `NewDeck`: for each suit, for each rank, append the card. -/
def NewDeck : Deck :=
  let suits := [Spades, Hearts, Diamonds, Clubs]
  let ranks := [Two, Three, Four, Five, Six, Seven, Eight, Nine, Ten, Jack, Queen, King, Ace]
  { cards := suits.foldl
      (fun cards suit => ranks.foldl (fun cards rank => cards ++ [NewCard rank suit]) cards) [],
    index := 0 }

/-- The statement `d.cards[i], d.cards[j] = d.cards[j], d.cards[i]`; `none` is the
index-out-of-range panic. -/
def swapCards (cards : List Card) (i j : Nat) : Option (List Card) :=
  match cards[i]?, cards[j]? with
  | some a, some b => some ((cards.set i b).set j a)
  | _, _ => none

/-- The loop `for i := len(d.cards) - 1; i > 0; i--` of `Shuffle`, entered at `i`.
`intn n` is the value that `rand.Intn(n)` returns in this run. -/
def shuffleLoop (intn : Nat → Nat) : Nat → List Card → Option (List Card)
  | 0, cards => some cards
  | i + 1, cards =>
    match swapCards cards (i + 1) (intn (i + 2)) with
    | some cards1 => shuffleLoop intn i cards1
    | none => none

/-- Go `Deck.Shuffle` (Fisher-Yates), with the random source as a parameter. -/
def Deck.Shuffle (intn : Nat → Nat) (d : Deck) : Option Deck :=
  (shuffleLoop intn (d.cards.length - 1) d.cards).map fun cards => { cards := cards, index := 0 }

/-- Go `Deck.Deal`: the returned card (`none` is the panic on an exhausted deck) and
the deck after the call. -/
def Deck.Deal (d : Deck) : Option Card × Deck :=
  if d.index ≥ d.cards.length then (none, d)
  else (d.cards[d.index]?, { d with index := d.index + 1 })

/-- Go `Deck.CanDeal`. -/
def Deck.CanDeal (d : Deck) : Bool := decide (d.index < d.cards.length)

/-- Go `Deck.Remaining`. -/
def Deck.Remaining (d : Deck) : Int := (d.cards.length : Int) - (d.index : Int)

/-- Go `Deck.Reset`. -/
def Deck.Reset (intn : Nat → Nat) (d : Deck) : Option Deck :=
  Deck.Shuffle intn { d with index := 0 }

/-- Go `Deck.PeekNext`; `none` is the panic on an exhausted deck. -/
def Deck.PeekNext (d : Deck) : Option Card :=
  if d.index ≥ d.cards.length then none else d.cards[d.index]?

/-- Go `Deck.GetAllCards`. -/
def Deck.GetAllCards (d : Deck) : List Card := d.cards

/-- A run of `k` calls of `Deal`: the cards returned, in order, and the deck after
the last call; `none` when one of the calls panics. -/
def dealMany : Nat → Deck → Option (List Card × Deck)
  | 0, d => some ([], d)
  | k + 1, d =>
    match d.Deal with
    | (some card, d1) =>
      match dealMany k d1 with
      | some (dealt, d2) => some (card :: dealt, d2)
      | none => none
    | (none, _) => none

/-! ## The 52-card domain and the order of the specification -/

/-- A card of the 52-card deck: rank 2..14 (14 is the Ace), suit 0..3. -/
def Card.valid (c : Card) : Prop := 2 ≤ c.Rank ∧ c.Rank ≤ 14 ∧ 0 ≤ c.Suit ∧ c.Suit ≤ 3

instance (c : Card) : Decidable c.valid := by
  unfold Card.valid; infer_instance

/-- Lexicographic order on tiebreak rank lists (specification, section 3). -/
def ranksLexLt : List Int → List Int → Bool
  | [], [] => false
  | [], _ :: _ => true
  | _ :: _, [] => false
  | a :: as, b :: bs => decide (a < b) || (decide (a = b) && ranksLexLt as bs)

/-- The order of the specification on hand ranks: category first, then the
tiebreak ranks lexicographically. -/
def handRankLt (a b : Hand) : Bool :=
  decide (a.Typ < b.Typ) || (decide (a.Typ = b.Typ) && ranksLexLt a.Ranks b.Ranks)

/-- The letter that `ParseCard` reads for a suit. -/
def suitLetter (s : Int) : String :=
  if s = Spades then "S"
  else if s = Hearts then "H"
  else if s = Diamonds then "D"
  else if s = Clubs then "C"
  else "?"

/-- Specification: the byte values of the rank characters `2 3 4 5 6 7 8 9 T J Q K A`. -/
def rankBytes : List Nat := "23456789TJQKA".toList.map Char.toNat

/-- Specification: the byte values of the suit characters `S H D C`. -/
def suitBytes : List Nat := "SHDC".toList.map Char.toNat

/-- The bytes of a Go string, as numbers. -/
def stringBytes (s : String) : List Nat := s.toUTF8.data.toList.map UInt8.toNat

/-! ## The value of a hand in the specification -/

/-- Specification: the sum of `rank_i × ⌊100000 / (i + 1)⌋` over the tiebreak ranks,
the first of which has position `i`. -/
def specRankSum : Nat → List Int → Int
  | _, [] => 0
  | i, rank :: rest => rank * (((100000 / (i + 1) : Nat) : Int)) + specRankSum (i + 1) rest

/-- Specification: the value of a hand, category × 1,000,000 +
Σ rank_i × ⌊100000 / (i + 1)⌋, in unbounded integers. -/
def specHandValue (hand : Hand) : Int :=
  hand.Typ * 1000000 + specRankSum 0 hand.Ranks

/-- A hand with a category between HighCard and RoyalFlush and at most six tiebreak
ranks, each between 0 and Ace. -/
def Hand.bounded (hand : Hand) : Prop :=
  0 ≤ hand.Typ ∧ hand.Typ ≤ 9 ∧ hand.Ranks.length ≤ 6 ∧
    ∀ r ∈ hand.Ranks, 0 ≤ r ∧ r ≤ 14

/-! ## The hand rank of the specification -/

/-- Five cards with the given ranks, all of one suit when `flush` is set and of two
suits otherwise. -/
def canonCards : List Int → Bool → Cards
  | [], _ => []
  | r :: rest, flush =>
    { Suit := if flush then 0 else 1, Rank := r } :: rest.map (fun r => { Suit := 0, Rank := r })

/-- Specification: the ranks that occur exactly `n` times, highest first. -/
def specRanksOccurring (n : Nat) (ranks : List Int) : List Int :=
  (sortRanksDesc ranks).dedup.filter (fun r => ranks.count r = n)

/-- Specification: the top rank of the straight that five ranks form, if they form
one; A-2-3-4-5 is the straight with top rank 5. -/
def specStraightTop (ranks : List Int) : Option Int :=
  match sortRanksDesc ranks with
  | [a, b, c, d, e] =>
    if a = Ace ∧ b = Five ∧ c = Four ∧ d = Three ∧ e = Two then some Five
    else if a = b + 1 ∧ b = c + 1 ∧ c = d + 1 ∧ d = e + 1 then some a
    else none
  | _ => none

/-- Specification: category and tiebreak ranks of five cards with the given ranks,
`flush` telling whether they share one suit. -/
def specHandRank (ranks : List Int) (flush : Bool) : Int × List Int :=
  let quads := specRanksOccurring 4 ranks
  let triples := specRanksOccurring 3 ranks
  let pairs := specRanksOccurring 2 ranks
  let singles := specRanksOccurring 1 ranks
  match specStraightTop ranks, flush with
  | some top, true => if top = Ace then (RoyalFlush, [top]) else (StraightFlush, [top])
  | straight, _ =>
    if quads ≠ [] then (FourOfAKind, quads ++ singles)
    else if triples ≠ [] ∧ pairs ≠ [] then (FullHouse, triples ++ pairs)
    else if flush then (Flush, sortRanksDesc ranks)
    else match straight with
      | some top => (Straight, [top])
      | none =>
        if triples ≠ [] then (ThreeOfAKind, triples ++ singles)
        else if pairs.length = 2 then (TwoPair, pairs ++ singles)
        else if pairs.length = 1 then (OnePair, pairs ++ singles)
        else (HighCard, sortRanksDesc ranks)

/-- Specification: five cards share one suit. -/
def specIsFlush : List Card → Bool
  | [] => false
  | c :: rest => rest.all (fun d => d.Suit = c.Suit)

/-- Specification: the category of five cards. -/
def specCategory (cards : List Card) : Int :=
  (specHandRank (cards.map (fun card => card.Rank)) (specIsFlush cards)).1

/-- Specification: the tiebreak ranks of five cards. -/
def specTiebreak (cards : List Card) : List Int :=
  (specHandRank (cards.map (fun card => card.Rank)) (specIsFlush cards)).2

/-- The part of a hand that comparison reads: category and tiebreak ranks. -/
def Hand.key (h : Hand) : Int × List Int := (h.Typ, h.Ranks)

/-- The value that `getHandValue` gives to a hand with the given category and
tiebreak ranks. -/
def keyValue (k : Int × List Int) : Int :=
  getHandValue { Cards := [], Typ := k.fst, Ranks := k.snd }

/-- The shape of the tiebreak ranks in the three highest categories: at most two
ranks from FourOfAKind upwards, and [Ace] for the RoyalFlush. -/
def shapedKey (k : Int × List Int) : Prop :=
  (7 ≤ k.1 → k.2.length ≤ 2) ∧ (k.1 = 9 → k.2 = [Ace])

instance (k : Int × List Int) : Decidable (shapedKey k) := by
  unfold shapedKey; infer_instance

/-- A count map represents a list when its keys are distinct and it holds exactly
the pairs `(k, number of occurrences of k)` for the `k` that occur. -/
def Represents (acc : List (Int × Nat)) (seen : List Int) : Prop :=
  (acc.map Prod.fst).Nodup ∧ ∀ k v, (k, v) ∈ acc ↔ k ∈ seen ∧ v = seen.count k

end Poker

namespace Statemachine

/-! ## game_state.go: the hand state machine -/

/-- Go `type GameState int`.  Signatures below write `Int` for it. -/
abbrev GameState := Int

def WaitingForPlayers : Int := 0
def PreFlop : Int := 1
def Flop : Int := 2
def Turn : Int := 3
def River : Int := 4
def Showdown : Int := 5
def GameEnd : Int := 6

/-- Go `GameState.String`. -/
def GameState.String (gs : Int) : String :=
  if gs = WaitingForPlayers then "等待玩家"
  else if gs = PreFlop then "发牌阶段"
  else if gs = Flop then "翻牌阶段"
  else if gs = Turn then "转牌阶段"
  else if gs = River then "河牌阶段"
  else if gs = Showdown then "摊牌阶段"
  else if gs = GameEnd then "游戏结束"
  else "未知状态"

/-- Go `type GameEvent int`.  Signatures below write `Int` for it. -/
abbrev GameEvent := Int

def StartGame : Int := 0
def AllPlayersReady : Int := 1
def BettingComplete : Int := 2
def ShowCards : Int := 3
def DetermineWinner : Int := 4
def NextRound : Int := 5
def PlayerLeft : Int := 6
def GameReset : Int := 7

/-- Go `GameEvent.String`. -/
def GameEvent.String (ge : Int) : String :=
  if ge = StartGame then "开始游戏"
  else if ge = AllPlayersReady then "所有玩家准备完毕"
  else if ge = BettingComplete then "下注轮结束"
  else if ge = ShowCards then "摊牌"
  else if ge = DetermineWinner then "确定获胜者"
  else if ge = NextRound then "下一轮"
  else if ge = PlayerLeft then "玩家离开"
  else if ge = GameReset then "游戏重置"
  else "未知事件"

/-- Go `type StateTransition map[GameState]map[GameEvent]GameState`, as association
lists (the code only looks keys up). -/
abbrev StateTransition := List (Int × List (Int × Int))

/-- What a callback `func() error` does to the state machine that runs it.  The
fields of the machine are unexported and the callbacks are closures of another
package, so a callback reaches the machine only through its methods.  The callbacks
of this repository have one of two forms: `ret err` returns `err` (`none` for `nil`)
and does not call the machine; `fire event` returns what a further call of
`Transition(event)` returns, as `Room.showdown` does. -/
inductive Callback where
  | ret (err : Option String)
  | fire (event : Int)
deriving DecidableEq, Repr

/-- Go `type GameStateMachine struct`.  A callback `func() error` is held as what it
does to the machine (`Callback`); what else it does lies outside the state
machine. -/
structure GameStateMachine where
  currentState : Int
  transitions : List (Int × List (Int × Int))
  callbacks : List (Int × Callback)
deriving DecidableEq, Repr

/-- Go `createTransitions`. -/
def createTransitions : List (Int × List (Int × Int)) :=
  [ (WaitingForPlayers, [(StartGame, PreFlop), (GameReset, WaitingForPlayers)]),
    (PreFlop, [(BettingComplete, Flop), (PlayerLeft, GameEnd), (GameReset, WaitingForPlayers)]),
    (Flop, [(BettingComplete, Turn), (ShowCards, Showdown), (PlayerLeft, GameEnd),
      (GameReset, WaitingForPlayers)]),
    (Turn, [(BettingComplete, River), (ShowCards, Showdown), (PlayerLeft, GameEnd),
      (GameReset, WaitingForPlayers)]),
    (River, [(BettingComplete, Showdown), (ShowCards, Showdown), (PlayerLeft, GameEnd),
      (GameReset, WaitingForPlayers)]),
    (Showdown, [(DetermineWinner, GameEnd), (GameReset, WaitingForPlayers)]),
    (GameEnd, [(NextRound, WaitingForPlayers), (GameReset, WaitingForPlayers)]) ]

/-- Go `NewGameStateMachine`. -/
def NewGameStateMachine : GameStateMachine :=
  { currentState := WaitingForPlayers, transitions := createTransitions, callbacks := [] }

/-- Go `GameStateMachine.GetCurrentState`. -/
def GameStateMachine.GetCurrentState (fsm : GameStateMachine) : Int := fsm.currentState

/-- Go `GameStateMachine.CanTransition`. -/
def GameStateMachine.CanTransition (fsm : GameStateMachine) (event : Int) : Bool :=
  match fsm.transitions.lookup fsm.currentState with
  | some transitions => (transitions.lookup event).isSome
  | none => false

/-- Go `GameStateMachine.Transition`: the returned error (`none` for `nil`) and the
state machine after the call.  The expression `fsm.transitions[oldState][event]` is
the zero state when a key is missing.  A callback may call `Transition` again, and
the state in which that nested call leaves the machine is the state after the outer
call, unless the callback returns an error.  The first argument bounds the depth of
the nested calls; `none` is a call that does not return within that depth. -/
def GameStateMachine.transitionDepth :
    Nat → GameStateMachine → Int → Option (Option String × GameStateMachine)
  | 0, _, _ => none
  | depth + 1, fsm, event =>
    if !fsm.CanTransition event then
      some (some ("无法从状态 " ++ GameState.String fsm.currentState ++ " 通过事件 "
        ++ GameEvent.String event ++ " 进行转换"), fsm)
    else
      let oldState := fsm.currentState
      let fsm1 : GameStateMachine :=
        { fsm with currentState :=
            (((fsm.transitions.lookup oldState).getD []).lookup event).getD 0 }
      match fsm1.callbacks.lookup fsm1.currentState with
      | some (Callback.ret none) => some (none, fsm1)
      | some (Callback.ret (some err)) =>
        some (some ("状态转换回调失败: " ++ err), { fsm1 with currentState := oldState })
      | some (Callback.fire nested) =>
        match GameStateMachine.transitionDepth depth fsm1 nested with
        | none => none
        | some (some err, fsm2) =>
          some (some ("状态转换回调失败: " ++ err), { fsm2 with currentState := oldState })
        | some (none, fsm2) => some (none, fsm2)
      | none => some (none, fsm1)

/-- The call `fsm.Transition(event)` with nested calls to a depth of at most 8; the
callbacks that a room installs nest to a depth of 2. -/
def GameStateMachine.Transition (fsm : GameStateMachine) (event : Int) :
    Option (Option String × GameStateMachine) :=
  GameStateMachine.transitionDepth 8 fsm event

/-- The statement `m[key] = value` on a map held as an association list. -/
def mapSet {β : Type} (key : Int) (value : β) : List (Int × β) → List (Int × β)
  | [] => [(key, value)]
  | (k, v) :: rest => if k = key then (k, value) :: rest else (k, v) :: mapSet key value rest

/-- Go `GameStateMachine.SetStateCallback`. -/
def GameStateMachine.SetStateCallback (fsm : GameStateMachine) (state : Int)
    (callback : Callback) : GameStateMachine :=
  { fsm with callbacks := mapSet state callback fsm.callbacks }

/-- Go `GameStateMachine.Reset`. -/
def GameStateMachine.Reset (fsm : GameStateMachine) : GameStateMachine :=
  { fsm with currentState := WaitingForPlayers }

/-! ## game_state.go: the betting round -/

/-- Go `type PlayerAction int`.  Signatures below write `Int` for it. -/
abbrev PlayerAction := Int

def Fold : Int := 0
def Call : Int := 1
def Raise : Int := 2
def Check : Int := 3
def Bet : Int := 4
def AllIn : Int := 5

/-- Go `PlayerAction.String`. -/
def PlayerAction.String (pa : Int) : String :=
  if pa = Fold then "弃牌"
  else if pa = Call then "跟注"
  else if pa = Raise then "加注"
  else if pa = Check then "过牌"
  else if pa = Bet then "下注"
  else if pa = AllIn then "全押"
  else "未知操作"

/-- Go `type ActionResult struct`; a field left out of a literal has its zero
value. -/
structure ActionResult where
  Success : Bool
  Message : String
  NextEvent : Int
deriving DecidableEq, Repr

/-- Go `type BettingRound struct`.  `currentPlayer` is an index that starts at 0 and
is only decremented when positive, so it is a `Nat`; the two maps are association
lists (the code only looks keys up). -/
structure BettingRound where
  currentBet : Int
  players : List Int
  currentPlayer : Nat
  playerBets : List (Int × Int)
  playerActions : List (Int × Int)
  completed : Bool
deriving DecidableEq, Repr

/-- Go `NewBettingRound`. -/
def NewBettingRound (players : List Int) : BettingRound :=
  { currentBet := 0, players := players, currentPlayer := 0, playerBets := [],
    playerActions := [], completed := false }

/-- Go `BettingRound.GetCurrentPlayer`. -/
def BettingRound.GetCurrentPlayer (br : BettingRound) : Int :=
  if br.currentPlayer ≥ br.players.length then -1
  else br.players.getD br.currentPlayer (-1)

/-- Go `BettingRound.removePlayer`. -/
def BettingRound.removePlayer (br : BettingRound) (playerID : Int) : BettingRound :=
  let br1 : BettingRound :=
    match br.players.findIdx? (fun id => id == playerID) with
    | some i =>
      { br with
        players := br.players.take i ++ br.players.drop (i + 1),
        currentPlayer := if br.currentPlayer > i then br.currentPlayer - 1 else br.currentPlayer }
    | none => br
  if br1.currentPlayer ≥ br1.players.length then { br1 with currentPlayer := 0 } else br1

/-- Go `BettingRound.nextPlayer`; `none` is the division-by-zero panic on an empty
player list. -/
def BettingRound.nextPlayer (br : BettingRound) : Option BettingRound :=
  if br.players.length = 0 then none
  else some { br with currentPlayer := (br.currentPlayer + 1) % br.players.length }

/-- The loop of `isBettingComplete`: `none` when the loop returns `false`, else the
final value of `activePlayers`. -/
def bettingScan (br : BettingRound) : List Int → Nat → Option Nat
  | [], activePlayers => some activePlayers
  | playerID :: rest, activePlayers =>
    match br.playerActions.lookup playerID with
    | some action =>
      if action ≠ Fold then
        if (br.playerBets.lookup playerID).getD 0 ≠ br.currentBet then none
        else bettingScan br rest (activePlayers + 1)
      else bettingScan br rest activePlayers
    | none => bettingScan br rest activePlayers

/-- Go `BettingRound.isBettingComplete`. -/
def BettingRound.isBettingComplete (br : BettingRound) : Bool :=
  if br.players.length ≤ 1 then true
  else
    match bettingScan br br.players 0 with
    | some activePlayers => decide (activePlayers > 0)
    | none => false

/-- The end of `ProcessAction`, after the `switch`. -/
def BettingRound.finishAction (br : BettingRound) (playerID : Int) (action : Int) :
    ActionResult × BettingRound :=
  if br.isBettingComplete then
    ({ Success := true,
       Message := "玩家 " ++ toString playerID ++ " " ++ PlayerAction.String action
         ++ " 成功，下注轮结束",
       NextEvent := BettingComplete },
     { br with completed := true })
  else
    ({ Success := true,
       Message := "玩家 " ++ toString playerID ++ " " ++ PlayerAction.String action ++ " 成功",
       NextEvent := 0 },
     br)

/-- Go `BettingRound.ProcessAction`: the result and the round after the call; `none`
is a panic. -/
def BettingRound.ProcessAction (br : BettingRound) (playerID : Int) (action : Int)
    (amount : Int) : Option (ActionResult × BettingRound) :=
  if playerID ≠ br.GetCurrentPlayer then
    some ({ Success := false, Message := "不是您的操作轮次", NextEvent := 0 }, br)
  else if action = Fold then
    let br1 := br.removePlayer playerID
    let br2 : BettingRound := { br1 with playerActions := mapSet playerID Fold br1.playerActions }
    some (br2.finishAction playerID action)
  else if action = Call then
    let br1 : BettingRound :=
      { br with playerBets := mapSet playerID br.currentBet br.playerBets }
    let br2 : BettingRound := { br1 with playerActions := mapSet playerID Call br1.playerActions }
    br2.nextPlayer.map fun br3 => br3.finishAction playerID action
  else if action = Raise then
    if amount ≤ br.currentBet then
      some ({ Success := false, Message := "加注金额必须大于当前下注", NextEvent := 0 }, br)
    else
      let br1 : BettingRound := { br with currentBet := amount }
      let br2 : BettingRound := { br1 with playerBets := mapSet playerID amount br1.playerBets }
      let br3 : BettingRound :=
        { br2 with playerActions := mapSet playerID Raise br2.playerActions }
      br3.nextPlayer.map fun br4 => br4.finishAction playerID action
  else if action = Check then
    if br.currentBet > 0 then
      some ({ Success := false, Message := "已有人下注，无法过牌", NextEvent := 0 }, br)
    else
      let br1 : BettingRound := { br with playerActions := mapSet playerID Check br.playerActions }
      br1.nextPlayer.map fun br2 => br2.finishAction playerID action
  else if action = Bet then
    if br.currentBet > 0 then
      some ({ Success := false, Message := "已有人下注，请选择跟注或加注", NextEvent := 0 }, br)
    else
      let br1 : BettingRound := { br with currentBet := amount }
      let br2 : BettingRound := { br1 with playerBets := mapSet playerID amount br1.playerBets }
      let br3 : BettingRound := { br2 with playerActions := mapSet playerID Bet br2.playerActions }
      br3.nextPlayer.map fun br4 => br4.finishAction playerID action
  else if action = AllIn then
    let br1 : BettingRound := { br with currentBet := amount }
    let br2 : BettingRound := { br1 with playerBets := mapSet playerID amount br1.playerBets }
    let br3 : BettingRound := { br2 with playerActions := mapSet playerID AllIn br2.playerActions }
    br3.nextPlayer.map fun br4 => br4.finishAction playerID action
  else
    some ({ Success := false, Message := "无效的操作类型", NextEvent := 0 }, br)

/-- Go `BettingRound.IsCompleted`. -/
def BettingRound.IsCompleted (br : BettingRound) : Bool := br.completed

/-- Go `BettingRound.GetPlayerBets`. -/
def BettingRound.GetPlayerBets (br : BettingRound) : List (Int × Int) := br.playerBets

/-- Go `BettingRound.GetCurrentBet`. -/
def BettingRound.GetCurrentBet (br : BettingRound) : Int := br.currentBet

/-! ## The transition table of the specification -/

/-- Specification: the transition table of the hand state machine, `none` where the
table has no entry. -/
def specNext (s e : Int) : Option Int :=
  if e = GameReset ∧ WaitingForPlayers ≤ s ∧ s ≤ GameEnd then some WaitingForPlayers
  else if s = WaitingForPlayers ∧ e = StartGame then some PreFlop
  else if s = PreFlop ∧ e = BettingComplete then some Flop
  else if s = Flop ∧ e = BettingComplete then some Turn
  else if s = Turn ∧ e = BettingComplete then some River
  else if s = River ∧ e = BettingComplete then some Showdown
  else if (s = Flop ∨ s = Turn ∨ s = River) ∧ e = ShowCards then some Showdown
  else if (s = PreFlop ∨ s = Flop ∨ s = Turn ∨ s = River) ∧ e = PlayerLeft then some GameEnd
  else if s = Showdown ∧ e = DetermineWinner then some GameEnd
  else if s = GameEnd ∧ e = NextRound then some WaitingForPlayers
  else none

end Statemachine

namespace Rooms

/-! ## room.go: types -/

/-- Go `type RoomStatus string`.  Signatures below write `String` for it. -/
abbrev RoomStatus := String

def RoomWaiting : String := "waiting"
def RoomPlaying : String := "playing"
def RoomClosed : String := "closed"

/-- Go `type PlayerStatus string`.  Signatures below write `String` for it. -/
abbrev PlayerStatus := String

def PlayerActive : String := "active"
def PlayerFolded : String := "folded"
def PlayerAllIn : String := "allin"
def PlayerSitting : String := "sitting"
def PlayerWaiting : String := "waiting"

/-- Go `type Player struct`, without the time stamp `JoinTime`, which the code
writes once and never reads. -/
structure Player where
  ID : Int
  Username : String
  Chips : Int
  Position : Int
  Status : String
  Cards : List Poker.Card
  LastAction : Int
  BetAmount : Int
  IsDealer : Bool
  IsSmallBlind : Bool
  IsBigBlind : Bool
deriving DecidableEq, Repr

/-- Go `type GameSession struct`, without the identifier and the start time (both
built from the clock) and without the game log (text that is appended to and never
read). -/
structure GameSession where
  Participants : List Int
  WinnerID : Int
  WinAmount : Int
deriving DecidableEq, Repr

/-- Go `type Room struct`, without the time stamps and the mutex.

`Players` is the Go `map[int64]*Player`, held as the list of its values; every
value is stored under the key equal to its `ID` (the only insertion is the one of
`AddPlayer`).  Go leaves the order of `for ... range r.Players` unspecified and
takes a fresh one for every loop: the order of the list is the order in which the
loops of the call under study go through the map, and any permutation of the list
is the same Go room.

`StateMachine`, `BettingRound` and `Deck` are pointers; `none` is `nil`.  The
callbacks of the state machine are closures over the room: the field `callbacks`
of `StateMachine` records under which states one is installed and what it does to
the state machine, and `Room.callback` below is what the closure installed under a
state does to the room.

`DealerPosition` starts at 0 and is only ever set to 0 or to a remainder of a
division by a positive length, so it is a `Nat`. -/
structure Room where
  ID : Int
  Name : String
  ChipLevel : String
  MinChips : Int
  SmallBlind : Int
  BigBlind : Int
  MaxPlayers : Int
  IsPrivate : Bool
  Status : String
  Players : List Player
  CommunityCards : List Poker.Card
  Pot : Int
  CurrentGame : Option GameSession
  StateMachine : Statemachine.GameStateMachine
  BettingRound : Option Statemachine.BettingRound
  Deck : Option Poker.Deck
  DealerPosition : Nat
deriving DecidableEq, Repr

/-! ## room.go: private methods -/

/-- The map lookup `r.Players[id]`; `none` when the key is missing. -/
def Room.player (r : Room) (id : Int) : Option Player :=
  r.Players.find? fun p => p.ID == id

/-- A write through the pointer `r.Players[id]`. -/
def modifyPlayer (id : Int) (f : Player → Player) (players : List Player) : List Player :=
  players.map fun p => if p.ID = id then f p else p

/-- Go `Room.findAvailablePosition`. -/
def Room.findAvailablePosition (r : Room) : Int :=
  let occupied := r.Players.map fun p => p.Position
  match (List.range r.MaxPlayers.toNat).find? fun (i : Nat) => !occupied.contains (i : Int) with
  | some i => (i : Int)
  | none => -1

/-- Go `Room.getActivePlayerIDs`: the ids of the Sitting and Active seats in the
order in which this loop goes through the map, which is the order of the list. -/
def Room.getActivePlayerIDs (r : Room) : List Int :=
  (r.Players.filter fun p => p.Status == PlayerSitting || p.Status == PlayerActive).map
    fun p => p.ID

/-- Go `Room.resetRoomState`. -/
def Room.resetRoomState (r : Room) : Room :=
  { r with
    CommunityCards := [],
    Pot := 0,
    Players := r.Players.map fun p =>
      { p with Status := PlayerActive, Cards := [], LastAction := 0, BetAmount := 0,
               IsDealer := false, IsSmallBlind := false, IsBigBlind := false } }

/-- Go `Room.setupBlinds`; `none` is a panic (an index out of range). -/
def Room.setupBlinds (r : Room) : Option Room :=
  let playerIDs := r.getActivePlayerIDs
  if playerIDs.length < 2 then some r
  else
    let r1 : Room :=
      if r.DealerPosition ≥ playerIDs.length then { r with DealerPosition := 0 } else r
    match playerIDs[r1.DealerPosition]?,
        playerIDs[(r1.DealerPosition + 1) % playerIDs.length]?,
        playerIDs[(r1.DealerPosition + 2) % playerIDs.length]? with
    | some dealerID, some nextID, some secondID =>
      let smallBlindID := if playerIDs.length = 2 then dealerID else nextID
      let bigBlindID := if playerIDs.length = 2 then nextID else secondID
      let players1 := modifyPlayer dealerID (fun p => { p with IsDealer := true }) r1.Players
      let players2 := modifyPlayer smallBlindID (fun p => { p with IsSmallBlind := true }) players1
      let players3 :=
        modifyPlayer smallBlindID (fun p => { p with BetAmount := r1.SmallBlind }) players2
      let players4 := modifyPlayer bigBlindID (fun p => { p with IsBigBlind := true }) players3
      let players5 := modifyPlayer bigBlindID (fun p => { p with BetAmount := r1.BigBlind }) players4
      some { r1 with Players := players5, Pot := Poker.wrapInt (r1.SmallBlind + r1.BigBlind) }
    | _, _, _ => none

/-- The call `r.Deck.Deal()`: the card and the room after it; `none` is a panic (a
`nil` deck or an exhausted one). -/
def Room.deal (r : Room) : Option (Poker.Card × Room) :=
  match r.Deck with
  | none => none
  | some d =>
    match d.Deal with
    | (some card, d1) => some (card, { r with Deck := some d1 })
    | (none, _) => none

/-- The loop of `startPreFlop` over the seats: every Active seat gets the next two
cards of the deck. -/
def dealHoleCards : List Player → Option Poker.Deck → Option (List Player × Option Poker.Deck)
  | [], deck => some ([], deck)
  | p :: rest, deck =>
    if p.Status = PlayerActive then
      match deck with
      | none => none
      | some d =>
        match d.Deal with
        | (some c1, d1) =>
          match d1.Deal with
          | (some c2, d2) =>
            (dealHoleCards rest (some d2)).map fun x => ({ p with Cards := [c1, c2] } :: x.1, x.2)
          | (none, _) => none
        | (none, _) => none
    else (dealHoleCards rest deck).map fun x => (p :: x.1, x.2)

/-- Go `Room.startPreFlop`. -/
def Room.startPreFlop (r : Room) : Option Room :=
  (dealHoleCards r.Players r.Deck).map fun x =>
    let r1 : Room := { r with Players := x.1, Deck := x.2 }
    { r1 with BettingRound := some (Statemachine.NewBettingRound r1.getActivePlayerIDs) }

/-- A run of `k` statements `r.CommunityCards = append(r.CommunityCards, r.Deck.Deal())`. -/
def Room.dealCommunity : Nat → Room → Option Room
  | 0, r => some r
  | k + 1, r =>
    match r.deal with
    | some (card, r1) =>
      Room.dealCommunity k { r1 with CommunityCards := r1.CommunityCards ++ [card] }
    | none => none

/-- The common shape of `dealFlop`, `dealTurn` and `dealRiver`: burn one card, deal
`k` board cards, open a new betting round. -/
def Room.dealStreet (k : Nat) (r : Room) : Option Room :=
  match r.deal with
  | some (_, r1) =>
    (Room.dealCommunity k r1).map fun r2 =>
      { r2 with BettingRound := some (Statemachine.NewBettingRound r2.getActivePlayerIDs) }
  | none => none

/-- Go `Room.dealFlop`. -/
def Room.dealFlop (r : Room) : Option Room := Room.dealStreet 3 r

/-- Go `Room.dealTurn`. -/
def Room.dealTurn (r : Room) : Option Room := Room.dealStreet 1 r

/-- Go `Room.dealRiver`. -/
def Room.dealRiver (r : Room) : Option Room := Room.dealStreet 1 r

/-- The loop of `determineWinner` over `activePlayerIDs`, with state
`(bestHand, winnerID)`; `none` is a panic. -/
def determineWinnerLoop (r : Room) : List Int → Poker.Hand → Int → Option Int
  | [], _, winnerID => some winnerID
  | playerID :: rest, bestHand, winnerID =>
    match r.player playerID with
    | none => none
    | some player =>
      if player.Status ≠ PlayerFolded then
        let allCards := player.Cards ++ r.CommunityCards
        if allCards.length = 7 then
          match Poker.EvaluateHand allCards with
          | none => none
          | some hand =>
            if winnerID = -1 ∨ Poker.CompareHands hand bestHand > 0 then
              determineWinnerLoop r rest hand playerID
            else determineWinnerLoop r rest bestHand winnerID
        else determineWinnerLoop r rest bestHand winnerID
      else determineWinnerLoop r rest bestHand winnerID

/-- Go `Room.determineWinner`; `none` is a panic. -/
def Room.determineWinner (r : Room) : Option Int :=
  let activePlayerIDs := r.getActivePlayerIDs
  if activePlayerIDs.length = 0 then some (-1)
  else if activePlayerIDs.length = 1 then some (activePlayerIDs.getD 0 (-1))
  else determineWinnerLoop r activePlayerIDs { Cards := [], Typ := 0, Ranks := [] } (-1)

/-- Go `Room.endGame`; `none` is a panic (the remainder by `len(...) = 0` when no
seat is Sitting or Active). -/
def Room.endGame (r : Room) : Option Room :=
  match r.determineWinner with
  | none => none
  | some winnerID =>
    let paid : Option Room :=
      if winnerID ≠ -1 then
        match r.player winnerID with
        | none => none
        | some _ =>
          let players1 :=
            modifyPlayer winnerID (fun p => { p with Chips := Poker.wrapInt (p.Chips + r.Pot) })
              r.Players
          let game1 := r.CurrentGame.map fun g =>
            { g with WinnerID := winnerID, WinAmount := r.Pot }
          some { r with Players := players1, CurrentGame := game1 }
      else some r
    match paid with
    | none => none
    | some r1 =>
      if r1.getActivePlayerIDs.length = 0 then none
      else
        some { r1 with
          DealerPosition := (r1.DealerPosition + 1) % r1.getActivePlayerIDs.length,
          BettingRound := none,
          Status := RoomWaiting }

/-- Go `Room.setupStateMachineCallbacks`: a callback is installed under each of the
six states.  Five of them work on the room and return `nil` without calling the
state machine; the one of Showdown (`Room.showdown`) returns
`r.StateMachine.Transition(statemachine.DetermineWinner)`. -/
def Room.setupStateMachineCallbacks (r : Room) : Room :=
  let fsm1 := r.StateMachine.SetStateCallback Statemachine.PreFlop (.ret none)
  let fsm2 := fsm1.SetStateCallback Statemachine.Flop (.ret none)
  let fsm3 := fsm2.SetStateCallback Statemachine.Turn (.ret none)
  let fsm4 := fsm3.SetStateCallback Statemachine.River (.ret none)
  let fsm5 := fsm4.SetStateCallback Statemachine.Showdown
    (.fire Statemachine.DetermineWinner)
  let fsm6 := fsm5.SetStateCallback Statemachine.GameEnd (.ret none)
  { r with StateMachine := fsm6 }

/-- The closure that `setupStateMachineCallbacks` installs under `state`: the error
it returns (`none` for `nil`) and the room after it; the outer `none` is a panic.
`transition` is `r.StateMachine.Transition`, which the callback of Showdown
(`Room.showdown`) calls. -/
def Room.callback (transition : Room → Int → Option (Option String × Room)) (state : Int)
    (r : Room) : Option (Option String × Room) :=
  if state = Statemachine.PreFlop then r.startPreFlop.map fun r1 => (none, r1)
  else if state = Statemachine.Flop then r.dealFlop.map fun r1 => (none, r1)
  else if state = Statemachine.Turn then r.dealTurn.map fun r1 => (none, r1)
  else if state = Statemachine.River then r.dealRiver.map fun r1 => (none, r1)
  else if state = Statemachine.Showdown then transition r Statemachine.DetermineWinner
  else if state = Statemachine.GameEnd then r.endGame.map fun r1 => (none, r1)
  else some (none, r)

/-- Go `GameStateMachine.Transition` on the state machine of a room, with the
callbacks acting on the room.  The first argument bounds the depth to which
callbacks may call `Transition` again; `none` is a panic, or the bound reached. -/
def Room.transitionDepth : Nat → Room → Int → Option (Option String × Room)
  | 0, _, _ => none
  | depth + 1, r, event =>
    if !r.StateMachine.CanTransition event then
      some (some ("无法从状态 " ++ Statemachine.GameState.String r.StateMachine.currentState
        ++ " 通过事件 " ++ Statemachine.GameEvent.String event ++ " 进行转换"), r)
    else
      let oldState := r.StateMachine.currentState
      let r1 : Room :=
        { r with StateMachine :=
            { r.StateMachine with currentState :=
                (((r.StateMachine.transitions.lookup oldState).getD []).lookup event).getD 0 } }
      match r1.StateMachine.callbacks.lookup r1.StateMachine.currentState with
      | some _ =>
        match Room.callback (Room.transitionDepth depth) r1.StateMachine.currentState r1 with
        | none => none
        | some (some err, r2) =>
          some (some ("状态转换回调失败: " ++ err),
            { r2 with StateMachine := { r2.StateMachine with currentState := oldState } })
        | some (none, r2) => some (none, r2)
      | none => some (none, r1)

/-- The call `r.StateMachine.Transition(event)`.  With the table of
`createTransitions` the only callback that calls `Transition` again is the one of
Showdown, and the callback it reaches (the one of GameEnd) does not, so the depth
is at most 2. -/
def Room.Transition (r : Room) (event : Int) : Option (Option String × Room) :=
  Room.transitionDepth 8 r event

/-! ## room.go: public methods -/

/-- Go `NewRoom`. -/
def NewRoom (id : Int) (name chipLevel : String) (minChips smallBlind bigBlind maxPlayers : Int)
    (isPrivate : Bool) : Room :=
  let room : Room :=
    { ID := id, Name := name, ChipLevel := chipLevel, MinChips := minChips,
      SmallBlind := smallBlind, BigBlind := bigBlind, MaxPlayers := maxPlayers,
      IsPrivate := isPrivate, Status := RoomWaiting, Players := [], CommunityCards := [],
      Pot := 0, CurrentGame := none, StateMachine := Statemachine.NewGameStateMachine,
      BettingRound := none, Deck := none, DealerPosition := 0 }
  room.setupStateMachineCallbacks

/-- Go `Room.AddPlayer`: the returned error (`none` for `nil`) and the room after
the call. -/
def Room.AddPlayer (r : Room) (userID : Int) (username : String) (chips : Int) :
    Option String × Room :=
  if (r.Players.length : Int) ≥ r.MaxPlayers then (some "房间已满", r)
  else if (r.player userID).isSome then (some "玩家已在房间中", r)
  else if chips < r.MinChips then
    (some ("筹码不足，最低需要 " ++ toString r.MinChips), r)
  else
    let position := r.findAvailablePosition
    if position = -1 then (some "没有可用位置", r)
    else
      let player : Player :=
        { ID := userID, Username := username, Chips := chips, Position := position,
          Status := PlayerSitting, Cards := [], LastAction := 0, BetAmount := 0,
          IsDealer := false, IsSmallBlind := false, IsBigBlind := false }
      let r1 : Room := { r with Players := r.Players ++ [player] }
      if r1.Players.length ≥ 2 ∧ r1.Status = RoomWaiting then
        (none, { r1 with Status := RoomWaiting })
      else (none, r1)

/-- Go `Room.RemovePlayer`: the returned error and the room after the call; the
outer `none` is a panic.  The error of the `Transition` call is dropped, as in the
code. -/
def Room.RemovePlayer (r : Room) (userID : Int) : Option (Option String × Room) :=
  match r.player userID with
  | none => some (some "玩家不在房间中", r)
  | some player =>
    let left : Option Room :=
      if r.Status = RoomPlaying ∧ player.Status = PlayerActive then
        let players1 := modifyPlayer userID (fun p => { p with Status := PlayerFolded }) r.Players
        let r1 : Room := { r with Players := players1 }
        if r1.BettingRound.isSome then
          (r1.Transition Statemachine.PlayerLeft).map fun x => x.2
        else some r1
      else some r
    left.map fun r2 =>
      let r3 : Room := { r2 with Players := r2.Players.filter fun p => p.ID != userID }
      if r3.Players.length = 0 then
        (none, { r3 with Status := RoomWaiting, StateMachine := r3.StateMachine.Reset })
      else (none, r3)

/-- Go `Room.StartGame`, with the random source of `Shuffle` as a parameter: the
returned error and the room after the call; the outer `none` is a panic. -/
def Room.StartGame (intn : Nat → Nat) (r : Room) : Option (Option String × Room) :=
  if r.Players.length < 2 then some (some "至少需要2名玩家才能开始游戏", r)
  else if r.Status ≠ RoomWaiting then some (some "房间状态不允许开始游戏", r)
  else
    let game : GameSession :=
      { Participants := r.getActivePlayerIDs, WinnerID := 0, WinAmount := 0 }
    let r1 : Room := { r with CurrentGame := some game }
    match Poker.NewDeck.Shuffle intn with
    | none => none
    | some deck =>
      let r2 : Room := { r1 with Deck := some deck }
      match r2.resetRoomState.setupBlinds with
      | none => none
      | some r3 =>
        let r4 : Room := { r3 with Status := RoomPlaying }
        r4.Transition Statemachine.StartGame

/-- Go `Room.ProcessPlayerAction`: the returned result, the returned error and the
room after the call; the outer `none` is a panic.  The error of the `Transition`
call is dropped, as in the code. -/
def Room.ProcessPlayerAction (r : Room) (userID : Int) (action : Int) (amount : Int) :
    Option (Statemachine.ActionResult × Option String × Room) :=
  match r.player userID with
  | none => some ({ Success := false, Message := "", NextEvent := 0 }, some "玩家不在房间中", r)
  | some _ =>
    if r.Status ≠ RoomPlaying then
      some ({ Success := false, Message := "", NextEvent := 0 }, some "游戏未在进行中", r)
    else
      match r.BettingRound with
      | none =>
        some ({ Success := false, Message := "", NextEvent := 0 }, some "当前没有下注轮", r)
      | some br =>
        match br.ProcessAction userID action amount with
        | none => none
        | some (result, br1) =>
          let r1 : Room := { r with BettingRound := some br1 }
          if result.Success then
            let players1 := modifyPlayer userID (fun p =>
              { p with
                LastAction := action,
                BetAmount := amount,
                Status :=
                  if action = Statemachine.Fold then PlayerFolded
                  else if action = Statemachine.AllIn then PlayerAllIn
                  else p.Status }) r1.Players
            let r2 : Room := { r1 with Players := players1 }
            if result.NextEvent ≠ 0 then
              (r2.Transition result.NextEvent).map fun x => (result, none, x.2)
            else some (result, none, r2)
          else some (result, none, r1)

/-! ## Rooms before the first hand -/

/-- The rooms that `NewRoom` followed by calls of `AddPlayer` and `RemovePlayer`
produces. -/
inductive Reachable : Room → Prop
  | newRoom (id : Int) (name chipLevel : String)
      (minChips smallBlind bigBlind maxPlayers : Int) (isPrivate : Bool) :
      Reachable (NewRoom id name chipLevel minChips smallBlind bigBlind maxPlayers isPrivate)
  | addPlayer (r : Room) (userID : Int) (username : String) (chips : Int) :
      Reachable r → Reachable (r.AddPlayer userID username chips).2
  | removePlayer (r r1 : Room) (userID : Int) (err : Option String) :
      Reachable r → r.RemovePlayer userID = some (err, r1) → Reachable r1

/-- The seat that a successful `AddPlayer` creates. -/
def newSeat (userID : Int) (username : String) (chips position : Int) : Player :=
  { ID := userID, Username := username, Chips := chips, Position := position,
    Status := PlayerSitting, Cards := [], LastAction := 0, BetAmount := 0,
    IsDealer := false, IsSmallBlind := false, IsBigBlind := false }

/-! ## Settlement -/

/-- The hand that `determineWinner` evaluates for the seat of a user: the hole cards
followed by the board. -/
def seatHand (r : Room) (id : Int) : Option Poker.Hand :=
  match r.player id with
  | none => none
  | some p => Poker.EvaluateHand (p.Cards ++ r.CommunityCards)

/-! ## Sample tables -/

/-- A room with blinds 10/20, minimum buy-in 100 and six seats. -/
def sampleRoom : Room := NewRoom 1 "table" "low" 100 10 20 6 false

/-- The sample room after players 1 and 2 have sat down with 1000 chips each. -/
def headsUp : Room := ((sampleRoom.AddPlayer 1 "a" 1000).2.AddPlayer 2 "b" 1000).2

/-- The sample room after players 1, 2 and 3 have sat down with 1000 chips each. -/
def threeSeats : Room := (headsUp.AddPlayer 3 "c" 1000).2

/-- A random source under which `Shuffle` leaves the deck in the order of `NewDeck`:
`rand.Intn(i + 1)` returns `i`. -/
def noShuffle : Nat → Nat := fun n => n - 1

/-- A random source under which `Shuffle` only exchanges the first card of the deck
(2♠) with the thirteenth (A♠). -/
def aceFirst : Nat → Nat := fun n => if n = 13 then 0 else n - 1

/-- The room after `StartGame`, when it returns without a panic. -/
def started (intn : Nat → Nat) (r : Room) : Option Room :=
  (r.StartGame intn).map fun x => x.2

/-- The room after a further `ProcessPlayerAction`, when the calls so far return
without a panic. -/
def thenAct (o : Option Room) (userID action amount : Int) : Option Room :=
  o.bind fun r => (r.ProcessPlayerAction userID action amount).map fun x => x.2.2

/-- For every seat: its user, stack, recorded bet and status. -/
def Room.seats (r : Room) : List (Int × Int × Int × String) :=
  r.Players.map fun p => (p.ID, p.Chips, p.BetAmount, p.Status)

/-- Status of the room, state of the state machine, and pot. -/
def Room.phase (r : Room) : String × Int × Int :=
  (r.Status, r.StateMachine.currentState, r.Pot)

/-- The hand of the two-seat sample room after `StartGame` with the deck in the order
of `NewDeck` (the room itself should the call panic, which it does not). -/
def headsUpPreFlop : Room := (started noShuffle headsUp).getD headsUp

/-- The heads-up room before the flop, with the seat map walked in the other order:
seat 2 before seat 1.  The betting round is the one opened before, [1, 2]. -/
def headsUpRewalked : Room :=
  { headsUpPreFlop with Players := headsUpPreFlop.Players.reverse }

/-- The two-seat sample room after a hand in which player 1 checks on every street:
both seats reach the showdown. -/
def checkedDown : Option Room :=
  thenAct (thenAct (thenAct (thenAct (started noShuffle headsUp) 1 Statemachine.Check 0)
    1 Statemachine.Check 0) 1 Statemachine.Check 0) 1 Statemachine.Check 0

/-- The two-seat sample room after a hand in which player 1, holding A♠ 3♠, goes all
in before the flop and player 2 checks on the three later streets. -/
def allInFirst : Option Room :=
  thenAct (thenAct (thenAct (thenAct (started aceFirst headsUp) 1 Statemachine.AllIn 1000)
    2 Statemachine.Check 0) 2 Statemachine.Check 0) 2 Statemachine.Check 0

/-- The three-seat sample room in the Flop state: `StartGame`, then a Check of
player 1. -/
def threeSeatsFlop : Option Room :=
  thenAct (started noShuffle threeSeats) 1 Statemachine.Check 0

/-- The three-seat sample room after the middle seat, player 2, has left during the
flop. -/
def flopLeave : Option Room :=
  threeSeatsFlop.bind fun r => (r.RemovePlayer 2).map fun x => x.2

/-- A room about to be settled: seats 1 and 2 are Active and hold 2♠ 3♠ and 4♠ 5♠, the
board is 7♠ 8♠ 9♠ J♠ K♠, the pot is 30. -/
def tieRoom : Room :=
  { headsUp with
    Status := RoomPlaying,
    Pot := 30,
    CommunityCards :=
      [⟨Poker.Spades, Poker.Seven⟩, ⟨Poker.Spades, Poker.Eight⟩, ⟨Poker.Spades, Poker.Nine⟩,
       ⟨Poker.Spades, Poker.Jack⟩, ⟨Poker.Spades, Poker.King⟩],
    Players :=
      [{ newSeat 1 "a" 1000 0 with
           Status := PlayerActive, Cards := [⟨Poker.Spades, Poker.Two⟩, ⟨Poker.Spades, Poker.Three⟩] },
       { newSeat 2 "b" 1000 1 with
           Status := PlayerActive, Cards := [⟨Poker.Spades, Poker.Four⟩, ⟨Poker.Spades, Poker.Five⟩] }] }

/-- Go `Room.GetRoomInfo` builds a `map[string]interface{}`; this is the record of
its entries, without the time stamp `updated_at`. -/
structure RoomInfo where
  id : Int
  name : String
  status : String
  players : List Player
  community_cards : List Poker.Card
  pot : Int
  current_state : String
  dealer_position : Nat
  small_blind : Int
  big_blind : Int
deriving DecidableEq, Repr

/-- Go `Room.GetRoomInfo`. -/
def Room.GetRoomInfo (r : Room) : RoomInfo :=
  { id := r.ID,
    name := r.Name,
    status := r.Status,
    players := r.Players,
    community_cards := r.CommunityCards,
    pot := r.Pot,
    current_state := Statemachine.GameState.String r.StateMachine.GetCurrentState,
    dealer_position := r.DealerPosition,
    small_blind := r.SmallBlind,
    big_blind := r.BigBlind }

/-- The room `r` with the hole cards of the seat of user `id` replaced by `cards`. -/
def withHoleCards (r : Room) (id : Int) (cards : List Poker.Card) : Room :=
  { r with Players := modifyPlayer id (fun p => { p with Cards := cards }) r.Players }

/-- The two-seat sample room on the flop, after player 1 has gone all in before the
flop. -/
def allInFlop : Option Room :=
  thenAct (started noShuffle headsUp) 1 Statemachine.AllIn 1000

/-- The room with which `endGame` is entered when player 2 leaves `allInFlop`:
`RemovePlayer` has marked the seat of player 2 as folded. -/
def allInFlopLeft : Option Room :=
  allInFlop.map fun r =>
    { r with Players := modifyPlayer 2 (fun p => { p with Status := PlayerFolded }) r.Players }

/-- The sample room after players 1, 2, 3 and 4 have sat down with 1000 chips each. -/
def fourSeats : Room := (threeSeats.AddPlayer 4 "d" 1000).2

/-! ## Rooms in play -/

/-- The rooms that calls of the public methods produce from a room before its first
hand.  The number is the count of seats at the last `StartGame` that returned without
an error (0 before the first one): the seats that the running hand dealt to.  The
random source of `StartGame` returns, as `rand.Intn(k)` does, a number below `k`. -/
inductive Played : Nat → Room → Prop
  | fresh (r : Room) : Reachable r → Played 0 r
  | startGame (n : Nat) (r r1 : Room) (intn : Nat → Nat) :
      Played n r → (∀ k, 0 < k → intn k < k) → r.StartGame intn = some (none, r1) →
      Played r.Players.length r1
  | startGameError (n : Nat) (r r1 : Room) (intn : Nat → Nat) (msg : String) :
      Played n r → (∀ k, 0 < k → intn k < k) → r.StartGame intn = some (some msg, r1) →
      Played n r1
  | addPlayer (n : Nat) (r : Room) (userID : Int) (username : String) (chips : Int) :
      Played n r → Played n (r.AddPlayer userID username chips).2
  | removePlayer (n : Nat) (r r1 : Room) (userID : Int) (err : Option String) :
      Played n r → r.RemovePlayer userID = some (err, r1) → Played n r1
  | action (n : Nat) (r r1 : Room) (userID action amount : Int)
      (res : Statemachine.ActionResult) (err : Option String) :
      Played n r → r.ProcessPlayerAction userID action amount = some (res, err, r1) →
      Played n r1

/-- The deck and the board of a hand that dealt to `n` seats: outside the four
streets nothing is said; in a street the room is Playing, the deck holds 52 cards,
the cursor of the deck is that of the street, and the board holds the cards of the
deck after the burn card of each street so far. -/
def HandInvariant (n : Nat) (r : Room) : Prop :=
  r.StateMachine.transitions = Statemachine.createTransitions ∧
  r.StateMachine.callbacks = sampleRoom.StateMachine.callbacks ∧
  (r.StateMachine.currentState = Statemachine.WaitingForPlayers ∨
    r.StateMachine.currentState = Statemachine.GameEnd ∨
    (r.Status = RoomPlaying ∧ ∃ d, r.Deck = some d ∧ d.cards.length = 52 ∧
      ((r.StateMachine.currentState = Statemachine.PreFlop ∧ d.index = 2 * n ∧
          r.CommunityCards.length = 0 ∧ r.CommunityCards = []) ∨
        (r.StateMachine.currentState = Statemachine.Flop ∧ d.index = 2 * n + 4 ∧
          r.CommunityCards.length = 3 ∧
          r.CommunityCards = (d.cards.drop (2 * n + 1)).take 3) ∨
        (r.StateMachine.currentState = Statemachine.Turn ∧ d.index = 2 * n + 6 ∧
          r.CommunityCards.length = 4 ∧
          r.CommunityCards = (d.cards.drop (2 * n + 1)).take 3
            ++ (d.cards.drop (2 * n + 5)).take 1) ∨
        (r.StateMachine.currentState = Statemachine.River ∧ d.index = 2 * n + 8 ∧
          r.CommunityCards.length = 5 ∧
          r.CommunityCards = (d.cards.drop (2 * n + 1)).take 3
            ++ (d.cards.drop (2 * n + 5)).take 1 ++ (d.cards.drop (2 * n + 7)).take 1))))

/-- The two-seat sample room after `StartGame` and three checks of player 1, one on
each of PreFlop, Flop and Turn, when the calls return without a panic. -/
def headsUpRiverRun : Option Room :=
  thenAct (thenAct (thenAct (started noShuffle headsUp) 1 Statemachine.Check 0)
    1 Statemachine.Check 0) 1 Statemachine.Check 0

/-- The room of `headsUpRiverRun`: the two-seat sample room on the river. -/
def headsUpRiver : Room := headsUpRiverRun.getD headsUp

end Rooms

namespace Websocket

/-! ## manager.go: the hub -/

/-- Go `type Client struct`.  The hub holds clients by pointer: `addr` is the address
of the client, so two clients are the same exactly when their addresses are.  The
connection, the send channel and the back pointer to the hub are left out. -/
structure Client where
  addr : Nat
  ID : String
  UserID : Int
deriving DecidableEq, Repr

/-- Go `type Hub struct`, the two maps: `clients` is the key set of
`map[*Client]bool` (every value stored is `true`), `userClients` is
`map[int64]*Client` as an association list.  The channels and the mutex are left
out; one step of the loop of `run` is one of the functions below. -/
structure Hub where
  clients : List Client
  userClients : List (Int × Client)
deriving DecidableEq, Repr

/-- The hub that `NewManager` creates. -/
def NewHub : Hub := { clients := [], userClients := [] }

/-- The statement `delete(m, key)` on a map held as an association list. -/
def mapDelete {β : Type} (key : Int) (m : List (Int × β)) : List (Int × β) :=
  m.filter fun kv => kv.1 != key

/-- The case `client := <-h.register` of `Hub.run`. -/
def Hub.register (h : Hub) (client : Client) : Hub :=
  { clients := if client ∈ h.clients then h.clients else h.clients ++ [client],
    userClients := Statemachine.mapSet client.UserID client h.userClients }

/-- The case `client := <-h.unregister` of `Hub.run`. -/
def Hub.unregister (h : Hub) (client : Client) : Hub :=
  if client ∈ h.clients then
    { clients := h.clients.filter fun c => c != client,
      userClients := mapDelete client.UserID h.userClients }
  else h

/-- The loop `for client := range h.clients` of the broadcast case.  `full client`
tells whether the send queue of the client is full, in which case the `default`
branch runs. -/
def broadcastLoop (full : Client → Bool) : List Client → Hub → Hub
  | [], h => h
  | client :: rest, h =>
    if full client then
      broadcastLoop full rest
        { clients := h.clients.filter fun c => c != client,
          userClients := mapDelete client.UserID h.userClients }
    else broadcastLoop full rest h

/-- The case `message := <-h.broadcast` of `Hub.run`. -/
def Hub.broadcast (full : Client → Bool) (h : Hub) : Hub :=
  broadcastLoop full h.clients h

/-- The states of the hub that the loop of `run` reaches from the hub of
`NewManager`. -/
inductive HubReachable : Hub → Prop
  | newHub : HubReachable NewHub
  | register (h : Hub) (client : Client) : HubReachable h → HubReachable (h.register client)
  | unregister (h : Hub) (client : Client) : HubReachable h → HubReachable (h.unregister client)
  | broadcast (h : Hub) (full : Client → Bool) : HubReachable h → HubReachable (h.broadcast full)

end Websocket

/-! # Theorems -/

namespace Poker

/-! ## Termination without panic -/

theorem writeRanks_isSome (cards : List Card) :
    ∀ (i : Nat) (ranks : List Int), i + cards.length ≤ ranks.length →
      (writeRanks cards i ranks).isSome = true := by
  induction cards with
  | nil => intro i ranks _; simp [writeRanks]
  | cons c rest ih =>
    intro i ranks h
    simp only [List.length_cons] at h
    have hi : i < ranks.length := by omega
    simp only [writeRanks, hi, if_true]
    apply ih
    simp only [List.length_set]
    omega

theorem sortInsert_length (x : Card) (pre : List Card) :
    (Cards.sortInsert x pre).length = pre.length + 1 := by
  induction pre with
  | nil => simp [Cards.sortInsert]
  | cons p ps ih =>
    simp only [Cards.sortInsert]
    split <;> simp [ih]

theorem sortFold_length (c pre : List Card) :
    (c.foldl (fun pre x => Cards.sortInsert x pre) pre).length = pre.length + c.length := by
  induction c generalizing pre with
  | nil => simp
  | cons x rest ih =>
    simp only [List.foldl_cons, ih, sortInsert_length, List.length_cons]
    omega

theorem Sort_length (c : Cards) : (Cards.Sort c).length = c.length := by
  simp [Cards.Sort, sortFold_length]

theorem checkFlush_isSome (cards : Cards) (h : cards.length ≤ 5) :
    (checkFlush cards).isSome = true := by
  unfold checkFlush
  split
  · have := writeRanks_isSome cards 0 (List.replicate 5 0) (by simpa using h)
    simpa using this
  · rfl

theorem checkStraightFlush_isSome (cards : Cards) (h : cards.length ≤ 5) :
    (checkStraightFlush cards).isSome = true := by
  unfold checkStraightFlush
  rw [Option.isSome_map']
  exact checkFlush_isSome cards h

theorem checkRoyalFlush_isSome (cards : Cards) (h : cards.length ≤ 5) :
    (checkRoyalFlush cards).isSome = true := by
  unfold checkRoyalFlush
  rw [Option.isSome_map']
  exact checkStraightFlush_isSome cards h

theorem evaluateFiveCards_isSome (cards : List Card) (h : cards.length ≤ 5) :
    (evaluateFiveCards cards).isSome = true := by
  have hs : (Cards.Sort (Cards.Clone cards)).length ≤ 5 := by
    rw [Sort_length]; exact h
  obtain ⟨f, hf⟩ := Option.isSome_iff_exists.mp (checkFlush_isSome _ hs)
  obtain ⟨sf, hsf⟩ := Option.isSome_iff_exists.mp (checkStraightFlush_isSome _ hs)
  obtain ⟨rf, hrf⟩ := Option.isSome_iff_exists.mp (checkRoyalFlush_isSome _ hs)
  unfold evaluateFiveCards evaluateSortedCards
  simp only [hf, hsf, hrf, Option.some_bind, apply_ite Option.isSome, Option.isSome_some, ite_self]

theorem backtrackLoop_length (k : Nat) (rest : List Card) :
    ∀ (combination x : List Card), x ∈ backtrackLoop k rest combination → x.length = k := by
  induction rest with
  | nil => intro combination x hx; simp [backtrackLoop] at hx
  | cons c rest ih =>
    intro combination x hx
    simp only [backtrackLoop, List.mem_append] at hx
    rcases hx with hx | hx
    · by_cases hk : (combination ++ [c]).length = k
      · rw [if_pos hk] at hx
        rw [List.mem_singleton] at hx
        rw [hx]; exact hk
      · rw [if_neg hk] at hx
        exact ih _ _ hx
    · exact ih _ _ hx

theorem generateCombinations_length (cards : List Card) (k : Nat) (x : List Card)
    (hx : x ∈ generateCombinations cards k) : x.length = k := by
  unfold generateCombinations at hx
  by_cases hk : ([] : List Card).length = k
  · rw [if_pos hk] at hx
    rw [List.mem_singleton] at hx
    rw [hx]; exact hk
  · rw [if_neg hk] at hx
    exact backtrackLoop_length k cards [] x hx

theorem mem_backtrackLoop (k : Nat) {s rest : List Card} (hs : List.Sublist s rest) :
    ∀ combination : List Card, s ≠ [] → (combination ++ s).length = k →
      combination ++ s ∈ backtrackLoop k rest combination := by
  induction hs with
  | slnil => intro _ h; exact absurd rfl h
  | cons a _ ih =>
    intro combination hne hlen
    simp only [backtrackLoop, List.mem_append]
    exact Or.inr (ih combination hne hlen)
  | @cons₂ s' rest' a hsub ih =>
    intro combination _ hlen
    simp only [backtrackLoop, List.mem_append]
    left
    by_cases hs' : s' = []
    · subst hs'
      rw [if_pos hlen]
      exact List.mem_singleton.mpr rfl
    · have hlen' : ((combination ++ [a]) ++ s').length = k := by
        simpa using hlen
      have hk : ¬ (combination ++ [a]).length = k := by
        have : 0 < s'.length := List.length_pos.mpr hs'
        simp only [List.length_append, List.length_singleton] at hlen' ⊢
        omega
      rw [if_neg hk]
      have := ih (combination ++ [a]) hs' hlen'
      simpa using this

theorem mem_generateCombinations {s cards : List Card} (hs : List.Sublist s cards) :
    s ∈ generateCombinations cards s.length := by
  unfold generateCombinations
  by_cases hk : s = []
  · subst hk; simp
  · have : ¬ ([] : List Card).length = s.length := by
      have := List.length_pos.mpr hk
      simp only [List.length_nil]; omega
    rw [if_neg this]
    have := mem_backtrackLoop s.length hs [] hk (by simp)
    simpa using this

theorem sublist_of_mem_backtrackLoop (k : Nat) (rest : List Card) :
    ∀ (combination x : List Card), x ∈ backtrackLoop k rest combination →
      ∃ s, List.Sublist s rest ∧ x = combination ++ s := by
  induction rest with
  | nil => intro combination x hx; simp [backtrackLoop] at hx
  | cons c rest ih =>
    intro combination x hx
    simp only [backtrackLoop, List.mem_append] at hx
    rcases hx with hx | hx
    · by_cases hk : (combination ++ [c]).length = k
      · rw [if_pos hk, List.mem_singleton] at hx
        exact ⟨[c], by simp, hx⟩
      · rw [if_neg hk] at hx
        obtain ⟨s, hs, hxs⟩ := ih _ _ hx
        exact ⟨c :: s, hs.cons₂ c, by simpa using hxs⟩
    · obtain ⟨s, hs, hxs⟩ := ih _ _ hx
      exact ⟨s, hs.cons c, hxs⟩

theorem sublist_of_mem_generateCombinations (cards : List Card) (k : Nat) (x : List Card)
    (hx : x ∈ generateCombinations cards k) : List.Sublist x cards := by
  unfold generateCombinations at hx
  by_cases hk : ([] : List Card).length = k
  · rw [if_pos hk, List.mem_singleton] at hx
    rw [hx]; exact List.nil_sublist _
  · rw [if_neg hk] at hx
    obtain ⟨s, hs, hxs⟩ := sublist_of_mem_backtrackLoop k cards [] x hx
    rw [hxs]; simpa using hs

/-- The selection loop returns a hand and never lowers the running best value: the
result is either the initial hand (nothing scored above the initial value) or the
evaluation of a combination that scores above the initial value and at least as
high as every other combination. -/
theorem evaluateLoop_spec (combos : List (List Card))
    (hsome : ∀ c ∈ combos, (evaluateFiveCards c).isSome = true) :
    ∀ (best : Hand) (bv : Int), ∃ h, evaluateLoop combos best bv = some h ∧
      ((h = best ∧ ∀ c ∈ combos, ∀ h0, evaluateFiveCards c = some h0 → getHandValue h0 ≤ bv) ∨
       (∃ c ∈ combos, evaluateFiveCards c = some h ∧ bv < getHandValue h ∧
          ∀ c0 ∈ combos, ∀ h0, evaluateFiveCards c0 = some h0 →
            getHandValue h0 ≤ getHandValue h)) := by
  induction combos with
  | nil => intro best bv; exact ⟨best, rfl, Or.inl ⟨rfl, by simp⟩⟩
  | cons c rest ih =>
    intro best bv
    obtain ⟨hc, hhc⟩ := Option.isSome_iff_exists.mp (hsome c (List.mem_cons_self _ _))
    have hrest : ∀ c0 ∈ rest, (evaluateFiveCards c0).isSome = true :=
      fun c0 h0 => hsome c0 (List.mem_cons_of_mem _ h0)
    simp only [evaluateLoop, hhc]
    by_cases hgt : getHandValue hc > bv
    · rw [if_pos hgt]
      obtain ⟨h, hres, hcase⟩ := ih hrest hc (getHandValue hc)
      refine ⟨h, hres, Or.inr ?_⟩
      rcases hcase with ⟨heq, hall⟩ | ⟨c1, hc1, he1, hlt, hall⟩
      · subst heq
        refine ⟨c, List.mem_cons_self _ _, hhc, hgt, ?_⟩
        intro c0 hc0 h0 he0
        rcases List.mem_cons.mp hc0 with rfl | hc0
        · rw [hhc] at he0; cases he0; exact le_refl _
        · exact hall c0 hc0 h0 he0
      · refine ⟨c1, List.mem_cons_of_mem _ hc1, he1, by omega, ?_⟩
        intro c0 hc0 h0 he0
        rcases List.mem_cons.mp hc0 with rfl | hc0
        · rw [hhc] at he0; cases he0; omega
        · exact hall c0 hc0 h0 he0
    · rw [if_neg hgt]
      obtain ⟨h, hres, hcase⟩ := ih hrest best bv
      refine ⟨h, hres, ?_⟩
      rcases hcase with ⟨heq, hall⟩ | ⟨c1, hc1, he1, hlt, hall⟩
      · left
        refine ⟨heq, ?_⟩
        intro c0 hc0 h0 he0
        rcases List.mem_cons.mp hc0 with rfl | hc0
        · rw [hhc] at he0; cases he0; omega
        · exact hall c0 hc0 h0 he0
      · right
        refine ⟨c1, List.mem_cons_of_mem _ hc1, he1, hlt, ?_⟩
        intro c0 hc0 h0 he0
        rcases List.mem_cons.mp hc0 with rfl | hc0
        · rw [hhc] at he0; cases he0; omega
        · exact hall c0 hc0 h0 he0

theorem EvaluateHand_spec (cards : List Card) (hlen : cards.length = 7) :
    ∃ h, EvaluateHand cards = some h ∧
      ((h = { Cards := [], Typ := 0, Ranks := [] } ∧
          ∀ c ∈ generateCombinations cards 5, ∀ h0, evaluateFiveCards c = some h0 →
            getHandValue h0 ≤ -1) ∨
       (∃ c ∈ generateCombinations cards 5, evaluateFiveCards c = some h ∧
          -1 < getHandValue h ∧
          ∀ c0 ∈ generateCombinations cards 5, ∀ h0, evaluateFiveCards c0 = some h0 →
            getHandValue h0 ≤ getHandValue h)) := by
  unfold EvaluateHand
  rw [if_neg (by simp [hlen])]
  apply evaluateLoop_spec
  intro c hc
  exact evaluateFiveCards_isSome c (le_of_eq (generateCombinations_length cards 5 c hc))

/-! ## Hand value and comparison (claims C1 to C4, C9) -/

/-- C1 (the code at the failing input). On 2♠ 2♥ A♠ K♥ Q♦ J♣ 9♠ `EvaluateHand`
returns the HighCard hand A K Q J 9, although the combination 2♠ 2♥ A♠ K♥ Q♦, one of
the 21 it enumerates, evaluates to OnePair, which is above every HighCard in the
order of the specification. -/
theorem EvaluateHand_returns_high_card_over_pair :
    (EvaluateHand [⟨Spades, Two⟩, ⟨Hearts, Two⟩, ⟨Spades, Ace⟩, ⟨Hearts, King⟩,
        ⟨Diamonds, Queen⟩, ⟨Clubs, Jack⟩, ⟨Spades, Nine⟩]).map (fun h => (h.Typ, h.Ranks))
      = some (HighCard, [Ace, King, Queen, Jack, Nine]) ∧
    [⟨Spades, Two⟩, ⟨Hearts, Two⟩, ⟨Spades, Ace⟩, ⟨Hearts, King⟩, ⟨Diamonds, Queen⟩]
      ∈ generateCombinations [⟨Spades, Two⟩, ⟨Hearts, Two⟩, ⟨Spades, Ace⟩, ⟨Hearts, King⟩,
        ⟨Diamonds, Queen⟩, ⟨Clubs, Jack⟩, ⟨Spades, Nine⟩] 5 ∧
    (evaluateFiveCards [⟨Spades, Two⟩, ⟨Hearts, Two⟩, ⟨Spades, Ace⟩, ⟨Hearts, King⟩,
        ⟨Diamonds, Queen⟩]).map (fun h => (h.Typ, h.Ranks))
      = some (OnePair, [Two, Ace, King, Queen]) ∧
    handRankLt { Cards := [], Typ := HighCard, Ranks := [Ace, King, Queen, Jack, Nine] }
      { Cards := [], Typ := OnePair, Ranks := [Two, Ace, King, Queen] } = true := by
  decide

/-- C2 (the code at the failing input). The OnePair hand 2♠ 2♥ 5♠ 4♣ 3♦ has the
higher category, yet `CompareHands` ranks it below the HighCard hand
A♠ K♥ Q♦ J♣ 9♠: the values are 1658332 and 2904996. -/
theorem CompareHands_pair_below_high_card :
    ∃ a b, evaluateFiveCards [⟨Spades, Two⟩, ⟨Hearts, Two⟩, ⟨Diamonds, Three⟩,
        ⟨Clubs, Four⟩, ⟨Spades, Five⟩] = some a ∧
      evaluateFiveCards [⟨Spades, Ace⟩, ⟨Hearts, King⟩, ⟨Diamonds, Queen⟩,
        ⟨Clubs, Jack⟩, ⟨Spades, Nine⟩] = some b ∧
      a.Typ = OnePair ∧ b.Typ = HighCard ∧
      getHandValue a = 1658332 ∧ getHandValue b = 2904996 ∧
      CompareHands a b = -1 ∧ CompareHands b a = 1 :=
  ⟨_, _, rfl, rfl, by decide, by decide, by decide, by decide, by decide, by decide⟩

/-- C3 (the code at the failing input). Both hands are OnePair; the tiebreak lists
[3, 6, 5, 4] and [2, 14, 13, 12] differ at their first position, where the first
hand is higher, yet `CompareHands` returns -1: the kickers outweigh the pair. -/
theorem CompareHands_kickers_outweigh_pair :
    ∃ a b, evaluateFiveCards [⟨Spades, Three⟩, ⟨Hearts, Three⟩, ⟨Diamonds, Six⟩,
        ⟨Clubs, Five⟩, ⟨Spades, Four⟩] = some a ∧
      evaluateFiveCards [⟨Spades, Two⟩, ⟨Hearts, Two⟩, ⟨Diamonds, Ace⟩,
        ⟨Clubs, King⟩, ⟨Spades, Queen⟩] = some b ∧
      a.Typ = OnePair ∧ b.Typ = OnePair ∧
      a.Ranks = [Three, Six, Five, Four] ∧ b.Ranks = [Two, Ace, King, Queen] ∧
      getHandValue a = 1866665 ∧ getHandValue b = 2633329 ∧
      CompareHands a b = -1 :=
  ⟨_, _, rfl, rfl, by decide, by decide, by decide, by decide, by decide, by decide,
    by decide⟩

/-- C4 (the code at the failing input). The HighCard hands 9♠ 5♥ 4♦ 3♣ 2♠ and
8♥ 7♦ 4♣ 3♠ 2♥ share no card and have different tiebreak lists, yet both have the
value 1398332 and `CompareHands` returns 0. -/
theorem CompareHands_zero_on_different_ranks :
    ∃ a b, evaluateFiveCards [⟨Spades, Nine⟩, ⟨Hearts, Five⟩, ⟨Diamonds, Four⟩,
        ⟨Clubs, Three⟩, ⟨Spades, Two⟩] = some a ∧
      evaluateFiveCards [⟨Hearts, Eight⟩, ⟨Diamonds, Seven⟩, ⟨Clubs, Four⟩,
        ⟨Spades, Three⟩, ⟨Hearts, Two⟩] = some b ∧
      a.Typ = HighCard ∧ b.Typ = HighCard ∧
      a.Ranks = [Nine, Five, Four, Three, Two] ∧ b.Ranks = [Eight, Seven, Four, Three, Two] ∧
      getHandValue a = 1398332 ∧ getHandValue b = 1398332 ∧
      CompareHands a b = 0 ∧ a.Ranks ≠ b.Ranks :=
  ⟨_, _, rfl, rfl, by decide, by decide, by decide, by decide, by decide, by decide,
    by decide, by decide⟩

/-- C9. `CompareHands` takes its values in {-1, 0, 1} and is antisymmetric on all
hands, and on every seven-card input `EvaluateHand` returns a hand that compares
equal to itself. -/
theorem CompareHands_antisymmetric (h1 h2 : Hand) (x : List Card) (hx : x.length = 7) :
    (CompareHands h1 h2 = -1 ∨ CompareHands h1 h2 = 0 ∨ CompareHands h1 h2 = 1) ∧
    CompareHands h1 h2 = -CompareHands h2 h1 ∧
    ∃ h, EvaluateHand x = some h ∧ CompareHands h h = 0 := by
  refine ⟨?_, ?_, ?_⟩
  · unfold CompareHands
    simp only []
    by_cases h : getHandValue h1 > getHandValue h2
    · simp [h]
    · by_cases h' : getHandValue h1 < getHandValue h2
      · simp [h, h']
      · simp [h, h']
  · unfold CompareHands
    simp only []
    rcases lt_trichotomy (getHandValue h1) (getHandValue h2) with h | h | h
    · have h' : ¬ getHandValue h1 > getHandValue h2 := by omega
      simp [h, h']
    · simp [h]
    · have h' : ¬ getHandValue h1 < getHandValue h2 := by omega
      simp [h, h']
  · obtain ⟨h, hres, _⟩ := EvaluateHand_spec x hx
    exact ⟨h, hres, by simp [CompareHands]⟩

theorem CompareHands_antisymmetric_witness :
    (CompareHands { Cards := [], Typ := OnePair, Ranks := [Two, Ace, King, Queen] }
        { Cards := [], Typ := HighCard, Ranks := [Ace, King, Queen, Jack, Nine] } = -1 ∨
      CompareHands { Cards := [], Typ := OnePair, Ranks := [Two, Ace, King, Queen] }
        { Cards := [], Typ := HighCard, Ranks := [Ace, King, Queen, Jack, Nine] } = 0 ∨
      CompareHands { Cards := [], Typ := OnePair, Ranks := [Two, Ace, King, Queen] }
        { Cards := [], Typ := HighCard, Ranks := [Ace, King, Queen, Jack, Nine] } = 1) ∧
    CompareHands { Cards := [], Typ := OnePair, Ranks := [Two, Ace, King, Queen] }
        { Cards := [], Typ := HighCard, Ranks := [Ace, King, Queen, Jack, Nine] } =
      -CompareHands { Cards := [], Typ := HighCard, Ranks := [Ace, King, Queen, Jack, Nine] }
        { Cards := [], Typ := OnePair, Ranks := [Two, Ace, King, Queen] } ∧
    ∃ h, EvaluateHand [⟨Spades, Ace⟩, ⟨Hearts, Two⟩, ⟨Diamonds, Three⟩, ⟨Clubs, Four⟩,
        ⟨Spades, Five⟩, ⟨Clubs, King⟩, ⟨Diamonds, Queen⟩] = some h ∧ CompareHands h h = 0 :=
  CompareHands_antisymmetric _ _ _ (by decide)

/-! ## Card strings (claim C10) -/

/-- C10 (counterexample). `Card.String` writes the Ace of Spades as "A♠", four bytes
long, and `ParseCard` rejects it. -/
theorem ParseCard_String_ace_of_spades :
    Card.String (NewCard Ace Spades) = "A♠" ∧
    ParseCard (Card.String (NewCard Ace Spades)) = .error "invalid card string: A♠" ∧
    ParseCard (Card.String (NewCard Ace Spades)) ≠ .ok (NewCard Ace Spades) := by
  decide

/-- C10 (amended). For each of the 52 cards, `ParseCard` returns the card from its
rank character followed by its suit letter, and returns the invalid-card-string
error on the output of `Card.String`. -/
theorem ParseCard_rank_char_suit_letter (c : Card) (hc : c.valid) :
    ParseCard (Rank.String c.Rank ++ suitLetter c.Suit) = .ok c ∧
    ParseCard (Card.String c) = .error ("invalid card string: " ++ Card.String c) := by
  obtain ⟨s, r⟩ := c
  obtain ⟨h1, h2, h3, h4⟩ := hc
  simp only at h1 h2 h3 h4
  interval_cases r <;> interval_cases s <;> decide

theorem ParseCard_rank_char_suit_letter_witness :
    ParseCard (Rank.String (NewCard Ten Hearts).Rank ++ suitLetter (NewCard Ten Hearts).Suit)
      = .ok (NewCard Ten Hearts) ∧
    ParseCard (Card.String (NewCard Ten Hearts))
      = .error ("invalid card string: " ++ Card.String (NewCard Ten Hearts)) :=
  ParseCard_rank_char_suit_letter (NewCard Ten Hearts) (by decide)

/-! ## Parsing card strings (claim C11) -/

theorem parseRankByte_table_bool : ∀ b ∈ rankBytes,
    (match parseRankByte b with
      | some r => decide (2 ≤ r ∧ r ≤ 14 ∧ stringBytes (Rank.String r) = [b])
      | none => false) = true := by
  decide

theorem parseRankByte_table (b : Nat) (h : b ∈ rankBytes) :
    match parseRankByte b with
    | some r => 2 ≤ r ∧ r ≤ 14 ∧ stringBytes (Rank.String r) = [b]
    | none => False := by
  have := parseRankByte_table_bool b h
  cases hp : parseRankByte b with
  | none => rw [hp] at this; simp at this
  | some r => rw [hp] at this; simpa using this

theorem parseRankByte_none (b : Nat) (h : b ∉ rankBytes) : parseRankByte b = none := by
  have hlist : rankBytes = [50, 51, 52, 53, 54, 55, 56, 57, 84, 74, 81, 75, 65] := by decide
  rw [hlist] at h
  simp only [List.mem_cons, List.mem_singleton, List.not_mem_nil, or_false, not_or] at h
  obtain ⟨h1, h2, h3, h4, h5, h6, h7, h8, h9, h10, h11, h12, h13⟩ := h
  have e1 : '2'.toNat = 50 := by decide
  have e2 : '3'.toNat = 51 := by decide
  have e3 : '4'.toNat = 52 := by decide
  have e4 : '5'.toNat = 53 := by decide
  have e5 : '6'.toNat = 54 := by decide
  have e6 : '7'.toNat = 55 := by decide
  have e7 : '8'.toNat = 56 := by decide
  have e8 : '9'.toNat = 57 := by decide
  have e9 : 'T'.toNat = 84 := by decide
  have e10 : 'J'.toNat = 74 := by decide
  have e11 : 'Q'.toNat = 81 := by decide
  have e12 : 'K'.toNat = 75 := by decide
  have e13 : 'A'.toNat = 65 := by decide
  unfold parseRankByte
  rw [e1, e2, e3, e4, e5, e6, e7, e8, e9, e10, e11, e12, e13]
  rw [if_neg h1, if_neg h2, if_neg h3, if_neg h4, if_neg h5, if_neg h6, if_neg h7, if_neg h8,
    if_neg h9, if_neg h10, if_neg h11, if_neg h12, if_neg h13]

theorem parseSuitByte_table_bool : ∀ b ∈ suitBytes,
    (match parseSuitByte b with
      | some u => decide (0 ≤ u ∧ u ≤ 3 ∧ stringBytes (suitLetter u) = [b])
      | none => false) = true := by
  decide

theorem parseSuitByte_table (b : Nat) (h : b ∈ suitBytes) :
    match parseSuitByte b with
    | some u => 0 ≤ u ∧ u ≤ 3 ∧ stringBytes (suitLetter u) = [b]
    | none => False := by
  have := parseSuitByte_table_bool b h
  cases hp : parseSuitByte b with
  | none => rw [hp] at this; simp at this
  | some u => rw [hp] at this; simpa using this

theorem parseSuitByte_none (b : Nat) (h : b ∉ suitBytes) : parseSuitByte b = none := by
  have hlist : suitBytes = [83, 72, 68, 67] := by decide
  rw [hlist] at h
  simp only [List.mem_cons, List.mem_singleton, List.not_mem_nil, or_false, not_or] at h
  obtain ⟨h1, h2, h3, h4⟩ := h
  have e1 : 'S'.toNat = 83 := by decide
  have e2 : 'H'.toNat = 72 := by decide
  have e3 : 'D'.toNat = 68 := by decide
  have e4 : 'C'.toNat = 67 := by decide
  unfold parseSuitByte
  rw [e1, e2, e3, e4, if_neg h1, if_neg h2, if_neg h3, if_neg h4]

theorem bytes_of_size_two (s : String) (h : s.toUTF8.size = 2) :
    stringBytes s = [(s.toUTF8.get! 0).toNat, (s.toUTF8.get! 1).toNat] := by
  unfold stringBytes
  generalize s.toUTF8 = ba at h ⊢
  obtain ⟨⟨l⟩⟩ := ba
  match l, h with
  | [x, y], _ => rfl

/-- C11. `ParseCard` succeeds exactly on the strings of two bytes, a rank character
followed by a suit letter; the card it returns is one of the 52 cards, with the rank
and the suit that the two bytes name, so two strings that parse to the same card
have the same bytes; every one of the 52 cards is parsed from its string, "AS" is the
Ace of Spades, and a string that does not parse gets an error. -/
theorem ParseCard_succeeds_iff (s s2 : String) :
    ((∃ c, ParseCard s = .ok c) ↔
      (s.toUTF8.size = 2 ∧ (s.toUTF8.get! 0).toNat ∈ rankBytes ∧
        (s.toUTF8.get! 1).toNat ∈ suitBytes)) ∧
    (∀ c, ParseCard s = .ok c →
      c.valid ∧ stringBytes (Rank.String c.Rank) = [(s.toUTF8.get! 0).toNat] ∧
      stringBytes (suitLetter c.Suit) = [(s.toUTF8.get! 1).toNat] ∧
      (ParseCard s2 = .ok c → stringBytes s2 = stringBytes s)) ∧
    (∀ c : Card, c.valid → ParseCard (Rank.String c.Rank ++ suitLetter c.Suit) = .ok c) ∧
    ParseCard "AS" = .ok (NewCard Ace Spades) ∧
    ((¬ ∃ c, ParseCard s = .ok c) → ∃ msg, ParseCard s = .error msg) := by
  have hok : ∀ (t : String) (c : Card), ParseCard t = .ok c →
      t.toUTF8.size = 2 ∧ (t.toUTF8.get! 0).toNat ∈ rankBytes ∧
      (t.toUTF8.get! 1).toNat ∈ suitBytes ∧ c.valid ∧
      stringBytes (Rank.String c.Rank) = [(t.toUTF8.get! 0).toNat] ∧
      stringBytes (suitLetter c.Suit) = [(t.toUTF8.get! 1).toNat] := by
    intro t c h
    unfold ParseCard at h
    simp only [] at h
    by_cases hsize : t.toUTF8.size ≠ 2
    · rw [if_pos hsize] at h; cases h
    · rw [if_neg hsize] at h
      have hsize2 : t.toUTF8.size = 2 := not_not.mp hsize
      by_cases hr : (t.toUTF8.get! 0).toNat ∈ rankBytes
      · have hrt := parseRankByte_table _ hr
        cases hrank : parseRankByte (t.toUTF8.get! 0).toNat with
        | none => rw [hrank] at hrt; exact absurd hrt id
        | some r =>
          rw [hrank] at hrt h
          simp only [] at hrt h
          by_cases hu : (t.toUTF8.get! 1).toNat ∈ suitBytes
          · have hut := parseSuitByte_table _ hu
            cases hsuit : parseSuitByte (t.toUTF8.get! 1).toNat with
            | none => rw [hsuit] at hut; exact absurd hut id
            | some u =>
              rw [hsuit] at hut h
              simp only [Except.ok.injEq] at hut h
              subst h
              exact ⟨hsize2, hr, hu, ⟨hrt.1, hrt.2.1, hut.1, hut.2.1⟩, hrt.2.2, hut.2.2⟩
          · rw [parseSuitByte_none _ hu] at h
            cases h
      · rw [parseRankByte_none _ hr] at h
        cases h
  refine ⟨⟨?_, ?_⟩, ?_, ?_, by decide, ?_⟩
  · rintro ⟨c, hc⟩
    obtain ⟨h1, h2, h3, _⟩ := hok s c hc
    exact ⟨h1, h2, h3⟩
  · rintro ⟨hsize, hr, hu⟩
    have hrt := parseRankByte_table _ hr
    have hut := parseSuitByte_table _ hu
    unfold ParseCard
    simp only []
    rw [if_neg (by simp [hsize])]
    cases hrank : parseRankByte (s.toUTF8.get! 0).toNat with
    | none => rw [hrank] at hrt; exact absurd hrt id
    | some r =>
      cases hsuit : parseSuitByte (s.toUTF8.get! 1).toNat with
      | none => rw [hsuit] at hut; exact absurd hut id
      | some u => exact ⟨NewCard r u, rfl⟩
  · intro c hc
    obtain ⟨h1, _, _, h4, h5, h6⟩ := hok s c hc
    refine ⟨h4, h5, h6, ?_⟩
    intro hc2
    obtain ⟨g1, _, _, _, g5, g6⟩ := hok s2 c hc2
    rw [bytes_of_size_two s h1, bytes_of_size_two s2 g1]
    rw [h5] at g5
    rw [h6] at g6
    simp only [List.cons.injEq, and_true] at g5 g6
    rw [g5, g6]
  · intro c hc
    obtain ⟨u, r⟩ := c
    obtain ⟨h1, h2, h3, h4⟩ := hc
    simp only at h1 h2 h3 h4
    interval_cases r <;> interval_cases u <;> decide
  · intro hno
    cases h : ParseCard s with
    | error msg => exact ⟨msg, rfl⟩
    | ok c => exact absurd ⟨c, h⟩ hno

theorem ParseCard_succeeds_iff_witness : ∃ c, ParseCard "7H" = .ok c :=
  (ParseCard_succeeds_iff "7H" "7H").1.mpr (by decide)

/-! ## The deck (claims C12, C13) -/

theorem swapCards_perm (cards : List Card) (i j : Nat) (hi : i < cards.length)
    (hj : j < cards.length) :
    ∃ cards1, swapCards cards i j = some cards1 ∧ List.Perm cards1 cards ∧
      cards1.length = cards.length := by
  refine ⟨(cards.set i cards[j]).set j cards[i], ?_, ?_, by simp⟩
  · unfold swapCards
    rw [List.getElem?_eq_getElem hi, List.getElem?_eq_getElem hj]
  · rw [List.perm_iff_count]
    intro c
    have hj1 : j < (cards.set i cards[j]).length := by simpa using hj
    rw [List.count_set _ _ _ _ hj1, List.count_set _ _ _ _ hi]
    by_cases hij : i = j
    · subst hij
      simp only [List.getElem_set_self]
      have := List.count_pos_iff.mpr (List.getElem_mem hi)
      by_cases hc : cards[i] = c
      · subst hc; simp
      · simp [hc]
    · have hget : (cards.set i cards[j])[j] = cards[j] := by
        rw [List.getElem_set_ne hij]
      rw [hget]
      by_cases hci : cards[i] = c <;> by_cases hcj : cards[j] = c
      · simp only [hci, hcj, beq_self_eq_true, if_true]
        have := List.count_pos_iff.mpr (hci ▸ List.getElem_mem hi)
        omega
      · have h1 := List.count_pos_iff.mpr (hci ▸ List.getElem_mem hi)
        simp only [hci, beq_self_eq_true, if_true, beq_iff_eq, hcj, if_false]
        omega
      · have h1 := List.count_pos_iff.mpr (hcj ▸ List.getElem_mem hj)
        simp only [hcj, beq_self_eq_true, if_true, beq_iff_eq, hci, if_false]
        omega
      · simp only [beq_iff_eq, hci, hcj, if_false]
        omega

theorem shuffleLoop_perm (intn : Nat → Nat) (hintn : ∀ n, 0 < n → intn n < n) (i : Nat) :
    ∀ cards : List Card, i < cards.length →
      ∃ cards1, shuffleLoop intn i cards = some cards1 ∧ List.Perm cards1 cards := by
  induction i with
  | zero => intro cards _; exact ⟨cards, rfl, List.Perm.refl _⟩
  | succ i ih =>
    intro cards hlt
    have hj : intn (i + 2) < cards.length := by
      have := hintn (i + 2) (by omega)
      omega
    obtain ⟨c1, hswap, hperm, hlen⟩ := swapCards_perm cards (i + 1) (intn (i + 2)) hlt hj
    obtain ⟨c2, hloop, hperm2⟩ := ih c1 (by omega)
    refine ⟨c2, ?_, hperm2.trans hperm⟩
    simp only [shuffleLoop, hswap, hloop]

theorem Shuffle_perm (intn : Nat → Nat) (hintn : ∀ n, 0 < n → intn n < n) (d : Deck)
    (hne : d.cards ≠ []) :
    ∃ d1, d.Shuffle intn = some d1 ∧ d1.index = 0 ∧ List.Perm d1.cards d.cards := by
  have hpos : 0 < d.cards.length := List.length_pos.mpr hne
  obtain ⟨c1, hloop, hperm⟩ :=
    shuffleLoop_perm intn hintn (d.cards.length - 1) d.cards (by omega)
  exact ⟨{ cards := c1, index := 0 }, by simp [Deck.Shuffle, hloop], rfl, hperm⟩

theorem dealMany_eq (k : Nat) :
    ∀ d : Deck, d.index + k ≤ d.cards.length →
      dealMany k d =
        some ((d.cards.drop d.index).take k, { d with index := d.index + k }) := by
  induction k with
  | zero => intro d _; simp [dealMany]
  | succ k ih =>
    intro d h
    have hlt : d.index < d.cards.length := by omega
    have hdeal : d.Deal = (some d.cards[d.index], { d with index := d.index + 1 }) := by
      unfold Deck.Deal
      rw [if_neg (by omega), List.getElem?_eq_getElem hlt]
    have hrest := ih { d with index := d.index + 1 } (by simp only []; omega)
    simp only [dealMany, hdeal, hrest]
    rw [List.drop_eq_getElem_cons hlt, List.take_succ_cons]
    simp only [Option.some.injEq, Prod.mk.injEq, true_and]
    congr 1
    omega

theorem NewDeck_valid (c : Card) : c ∈ NewDeck.cards ↔ c.valid := by
  constructor
  · revert c
    decide
  · intro h
    obtain ⟨s, r⟩ := c
    obtain ⟨h1, h2, h3, h4⟩ := h
    simp only at h1 h2 h3 h4
    interval_cases r <;> interval_cases s <;> decide

/-- C12. `NewDeck` holds the 52 cards of the deck, each once; after a shuffle with
any random choices and `k ≤ 52` deals, every deal has returned a card and the dealt
cards followed by the undealt ones are a permutation of the 52 cards. -/
theorem deck_is_permutation (intn : Nat → Nat) (hintn : ∀ n, 0 < n → intn n < n)
    (k : Nat) (hk : k ≤ 52) :
    NewDeck.cards.length = 52 ∧ NewDeck.cards.Nodup ∧ (∀ c, c ∈ NewDeck.cards ↔ c.valid) ∧
    ∃ d dealt d1, NewDeck.Shuffle intn = some d ∧ dealMany k d = some (dealt, d1) ∧
      dealt.length = k ∧ (d1.cards.drop d1.index).length = 52 - k ∧
      List.Perm (dealt ++ d1.cards.drop d1.index) NewDeck.cards := by
  have hlen : NewDeck.cards.length = 52 := by decide
  refine ⟨hlen, by decide, NewDeck_valid, ?_⟩
  obtain ⟨d, hshuffle, hidx, hperm⟩ := Shuffle_perm intn hintn NewDeck (by decide)
  have hdlen : d.cards.length = 52 := by rw [hperm.length_eq, hlen]
  have hdeal := dealMany_eq k d (by omega)
  refine ⟨d, _, _, hshuffle, hdeal, ?_, ?_, ?_⟩
  · simp only [List.length_take, List.length_drop]; omega
  · simp only [List.length_drop]; omega
  · simp only [hidx, List.drop_zero, zero_add]
    rw [List.take_append_drop]
    exact hperm

theorem deck_is_permutation_witness :
    NewDeck.cards.length = 52 ∧ NewDeck.cards.Nodup ∧ (∀ c, c ∈ NewDeck.cards ↔ c.valid) ∧
    ∃ d dealt d1, NewDeck.Shuffle (fun _ => 0) = some d ∧ dealMany 9 d = some (dealt, d1) ∧
      dealt.length = 9 ∧ (d1.cards.drop d1.index).length = 52 - 9 ∧
      List.Perm (dealt ++ d1.cards.drop d1.index) NewDeck.cards :=
  deck_is_permutation (fun _ => 0) (fun _ h => h) 9 (by decide)

/-- C13. On a deck of 52 cards `Deal` returns a card exactly when the cursor is
below 52; it then returns the card at the cursor, the one `PeekNext` reports, and
moves the cursor one up, so `Remaining` drops by one; with the cursor at 52 it
fails and leaves the deck as it was.  `Shuffle` puts the cursor back to 0. -/
theorem Deal_succeeds_iff (d : Deck) (hlen : d.cards.length = 52) :
    (d.CanDeal = true ↔ d.index < 52) ∧
    (d.Deal.1.isSome = true ↔ d.index < 52) ∧
    (d.index < 52 →
      d.Deal.1 = d.cards[d.index]? ∧ d.Deal.1 = d.PeekNext ∧
      d.Deal.2 = { d with index := d.index + 1 } ∧ d.Deal.2.Remaining = d.Remaining - 1) ∧
    (52 ≤ d.index → d.Deal = (none, d)) ∧
    (∀ intn d1, d.Shuffle intn = some d1 → d1.index = 0) := by
  refine ⟨?_, ?_, ?_, ?_, ?_⟩
  · simp [Deck.CanDeal, hlen]
  · unfold Deck.Deal
    by_cases h : d.index < 52
    · rw [if_neg (by omega)]
      simp only [h, iff_true]
      rw [List.getElem?_eq_getElem (by omega)]
      rfl
    · rw [if_pos (by omega)]
      simp [h]
  · intro h
    unfold Deck.Deal Deck.PeekNext Deck.Remaining
    rw [if_neg (by omega), if_neg (by omega)]
    refine ⟨rfl, rfl, rfl, ?_⟩
    simp only [Nat.cast_add, Nat.cast_one]
    omega
  · intro h
    unfold Deck.Deal
    rw [if_pos (by omega)]
  · intro intn d1 h
    unfold Deck.Shuffle at h
    cases hs : shuffleLoop intn (d.cards.length - 1) d.cards with
    | none => rw [hs] at h; simp at h
    | some c =>
      rw [hs] at h
      simp only [Option.map_some', Option.some.injEq] at h
      rw [← h]

theorem Deal_succeeds_iff_witness :
    (NewDeck.CanDeal = true ↔ NewDeck.index < 52) ∧
    (NewDeck.Deal.1.isSome = true ↔ NewDeck.index < 52) ∧
    (NewDeck.index < 52 →
      NewDeck.Deal.1 = NewDeck.cards[NewDeck.index]? ∧ NewDeck.Deal.1 = NewDeck.PeekNext ∧
      NewDeck.Deal.2 = { NewDeck with index := NewDeck.index + 1 } ∧
      NewDeck.Deal.2.Remaining = NewDeck.Remaining - 1) ∧
    (52 ≤ NewDeck.index → NewDeck.Deal = (none, NewDeck)) ∧
    (∀ intn d1, NewDeck.Shuffle intn = some d1 → d1.index = 0) :=
  Deal_succeeds_iff NewDeck (by decide)

/-! ## The best five of seven cards (claim C38) -/

theorem mapIncr_keys (key : Int) (l : List (Int × Nat)) (e : Int × Nat)
    (h : e ∈ mapIncr key l) : e.1 = key ∨ ∃ e0 ∈ l, e0.1 = e.1 := by
  induction l with
  | nil =>
    simp only [mapIncr, List.mem_singleton] at h
    left; rw [h]
  | cons a rest ih =>
    obtain ⟨k, v⟩ := a
    simp only [mapIncr] at h
    split at h
    · rcases List.mem_cons.mp h with h | h
      · right; exact ⟨(k, v), List.mem_cons_self _ _, by rw [h]⟩
      · right; exact ⟨e, List.mem_cons_of_mem _ h, rfl⟩
    · rcases List.mem_cons.mp h with h | h
      · right; exact ⟨(k, v), List.mem_cons_self _ _, by rw [h]⟩
      · rcases ih h with h1 | ⟨e0, he0, h1⟩
        · left; exact h1
        · right; exact ⟨e0, List.mem_cons_of_mem _ he0, h1⟩

theorem mapIncr_length (key : Int) (l : List (Int × Nat)) :
    (mapIncr key l).length ≤ l.length + 1 := by
  induction l with
  | nil => simp [mapIncr]
  | cons a rest ih =>
    obtain ⟨k, v⟩ := a
    simp only [mapIncr]
    split
    · simp
    · simp only [List.length_cons]; omega

theorem countFold_keys (keys : List Int) : ∀ (counts : List (Int × Nat)) (e : Int × Nat),
    e ∈ keys.foldl (fun counts key => mapIncr key counts) counts →
      e.1 ∈ keys ∨ ∃ e0 ∈ counts, e0.1 = e.1 := by
  induction keys with
  | nil => intro counts e h; exact Or.inr ⟨e, h, rfl⟩
  | cons key rest ih =>
    intro counts e h
    rw [List.foldl_cons] at h
    rcases ih _ e h with h1 | ⟨e0, he0, h1⟩
    · exact Or.inl (List.mem_cons_of_mem _ h1)
    · rcases mapIncr_keys key counts e0 he0 with h2 | ⟨e1, he1, h2⟩
      · left; rw [← h1, h2]; exact List.mem_cons_self _ _
      · right; exact ⟨e1, he1, by rw [h2, h1]⟩

theorem countFold_length (keys : List Int) : ∀ (counts : List (Int × Nat)),
    (keys.foldl (fun counts key => mapIncr key counts) counts).length
      ≤ counts.length + keys.length := by
  induction keys with
  | nil => intro counts; simp
  | cons key rest ih =>
    intro counts
    rw [List.foldl_cons]
    have h1 := ih (mapIncr key counts)
    have h2 := mapIncr_length key counts
    simp only [List.length_cons]
    omega

theorem getRankCounts_keys (cards : Cards) (e : Int × Nat) (h : e ∈ getRankCounts cards) :
    ∃ c ∈ cards, c.Rank = e.1 := by
  unfold getRankCounts at h
  rcases countFold_keys _ [] e h with h1 | ⟨e0, he0, _⟩
  · obtain ⟨c, hc, hr⟩ := List.mem_map.mp h1
    exact ⟨c, hc, hr⟩
  · exact absurd he0 (List.not_mem_nil _)

theorem getRankCounts_length (cards : Cards) : (getRankCounts cards).length ≤ cards.length := by
  unfold getRankCounts
  have h := countFold_length (cards.map fun card => card.Rank) []
  simp only [List.length_nil, List.length_map, Nat.zero_add] at h
  exact h

theorem mem_sortRanksDesc (ranks : List Int) (x : Int) :
    x ∈ sortRanksDesc ranks ↔ x ∈ ranks :=
  (List.perm_insertionSort _ ranks).mem_iff

theorem sortRanksDesc_length (ranks : List Int) :
    (sortRanksDesc ranks).length = ranks.length :=
  (List.perm_insertionSort _ ranks).length_eq

theorem removeDuplicateFold_mem (ranks : List Int) : ∀ (st : List Int × List Int) (x : Int),
    x ∈ (ranks.foldl
      (fun (st : List Int × List Int) rank =>
        if st.1.contains rank then st else (rank :: st.1, st.2 ++ [rank])) st).2 →
      x ∈ st.2 ∨ x ∈ ranks := by
  induction ranks with
  | nil => intro st x h; exact Or.inl h
  | cons r rest ih =>
    intro st x h
    rw [List.foldl_cons] at h
    rcases ih _ x h with h1 | h1
    · split at h1
      · exact Or.inl h1
      · rcases List.mem_append.mp h1 with h2 | h2
        · exact Or.inl h2
        · rw [List.mem_singleton] at h2
          right; rw [h2]; exact List.mem_cons_self _ _
    · exact Or.inr (List.mem_cons_of_mem _ h1)

theorem mem_removeDuplicateRanks (ranks : List Int) (x : Int)
    (h : x ∈ removeDuplicateRanks ranks) : x ∈ ranks := by
  rcases removeDuplicateFold_mem ranks ([], []) x h with h1 | h1
  · exact absurd h1 (List.not_mem_nil _)
  · exact h1

theorem straightWindow_mem : ∀ (l : List Int) (top : Int), straightWindow l = some top →
    top ∈ l := by
  intro l
  induction l with
  | nil => intro top h; simp [straightWindow] at h
  | cons r rest ih =>
    intro top h
    rw [straightWindow] at h
    split at h
    · exact absurd h (by simp)
    · split at h
      · rw [Option.some.injEq] at h
        rw [← h]; exact List.mem_cons_self _ _
      · exact List.mem_cons_of_mem _ (ih top h)

theorem writeRanks_mem (cards : List Card) : ∀ (i : Nat) (ranks out : List Int),
    writeRanks cards i ranks = some out →
      out.length = ranks.length ∧ ∀ x ∈ out, x ∈ ranks ∨ ∃ c ∈ cards, c.Rank = x := by
  induction cards with
  | nil =>
    intro i ranks out h
    rw [writeRanks, Option.some.injEq] at h
    rw [← h]
    exact ⟨rfl, fun x hx => Or.inl hx⟩
  | cons c rest ih =>
    intro i ranks out h
    rw [writeRanks] at h
    split at h
    · obtain ⟨hlen, hmem⟩ := ih _ _ out h
      refine ⟨by rw [hlen, List.length_set], ?_⟩
      intro x hx
      rcases hmem x hx with h1 | ⟨c0, hc0, h1⟩
      · rcases List.mem_or_eq_of_mem_set h1 with h2 | h2
        · exact Or.inl h2
        · exact Or.inr ⟨c, List.mem_cons_self _ _, h2.symm⟩
      · exact Or.inr ⟨c0, List.mem_cons_of_mem _ hc0, h1⟩
    · exact absurd h (by simp)

theorem key_bounds (cards : Cards) (hv : ∀ c ∈ cards, 0 ≤ c.Rank ∧ c.Rank ≤ 14)
    (e : Int × Nat) (h : e ∈ getRankCounts cards) : 0 ≤ e.1 ∧ e.1 ≤ 14 := by
  obtain ⟨c, hc, hr⟩ := getRankCounts_keys cards e h
  rw [← hr]
  exact hv c hc

theorem checkStraight_bounded (cards : Cards) (hv : ∀ c ∈ cards, 0 ≤ c.Rank ∧ c.Rank ≤ 14) :
    (checkStraight cards).Typ = -1 ∨ (checkStraight cards).bounded := by
  unfold checkStraight
  simp only
  cases hw : straightWindow (sortRanksDesc (removeDuplicateRanks (cards.map fun card => card.Rank)))
    with
  | some top =>
    right
    refine ⟨(by decide : (0 : Int) ≤ Straight), (by decide : Straight ≤ (9 : Int)), by simp, ?_⟩
    intro r hr
    simp only [List.mem_singleton] at hr
    have h1 := straightWindow_mem _ top hw
    rw [mem_sortRanksDesc] at h1
    obtain ⟨c, hc, hrank⟩ := List.mem_map.mp (mem_removeDuplicateRanks _ _ h1)
    rw [hr, ← hrank]
    exact hv c hc
  | none =>
    simp only
    split
    · right
      refine ⟨(by decide : (0 : Int) ≤ Straight), (by decide : Straight ≤ (9 : Int)), by simp, ?_⟩
      intro r hr
      simp only [List.mem_singleton] at hr
      rw [hr]
      decide
    · left; rfl

theorem checkFlush_bounded (cards : Cards) (hv : ∀ c ∈ cards, 0 ≤ c.Rank ∧ c.Rank ≤ 14)
    (h : Hand) (hh : checkFlush cards = some h) : h.Typ = -1 ∨ h.bounded := by
  unfold checkFlush at hh
  split at hh
  · obtain ⟨ranks, hw, hr⟩ := Option.map_eq_some'.mp hh
    obtain ⟨hlen, hmem⟩ := writeRanks_mem cards 0 _ ranks hw
    right
    rw [← hr]
    refine ⟨(by decide : (0 : Int) ≤ Flush), (by decide : Flush ≤ (9 : Int)), ?_, ?_⟩
    · show (sortRanksDesc ranks).length ≤ 6
      rw [sortRanksDesc_length, hlen]
      simp
    · intro r hr1
      have hr2 : r ∈ ranks := (mem_sortRanksDesc ranks r).mp hr1
      rcases hmem r hr2 with h1 | ⟨c, hc, h1⟩
      · rw [List.eq_of_mem_replicate h1]
        decide
      · rw [← h1]; exact hv c hc
  · rw [Option.some.injEq] at hh
    left; rw [← hh]; rfl

theorem checkStraightFlush_bounded (cards : Cards)
    (hv : ∀ c ∈ cards, 0 ≤ c.Rank ∧ c.Rank ≤ 14)
    (h : Hand) (hh : checkStraightFlush cards = some h) : h.Typ = -1 ∨ h.bounded := by
  unfold checkStraightFlush at hh
  obtain ⟨f, _, hr⟩ := Option.map_eq_some'.mp hh
  rw [← hr]
  split
  · simp only
    split
    · rename_i hs
      right
      rcases checkStraight_bounded cards hv with h1 | h1
      · rw [h1] at hs; exact absurd hs (by decide)
      · exact ⟨(by decide : (0 : Int) ≤ StraightFlush), (by decide : StraightFlush ≤ (9 : Int)), h1.2.2.1, h1.2.2.2⟩
    · left; rfl
  · left; rfl

theorem checkRoyalFlush_bounded (cards : Cards)
    (h : Hand) (hh : checkRoyalFlush cards = some h) : h.Typ = -1 ∨ h.bounded := by
  unfold checkRoyalFlush at hh
  obtain ⟨f, _, hr⟩ := Option.map_eq_some'.mp hh
  rw [← hr]
  split
  · split
    · right
      refine ⟨(by decide : (0 : Int) ≤ RoyalFlush), (by decide : RoyalFlush ≤ (9 : Int)), by simp, ?_⟩
      intro r hr1
      simp only [List.mem_singleton] at hr1
      rw [hr1]
      decide
    · left; rfl
  · left; rfl

theorem checkFourOfAKind_bounded (cards : Cards)
    (hv : ∀ c ∈ cards, 0 ≤ c.Rank ∧ c.Rank ≤ 14) :
    (checkFourOfAKind cards).Typ = -1 ∨ (checkFourOfAKind cards).bounded := by
  unfold checkFourOfAKind
  simp only
  cases hf : (getRankCounts cards).find? (fun e => e.2 == 4) with
  | none => left; rfl
  | some e =>
    obtain ⟨rank, cnt⟩ := e
    right
    refine ⟨(by decide : (0 : Int) ≤ FourOfAKind), (by decide : FourOfAKind ≤ (9 : Int)), by simp, ?_⟩
    intro r hr
    simp only [List.mem_cons, List.mem_singleton, List.not_mem_nil, or_false] at hr
    rcases hr with hr | hr
    · rw [hr]
      exact key_bounds cards hv (rank, cnt) (List.mem_of_find?_eq_some hf)
    · rw [hr]
      cases hk : (getRankCounts cards).find? (fun e => e.1 != rank && e.2 == 1) with
      | none => simp only; decide
      | some e1 =>
        obtain ⟨r1, c1⟩ := e1
        exact key_bounds cards hv (r1, c1) (List.mem_of_find?_eq_some hk)

theorem fullHouseFold_bounded (l : List (Int × Nat))
    (hl : ∀ e ∈ l, 0 ≤ e.1 ∧ e.1 ≤ 14) : ∀ (st : FullHouseScan),
    (0 ≤ st.threeRank ∧ st.threeRank ≤ 14) → (0 ≤ st.pairRank ∧ st.pairRank ≤ 14) →
    (0 ≤ (l.foldl
      (fun (st : FullHouseScan) e =>
        if e.2 = 3 then { st with threeRank := e.1, hasThree := true }
        else if e.2 = 2 then { st with pairRank := e.1, hasPair := true }
        else st) st).threeRank ∧
      (l.foldl
      (fun (st : FullHouseScan) e =>
        if e.2 = 3 then { st with threeRank := e.1, hasThree := true }
        else if e.2 = 2 then { st with pairRank := e.1, hasPair := true }
        else st) st).threeRank ≤ 14) ∧
    (0 ≤ (l.foldl
      (fun (st : FullHouseScan) e =>
        if e.2 = 3 then { st with threeRank := e.1, hasThree := true }
        else if e.2 = 2 then { st with pairRank := e.1, hasPair := true }
        else st) st).pairRank ∧
      (l.foldl
      (fun (st : FullHouseScan) e =>
        if e.2 = 3 then { st with threeRank := e.1, hasThree := true }
        else if e.2 = 2 then { st with pairRank := e.1, hasPair := true }
        else st) st).pairRank ≤ 14) := by
  induction l with
  | nil => intro st h1 h2; exact ⟨h1, h2⟩
  | cons e rest ih =>
    intro st h1 h2
    rw [List.foldl_cons]
    have he := hl e (List.mem_cons_self _ _)
    apply ih (fun e0 h0 => hl e0 (List.mem_cons_of_mem _ h0))
    · split
      · exact he
      · split
        · exact h1
        · exact h1
    · split
      · exact h2
      · split
        · exact he
        · exact h2

theorem checkFullHouse_bounded (cards : Cards)
    (hv : ∀ c ∈ cards, 0 ≤ c.Rank ∧ c.Rank ≤ 14) :
    (checkFullHouse cards).Typ = -1 ∨ (checkFullHouse cards).bounded := by
  have hb := fullHouseFold_bounded (getRankCounts cards) (key_bounds cards hv)
    { threeRank := 0, pairRank := 0, hasThree := false, hasPair := false }
    (by decide) (by decide)
  unfold checkFullHouse
  simp only
  split
  · right
    refine ⟨(by decide : (0 : Int) ≤ FullHouse), (by decide : FullHouse ≤ (9 : Int)), by simp, ?_⟩
    intro r hr
    simp only [List.mem_cons, List.mem_singleton, List.not_mem_nil, or_false] at hr
    rcases hr with hr | hr
    · rw [hr]; exact hb.1
    · rw [hr]; exact hb.2
  · left; rfl

theorem kickers_bounded (cards : Cards) (hv : ∀ c ∈ cards, 0 ≤ c.Rank ∧ c.Rank ≤ 14)
    (hlen : cards.length ≤ 5) (rank : Int) (p : Int × Nat → Bool) :
    (rank :: sortRanksDesc (((getRankCounts cards).filter p).map fun e => e.1)).length ≤ 6 ∧
    ∀ r ∈ sortRanksDesc (((getRankCounts cards).filter p).map fun e => e.1),
      0 ≤ r ∧ r ≤ 14 := by
  constructor
  · rw [List.length_cons, sortRanksDesc_length, List.length_map]
    have h1 := List.length_filter_le p (getRankCounts cards)
    have h2 := getRankCounts_length cards
    omega
  · intro r hr
    rw [mem_sortRanksDesc] at hr
    obtain ⟨e, he, h1⟩ := List.mem_map.mp hr
    rw [← h1]
    exact key_bounds cards hv e (List.mem_of_mem_filter he)

theorem checkThreeOfAKind_bounded (cards : Cards)
    (hv : ∀ c ∈ cards, 0 ≤ c.Rank ∧ c.Rank ≤ 14) (hlen : cards.length ≤ 5) :
    (checkThreeOfAKind cards).Typ = -1 ∨ (checkThreeOfAKind cards).bounded := by
  unfold checkThreeOfAKind
  simp only
  cases hf : (getRankCounts cards).find? (fun e => e.2 == 3) with
  | none => left; rfl
  | some e =>
    obtain ⟨rank, cnt⟩ := e
    right
    obtain ⟨h1, h2⟩ := kickers_bounded cards hv hlen rank (fun e => e.1 != rank && e.2 == 1)
    refine ⟨(by decide : (0 : Int) ≤ ThreeOfAKind), (by decide : ThreeOfAKind ≤ (9 : Int)), h1, ?_⟩
    intro r hr
    rcases List.mem_cons.mp hr with hr | hr
    · rw [hr]
      exact key_bounds cards hv (rank, cnt) (List.mem_of_find?_eq_some hf)
    · exact h2 r hr

theorem checkOnePair_bounded (cards : Cards)
    (hv : ∀ c ∈ cards, 0 ≤ c.Rank ∧ c.Rank ≤ 14) (hlen : cards.length ≤ 5) :
    (checkOnePair cards).Typ = -1 ∨ (checkOnePair cards).bounded := by
  unfold checkOnePair
  simp only
  cases hf : (getRankCounts cards).find? (fun e => e.2 == 2) with
  | none => left; rfl
  | some e =>
    obtain ⟨rank, cnt⟩ := e
    right
    obtain ⟨h1, h2⟩ := kickers_bounded cards hv hlen rank (fun e => e.1 != rank && e.2 == 1)
    refine ⟨(by decide : (0 : Int) ≤ OnePair), (by decide : OnePair ≤ (9 : Int)), h1, ?_⟩
    intro r hr
    rcases List.mem_cons.mp hr with hr | hr
    · rw [hr]
      exact key_bounds cards hv (rank, cnt) (List.mem_of_find?_eq_some hf)
    · exact h2 r hr

theorem twoPairFold_bounded (l : List (Int × Nat))
    (hl : ∀ e ∈ l, 0 ≤ e.1 ∧ e.1 ≤ 14) : ∀ (st : List Int × Int),
    (∀ r ∈ st.1, 0 ≤ r ∧ r ≤ 14) → (0 ≤ st.2 ∧ st.2 ≤ 14) →
    (∀ r ∈ (l.foldl
      (fun (st : List Int × Int) e =>
        if e.2 = 2 then (st.1 ++ [e.1], st.2)
        else if e.2 = 1 then (st.1, e.1)
        else st) st).1, 0 ≤ r ∧ r ≤ 14) ∧
    (0 ≤ (l.foldl
      (fun (st : List Int × Int) e =>
        if e.2 = 2 then (st.1 ++ [e.1], st.2)
        else if e.2 = 1 then (st.1, e.1)
        else st) st).2 ∧
      (l.foldl
      (fun (st : List Int × Int) e =>
        if e.2 = 2 then (st.1 ++ [e.1], st.2)
        else if e.2 = 1 then (st.1, e.1)
        else st) st).2 ≤ 14) := by
  induction l with
  | nil => intro st h1 h2; exact ⟨h1, h2⟩
  | cons e rest ih =>
    intro st h1 h2
    rw [List.foldl_cons]
    have he := hl e (List.mem_cons_self _ _)
    apply ih (fun e0 h0 => hl e0 (List.mem_cons_of_mem _ h0))
    · split
      · intro r hr
        rcases List.mem_append.mp hr with hr | hr
        · exact h1 r hr
        · rw [List.mem_singleton] at hr
          rw [hr]; exact he
      · split
        · exact h1
        · exact h1
    · split
      · exact h2
      · split
        · exact he
        · exact h2

theorem checkTwoPair_bounded (cards : Cards)
    (hv : ∀ c ∈ cards, 0 ≤ c.Rank ∧ c.Rank ≤ 14) :
    (checkTwoPair cards).Typ = -1 ∨ (checkTwoPair cards).bounded := by
  have hb := twoPairFold_bounded (getRankCounts cards) (key_bounds cards hv)
    (([] : List Int), (0 : Int)) (fun r hr => absurd hr (List.not_mem_nil _)) (by decide)
  unfold checkTwoPair
  simp only
  split
  · split
    · rename_i p0 p1 hsort
      right
      refine ⟨(by decide : (0 : Int) ≤ TwoPair), (by decide : TwoPair ≤ (9 : Int)), by simp, ?_⟩
      intro r hr
      simp only [List.mem_cons, List.mem_singleton, List.not_mem_nil, or_false] at hr
      have hp0 := (mem_sortRanksDesc _ p0).mp (by rw [hsort]; exact List.mem_cons_self _ _)
      have hp1 := (mem_sortRanksDesc _ p1).mp
        (by rw [hsort]; exact List.mem_cons_of_mem _ (List.mem_cons_self _ _))
      rcases hr with hr | hr | hr
      · rw [hr]; exact hb.1 p0 hp0
      · rw [hr]; exact hb.1 p1 hp1
      · rw [hr]; exact hb.2
    · left; rfl
  · left; rfl

theorem checkHighCard_bounded (cards : Cards)
    (hv : ∀ c ∈ cards, 0 ≤ c.Rank ∧ c.Rank ≤ 14) (hlen : cards.length ≤ 5) :
    (checkHighCard cards).bounded := by
  unfold checkHighCard
  refine ⟨(by decide : (0 : Int) ≤ HighCard), (by decide : HighCard ≤ (9 : Int)), ?_, ?_⟩
  · show (sortRanksDesc _).length ≤ 6
    rw [sortRanksDesc_length, List.length_map]
    omega
  · intro r hr
    have hr1 : r ∈ cards.map fun card => card.Rank := (mem_sortRanksDesc _ r).mp hr
    obtain ⟨c, hc, h1⟩ := List.mem_map.mp hr1
    rw [← h1]
    exact hv c hc

theorem mem_sortInsert (x y : Card) (pre : List Card) (h : y ∈ Cards.sortInsert x pre) :
    y = x ∨ y ∈ pre := by
  induction pre with
  | nil =>
    simp only [Cards.sortInsert, List.mem_singleton] at h
    exact Or.inl h
  | cons p ps ih =>
    simp only [Cards.sortInsert] at h
    split at h
    · rcases List.mem_cons.mp h with h1 | h1
      · right; rw [h1]; exact List.mem_cons_self _ _
      · rcases ih h1 with h2 | h2
        · exact Or.inl h2
        · exact Or.inr (List.mem_cons_of_mem _ h2)
    · rcases List.mem_cons.mp h with h1 | h1
      · exact Or.inl h1
      · exact Or.inr h1

theorem mem_sortFold (c : List Card) : ∀ (pre : List Card) (y : Card),
    y ∈ c.foldl (fun pre x => Cards.sortInsert x pre) pre → y ∈ pre ∨ y ∈ c := by
  induction c with
  | nil => intro pre y h; exact Or.inl h
  | cons x rest ih =>
    intro pre y h
    rw [List.foldl_cons] at h
    rcases ih _ y h with h1 | h1
    · rcases mem_sortInsert x y pre h1 with h2 | h2
      · right; rw [h2]; exact List.mem_cons_self _ _
      · exact Or.inl h2
    · exact Or.inr (List.mem_cons_of_mem _ h1)

theorem mem_Sort (c : Cards) (y : Card) (h : y ∈ Cards.Sort c) : y ∈ c := by
  unfold Cards.Sort at h
  rw [List.mem_reverse] at h
  rcases mem_sortFold c [] y h with h1 | h1
  · exact absurd h1 (List.not_mem_nil _)
  · exact h1

theorem evaluateSortedCards_bounded (cards : Cards)
    (hv : ∀ c ∈ cards, 0 ≤ c.Rank ∧ c.Rank ≤ 14) (hlen : cards.length ≤ 5) (h : Hand)
    (hh : evaluateSortedCards cards = some h) : h.bounded := by
  have ok : ∀ x : Hand, x.Typ = -1 ∨ x.bounded → x.Typ ≠ -1 → x.bounded := by
    intro x hx hne
    rcases hx with hx | hx
    · exact absurd hx hne
    · exact hx
  unfold evaluateSortedCards at hh
  cases hrf : checkRoyalFlush cards with
  | none => rw [hrf] at hh; exact absurd hh (by simp)
  | some royal =>
    rw [hrf, Option.some_bind] at hh
    by_cases h1 : royal.Typ ≠ -1
    · rw [if_pos h1, Option.some.injEq] at hh
      rw [← hh]
      exact ok _ (checkRoyalFlush_bounded cards royal hrf) h1
    rw [if_neg h1] at hh
    cases hsf : checkStraightFlush cards with
    | none => rw [hsf] at hh; exact absurd hh (by simp)
    | some sf =>
      rw [hsf, Option.some_bind] at hh
      by_cases h2 : sf.Typ ≠ -1
      · rw [if_pos h2, Option.some.injEq] at hh
        rw [← hh]
        exact ok _ (checkStraightFlush_bounded cards hv sf hsf) h2
      rw [if_neg h2] at hh
      by_cases h3 : (checkFourOfAKind cards).Typ ≠ -1
      · rw [if_pos h3, Option.some.injEq] at hh
        rw [← hh]
        exact ok _ (checkFourOfAKind_bounded cards hv) h3
      rw [if_neg h3] at hh
      by_cases h4 : (checkFullHouse cards).Typ ≠ -1
      · rw [if_pos h4, Option.some.injEq] at hh
        rw [← hh]
        exact ok _ (checkFullHouse_bounded cards hv) h4
      rw [if_neg h4] at hh
      cases hf : checkFlush cards with
      | none => rw [hf] at hh; exact absurd hh (by simp)
      | some fl =>
        rw [hf, Option.some_bind] at hh
        by_cases h5 : fl.Typ ≠ -1
        · rw [if_pos h5, Option.some.injEq] at hh
          rw [← hh]
          exact ok _ (checkFlush_bounded cards hv fl hf) h5
        rw [if_neg h5] at hh
        by_cases h6 : (checkStraight cards).Typ ≠ -1
        · rw [if_pos h6, Option.some.injEq] at hh
          rw [← hh]
          exact ok _ (checkStraight_bounded cards hv) h6
        rw [if_neg h6] at hh
        by_cases h7 : (checkThreeOfAKind cards).Typ ≠ -1
        · rw [if_pos h7, Option.some.injEq] at hh
          rw [← hh]
          exact ok _ (checkThreeOfAKind_bounded cards hv hlen) h7
        rw [if_neg h7] at hh
        by_cases h8 : (checkTwoPair cards).Typ ≠ -1
        · rw [if_pos h8, Option.some.injEq] at hh
          rw [← hh]
          exact ok _ (checkTwoPair_bounded cards hv) h8
        rw [if_neg h8] at hh
        by_cases h9 : (checkOnePair cards).Typ ≠ -1
        · rw [if_pos h9, Option.some.injEq] at hh
          rw [← hh]
          exact ok _ (checkOnePair_bounded cards hv hlen) h9
        rw [if_neg h9, Option.some.injEq] at hh
        rw [← hh]
        exact checkHighCard_bounded cards hv hlen

/-- The evaluation of at most five cards of the deck is a hand with a category
between HighCard and RoyalFlush and tiebreak ranks between 0 and Ace. -/
theorem evaluateFiveCards_bounded (cards : List Card) (hv : ∀ c ∈ cards, c.valid)
    (hlen : cards.length ≤ 5) (h : Hand) (hh : evaluateFiveCards cards = some h) :
    h.bounded := by
  unfold evaluateFiveCards at hh
  apply evaluateSortedCards_bounded _ _ (by rw [Sort_length]; exact hlen) h hh
  intro c hc
  have h1 := hv c (mem_Sort _ c hc)
  unfold Card.valid at h1
  omega

theorem wrapInt_small (x : Int) (h1 : 0 ≤ x) (h2 : x ≤ 1000000000) : wrapInt x = x := by
  unfold wrapInt
  omega

theorem getHandValueLoop_eq : ∀ (ranks : List Int) (i : Nat) (v : Int),
    (∀ r ∈ ranks, 0 ≤ r ∧ r ≤ 14) → 0 ≤ v → v + 1400000 * ranks.length ≤ 1000000000 →
    getHandValueLoop i ranks v = v + specRankSum i ranks ∧ 0 ≤ specRankSum i ranks := by
  intro ranks
  induction ranks with
  | nil =>
    intro i v _ _ _
    simp [getHandValueLoop, specRankSum]
  | cons r rest ih =>
    intro i v hr hv hb
    obtain ⟨hr0, hr14⟩ := hr r (List.mem_cons_self _ _)
    have hw0 : (0 : Int) ≤ ((100000 / (i + 1) : Nat) : Int) := Int.ofNat_nonneg _
    have hw1 : ((100000 / (i + 1) : Nat) : Int) ≤ 100000 := by
      have := Nat.div_le_self 100000 (i + 1)
      omega
    have hm0 : 0 ≤ r * ((100000 / (i + 1) : Nat) : Int) := Int.mul_nonneg hr0 hw0
    have hm1 : r * ((100000 / (i + 1) : Nat) : Int) ≤ 1400000 := by
      calc r * ((100000 / (i + 1) : Nat) : Int) ≤ 14 * 100000 :=
            Int.mul_le_mul hr14 hw1 hw0 (by omega)
        _ = 1400000 := by norm_num
    simp only [List.length_cons] at hb
    push_cast at hb
    rw [getHandValueLoop, specRankSum, wrapInt_small _ hw0 (by omega),
      wrapInt_small _ hm0 (by omega), wrapInt_small _ (by omega) (by omega)]
    obtain ⟨h1, h2⟩ := ih (i + 1) (v + r * ((100000 / (i + 1) : Nat) : Int))
      (fun x hx => hr x (List.mem_cons_of_mem _ hx)) (by omega) (by omega)
    rw [h1]
    exact ⟨by omega, by omega⟩

/-- On a bounded hand `getHandValue` does not overflow: it is the value of the
specification, and it is not negative. -/
theorem getHandValue_eq_spec (h : Hand) (hb : h.bounded) :
    getHandValue h = specHandValue h ∧ 0 ≤ getHandValue h := by
  obtain ⟨h0, h9, hlen, hr⟩ := hb
  unfold getHandValue specHandValue
  have hlen1 : (h.Ranks.length : Int) ≤ 6 := by exact_mod_cast hlen
  rw [wrapInt_small _ (by omega) (by omega)]
  obtain ⟨h1, h2⟩ := getHandValueLoop_eq h.Ranks 0 (h.Typ * 1000000) hr (by omega) (by omega)
  rw [h1]
  exact ⟨rfl, by omega⟩

/-- On seven cards `generateCombinations` returns the five-card selections by
increasing index, in lexicographic order of the indices. -/
theorem generateCombinations_seven (cards : List Card) (hlen : cards.length = 7) :
    generateCombinations cards 5 =
      (List.sublistsLen 5 (List.range 7)).reverse.map fun idxs =>
        idxs.filterMap fun i => cards[i]? := by
  match cards, hlen with
  | [c0, c1, c2, c3, c4, c5, c6], _ => rfl

/-- C38. For every seven cards of the deck (rank 2 to Ace, four suits; a card may
repeat): `generateCombinations` returns 21 lists, namely for each of the 21 strictly
increasing selections of five of the indices 0..6 the cards at those indices (so a
list is returned exactly when it is a five-card sublist of the input); `EvaluateHand`
returns the `evaluateFiveCards` evaluation of one of them; every one of the 21 has an
evaluation, whose `getHandValue` is category × 1,000,000 +
Σ rank_i × ⌊100000 / (i + 1)⌋ without overflow and is at most the `getHandValue` of
the returned hand. -/
theorem EvaluateHand_is_best_of_21 (cards : List Card) (hlen : cards.length = 7)
    (hv : ∀ c ∈ cards, c.valid) :
    (generateCombinations cards 5 =
      (List.sublistsLen 5 (List.range 7)).reverse.map fun idxs =>
        idxs.filterMap fun i => cards[i]?) ∧
    (List.sublistsLen 5 (List.range 7)).Nodup ∧
    (∀ idxs, idxs ∈ List.sublistsLen 5 (List.range 7) ↔
      idxs.Sublist (List.range 7) ∧ idxs.length = 5) ∧
    (generateCombinations cards 5).length = 21 ∧
    (∀ x, x ∈ generateCombinations cards 5 ↔ x.Sublist cards ∧ x.length = 5) ∧
    ∃ h c, EvaluateHand cards = some h ∧ c ∈ generateCombinations cards 5 ∧
      evaluateFiveCards c = some h ∧ getHandValue h = specHandValue h ∧
      ∀ c0 ∈ generateCombinations cards 5, ∃ h0, evaluateFiveCards c0 = some h0 ∧
        getHandValue h0 = specHandValue h0 ∧ getHandValue h0 ≤ getHandValue h := by
  have hcombos := generateCombinations_seven cards hlen
  have hvalid : ∀ c0 ∈ generateCombinations cards 5, ∀ h0, evaluateFiveCards c0 = some h0 →
      h0.bounded := by
    intro c0 hc0 h0 he
    refine evaluateFiveCards_bounded c0 ?_
      (le_of_eq (generateCombinations_length cards 5 c0 hc0)) h0 he
    intro c hc
    exact hv c ((sublist_of_mem_generateCombinations cards 5 c0 hc0).subset hc)
  refine ⟨hcombos, List.nodup_sublistsLen 5 (List.nodup_range 7),
    fun idxs => List.mem_sublistsLen, ?_, ?_, ?_⟩
  · rw [hcombos, List.length_map, List.length_reverse]
    decide
  · intro x
    constructor
    · intro hx
      exact ⟨sublist_of_mem_generateCombinations cards 5 x hx,
        generateCombinations_length cards 5 x hx⟩
    · rintro ⟨hs, hl⟩
      rw [← hl]
      exact mem_generateCombinations hs
  · obtain ⟨h, hh, hcase⟩ := EvaluateHand_spec cards hlen
    rcases hcase with ⟨_, hall⟩ | ⟨c, hc, hev, _, hall⟩
    · exfalso
      have hmem : cards.take 5 ∈ generateCombinations cards 5 := by
        have h5 : (cards.take 5).length = 5 := by
          rw [List.length_take, hlen]; rfl
        have := mem_generateCombinations (List.take_sublist 5 cards)
        rw [h5] at this
        exact this
      obtain ⟨h0, hh0⟩ := Option.isSome_iff_exists.mp
        (evaluateFiveCards_isSome (cards.take 5)
          (le_of_eq (generateCombinations_length cards 5 _ hmem)))
      have h1 := hall _ hmem h0 hh0
      have h2 := (getHandValue_eq_spec h0 (hvalid _ hmem h0 hh0)).2
      omega
    · refine ⟨h, c, hh, hc, hev, (getHandValue_eq_spec h (hvalid c hc h hev)).1, ?_⟩
      intro c0 hc0
      obtain ⟨h0, hh0⟩ := Option.isSome_iff_exists.mp
        (evaluateFiveCards_isSome c0 (le_of_eq (generateCombinations_length cards 5 c0 hc0)))
      exact ⟨h0, hh0, (getHandValue_eq_spec h0 (hvalid c0 hc0 h0 hh0)).1, hall c0 hc0 h0 hh0⟩

/-- C38 at a sample: the seven cards A♠ 2♥ 3♦ 4♣ 5♠ K♣ Q♦. -/
theorem EvaluateHand_is_best_of_21_witness :
    ∃ h c, EvaluateHand [NewCard Ace Spades, NewCard Two Hearts, NewCard Three Diamonds,
        NewCard Four Clubs, NewCard Five Spades, NewCard King Clubs, NewCard Queen Diamonds]
        = some h ∧
      c ∈ generateCombinations [NewCard Ace Spades, NewCard Two Hearts, NewCard Three Diamonds,
        NewCard Four Clubs, NewCard Five Spades, NewCard King Clubs, NewCard Queen Diamonds] 5 ∧
      evaluateFiveCards c = some h ∧ getHandValue h = specHandValue h ∧
      ∀ c0 ∈ generateCombinations [NewCard Ace Spades, NewCard Two Hearts,
        NewCard Three Diamonds, NewCard Four Clubs, NewCard Five Spades, NewCard King Clubs,
        NewCard Queen Diamonds] 5,
        ∃ h0, evaluateFiveCards c0 = some h0 ∧
          getHandValue h0 = specHandValue h0 ∧ getHandValue h0 ≤ getHandValue h :=
  (EvaluateHand_is_best_of_21 [NewCard Ace Spades, NewCard Two Hearts, NewCard Three Diamonds,
    NewCard Four Clubs, NewCard Five Spades, NewCard King Clubs, NewCard Queen Diamonds]
    (by decide) (by decide)).2.2.2.2.2

/-! ## The count maps -/

theorem mapIncr_fst (x : Int) (acc : List (Int × Nat)) :
    (mapIncr x acc).map Prod.fst =
      if x ∈ acc.map Prod.fst then acc.map Prod.fst else acc.map Prod.fst ++ [x] := by
  induction acc with
  | nil => simp [mapIncr]
  | cons e rest ih =>
    obtain ⟨k, v⟩ := e
    by_cases hk : k = x
    · subst hk; simp [mapIncr]
    · have hk' : ¬ x = k := fun h => hk h.symm
      simp only [mapIncr, if_neg hk, List.map_cons, ih, List.mem_cons, hk', false_or]
      split <;> simp

theorem mapIncr_mem (x : Int) (acc : List (Int × Nat)) (hnd : (acc.map Prod.fst).Nodup)
    (k : Int) (v : Nat) :
    (k, v) ∈ mapIncr x acc ↔
      (k ≠ x ∧ (k, v) ∈ acc) ∨
      (k = x ∧ ((∃ v0, (x, v0) ∈ acc ∧ v = v0 + 1) ∨ (x ∉ acc.map Prod.fst ∧ v = 1))) := by
  induction acc with
  | nil => simp [mapIncr]
  | cons e rest ih =>
    obtain ⟨k0, v0⟩ := e
    simp only [List.map_cons, List.nodup_cons] at hnd
    obtain ⟨hk0, hrest⟩ := hnd
    have ih := ih hrest
    have hno : ∀ w, (k0, w) ∉ rest := fun w hw => hk0 (List.mem_map_of_mem Prod.fst hw)
    by_cases hk : k0 = x
    · subst hk
      by_cases hkk : k = k0
      · subst hkk
        simp only [mapIncr, if_true, List.mem_cons, Prod.mk.injEq, true_and, hno, or_false,
          ne_eq, not_true_eq_false, false_and, List.map_cons, true_or, false_or, exists_eq_left]
      · simp [mapIncr, hkk]
    · have hk' : ¬ x = k0 := fun h => hk h.symm
      by_cases hkk : k = x
      · subst hkk
        simp only [mapIncr, if_neg hk, List.mem_cons, Prod.mk.injEq, hk', false_and, false_or, ih,
          ne_eq, not_true_eq_false, true_and, List.map_cons]
      · simp only [mapIncr, if_neg hk, List.mem_cons, Prod.mk.injEq, ih, ne_eq, hkk,
          not_false_eq_true, true_and, false_and, or_false]

theorem Represents.keys {acc : List (Int × Nat)} {seen : List Int} (h : Represents acc seen)
    (k : Int) : k ∈ acc.map Prod.fst ↔ k ∈ seen := by
  constructor
  · intro hk
    obtain ⟨⟨k', v⟩, hmem, rfl⟩ := List.mem_map.mp hk
    exact ((h.2 _ _).mp hmem).1
  · intro hk
    exact List.mem_map.mpr ⟨(k, seen.count k), (h.2 _ _).mpr ⟨hk, rfl⟩, rfl⟩

theorem Represents.step {acc : List (Int × Nat)} {seen : List Int} (h : Represents acc seen)
    (x : Int) : Represents (mapIncr x acc) (seen ++ [x]) := by
  refine ⟨?_, ?_⟩
  · rw [mapIncr_fst]
    split
    · exact h.1
    · rename_i hx
      exact List.Nodup.append h.1 (List.nodup_singleton x) (by simpa using hx)
  · intro k v
    rw [mapIncr_mem x acc h.1 k v]
    simp only [h.2, h.keys, List.mem_append, List.mem_singleton, List.count_append]
    constructor
    · rintro (⟨hne, hk, rfl⟩ | ⟨rfl, ⟨v0, ⟨hk, rfl⟩, rfl⟩ | ⟨hk, rfl⟩⟩)
      · exact ⟨Or.inl hk, by simp [List.count_singleton, hne]⟩
      · exact ⟨Or.inr rfl, by simp⟩
      · exact ⟨Or.inr rfl, by simp [List.count_eq_zero_of_not_mem hk]⟩
    · rintro ⟨hk, rfl⟩
      by_cases hkx : k = x
      · subst hkx
        refine Or.inr ⟨rfl, ?_⟩
        by_cases hks : k ∈ seen
        · exact Or.inl ⟨seen.count k, ⟨hks, rfl⟩, by simp⟩
        · exact Or.inr ⟨hks, by simp [List.count_eq_zero_of_not_mem hks]⟩
      · refine Or.inl ⟨hkx, ?_, ?_⟩
        · rcases hk with hk | hk
          · exact hk
          · exact absurd hk hkx
        · simp [List.count_singleton, hkx]

theorem represents_foldl (l : List Int) :
    ∀ (acc : List (Int × Nat)) (seen : List Int), Represents acc seen →
      Represents (l.foldl (fun counts x => mapIncr x counts) acc) (seen ++ l) := by
  induction l with
  | nil => intro acc seen h; simpa using h
  | cons x rest ih =>
    intro acc seen h
    have := ih (mapIncr x acc) (seen ++ [x]) (h.step x)
    simpa using this

theorem represents_counts (l : List Int) :
    Represents (l.foldl (fun counts x => mapIncr x counts) []) l := by
  have := represents_foldl l [] [] ⟨List.nodup_nil, by simp⟩
  simpa using this

/-- The test of `checkFlush`: some suit is counted five times. -/
theorem any_five_iff (cards : Cards) :
    (getSuitCounts cards).any (fun e => e.2 == 5) = true ↔
      ∃ s, (cards.map (fun card => card.Suit)).count s = 5 := by
  have h := represents_counts (cards.map (fun card => card.Suit))
  unfold getSuitCounts
  rw [List.any_eq_true]
  constructor
  · rintro ⟨⟨k, v⟩, hmem, hv⟩
    have := (h.2 k v).mp hmem
    simp only [beq_iff_eq] at hv
    exact ⟨k, by rw [← this.2]; exact hv⟩
  · rintro ⟨s, hs⟩
    refine ⟨(s, 5), (h.2 s 5).mpr ⟨?_, hs.symm⟩, by simp⟩
    exact List.count_pos_iff.mp (by omega)

/-! ## The card sort -/

theorem sortInsert_perm (x : Card) (pre : List Card) :
    List.Perm (Cards.sortInsert x pre) (x :: pre) := by
  induction pre with
  | nil => simp [Cards.sortInsert]
  | cons p ps ih =>
    simp only [Cards.sortInsert]
    split
    · exact (List.Perm.cons p ih).trans (List.Perm.swap x p ps)
    · exact List.Perm.refl _

theorem sortFold_perm (c : List Card) :
    ∀ pre : List Card,
      List.Perm (c.foldl (fun pre x => Cards.sortInsert x pre) pre) (c ++ pre) := by
  induction c with
  | nil => intro pre; simp
  | cons x rest ih =>
    intro pre
    simp only [List.foldl_cons]
    refine (ih _).trans ?_
    refine (List.Perm.append_left rest (sortInsert_perm x pre)).trans ?_
    simp only [List.cons_append]
    exact List.perm_middle

theorem Sort_perm (c : Cards) : List.Perm (Cards.Sort c) c := by
  unfold Cards.Sort
  refine (List.reverse_perm _).trans ?_
  simpa using sortFold_perm c []

theorem sortInsert_sorted (x : Card) (pre : List Card)
    (h : pre.Pairwise (fun a b => a.Rank ≤ b.Rank)) :
    (Cards.sortInsert x pre).Pairwise (fun a b => a.Rank ≤ b.Rank) := by
  induction pre with
  | nil => simp [Cards.sortInsert]
  | cons p ps ih =>
    simp only [Cards.sortInsert]
    rw [List.pairwise_cons] at h
    split
    · rename_i hgt
      rw [List.pairwise_cons]
      refine ⟨?_, ih h.2⟩
      intro a ha
      rcases List.mem_cons.mp ((sortInsert_perm x ps).mem_iff.mp ha) with rfl | ha
      · omega
      · exact h.1 a ha
    · rename_i hgt
      rw [List.pairwise_cons, List.pairwise_cons]
      refine ⟨?_, h⟩
      intro a ha
      rcases List.mem_cons.mp ha with rfl | ha
      · omega
      · have := h.1 a ha
        omega

theorem sortFold_sorted (c : List Card) :
    ∀ pre : List Card, pre.Pairwise (fun a b => a.Rank ≤ b.Rank) →
      (c.foldl (fun pre x => Cards.sortInsert x pre) pre).Pairwise
        (fun a b => a.Rank ≤ b.Rank) := by
  induction c with
  | nil => intro pre h; simpa using h
  | cons x rest ih =>
    intro pre h
    simp only [List.foldl_cons]
    exact ih _ (sortInsert_sorted x pre h)

theorem Sort_sorted (c : Cards) :
    (Cards.Sort c).Pairwise (fun a b => a.Rank ≥ b.Rank) := by
  unfold Cards.Sort
  rw [List.pairwise_reverse]
  exact sortFold_sorted c [] List.Pairwise.nil

theorem sortRanksDesc_perm (ranks : List Int) : List.Perm (sortRanksDesc ranks) ranks :=
  List.perm_insertionSort _ ranks

theorem sortRanksDesc_sorted (ranks : List Int) :
    (sortRanksDesc ranks).Pairwise (fun a b => a ≥ b) :=
  List.sorted_insertionSort (fun a b : Int => a ≥ b) ranks

theorem eq_of_perm_of_desc {l1 l2 : List Int} (hp : List.Perm l1 l2)
    (h1 : l1.Pairwise (fun a b => a ≥ b)) (h2 : l2.Pairwise (fun a b => a ≥ b)) : l1 = l2 :=
  List.eq_of_perm_of_sorted hp h1 h2

/-- The ranks of the sorted cards are the ranks in descending order. -/
theorem Sort_ranks (c : Cards) :
    (Cards.Sort c).map (fun card => card.Rank) = sortRanksDesc (c.map (fun card => card.Rank)) := by
  apply eq_of_perm_of_desc
  · exact ((Sort_perm c).map _).trans (sortRanksDesc_perm _).symm
  · rw [List.pairwise_map]
    exact Sort_sorted c
  · exact sortRanksDesc_sorted _

/-! ## The category checks read only the ranks and the flush test -/

theorem writeRanks_congr :
    ∀ (c1 c2 : Cards), c1.map (fun card => card.Rank) = c2.map (fun card => card.Rank) →
      ∀ (i : Nat) (ranks : List Int), writeRanks c1 i ranks = writeRanks c2 i ranks := by
  intro c1
  induction c1 with
  | nil =>
    intro c2 h i ranks
    cases c2 with
    | nil => rfl
    | cons _ _ => simp at h
  | cons a rest ih =>
    intro c2 h i ranks
    cases c2 with
    | nil => simp at h
    | cons b rest2 =>
      simp only [List.map_cons, List.cons.injEq] at h
      simp only [writeRanks, h.1, ih rest2 h.2]

theorem checkStraight_key (c1 c2 : Cards)
    (hr : c1.map (fun card => card.Rank) = c2.map (fun card => card.Rank)) :
    (checkStraight c1).key = (checkStraight c2).key := by
  unfold checkStraight
  simp only [hr]
  cases straightWindow (sortRanksDesc (removeDuplicateRanks (c2.map (fun card => card.Rank))))
  · simp only []
    split <;> rfl
  · rfl

theorem checkFlush_key (c1 c2 : Cards)
    (hr : c1.map (fun card => card.Rank) = c2.map (fun card => card.Rank))
    (hf : (getSuitCounts c1).any (fun e => e.2 == 5) = (getSuitCounts c2).any (fun e => e.2 == 5)) :
    (checkFlush c1).map Hand.key = (checkFlush c2).map Hand.key := by
  unfold checkFlush
  rw [hf, writeRanks_congr c1 c2 hr]
  split
  · cases writeRanks c2 0 (List.replicate 5 0) <;> rfl
  · rfl

theorem map_key_congr (o1 o2 : Option Hand) (g1 g2 : Hand → Hand)
    (ho : o1.map Hand.key = o2.map Hand.key)
    (hg : ∀ a b : Hand, a.key = b.key → (g1 a).key = (g2 b).key) :
    (o1.map g1).map Hand.key = (o2.map g2).map Hand.key := by
  cases o1 with
  | none =>
    cases o2 with
    | none => rfl
    | some b => simp at ho
  | some a =>
    cases o2 with
    | none => simp at ho
    | some b =>
      simp only [Option.map_some', Option.some.injEq] at ho ⊢
      exact hg a b ho

theorem checkStraightFlush_key (c1 c2 : Cards)
    (hr : c1.map (fun card => card.Rank) = c2.map (fun card => card.Rank))
    (hf : (getSuitCounts c1).any (fun e => e.2 == 5) = (getSuitCounts c2).any (fun e => e.2 == 5)) :
    (checkStraightFlush c1).map Hand.key = (checkStraightFlush c2).map Hand.key := by
  unfold checkStraightFlush
  apply map_key_congr _ _ _ _ (checkFlush_key c1 c2 hr hf)
  intro a b hab
  have hst := checkStraight_key c1 c2 hr
  simp only [Hand.key, Prod.mk.injEq] at hst hab
  simp only [hab.1, hst.1, hst.2]
  split
  · split <;> rfl
  · rfl

theorem checkRoyalFlush_key (c1 c2 : Cards)
    (hr : c1.map (fun card => card.Rank) = c2.map (fun card => card.Rank))
    (hf : (getSuitCounts c1).any (fun e => e.2 == 5) = (getSuitCounts c2).any (fun e => e.2 == 5)) :
    (checkRoyalFlush c1).map Hand.key = (checkRoyalFlush c2).map Hand.key := by
  unfold checkRoyalFlush
  apply map_key_congr _ _ _ _ (checkStraightFlush_key c1 c2 hr hf)
  intro a b hab
  simp only [Hand.key, Prod.mk.injEq] at hab
  simp only [hab.1, hab.2]
  split
  · split <;> rfl
  · rfl

theorem checkFourOfAKind_key (c1 c2 : Cards)
    (hr : c1.map (fun card => card.Rank) = c2.map (fun card => card.Rank)) :
    (checkFourOfAKind c1).key = (checkFourOfAKind c2).key := by
  unfold checkFourOfAKind getRankCounts
  simp only [hr]
  split <;> rfl

theorem checkFullHouse_key (c1 c2 : Cards)
    (hr : c1.map (fun card => card.Rank) = c2.map (fun card => card.Rank)) :
    (checkFullHouse c1).key = (checkFullHouse c2).key := by
  unfold checkFullHouse getRankCounts
  simp only [hr]
  split <;> rfl

theorem checkThreeOfAKind_key (c1 c2 : Cards)
    (hr : c1.map (fun card => card.Rank) = c2.map (fun card => card.Rank)) :
    (checkThreeOfAKind c1).key = (checkThreeOfAKind c2).key := by
  unfold checkThreeOfAKind getRankCounts
  simp only [hr]
  split <;> rfl

theorem checkTwoPair_key (c1 c2 : Cards)
    (hr : c1.map (fun card => card.Rank) = c2.map (fun card => card.Rank)) :
    (checkTwoPair c1).key = (checkTwoPair c2).key := by
  unfold checkTwoPair getRankCounts
  simp only [hr]
  split
  · split <;> rfl
  · rfl

theorem checkOnePair_key (c1 c2 : Cards)
    (hr : c1.map (fun card => card.Rank) = c2.map (fun card => card.Rank)) :
    (checkOnePair c1).key = (checkOnePair c2).key := by
  unfold checkOnePair getRankCounts
  simp only [hr]
  split <;> rfl

theorem checkHighCard_key (c1 c2 : Cards)
    (hr : c1.map (fun card => card.Rank) = c2.map (fun card => card.Rank)) :
    (checkHighCard c1).key = (checkHighCard c2).key := by
  unfold checkHighCard
  simp only [hr, Hand.key]

/-- One step of the chain of checks: a hand that is returned when its category
matched, else the rest of the chain. -/
theorem chain_step_key (a1 a2 : Hand) (rest1 rest2 : Option Hand) (ha : a1.key = a2.key)
    (hrest : rest1.map Hand.key = rest2.map Hand.key) :
    (if a1.Typ ≠ -1 then some a1 else rest1).map Hand.key =
      (if a2.Typ ≠ -1 then some a2 else rest2).map Hand.key := by
  have ht : a1.Typ = a2.Typ := congrArg Prod.fst ha
  rw [ht]
  by_cases h : a2.Typ ≠ -1
  · rw [if_pos h, if_pos h, Option.map_some', Option.map_some', ha]
  · rw [if_neg h, if_neg h, hrest]

theorem chain_bind_key (o1 o2 : Option Hand) (rest1 rest2 : Option Hand)
    (ho : o1.map Hand.key = o2.map Hand.key)
    (hrest : rest1.map Hand.key = rest2.map Hand.key) :
    (o1.bind fun a => if a.Typ ≠ -1 then some a else rest1).map Hand.key =
      (o2.bind fun a => if a.Typ ≠ -1 then some a else rest2).map Hand.key := by
  cases o1 with
  | none =>
    cases o2 with
    | none => rfl
    | some b => simp at ho
  | some a =>
    cases o2 with
    | none => simp at ho
    | some b =>
      simp only [Option.map_some', Option.some.injEq] at ho
      simp only [Option.some_bind]
      exact chain_step_key _ _ _ _ ho hrest

theorem evaluateSortedCards_key (c1 c2 : Cards)
    (hr : c1.map (fun card => card.Rank) = c2.map (fun card => card.Rank))
    (hf : (getSuitCounts c1).any (fun e => e.2 == 5) = (getSuitCounts c2).any (fun e => e.2 == 5)) :
    (evaluateSortedCards c1).map Hand.key = (evaluateSortedCards c2).map Hand.key := by
  unfold evaluateSortedCards
  refine chain_bind_key _ _ _ _ (checkRoyalFlush_key c1 c2 hr hf) ?_
  refine chain_bind_key _ _ _ _ (checkStraightFlush_key c1 c2 hr hf) ?_
  refine chain_step_key _ _ _ _ (checkFourOfAKind_key c1 c2 hr) ?_
  refine chain_step_key _ _ _ _ (checkFullHouse_key c1 c2 hr) ?_
  refine chain_bind_key _ _ _ _ (checkFlush_key c1 c2 hr hf) ?_
  refine chain_step_key _ _ _ _ (checkStraight_key c1 c2 hr) ?_
  refine chain_step_key _ _ _ _ (checkThreeOfAKind_key c1 c2 hr) ?_
  refine chain_step_key _ _ _ _ (checkTwoPair_key c1 c2 hr) ?_
  refine chain_step_key _ _ _ _ (checkOnePair_key c1 c2 hr) ?_
  rw [Option.map_some', Option.map_some', checkHighCard_key c1 c2 hr]

/-! ## Canonical five-card inputs -/

theorem canonCards_ranks (ranks : List Int) (flush : Bool) :
    (canonCards ranks flush).map (fun card => card.Rank) = ranks := by
  cases ranks with
  | nil => rfl
  | cons r rest => simp [canonCards, List.map_map, Function.comp_def]

theorem length_five {α : Type} (l : List α) (h : l.length = 5) :
    ∃ a b c d e, l = [a, b, c, d, e] := by
  match l, h with
  | [a, b, c, d, e], _ => exact ⟨a, b, c, d, e, rfl⟩

theorem canonCards_flush (a b c d e : Int) (flush : Bool) :
    (getSuitCounts (canonCards [a, b, c, d, e] flush)).any (fun x => x.2 == 5) = flush := by
  cases flush <;> rfl

/-- The flush test does not depend on the order of the cards. -/
theorem flushTest_perm {c1 c2 : Cards} (h : List.Perm c1 c2) :
    (getSuitCounts c1).any (fun e => e.2 == 5) = (getSuitCounts c2).any (fun e => e.2 == 5) := by
  rw [Bool.eq_iff_iff, any_five_iff, any_five_iff]
  have hp := h.map (fun card => card.Suit)
  constructor
  · rintro ⟨s, hs⟩; exact ⟨s, by rw [← hp.count_eq]; exact hs⟩
  · rintro ⟨s, hs⟩; exact ⟨s, by rw [hp.count_eq]; exact hs⟩

/-- On five cards the flush test of the code says that the cards share one suit. -/
theorem flushTest_eq_specIsFlush (cards : Cards) (hlen : cards.length = 5) :
    (getSuitCounts cards).any (fun e => e.2 == 5) = specIsFlush cards := by
  rw [Bool.eq_iff_iff, any_five_iff]
  obtain ⟨c1, c2, c3, c4, c5, rfl⟩ := length_five cards hlen
  · simp only [specIsFlush, List.all_cons, List.all_nil, Bool.and_true, Bool.and_eq_true,
      decide_eq_true_eq, List.map_cons, List.map_nil]
    constructor
    · rintro ⟨s, hs⟩
      have h5 : ∀ x ∈ [c1.Suit, c2.Suit, c3.Suit, c4.Suit, c5.Suit], x = s := by
        intro x hx
        have := (List.count_eq_length (a := s)
          (l := [c1.Suit, c2.Suit, c3.Suit, c4.Suit, c5.Suit])).mp (by rw [hs]; rfl)
        exact (this x hx).symm
      have e1 := h5 c1.Suit (by simp)
      have e2 := h5 c2.Suit (by simp)
      have e3 := h5 c3.Suit (by simp)
      have e4 := h5 c4.Suit (by simp)
      have e5 := h5 c5.Suit (by simp)
      omega
    · rintro ⟨h2, h3, h4, h5⟩
      exact ⟨c1.Suit, by simp [h2, h3, h4, h5]⟩

/-- Reduction of a five-card evaluation to a canonical input: the category and the
tiebreak ranks depend only on the sorted ranks and on the flush test. -/
theorem evaluateFiveCards_canon (cards : List Card) (hlen : cards.length = 5) :
    (evaluateFiveCards cards).map Hand.key =
      (evaluateSortedCards (canonCards (sortRanksDesc (cards.map (fun card => card.Rank)))
        (specIsFlush cards))).map Hand.key := by
  unfold evaluateFiveCards Cards.Clone
  have hl : (sortRanksDesc (cards.map (fun card => card.Rank))).length = 5 := by
    rw [(sortRanksDesc_perm _).length_eq, List.length_map, hlen]
  apply evaluateSortedCards_key
  · rw [canonCards_ranks, Sort_ranks]
  · rw [flushTest_perm (Sort_perm cards), flushTest_eq_specIsFlush cards hlen]
    obtain ⟨a, b, c, d, e, hs⟩ := length_five _ hl
    rw [hs, canonCards_flush]

/-! ## The chain of checks on five cards -/

theorem sortRanksDesc_of_chain (l : List Int) (h : l.Chain' (fun a b => a ≥ b)) :
    sortRanksDesc l = l :=
  List.Sorted.insertionSort_eq (List.chain'_iff_pairwise.mp h)

/-- Without five cards of one suit the three flush checks fail. -/
theorem evaluateSortedCards_noflush (cards : Cards)
    (hf : (getSuitCounts cards).any (fun e => e.2 == 5) = false) :
    evaluateSortedCards cards =
      if (checkFourOfAKind cards).Typ ≠ -1 then some (checkFourOfAKind cards) else
      if (checkFullHouse cards).Typ ≠ -1 then some (checkFullHouse cards) else
      if (checkStraight cards).Typ ≠ -1 then some (checkStraight cards) else
      if (checkThreeOfAKind cards).Typ ≠ -1 then some (checkThreeOfAKind cards) else
      if (checkTwoPair cards).Typ ≠ -1 then some (checkTwoPair cards) else
      if (checkOnePair cards).Typ ≠ -1 then some (checkOnePair cards) else
      some (checkHighCard cards) := by
  have hfl : checkFlush cards = some noHand := by
    unfold checkFlush
    rw [hf]
    rfl
  have hsf : checkStraightFlush cards = some noHand := by
    unfold checkStraightFlush
    rw [hfl]
    rfl
  have hr : checkRoyalFlush cards = some noHand := by
    unfold checkRoyalFlush
    rw [hsf]
    rfl
  unfold evaluateSortedCards
  rw [hr, hsf, hfl]
  rfl

theorem chain_key (a : Hand) (rest : Option Hand) :
    (if a.Typ ≠ -1 then some a else rest).map Hand.key =
      if a.key.1 ≠ -1 then some a.key else rest.map Hand.key := by
  by_cases h : a.Typ ≠ -1
  · rw [if_pos h, if_pos (by exact h)]; rfl
  · rw [if_neg h, if_neg (by exact h)]

/-- The chain of checks on cards without five of one suit, on category and ranks. -/
theorem evaluateSortedCards_noflush_key (cards : Cards)
    (hf : (getSuitCounts cards).any (fun e => e.2 == 5) = false) :
    (evaluateSortedCards cards).map Hand.key =
      if (checkFourOfAKind cards).key.1 ≠ -1 then some (checkFourOfAKind cards).key else
      if (checkFullHouse cards).key.1 ≠ -1 then some (checkFullHouse cards).key else
      if (checkStraight cards).key.1 ≠ -1 then some (checkStraight cards).key else
      if (checkThreeOfAKind cards).key.1 ≠ -1 then some (checkThreeOfAKind cards).key else
      if (checkTwoPair cards).key.1 ≠ -1 then some (checkTwoPair cards).key else
      if (checkOnePair cards).key.1 ≠ -1 then some (checkOnePair cards).key else
      some (checkHighCard cards).key := by
  rw [evaluateSortedCards_noflush cards hf]
  simp only [chain_key, Option.map_some']

/-- Fewer than five ranks do not hold the five ranks of the wheel. -/
theorem containsRanks_short (l : List Int) (h : l.length < 5) :
    containsRanks l [Ace, Five, Four, Three, Two] = false := by
  cases hc : containsRanks l [Ace, Five, Four, Three, Two] with
  | false => rfl
  | true =>
    exfalso
    unfold containsRanks at hc
    rw [List.all_eq_true] at hc
    have hsub : [Ace, Five, Four, Three, Two] ⊆ l := by
      intro x hx
      have := hc x hx
      simpa using this
    have h2 := (List.subperm_of_subset (by decide) hsub).length_le
    simp only [List.length_cons, List.length_nil] at h2
    omega

/-- Repeated ranks make no straight: fewer than five different ranks remain. -/
theorem checkStraight_short (cards : Cards)
    (h : (removeDuplicateRanks (cards.map fun card => card.Rank)).length < 5) :
    (checkStraight cards).key = (-1, []) := by
  have hl : (sortRanksDesc (removeDuplicateRanks (cards.map fun card => card.Rank))).length < 5 := by
    rw [(sortRanksDesc_perm _).length_eq]; exact h
  unfold checkStraight
  simp only
  have hw : straightWindow (sortRanksDesc (removeDuplicateRanks (cards.map fun card => card.Rank)))
      = none := by
    cases hs : sortRanksDesc (removeDuplicateRanks (cards.map fun card => card.Rank)) with
    | nil => rfl
    | cons r rest =>
      rw [hs] at hl
      unfold straightWindow
      rw [if_pos hl]
  rw [hw, containsRanks_short _ hl]
  rfl

/-! ## The sorted rank lists with a repeated rank -/

/-- Sorted ranks made of a single rank, then a single rank, then a single rank, then a pair. -/
theorem entry_abcdd (a b c d : Int) (hab : a > b) (hbc : b > c) (hcd : c > d) :
    (evaluateSortedCards (canonCards [a, b, c, d, d] false)).map Hand.key =
        some (specHandRank [a, b, c, d, d] false) ∧
      shapedKey (specHandRank [a, b, c, d, d] false) := by
  have n1 : a ≠ b := by omega
  have m1 : b ≠ a := by omega
  have n2 : a ≠ c := by omega
  have m2 : c ≠ a := by omega
  have n3 : a ≠ d := by omega
  have m3 : d ≠ a := by omega
  have n4 : b ≠ c := by omega
  have m4 : c ≠ b := by omega
  have n5 : b ≠ d := by omega
  have m5 : d ≠ b := by omega
  have n6 : c ≠ d := by omega
  have m6 : d ≠ c := by omega
  have s1 : sortRanksDesc [a, b, c, d, d] = [a, b, c, d, d] :=
    sortRanksDesc_of_chain _
      (by simp only [List.chain'_cons, List.chain'_singleton, and_true]; omega)
  have s2 : sortRanksDesc [a, b, c] = [a, b, c] :=
    sortRanksDesc_of_chain _
      (by simp only [List.chain'_cons, List.chain'_singleton, and_true]; omega)
  have hc : getRankCounts (canonCards [a, b, c, d, d] false) =
      [(a, 1), (b, 1), (c, 1), (d, 2)] := by
    simp [getRankCounts, canonCards, mapIncr, n1, m1, n2, m2, n3, m3, n4, m4, n5, m5, n6, m6]
  have hFourOfAKind : (checkFourOfAKind (canonCards [a, b, c, d, d] false)).key =
      (-1, []) := by
    simp [checkFourOfAKind, hc, Hand.key, noHand, n1, m1, n2, m2, n3, m3, n4, m4, n5, m5, n6, m6]
  have hFullHouse : (checkFullHouse (canonCards [a, b, c, d, d] false)).key =
      (-1, []) := by
    simp [checkFullHouse, hc, Hand.key, noHand, n1, m1, n2, m2, n3, m3, n4, m4, n5, m5, n6, m6]
  have hStraight : (checkStraight (canonCards [a, b, c, d, d] false)).key =
      (-1, []) := by
    apply checkStraight_short
    simp [canonCards, removeDuplicateRanks, n1, m1, n2, m2, n3, m3, n4, m4, n5, m5, n6, m6]
  have hThreeOfAKind : (checkThreeOfAKind (canonCards [a, b, c, d, d] false)).key =
      (-1, []) := by
    simp [checkThreeOfAKind, hc, Hand.key, noHand, n1, m1, n2, m2, n3, m3, n4, m4, n5, m5, n6, m6]
  have hTwoPair : (checkTwoPair (canonCards [a, b, c, d, d] false)).key =
      (-1, []) := by
    simp [checkTwoPair, hc, Hand.key, noHand, n1, m1, n2, m2, n3, m3, n4, m4, n5, m5, n6, m6]
  have hOnePair : (checkOnePair (canonCards [a, b, c, d, d] false)).key =
      (OnePair, [d, a, b, c]) := by
    simp [checkOnePair, hc, Hand.key, noHand, n1, m1, n2, m2, n3, m3, n4, m4, n5, m5, n6, m6, s2]
  have hsp : specStraightTop [a, b, c, d, d] = none := by
    unfold specStraightTop
    rw [s1]
    simp only
    rw [if_neg (by unfold Ace Five Four Three Two; omega), if_neg (by omega)]
  have hspec : specHandRank [a, b, c, d, d] false = (OnePair, [d, a, b, c]) := by
    simp [specHandRank, specRanksOccurring, hsp, s1, n1, m1, n2, m2, n3, m3, n4, m4, n5, m5, n6, m6]
  refine ⟨?_, ?_⟩
  · rw [evaluateSortedCards_noflush_key _ (canonCards_flush a b c d d false), hFourOfAKind,
      hFullHouse, hStraight, hThreeOfAKind, hTwoPair, hOnePair, hspec]
    rfl
  · rw [hspec]
    simp [shapedKey, OnePair]

/-- Sorted ranks made of a single rank, then a single rank, then a pair, then a single rank. -/
theorem entry_abccd (a b c d : Int) (hab : a > b) (hbc : b > c) (hcd : c > d) :
    (evaluateSortedCards (canonCards [a, b, c, c, d] false)).map Hand.key =
        some (specHandRank [a, b, c, c, d] false) ∧
      shapedKey (specHandRank [a, b, c, c, d] false) := by
  have n1 : a ≠ b := by omega
  have m1 : b ≠ a := by omega
  have n2 : a ≠ c := by omega
  have m2 : c ≠ a := by omega
  have n3 : a ≠ d := by omega
  have m3 : d ≠ a := by omega
  have n4 : b ≠ c := by omega
  have m4 : c ≠ b := by omega
  have n5 : b ≠ d := by omega
  have m5 : d ≠ b := by omega
  have n6 : c ≠ d := by omega
  have m6 : d ≠ c := by omega
  have s1 : sortRanksDesc [a, b, c, c, d] = [a, b, c, c, d] :=
    sortRanksDesc_of_chain _
      (by simp only [List.chain'_cons, List.chain'_singleton, and_true]; omega)
  have s2 : sortRanksDesc [a, b, d] = [a, b, d] :=
    sortRanksDesc_of_chain _
      (by simp only [List.chain'_cons, List.chain'_singleton, and_true]; omega)
  have hc : getRankCounts (canonCards [a, b, c, c, d] false) =
      [(a, 1), (b, 1), (c, 2), (d, 1)] := by
    simp [getRankCounts, canonCards, mapIncr, n1, m1, n2, m2, n3, m3, n4, m4, n5, m5, n6, m6]
  have hFourOfAKind : (checkFourOfAKind (canonCards [a, b, c, c, d] false)).key =
      (-1, []) := by
    simp [checkFourOfAKind, hc, Hand.key, noHand, n1, m1, n2, m2, n3, m3, n4, m4, n5, m5, n6, m6]
  have hFullHouse : (checkFullHouse (canonCards [a, b, c, c, d] false)).key =
      (-1, []) := by
    simp [checkFullHouse, hc, Hand.key, noHand, n1, m1, n2, m2, n3, m3, n4, m4, n5, m5, n6, m6]
  have hStraight : (checkStraight (canonCards [a, b, c, c, d] false)).key =
      (-1, []) := by
    apply checkStraight_short
    simp [canonCards, removeDuplicateRanks, n1, m1, n2, m2, n3, m3, n4, m4, n5, m5, n6, m6]
  have hThreeOfAKind : (checkThreeOfAKind (canonCards [a, b, c, c, d] false)).key =
      (-1, []) := by
    simp [checkThreeOfAKind, hc, Hand.key, noHand, n1, m1, n2, m2, n3, m3, n4, m4, n5, m5, n6, m6]
  have hTwoPair : (checkTwoPair (canonCards [a, b, c, c, d] false)).key =
      (-1, []) := by
    simp [checkTwoPair, hc, Hand.key, noHand, n1, m1, n2, m2, n3, m3, n4, m4, n5, m5, n6, m6]
  have hOnePair : (checkOnePair (canonCards [a, b, c, c, d] false)).key =
      (OnePair, [c, a, b, d]) := by
    simp [checkOnePair, hc, Hand.key, noHand, n1, m1, n2, m2, n3, m3, n4, m4, n5, m5, n6, m6, s2]
  have hsp : specStraightTop [a, b, c, c, d] = none := by
    unfold specStraightTop
    rw [s1]
    simp only
    rw [if_neg (by unfold Ace Five Four Three Two; omega), if_neg (by omega)]
  have hspec : specHandRank [a, b, c, c, d] false = (OnePair, [c, a, b, d]) := by
    simp [specHandRank, specRanksOccurring, hsp, s1, n1, m1, n2, m2, n3, m3, n4, m4, n5, m5, n6, m6]
  refine ⟨?_, ?_⟩
  · rw [evaluateSortedCards_noflush_key _ (canonCards_flush a b c c d false), hFourOfAKind,
      hFullHouse, hStraight, hThreeOfAKind, hTwoPair, hOnePair, hspec]
    rfl
  · rw [hspec]
    simp [shapedKey, OnePair]

/-- Sorted ranks made of a single rank, then a single rank, then a triple. -/
theorem entry_abccc (a b c : Int) (hab : a > b) (hbc : b > c) :
    (evaluateSortedCards (canonCards [a, b, c, c, c] false)).map Hand.key =
        some (specHandRank [a, b, c, c, c] false) ∧
      shapedKey (specHandRank [a, b, c, c, c] false) := by
  have n1 : a ≠ b := by omega
  have m1 : b ≠ a := by omega
  have n2 : a ≠ c := by omega
  have m2 : c ≠ a := by omega
  have n3 : b ≠ c := by omega
  have m3 : c ≠ b := by omega
  have s1 : sortRanksDesc [a, b, c, c, c] = [a, b, c, c, c] :=
    sortRanksDesc_of_chain _
      (by simp only [List.chain'_cons, List.chain'_singleton, and_true]; omega)
  have s2 : sortRanksDesc [a, b] = [a, b] :=
    sortRanksDesc_of_chain _
      (by simp only [List.chain'_cons, List.chain'_singleton, and_true]; omega)
  have hc : getRankCounts (canonCards [a, b, c, c, c] false) =
      [(a, 1), (b, 1), (c, 3)] := by
    simp [getRankCounts, canonCards, mapIncr, n1, m1, n2, m2, n3, m3]
  have hFourOfAKind : (checkFourOfAKind (canonCards [a, b, c, c, c] false)).key =
      (-1, []) := by
    simp [checkFourOfAKind, hc, Hand.key, noHand, n1, m1, n2, m2, n3, m3]
  have hFullHouse : (checkFullHouse (canonCards [a, b, c, c, c] false)).key =
      (-1, []) := by
    simp [checkFullHouse, hc, Hand.key, noHand, n1, m1, n2, m2, n3, m3]
  have hStraight : (checkStraight (canonCards [a, b, c, c, c] false)).key =
      (-1, []) := by
    apply checkStraight_short
    simp [canonCards, removeDuplicateRanks, n1, m1, n2, m2, n3, m3]
  have hThreeOfAKind : (checkThreeOfAKind (canonCards [a, b, c, c, c] false)).key =
      (ThreeOfAKind, [c, a, b]) := by
    simp [checkThreeOfAKind, hc, Hand.key, noHand, n1, m1, n2, m2, n3, m3, s2]
  have hsp : specStraightTop [a, b, c, c, c] = none := by
    unfold specStraightTop
    rw [s1]
    simp only
    rw [if_neg (by unfold Ace Five Four Three Two; omega), if_neg (by omega)]
  have hspec : specHandRank [a, b, c, c, c] false = (ThreeOfAKind, [c, a, b]) := by
    simp [specHandRank, specRanksOccurring, hsp, s1, n1, m1, n2, m2, n3, m3]
  refine ⟨?_, ?_⟩
  · rw [evaluateSortedCards_noflush_key _ (canonCards_flush a b c c c false), hFourOfAKind,
      hFullHouse, hStraight, hThreeOfAKind, hspec]
    rfl
  · rw [hspec]
    simp [shapedKey, ThreeOfAKind]

/-- Sorted ranks made of a single rank, then a pair, then a single rank, then a single rank. -/
theorem entry_abbcd (a b c d : Int) (hab : a > b) (hbc : b > c) (hcd : c > d) :
    (evaluateSortedCards (canonCards [a, b, b, c, d] false)).map Hand.key =
        some (specHandRank [a, b, b, c, d] false) ∧
      shapedKey (specHandRank [a, b, b, c, d] false) := by
  have n1 : a ≠ b := by omega
  have m1 : b ≠ a := by omega
  have n2 : a ≠ c := by omega
  have m2 : c ≠ a := by omega
  have n3 : a ≠ d := by omega
  have m3 : d ≠ a := by omega
  have n4 : b ≠ c := by omega
  have m4 : c ≠ b := by omega
  have n5 : b ≠ d := by omega
  have m5 : d ≠ b := by omega
  have n6 : c ≠ d := by omega
  have m6 : d ≠ c := by omega
  have s1 : sortRanksDesc [a, b, b, c, d] = [a, b, b, c, d] :=
    sortRanksDesc_of_chain _
      (by simp only [List.chain'_cons, List.chain'_singleton, and_true]; omega)
  have s2 : sortRanksDesc [a, c, d] = [a, c, d] :=
    sortRanksDesc_of_chain _
      (by simp only [List.chain'_cons, List.chain'_singleton, and_true]; omega)
  have hc : getRankCounts (canonCards [a, b, b, c, d] false) =
      [(a, 1), (b, 2), (c, 1), (d, 1)] := by
    simp [getRankCounts, canonCards, mapIncr, n1, m1, n2, m2, n3, m3, n4, m4, n5, m5, n6, m6]
  have hFourOfAKind : (checkFourOfAKind (canonCards [a, b, b, c, d] false)).key =
      (-1, []) := by
    simp [checkFourOfAKind, hc, Hand.key, noHand, n1, m1, n2, m2, n3, m3, n4, m4, n5, m5, n6, m6]
  have hFullHouse : (checkFullHouse (canonCards [a, b, b, c, d] false)).key =
      (-1, []) := by
    simp [checkFullHouse, hc, Hand.key, noHand, n1, m1, n2, m2, n3, m3, n4, m4, n5, m5, n6, m6]
  have hStraight : (checkStraight (canonCards [a, b, b, c, d] false)).key =
      (-1, []) := by
    apply checkStraight_short
    simp [canonCards, removeDuplicateRanks, n1, m1, n2, m2, n3, m3, n4, m4, n5, m5, n6, m6]
  have hThreeOfAKind : (checkThreeOfAKind (canonCards [a, b, b, c, d] false)).key =
      (-1, []) := by
    simp [checkThreeOfAKind, hc, Hand.key, noHand, n1, m1, n2, m2, n3, m3, n4, m4, n5, m5, n6, m6]
  have hTwoPair : (checkTwoPair (canonCards [a, b, b, c, d] false)).key =
      (-1, []) := by
    simp [checkTwoPair, hc, Hand.key, noHand, n1, m1, n2, m2, n3, m3, n4, m4, n5, m5, n6, m6]
  have hOnePair : (checkOnePair (canonCards [a, b, b, c, d] false)).key =
      (OnePair, [b, a, c, d]) := by
    simp [checkOnePair, hc, Hand.key, noHand, n1, m1, n2, m2, n3, m3, n4, m4, n5, m5, n6, m6, s2]
  have hsp : specStraightTop [a, b, b, c, d] = none := by
    unfold specStraightTop
    rw [s1]
    simp only
    rw [if_neg (by unfold Ace Five Four Three Two; omega), if_neg (by omega)]
  have hspec : specHandRank [a, b, b, c, d] false = (OnePair, [b, a, c, d]) := by
    simp [specHandRank, specRanksOccurring, hsp, s1, n1, m1, n2, m2, n3, m3, n4, m4, n5, m5, n6, m6]
  refine ⟨?_, ?_⟩
  · rw [evaluateSortedCards_noflush_key _ (canonCards_flush a b b c d false), hFourOfAKind,
      hFullHouse, hStraight, hThreeOfAKind, hTwoPair, hOnePair, hspec]
    rfl
  · rw [hspec]
    simp [shapedKey, OnePair]

/-- Sorted ranks made of a single rank, then a pair, then a pair. -/
theorem entry_abbcc (a b c : Int) (hab : a > b) (hbc : b > c) :
    (evaluateSortedCards (canonCards [a, b, b, c, c] false)).map Hand.key =
        some (specHandRank [a, b, b, c, c] false) ∧
      shapedKey (specHandRank [a, b, b, c, c] false) := by
  have n1 : a ≠ b := by omega
  have m1 : b ≠ a := by omega
  have n2 : a ≠ c := by omega
  have m2 : c ≠ a := by omega
  have n3 : b ≠ c := by omega
  have m3 : c ≠ b := by omega
  have s1 : sortRanksDesc [a, b, b, c, c] = [a, b, b, c, c] :=
    sortRanksDesc_of_chain _
      (by simp only [List.chain'_cons, List.chain'_singleton, and_true]; omega)
  have s2 : sortRanksDesc [b, c] = [b, c] :=
    sortRanksDesc_of_chain _
      (by simp only [List.chain'_cons, List.chain'_singleton, and_true]; omega)
  have hc : getRankCounts (canonCards [a, b, b, c, c] false) =
      [(a, 1), (b, 2), (c, 2)] := by
    simp [getRankCounts, canonCards, mapIncr, n1, m1, n2, m2, n3, m3]
  have hFourOfAKind : (checkFourOfAKind (canonCards [a, b, b, c, c] false)).key =
      (-1, []) := by
    simp [checkFourOfAKind, hc, Hand.key, noHand, n1, m1, n2, m2, n3, m3]
  have hFullHouse : (checkFullHouse (canonCards [a, b, b, c, c] false)).key =
      (-1, []) := by
    simp [checkFullHouse, hc, Hand.key, noHand, n1, m1, n2, m2, n3, m3]
  have hStraight : (checkStraight (canonCards [a, b, b, c, c] false)).key =
      (-1, []) := by
    apply checkStraight_short
    simp [canonCards, removeDuplicateRanks, n1, m1, n2, m2, n3, m3]
  have hThreeOfAKind : (checkThreeOfAKind (canonCards [a, b, b, c, c] false)).key =
      (-1, []) := by
    simp [checkThreeOfAKind, hc, Hand.key, noHand, n1, m1, n2, m2, n3, m3]
  have hTwoPair : (checkTwoPair (canonCards [a, b, b, c, c] false)).key =
      (TwoPair, [b, c, a]) := by
    simp [checkTwoPair, hc, Hand.key, noHand, n1, m1, n2, m2, n3, m3, s2]
  have hsp : specStraightTop [a, b, b, c, c] = none := by
    unfold specStraightTop
    rw [s1]
    simp only
    rw [if_neg (by unfold Ace Five Four Three Two; omega), if_neg (by omega)]
  have hspec : specHandRank [a, b, b, c, c] false = (TwoPair, [b, c, a]) := by
    simp [specHandRank, specRanksOccurring, hsp, s1, n1, m1, n2, m2, n3, m3]
  refine ⟨?_, ?_⟩
  · rw [evaluateSortedCards_noflush_key _ (canonCards_flush a b b c c false), hFourOfAKind,
      hFullHouse, hStraight, hThreeOfAKind, hTwoPair, hspec]
    rfl
  · rw [hspec]
    simp [shapedKey, TwoPair]

/-- Sorted ranks made of a single rank, then a triple, then a single rank. -/
theorem entry_abbbc (a b c : Int) (hab : a > b) (hbc : b > c) :
    (evaluateSortedCards (canonCards [a, b, b, b, c] false)).map Hand.key =
        some (specHandRank [a, b, b, b, c] false) ∧
      shapedKey (specHandRank [a, b, b, b, c] false) := by
  have n1 : a ≠ b := by omega
  have m1 : b ≠ a := by omega
  have n2 : a ≠ c := by omega
  have m2 : c ≠ a := by omega
  have n3 : b ≠ c := by omega
  have m3 : c ≠ b := by omega
  have s1 : sortRanksDesc [a, b, b, b, c] = [a, b, b, b, c] :=
    sortRanksDesc_of_chain _
      (by simp only [List.chain'_cons, List.chain'_singleton, and_true]; omega)
  have s2 : sortRanksDesc [a, c] = [a, c] :=
    sortRanksDesc_of_chain _
      (by simp only [List.chain'_cons, List.chain'_singleton, and_true]; omega)
  have hc : getRankCounts (canonCards [a, b, b, b, c] false) =
      [(a, 1), (b, 3), (c, 1)] := by
    simp [getRankCounts, canonCards, mapIncr, n1, m1, n2, m2, n3, m3]
  have hFourOfAKind : (checkFourOfAKind (canonCards [a, b, b, b, c] false)).key =
      (-1, []) := by
    simp [checkFourOfAKind, hc, Hand.key, noHand, n1, m1, n2, m2, n3, m3]
  have hFullHouse : (checkFullHouse (canonCards [a, b, b, b, c] false)).key =
      (-1, []) := by
    simp [checkFullHouse, hc, Hand.key, noHand, n1, m1, n2, m2, n3, m3]
  have hStraight : (checkStraight (canonCards [a, b, b, b, c] false)).key =
      (-1, []) := by
    apply checkStraight_short
    simp [canonCards, removeDuplicateRanks, n1, m1, n2, m2, n3, m3]
  have hThreeOfAKind : (checkThreeOfAKind (canonCards [a, b, b, b, c] false)).key =
      (ThreeOfAKind, [b, a, c]) := by
    simp [checkThreeOfAKind, hc, Hand.key, noHand, n1, m1, n2, m2, n3, m3, s2]
  have hsp : specStraightTop [a, b, b, b, c] = none := by
    unfold specStraightTop
    rw [s1]
    simp only
    rw [if_neg (by unfold Ace Five Four Three Two; omega), if_neg (by omega)]
  have hspec : specHandRank [a, b, b, b, c] false = (ThreeOfAKind, [b, a, c]) := by
    simp [specHandRank, specRanksOccurring, hsp, s1, n1, m1, n2, m2, n3, m3]
  refine ⟨?_, ?_⟩
  · rw [evaluateSortedCards_noflush_key _ (canonCards_flush a b b b c false), hFourOfAKind,
      hFullHouse, hStraight, hThreeOfAKind, hspec]
    rfl
  · rw [hspec]
    simp [shapedKey, ThreeOfAKind]

/-- Sorted ranks made of a single rank, then four of a kind. -/
theorem entry_abbbb (a b : Int) (hab : a > b) :
    (evaluateSortedCards (canonCards [a, b, b, b, b] false)).map Hand.key =
        some (specHandRank [a, b, b, b, b] false) ∧
      shapedKey (specHandRank [a, b, b, b, b] false) := by
  have n1 : a ≠ b := by omega
  have m1 : b ≠ a := by omega
  have s1 : sortRanksDesc [a, b, b, b, b] = [a, b, b, b, b] :=
    sortRanksDesc_of_chain _
      (by simp only [List.chain'_cons, List.chain'_singleton, and_true]; omega)
  have hc : getRankCounts (canonCards [a, b, b, b, b] false) =
      [(a, 1), (b, 4)] := by
    simp [getRankCounts, canonCards, mapIncr, n1, m1]
  have hFourOfAKind : (checkFourOfAKind (canonCards [a, b, b, b, b] false)).key =
      (FourOfAKind, [b, a]) := by
    simp [checkFourOfAKind, hc, Hand.key, noHand, n1, m1]
  have hsp : specStraightTop [a, b, b, b, b] = none := by
    unfold specStraightTop
    rw [s1]
    simp only
    rw [if_neg (by unfold Ace Five Four Three Two; omega), if_neg (by omega)]
  have hspec : specHandRank [a, b, b, b, b] false = (FourOfAKind, [b, a]) := by
    simp [specHandRank, specRanksOccurring, hsp, s1, n1, m1]
  refine ⟨?_, ?_⟩
  · rw [evaluateSortedCards_noflush_key _ (canonCards_flush a b b b b false), hFourOfAKind, hspec]
    rfl
  · rw [hspec]
    simp [shapedKey, FourOfAKind]

/-- Sorted ranks made of a pair, then a single rank, then a single rank, then a single rank. -/
theorem entry_aabcd (a b c d : Int) (hab : a > b) (hbc : b > c) (hcd : c > d) :
    (evaluateSortedCards (canonCards [a, a, b, c, d] false)).map Hand.key =
        some (specHandRank [a, a, b, c, d] false) ∧
      shapedKey (specHandRank [a, a, b, c, d] false) := by
  have n1 : a ≠ b := by omega
  have m1 : b ≠ a := by omega
  have n2 : a ≠ c := by omega
  have m2 : c ≠ a := by omega
  have n3 : a ≠ d := by omega
  have m3 : d ≠ a := by omega
  have n4 : b ≠ c := by omega
  have m4 : c ≠ b := by omega
  have n5 : b ≠ d := by omega
  have m5 : d ≠ b := by omega
  have n6 : c ≠ d := by omega
  have m6 : d ≠ c := by omega
  have s1 : sortRanksDesc [a, a, b, c, d] = [a, a, b, c, d] :=
    sortRanksDesc_of_chain _
      (by simp only [List.chain'_cons, List.chain'_singleton, and_true]; omega)
  have s2 : sortRanksDesc [b, c, d] = [b, c, d] :=
    sortRanksDesc_of_chain _
      (by simp only [List.chain'_cons, List.chain'_singleton, and_true]; omega)
  have hc : getRankCounts (canonCards [a, a, b, c, d] false) =
      [(a, 2), (b, 1), (c, 1), (d, 1)] := by
    simp [getRankCounts, canonCards, mapIncr, n1, m1, n2, m2, n3, m3, n4, m4, n5, m5, n6, m6]
  have hFourOfAKind : (checkFourOfAKind (canonCards [a, a, b, c, d] false)).key =
      (-1, []) := by
    simp [checkFourOfAKind, hc, Hand.key, noHand, n1, m1, n2, m2, n3, m3, n4, m4, n5, m5, n6, m6]
  have hFullHouse : (checkFullHouse (canonCards [a, a, b, c, d] false)).key =
      (-1, []) := by
    simp [checkFullHouse, hc, Hand.key, noHand, n1, m1, n2, m2, n3, m3, n4, m4, n5, m5, n6, m6]
  have hStraight : (checkStraight (canonCards [a, a, b, c, d] false)).key =
      (-1, []) := by
    apply checkStraight_short
    simp [canonCards, removeDuplicateRanks, n1, m1, n2, m2, n3, m3, n4, m4, n5, m5, n6, m6]
  have hThreeOfAKind : (checkThreeOfAKind (canonCards [a, a, b, c, d] false)).key =
      (-1, []) := by
    simp [checkThreeOfAKind, hc, Hand.key, noHand, n1, m1, n2, m2, n3, m3, n4, m4, n5, m5, n6, m6]
  have hTwoPair : (checkTwoPair (canonCards [a, a, b, c, d] false)).key =
      (-1, []) := by
    simp [checkTwoPair, hc, Hand.key, noHand, n1, m1, n2, m2, n3, m3, n4, m4, n5, m5, n6, m6]
  have hOnePair : (checkOnePair (canonCards [a, a, b, c, d] false)).key =
      (OnePair, [a, b, c, d]) := by
    simp [checkOnePair, hc, Hand.key, noHand, n1, m1, n2, m2, n3, m3, n4, m4, n5, m5, n6, m6, s2]
  have hsp : specStraightTop [a, a, b, c, d] = none := by
    unfold specStraightTop
    rw [s1]
    simp only
    rw [if_neg (by unfold Ace Five Four Three Two; omega), if_neg (by omega)]
  have hspec : specHandRank [a, a, b, c, d] false = (OnePair, [a, b, c, d]) := by
    simp [specHandRank, specRanksOccurring, hsp, s1, n1, m1, n2, m2, n3, m3, n4, m4, n5, m5, n6, m6]
  refine ⟨?_, ?_⟩
  · rw [evaluateSortedCards_noflush_key _ (canonCards_flush a a b c d false), hFourOfAKind,
      hFullHouse, hStraight, hThreeOfAKind, hTwoPair, hOnePair, hspec]
    rfl
  · rw [hspec]
    simp [shapedKey, OnePair]

/-- Sorted ranks made of a pair, then a single rank, then a pair. -/
theorem entry_aabcc (a b c : Int) (hab : a > b) (hbc : b > c) :
    (evaluateSortedCards (canonCards [a, a, b, c, c] false)).map Hand.key =
        some (specHandRank [a, a, b, c, c] false) ∧
      shapedKey (specHandRank [a, a, b, c, c] false) := by
  have n1 : a ≠ b := by omega
  have m1 : b ≠ a := by omega
  have n2 : a ≠ c := by omega
  have m2 : c ≠ a := by omega
  have n3 : b ≠ c := by omega
  have m3 : c ≠ b := by omega
  have s1 : sortRanksDesc [a, a, b, c, c] = [a, a, b, c, c] :=
    sortRanksDesc_of_chain _
      (by simp only [List.chain'_cons, List.chain'_singleton, and_true]; omega)
  have s2 : sortRanksDesc [a, c] = [a, c] :=
    sortRanksDesc_of_chain _
      (by simp only [List.chain'_cons, List.chain'_singleton, and_true]; omega)
  have hc : getRankCounts (canonCards [a, a, b, c, c] false) =
      [(a, 2), (b, 1), (c, 2)] := by
    simp [getRankCounts, canonCards, mapIncr, n1, m1, n2, m2, n3, m3]
  have hFourOfAKind : (checkFourOfAKind (canonCards [a, a, b, c, c] false)).key =
      (-1, []) := by
    simp [checkFourOfAKind, hc, Hand.key, noHand, n1, m1, n2, m2, n3, m3]
  have hFullHouse : (checkFullHouse (canonCards [a, a, b, c, c] false)).key =
      (-1, []) := by
    simp [checkFullHouse, hc, Hand.key, noHand, n1, m1, n2, m2, n3, m3]
  have hStraight : (checkStraight (canonCards [a, a, b, c, c] false)).key =
      (-1, []) := by
    apply checkStraight_short
    simp [canonCards, removeDuplicateRanks, n1, m1, n2, m2, n3, m3]
  have hThreeOfAKind : (checkThreeOfAKind (canonCards [a, a, b, c, c] false)).key =
      (-1, []) := by
    simp [checkThreeOfAKind, hc, Hand.key, noHand, n1, m1, n2, m2, n3, m3]
  have hTwoPair : (checkTwoPair (canonCards [a, a, b, c, c] false)).key =
      (TwoPair, [a, c, b]) := by
    simp [checkTwoPair, hc, Hand.key, noHand, n1, m1, n2, m2, n3, m3, s2]
  have hsp : specStraightTop [a, a, b, c, c] = none := by
    unfold specStraightTop
    rw [s1]
    simp only
    rw [if_neg (by unfold Ace Five Four Three Two; omega), if_neg (by omega)]
  have hspec : specHandRank [a, a, b, c, c] false = (TwoPair, [a, c, b]) := by
    simp [specHandRank, specRanksOccurring, hsp, s1, n1, m1, n2, m2, n3, m3]
  refine ⟨?_, ?_⟩
  · rw [evaluateSortedCards_noflush_key _ (canonCards_flush a a b c c false), hFourOfAKind,
      hFullHouse, hStraight, hThreeOfAKind, hTwoPair, hspec]
    rfl
  · rw [hspec]
    simp [shapedKey, TwoPair]

/-- Sorted ranks made of a pair, then a pair, then a single rank. -/
theorem entry_aabbc (a b c : Int) (hab : a > b) (hbc : b > c) :
    (evaluateSortedCards (canonCards [a, a, b, b, c] false)).map Hand.key =
        some (specHandRank [a, a, b, b, c] false) ∧
      shapedKey (specHandRank [a, a, b, b, c] false) := by
  have n1 : a ≠ b := by omega
  have m1 : b ≠ a := by omega
  have n2 : a ≠ c := by omega
  have m2 : c ≠ a := by omega
  have n3 : b ≠ c := by omega
  have m3 : c ≠ b := by omega
  have s1 : sortRanksDesc [a, a, b, b, c] = [a, a, b, b, c] :=
    sortRanksDesc_of_chain _
      (by simp only [List.chain'_cons, List.chain'_singleton, and_true]; omega)
  have s2 : sortRanksDesc [a, b] = [a, b] :=
    sortRanksDesc_of_chain _
      (by simp only [List.chain'_cons, List.chain'_singleton, and_true]; omega)
  have hc : getRankCounts (canonCards [a, a, b, b, c] false) =
      [(a, 2), (b, 2), (c, 1)] := by
    simp [getRankCounts, canonCards, mapIncr, n1, m1, n2, m2, n3, m3]
  have hFourOfAKind : (checkFourOfAKind (canonCards [a, a, b, b, c] false)).key =
      (-1, []) := by
    simp [checkFourOfAKind, hc, Hand.key, noHand, n1, m1, n2, m2, n3, m3]
  have hFullHouse : (checkFullHouse (canonCards [a, a, b, b, c] false)).key =
      (-1, []) := by
    simp [checkFullHouse, hc, Hand.key, noHand, n1, m1, n2, m2, n3, m3]
  have hStraight : (checkStraight (canonCards [a, a, b, b, c] false)).key =
      (-1, []) := by
    apply checkStraight_short
    simp [canonCards, removeDuplicateRanks, n1, m1, n2, m2, n3, m3]
  have hThreeOfAKind : (checkThreeOfAKind (canonCards [a, a, b, b, c] false)).key =
      (-1, []) := by
    simp [checkThreeOfAKind, hc, Hand.key, noHand, n1, m1, n2, m2, n3, m3]
  have hTwoPair : (checkTwoPair (canonCards [a, a, b, b, c] false)).key =
      (TwoPair, [a, b, c]) := by
    simp [checkTwoPair, hc, Hand.key, noHand, n1, m1, n2, m2, n3, m3, s2]
  have hsp : specStraightTop [a, a, b, b, c] = none := by
    unfold specStraightTop
    rw [s1]
    simp only
    rw [if_neg (by unfold Ace Five Four Three Two; omega), if_neg (by omega)]
  have hspec : specHandRank [a, a, b, b, c] false = (TwoPair, [a, b, c]) := by
    simp [specHandRank, specRanksOccurring, hsp, s1, n1, m1, n2, m2, n3, m3]
  refine ⟨?_, ?_⟩
  · rw [evaluateSortedCards_noflush_key _ (canonCards_flush a a b b c false), hFourOfAKind,
      hFullHouse, hStraight, hThreeOfAKind, hTwoPair, hspec]
    rfl
  · rw [hspec]
    simp [shapedKey, TwoPair]

/-- Sorted ranks made of a pair, then a triple. -/
theorem entry_aabbb (a b : Int) (hab : a > b) :
    (evaluateSortedCards (canonCards [a, a, b, b, b] false)).map Hand.key =
        some (specHandRank [a, a, b, b, b] false) ∧
      shapedKey (specHandRank [a, a, b, b, b] false) := by
  have n1 : a ≠ b := by omega
  have m1 : b ≠ a := by omega
  have s1 : sortRanksDesc [a, a, b, b, b] = [a, a, b, b, b] :=
    sortRanksDesc_of_chain _
      (by simp only [List.chain'_cons, List.chain'_singleton, and_true]; omega)
  have hc : getRankCounts (canonCards [a, a, b, b, b] false) =
      [(a, 2), (b, 3)] := by
    simp [getRankCounts, canonCards, mapIncr, n1, m1]
  have hFourOfAKind : (checkFourOfAKind (canonCards [a, a, b, b, b] false)).key =
      (-1, []) := by
    simp [checkFourOfAKind, hc, Hand.key, noHand, n1, m1]
  have hFullHouse : (checkFullHouse (canonCards [a, a, b, b, b] false)).key =
      (FullHouse, [b, a]) := by
    simp [checkFullHouse, hc, Hand.key, noHand, n1, m1]
  have hsp : specStraightTop [a, a, b, b, b] = none := by
    unfold specStraightTop
    rw [s1]
    simp only
    rw [if_neg (by unfold Ace Five Four Three Two; omega), if_neg (by omega)]
  have hspec : specHandRank [a, a, b, b, b] false = (FullHouse, [b, a]) := by
    simp [specHandRank, specRanksOccurring, hsp, s1, n1, m1]
  refine ⟨?_, ?_⟩
  · rw [evaluateSortedCards_noflush_key _ (canonCards_flush a a b b b false), hFourOfAKind,
      hFullHouse, hspec]
    rfl
  · rw [hspec]
    simp [shapedKey, FullHouse]

/-- Sorted ranks made of a triple, then a single rank, then a single rank. -/
theorem entry_aaabc (a b c : Int) (hab : a > b) (hbc : b > c) :
    (evaluateSortedCards (canonCards [a, a, a, b, c] false)).map Hand.key =
        some (specHandRank [a, a, a, b, c] false) ∧
      shapedKey (specHandRank [a, a, a, b, c] false) := by
  have n1 : a ≠ b := by omega
  have m1 : b ≠ a := by omega
  have n2 : a ≠ c := by omega
  have m2 : c ≠ a := by omega
  have n3 : b ≠ c := by omega
  have m3 : c ≠ b := by omega
  have s1 : sortRanksDesc [a, a, a, b, c] = [a, a, a, b, c] :=
    sortRanksDesc_of_chain _
      (by simp only [List.chain'_cons, List.chain'_singleton, and_true]; omega)
  have s2 : sortRanksDesc [b, c] = [b, c] :=
    sortRanksDesc_of_chain _
      (by simp only [List.chain'_cons, List.chain'_singleton, and_true]; omega)
  have hc : getRankCounts (canonCards [a, a, a, b, c] false) =
      [(a, 3), (b, 1), (c, 1)] := by
    simp [getRankCounts, canonCards, mapIncr, n1, m1, n2, m2, n3, m3]
  have hFourOfAKind : (checkFourOfAKind (canonCards [a, a, a, b, c] false)).key =
      (-1, []) := by
    simp [checkFourOfAKind, hc, Hand.key, noHand, n1, m1, n2, m2, n3, m3]
  have hFullHouse : (checkFullHouse (canonCards [a, a, a, b, c] false)).key =
      (-1, []) := by
    simp [checkFullHouse, hc, Hand.key, noHand, n1, m1, n2, m2, n3, m3]
  have hStraight : (checkStraight (canonCards [a, a, a, b, c] false)).key =
      (-1, []) := by
    apply checkStraight_short
    simp [canonCards, removeDuplicateRanks, n1, m1, n2, m2, n3, m3]
  have hThreeOfAKind : (checkThreeOfAKind (canonCards [a, a, a, b, c] false)).key =
      (ThreeOfAKind, [a, b, c]) := by
    simp [checkThreeOfAKind, hc, Hand.key, noHand, n1, m1, n2, m2, n3, m3, s2]
  have hsp : specStraightTop [a, a, a, b, c] = none := by
    unfold specStraightTop
    rw [s1]
    simp only
    rw [if_neg (by unfold Ace Five Four Three Two; omega), if_neg (by omega)]
  have hspec : specHandRank [a, a, a, b, c] false = (ThreeOfAKind, [a, b, c]) := by
    simp [specHandRank, specRanksOccurring, hsp, s1, n1, m1, n2, m2, n3, m3]
  refine ⟨?_, ?_⟩
  · rw [evaluateSortedCards_noflush_key _ (canonCards_flush a a a b c false), hFourOfAKind,
      hFullHouse, hStraight, hThreeOfAKind, hspec]
    rfl
  · rw [hspec]
    simp [shapedKey, ThreeOfAKind]

/-- Sorted ranks made of a triple, then a pair. -/
theorem entry_aaabb (a b : Int) (hab : a > b) :
    (evaluateSortedCards (canonCards [a, a, a, b, b] false)).map Hand.key =
        some (specHandRank [a, a, a, b, b] false) ∧
      shapedKey (specHandRank [a, a, a, b, b] false) := by
  have n1 : a ≠ b := by omega
  have m1 : b ≠ a := by omega
  have s1 : sortRanksDesc [a, a, a, b, b] = [a, a, a, b, b] :=
    sortRanksDesc_of_chain _
      (by simp only [List.chain'_cons, List.chain'_singleton, and_true]; omega)
  have hc : getRankCounts (canonCards [a, a, a, b, b] false) =
      [(a, 3), (b, 2)] := by
    simp [getRankCounts, canonCards, mapIncr, n1, m1]
  have hFourOfAKind : (checkFourOfAKind (canonCards [a, a, a, b, b] false)).key =
      (-1, []) := by
    simp [checkFourOfAKind, hc, Hand.key, noHand, n1, m1]
  have hFullHouse : (checkFullHouse (canonCards [a, a, a, b, b] false)).key =
      (FullHouse, [a, b]) := by
    simp [checkFullHouse, hc, Hand.key, noHand, n1, m1]
  have hsp : specStraightTop [a, a, a, b, b] = none := by
    unfold specStraightTop
    rw [s1]
    simp only
    rw [if_neg (by unfold Ace Five Four Three Two; omega), if_neg (by omega)]
  have hspec : specHandRank [a, a, a, b, b] false = (FullHouse, [a, b]) := by
    simp [specHandRank, specRanksOccurring, hsp, s1, n1, m1]
  refine ⟨?_, ?_⟩
  · rw [evaluateSortedCards_noflush_key _ (canonCards_flush a a a b b false), hFourOfAKind,
      hFullHouse, hspec]
    rfl
  · rw [hspec]
    simp [shapedKey, FullHouse]

/-- Sorted ranks made of four of a kind, then a single rank. -/
theorem entry_aaaab (a b : Int) (hab : a > b) :
    (evaluateSortedCards (canonCards [a, a, a, a, b] false)).map Hand.key =
        some (specHandRank [a, a, a, a, b] false) ∧
      shapedKey (specHandRank [a, a, a, a, b] false) := by
  have n1 : a ≠ b := by omega
  have m1 : b ≠ a := by omega
  have s1 : sortRanksDesc [a, a, a, a, b] = [a, a, a, a, b] :=
    sortRanksDesc_of_chain _
      (by simp only [List.chain'_cons, List.chain'_singleton, and_true]; omega)
  have hc : getRankCounts (canonCards [a, a, a, a, b] false) =
      [(a, 4), (b, 1)] := by
    simp [getRankCounts, canonCards, mapIncr, n1, m1]
  have hFourOfAKind : (checkFourOfAKind (canonCards [a, a, a, a, b] false)).key =
      (FourOfAKind, [a, b]) := by
    simp [checkFourOfAKind, hc, Hand.key, noHand, n1, m1]
  have hsp : specStraightTop [a, a, a, a, b] = none := by
    unfold specStraightTop
    rw [s1]
    simp only
    rw [if_neg (by unfold Ace Five Four Three Two; omega), if_neg (by omega)]
  have hspec : specHandRank [a, a, a, a, b] false = (FourOfAKind, [a, b]) := by
    simp [specHandRank, specRanksOccurring, hsp, s1, n1, m1]
  refine ⟨?_, ?_⟩
  · rw [evaluateSortedCards_noflush_key _ (canonCards_flush a a a a b false), hFourOfAKind, hspec]
    rfl
  · rw [hspec]
    simp [shapedKey, FourOfAKind]

/-- Sorted ranks made of five equal ranks. -/
theorem entry_aaaaa (a : Int) :
    (evaluateSortedCards (canonCards [a, a, a, a, a] false)).map Hand.key =
        some (specHandRank [a, a, a, a, a] false) ∧
      shapedKey (specHandRank [a, a, a, a, a] false) := by
  have s1 : sortRanksDesc [a, a, a, a, a] = [a, a, a, a, a] :=
    sortRanksDesc_of_chain _
      (by simp only [List.chain'_cons, List.chain'_singleton, and_true]; omega)
  have hc : getRankCounts (canonCards [a, a, a, a, a] false) =
      [(a, 5)] := by
    simp [getRankCounts, canonCards, mapIncr]
  have hFourOfAKind : (checkFourOfAKind (canonCards [a, a, a, a, a] false)).key =
      (-1, []) := by
    simp [checkFourOfAKind, hc, Hand.key, noHand]
  have hFullHouse : (checkFullHouse (canonCards [a, a, a, a, a] false)).key =
      (-1, []) := by
    simp [checkFullHouse, hc, Hand.key, noHand]
  have hStraight : (checkStraight (canonCards [a, a, a, a, a] false)).key =
      (-1, []) := by
    apply checkStraight_short
    simp [canonCards, removeDuplicateRanks]
  have hThreeOfAKind : (checkThreeOfAKind (canonCards [a, a, a, a, a] false)).key =
      (-1, []) := by
    simp [checkThreeOfAKind, hc, Hand.key, noHand]
  have hTwoPair : (checkTwoPair (canonCards [a, a, a, a, a] false)).key =
      (-1, []) := by
    simp [checkTwoPair, hc, Hand.key, noHand]
  have hOnePair : (checkOnePair (canonCards [a, a, a, a, a] false)).key =
      (-1, []) := by
    simp [checkOnePair, hc, Hand.key, noHand]
  have hHighCard : (checkHighCard (canonCards [a, a, a, a, a] false)).key =
      (HighCard, [a, a, a, a, a]) := by
    simp [checkHighCard, canonCards, Hand.key, s1]
  have hsp : specStraightTop [a, a, a, a, a] = none := by
    unfold specStraightTop
    rw [s1]
    simp only
    rw [if_neg (by unfold Ace Five Four Three Two; omega), if_neg (by omega)]
  have hspec : specHandRank [a, a, a, a, a] false = (HighCard, [a, a, a, a, a]) := by
    simp [specHandRank, specRanksOccurring, hsp, s1]
  refine ⟨?_, ?_⟩
  · rw [evaluateSortedCards_noflush_key _ (canonCards_flush a a a a a false), hFourOfAKind,
      hFullHouse, hStraight, hThreeOfAKind, hTwoPair, hOnePair, hHighCard, hspec]
    rfl
  · rw [hspec]
    simp [shapedKey, HighCard]

/-! ## Five different ranks -/

theorem isConsecutive_five (a b c d e : Int) (hab : a > b) (hbc : b > c) (hcd : c > d)
    (hde : d > e) (hlo : 2 ≤ e) (hhi : a ≤ 14) :
    isConsecutive [a, b, c, d, e] =
      decide (a = b + 1 ∧ b = c + 1 ∧ c = d + 1 ∧ d = e + 1) := by
  simp only [isConsecutive, wrapInt_small (a - b) (by omega) (by omega),
    wrapInt_small (b - c) (by omega) (by omega), wrapInt_small (c - d) (by omega) (by omega),
    wrapInt_small (d - e) (by omega) (by omega)]
  by_cases h1 : a = b + 1
  · by_cases h2 : b = c + 1
    · by_cases h3 : c = d + 1
      · by_cases h4 : d = e + 1
        · rw [if_neg (by omega), if_neg (by omega), if_neg (by omega), if_neg (by omega)]
          exact (decide_eq_true ⟨h1, h2, h3, h4⟩).symm
        · rw [if_neg (by omega), if_neg (by omega), if_neg (by omega), if_pos (by omega)]
          exact (decide_eq_false (fun h => h4 h.2.2.2)).symm
      · rw [if_neg (by omega), if_neg (by omega), if_pos (by omega)]
        exact (decide_eq_false (fun h => h3 h.2.2.1)).symm
    · rw [if_neg (by omega), if_pos (by omega)]
      exact (decide_eq_false (fun h => h2 h.2.1)).symm
  · rw [if_pos (by omega)]
    exact (decide_eq_false (fun h => h1 h.1)).symm

theorem containsRanks_five (a b c d e : Int) (hab : a > b) (hbc : b > c) (hcd : c > d)
    (hde : d > e) :
    containsRanks [a, b, c, d, e] [Ace, Five, Four, Three, Two] =
      decide (a = 14 ∧ b = 5 ∧ c = 4 ∧ d = 3 ∧ e = 2) := by
  rw [Bool.eq_iff_iff]
  simp only [containsRanks, Ace, Five, Four, Three, Two, List.elem_eq_mem, List.mem_cons,
    List.mem_singleton, Bool.decide_or, List.all_cons, List.all_nil, Bool.and_true,
    Bool.and_eq_true, Bool.or_eq_true, decide_eq_true_eq, Bool.decide_and, List.not_mem_nil,
    or_false]
  constructor
  · intro h
    omega
  · rintro ⟨rfl, rfl, rfl, rfl, rfl⟩
    decide

/-- With five cards of one suit, no straight, no four of a kind and no full house, the
chain of checks returns the flush. -/
theorem evaluateSortedCards_flush_key (cards : Cards) (fl : Hand)
    (hfl : checkFlush cards = some fl) (ht : fl.Typ = Flush)
    (hst : (checkStraight cards).key = (-1, []))
    (h4 : (checkFourOfAKind cards).key = (-1, []))
    (hfh : (checkFullHouse cards).key = (-1, [])) :
    (evaluateSortedCards cards).map Hand.key = some fl.key := by
  have hst1 : (checkStraight cards).Typ = -1 := congrArg Prod.fst hst
  have h41 : (checkFourOfAKind cards).Typ = -1 := congrArg Prod.fst h4
  have hfh1 : (checkFullHouse cards).Typ = -1 := congrArg Prod.fst hfh
  have hsf : checkStraightFlush cards = some noHand := by
    unfold checkStraightFlush
    rw [hfl, Option.map_some', if_pos ht]
    simp only [hst1]
    rfl
  have hr : checkRoyalFlush cards = some noHand := by
    unfold checkRoyalFlush
    rw [hsf]
    rfl
  unfold evaluateSortedCards
  rw [hr, hsf, hfl]
  simp only [Option.some_bind, h41, hfh1, ht]
  rfl

/-- Five different ranks in descending order. -/
theorem entry_abcde (a b c d e : Int) (flush : Bool) (hab : a > b) (hbc : b > c)
    (hcd : c > d) (hde : d > e) (hlo : 2 ≤ e) (hhi : a ≤ 14) :
    (evaluateSortedCards (canonCards [a, b, c, d, e] flush)).map Hand.key =
        some (specHandRank [a, b, c, d, e] flush) ∧
      shapedKey (specHandRank [a, b, c, d, e] flush) := by
  by_cases hwheel : a = 14 ∧ b = 5 ∧ c = 4 ∧ d = 3 ∧ e = 2
  · obtain ⟨rfl, rfl, rfl, rfl, rfl⟩ := hwheel
    cases flush <;> decide
  by_cases hcons : a = b + 1 ∧ b = c + 1 ∧ c = d + 1 ∧ d = e + 1
  · obtain ⟨rfl, rfl, rfl, rfl⟩ := hcons
    have he : e = 2 ∨ e = 3 ∨ e = 4 ∨ e = 5 ∨ e = 6 ∨ e = 7 ∨ e = 8 ∨ e = 9 ∨ e = 10 := by
      omega
    rcases he with rfl | rfl | rfl | rfl | rfl | rfl | rfl | rfl | rfl <;> cases flush <;> decide
  have n1 : a ≠ b := by omega
  have m1 : b ≠ a := by omega
  have n2 : a ≠ c := by omega
  have m2 : c ≠ a := by omega
  have n3 : a ≠ d := by omega
  have m3 : d ≠ a := by omega
  have n4 : a ≠ e := by omega
  have m4 : e ≠ a := by omega
  have n5 : b ≠ c := by omega
  have m5 : c ≠ b := by omega
  have n6 : b ≠ d := by omega
  have m6 : d ≠ b := by omega
  have n7 : b ≠ e := by omega
  have m7 : e ≠ b := by omega
  have n8 : c ≠ d := by omega
  have m8 : d ≠ c := by omega
  have n9 : c ≠ e := by omega
  have m9 : e ≠ c := by omega
  have n10 : d ≠ e := by omega
  have m10 : e ≠ d := by omega
  have s1 : sortRanksDesc [a, b, c, d, e] = [a, b, c, d, e] :=
    sortRanksDesc_of_chain _
      (by simp only [List.chain'_cons, List.chain'_singleton, and_true]; omega)
  have hc : getRankCounts (canonCards [a, b, c, d, e] flush) =
      [(a, 1), (b, 1), (c, 1), (d, 1), (e, 1)] := by
    simp [getRankCounts, canonCards, mapIncr, n1, m1, n2, m2, n3, m3, n4, m4, n5, m5, n6, m6,
      n7, m7, n8, m8, n9, m9, n10, m10]
  have hFourOfAKind : (checkFourOfAKind (canonCards [a, b, c, d, e] flush)).key = (-1, []) := by
    simp [checkFourOfAKind, hc, Hand.key, noHand]
  have hFullHouse : (checkFullHouse (canonCards [a, b, c, d, e] flush)).key = (-1, []) := by
    simp [checkFullHouse, hc, Hand.key, noHand]
  have hunique : removeDuplicateRanks [a, b, c, d, e] = [a, b, c, d, e] := by
    simp [removeDuplicateRanks, n1, m1, n2, m2, n3, m3, n4, m4, n5, m5, n6, m6,
      n7, m7, n8, m8, n9, m9, n10, m10]
  have hStraight : (checkStraight (canonCards [a, b, c, d, e] flush)).key = (-1, []) := by
    unfold checkStraight
    simp only [canonCards_ranks, hunique, s1]
    have hw : straightWindow [a, b, c, d, e] = none := by
      simp [straightWindow, isConsecutive_five a b c d e hab hbc hcd hde hlo hhi, hcons]
    rw [hw, containsRanks_five a b c d e hab hbc hcd hde, decide_eq_false hwheel]
    rfl
  have hsp : specStraightTop [a, b, c, d, e] = none := by
    unfold specStraightTop
    rw [s1]
    simp only
    rw [if_neg (by unfold Ace Five Four Three Two; exact hwheel), if_neg hcons]
  cases flush with
  | false =>
    have hThreeOfAKind : (checkThreeOfAKind (canonCards [a, b, c, d, e] false)).key = (-1, []) := by
      simp [checkThreeOfAKind, hc, Hand.key, noHand]
    have hTwoPair : (checkTwoPair (canonCards [a, b, c, d, e] false)).key = (-1, []) := by
      simp [checkTwoPair, hc, Hand.key, noHand]
    have hOnePair : (checkOnePair (canonCards [a, b, c, d, e] false)).key = (-1, []) := by
      simp [checkOnePair, hc, Hand.key, noHand]
    have hHighCard : (checkHighCard (canonCards [a, b, c, d, e] false)).key =
        (HighCard, [a, b, c, d, e]) := by
      simp [checkHighCard, canonCards, Hand.key, s1]
    have hspec : specHandRank [a, b, c, d, e] false = (HighCard, [a, b, c, d, e]) := by
      simp [specHandRank, specRanksOccurring, hsp, s1, n1, m1, n2, m2, n3, m3, n4, m4, n5, m5,
        n6, m6, n7, m7, n8, m8, n9, m9, n10, m10]
    refine ⟨?_, ?_⟩
    · rw [evaluateSortedCards_noflush_key _ (canonCards_flush a b c d e false), hFourOfAKind,
        hFullHouse, hStraight, hThreeOfAKind, hTwoPair, hOnePair, hHighCard, hspec]
      rfl
    · rw [hspec]
      simp [shapedKey, HighCard]
  | true =>
    have hfl : checkFlush (canonCards [a, b, c, d, e] true) =
        some { Cards := canonCards [a, b, c, d, e] true, Typ := Flush,
               Ranks := [a, b, c, d, e] } := by
      unfold checkFlush
      rw [canonCards_flush, if_pos rfl]
      simp [writeRanks, canonCards, s1]
    have hspec : specHandRank [a, b, c, d, e] true = (Flush, [a, b, c, d, e]) := by
      simp [specHandRank, specRanksOccurring, hsp, s1, n1, m1, n2, m2, n3, m3, n4, m4, n5, m5,
        n6, m6, n7, m7, n8, m8, n9, m9, n10, m10]
    refine ⟨?_, ?_⟩
    · rw [evaluateSortedCards_flush_key _ _ hfl rfl hStraight hFourOfAKind hFullHouse, hspec]
      rfl
    · rw [hspec]
      simp [shapedKey, Flush]

/-! ## Every sorted five-card input -/

/-- Five ranks in descending order, no five cards of one suit. -/
theorem entry_sorted (a b c d e : Int) (hab : a ≥ b) (hbc : b ≥ c) (hcd : c ≥ d) (hde : d ≥ e)
    (hlo : 2 ≤ e) (hhi : a ≤ 14) :
    (evaluateSortedCards (canonCards [a, b, c, d, e] false)).map Hand.key =
        some (specHandRank [a, b, c, d, e] false) ∧
      shapedKey (specHandRank [a, b, c, d, e] false) := by
  have c1 : a = b ∨ a > b := by omega
  have c2 : b = c ∨ b > c := by omega
  have c3 : c = d ∨ c > d := by omega
  have c4 : d = e ∨ d > e := by omega
  rcases c1 with rfl | c1 <;> rcases c2 with rfl | c2 <;> rcases c3 with rfl | c3 <;>
    rcases c4 with rfl | c4
  · exact entry_aaaaa _
  · exact entry_aaaab _ _ c4
  · exact entry_aaabb _ _ c3
  · exact entry_aaabc _ _ _ c3 c4
  · exact entry_aabbb _ _ c2
  · exact entry_aabbc _ _ _ c2 c4
  · exact entry_aabcc _ _ _ c2 c3
  · exact entry_aabcd _ _ _ _ c2 c3 c4
  · exact entry_abbbb _ _ c1
  · exact entry_abbbc _ _ _ c1 c4
  · exact entry_abbcc _ _ _ c1 c3
  · exact entry_abbcd _ _ _ _ c1 c3 c4
  · exact entry_abccc _ _ _ c1 c2
  · exact entry_abccd _ _ _ _ c1 c2 c4
  · exact entry_abcdd _ _ _ _ c1 c2 c3
  · exact entry_abcde _ _ _ _ _ false c1 c2 c3 c4 hlo hhi

/-! ## The specification reads the ranks as a multiset -/

theorem sortRanksDesc_idem (ranks : List Int) :
    sortRanksDesc (sortRanksDesc ranks) = sortRanksDesc ranks :=
  List.Sorted.insertionSort_eq (sortRanksDesc_sorted ranks)

theorem sortRanksDesc_congr {r1 r2 : List Int} (h : List.Perm r1 r2) :
    sortRanksDesc r1 = sortRanksDesc r2 :=
  eq_of_perm_of_desc (((sortRanksDesc_perm r1).trans h).trans (sortRanksDesc_perm r2).symm)
    (sortRanksDesc_sorted r1) (sortRanksDesc_sorted r2)

theorem specRanksOccurring_congr (n : Nat) {r1 r2 : List Int} (h : List.Perm r1 r2) :
    specRanksOccurring n r1 = specRanksOccurring n r2 := by
  unfold specRanksOccurring
  rw [sortRanksDesc_congr h]
  congr 1
  funext r
  rw [h.count_eq]

theorem specStraightTop_congr {r1 r2 : List Int} (h : List.Perm r1 r2) :
    specStraightTop r1 = specStraightTop r2 := by
  unfold specStraightTop
  rw [sortRanksDesc_congr h]

theorem specHandRank_congr {r1 r2 : List Int} (h : List.Perm r1 r2) (flush : Bool) :
    specHandRank r1 flush = specHandRank r2 flush := by
  unfold specHandRank
  rw [specStraightTop_congr h, sortRanksDesc_congr h, specRanksOccurring_congr 4 h,
    specRanksOccurring_congr 3 h, specRanksOccurring_congr 2 h, specRanksOccurring_congr 1 h]

/-! ## Distinct cards of one suit have distinct ranks -/

theorem ranks_nodup_of_flush (cards : List Card) (hlen : cards.length = 5)
    (hnd : cards.Nodup) (hfl : specIsFlush cards = true) :
    (cards.map (fun card => card.Rank)).Nodup := by
  obtain ⟨c1, c2, c3, c4, c5, rfl⟩ := length_five cards hlen
  simp only [specIsFlush, List.all_cons, List.all_nil, Bool.and_true, Bool.and_eq_true,
    decide_eq_true_eq] at hfl
  obtain ⟨h2, h3, h4, h5⟩ := hfl
  have hs : ∀ x ∈ [c1, c2, c3, c4, c5], x.Suit = c1.Suit := by
    intro x hx
    simp only [List.mem_cons, List.mem_singleton, List.not_mem_nil, or_false] at hx
    rcases hx with rfl | rfl | rfl | rfl | rfl
    · rfl
    · exact h2
    · exact h3
    · exact h4
    · exact h5
  apply List.Nodup.map_on _ hnd
  intro x hx y hy hxy
  have e1 := hs x hx
  have e2 := hs y hy
  cases x; cases y
  simp only [Card.mk.injEq]
  simp only at e1 e2 hxy
  exact ⟨by rw [e1, e2], hxy⟩

/-- The five-card evaluation returns the hand rank of the specification, and that
hand rank has at most two tiebreak ranks from FourOfAKind upwards. -/
theorem evaluateFiveCards_spec (cards : List Card) (hlen : cards.length = 5)
    (hvalid : ∀ c ∈ cards, c.valid) (hnd : cards.Nodup) :
    (evaluateFiveCards cards).map Hand.key =
        some (specHandRank (cards.map (fun card => card.Rank)) (specIsFlush cards)) ∧
      shapedKey (specHandRank (cards.map (fun card => card.Rank)) (specIsFlush cards)) := by
  have hperm := sortRanksDesc_perm (cards.map (fun card => card.Rank))
  have hl : (sortRanksDesc (cards.map (fun card => card.Rank))).length = 5 := by
    rw [hperm.length_eq, List.length_map, hlen]
  have hrange : ∀ x ∈ sortRanksDesc (cards.map (fun card => card.Rank)), 2 ≤ x ∧ x ≤ 14 := by
    intro x hx
    obtain ⟨c, hc, rfl⟩ := List.mem_map.mp (hperm.mem_iff.mp hx)
    have := hvalid c hc
    unfold Card.valid at this
    exact ⟨this.1, this.2.1⟩
  have hsorted := sortRanksDesc_sorted (cards.map (fun card => card.Rank))
  rw [evaluateFiveCards_canon cards hlen, specHandRank_congr hperm.symm]
  obtain ⟨a, b, c, d, e, hs⟩ := length_five _ hl
  rw [hs] at hsorted hrange hperm ⊢
  simp only [List.pairwise_cons, List.mem_cons, List.mem_singleton, List.not_mem_nil, or_false,
    forall_eq_or_imp, forall_eq, IsEmpty.forall_iff, implies_true, List.Pairwise.nil,
    and_true] at hsorted
  have ha := hrange a (by simp)
  have he := hrange e (by simp)
  cases hfl : specIsFlush cards with
  | false =>
    exact entry_sorted a b c d e (by omega) (by omega) (by omega) (by omega) he.1 ha.2
  | true =>
    have hnr := hperm.nodup_iff.mpr (ranks_nodup_of_flush cards hlen hnd hfl)
    simp only [List.nodup_cons, List.mem_cons, List.mem_singleton, List.not_mem_nil, or_false,
      not_or, not_false_eq_true, List.nodup_nil, and_true] at hnr
    exact entry_abcde a b c d e true (by omega) (by omega) (by omega) (by omega) he.1 ha.2

/-! ## The value of a five-card evaluation -/

theorem getHandValue_key (h : Hand) : getHandValue h = keyValue h.key := rfl

/-- The weighted sum of at most six ranks, and of at most two ranks. -/
theorem specRankSum_le (ranks : List Int) (hr : ∀ r ∈ ranks, 0 ≤ r ∧ r ≤ 14) :
    (ranks.length ≤ 6 → specRankSum 0 ranks ≤ 3429986) ∧
      (ranks.length ≤ 2 → specRankSum 0 ranks ≤ 2100000) := by
  rcases ranks with _ | ⟨r1, _ | ⟨r2, _ | ⟨r3, _ | ⟨r4, _ | ⟨r5, _ | ⟨r6, _ | ⟨r7, rest⟩⟩⟩⟩⟩⟩⟩
  all_goals
    simp only [List.mem_cons, List.mem_singleton, List.not_mem_nil, or_false, forall_eq_or_imp,
      forall_eq, IsEmpty.forall_iff, implies_true, and_true] at hr
    simp only [specRankSum, List.length_cons, List.length_nil]
    norm_num
    try omega

/-- The evaluation of five pairwise distinct cards of the deck is the Royal Flush or
is valued below it. -/
theorem five_royal_or_below (five : List Card) (hlen : five.length = 5)
    (hvalid : ∀ c ∈ five, c.valid) (hnd : five.Nodup) (h5 : Hand)
    (he : evaluateFiveCards five = some h5) :
    h5.key = (RoyalFlush, [Ace]) ∨ getHandValue h5 < 10400000 := by
  obtain ⟨hkey, hshape⟩ := evaluateFiveCards_spec five hlen hvalid hnd
  rw [he, Option.map_some', Option.some.injEq] at hkey
  rw [← hkey] at hshape
  have hb := evaluateFiveCards_bounded five hvalid (le_of_eq hlen) h5 he
  have hval := (getHandValue_eq_spec h5 hb).1
  obtain ⟨h0, h9, hl6, hr⟩ := hb
  obtain ⟨hs6, hs2⟩ := specRankSum_le h5.Ranks hr
  have hs6 := hs6 hl6
  unfold specHandValue at hval
  unfold shapedKey Hand.key at hshape
  simp only at hshape
  by_cases h7 : 7 ≤ h5.Typ
  · have hs2 := hs2 (hshape.1 h7)
    by_cases h9 : h5.Typ = 9
    · left
      unfold Hand.key
      rw [h9, hshape.2 h9]
      rfl
    · right
      omega
  · right
    omega

/-- On seven cards of the deck `EvaluateHand` returns the evaluation of one of the
five-card selections, and no selection has an evaluation of larger value. -/
theorem EvaluateHand_max (cards : List Card) (hlen : cards.length = 7)
    (hv : ∀ c ∈ cards, c.valid) :
    ∃ h c, EvaluateHand cards = some h ∧ c ∈ generateCombinations cards 5 ∧
      evaluateFiveCards c = some h ∧
      ∀ c0 ∈ generateCombinations cards 5, ∀ h0, evaluateFiveCards c0 = some h0 →
        getHandValue h0 ≤ getHandValue h := by
  obtain ⟨h, hh, hcase⟩ := EvaluateHand_spec cards hlen
  rcases hcase with ⟨_, hall⟩ | ⟨c, hc, hev, _, hall⟩
  · exfalso
    have hmem : cards.take 5 ∈ generateCombinations cards 5 := by
      have h5 : (cards.take 5).length = 5 := by
        rw [List.length_take, hlen]; rfl
      have := mem_generateCombinations (List.take_sublist 5 cards)
      rw [h5] at this
      exact this
    obtain ⟨h0, hh0⟩ := Option.isSome_iff_exists.mp
      (evaluateFiveCards_isSome (cards.take 5)
        (le_of_eq (generateCombinations_length cards 5 _ hmem)))
    have h1 := hall _ hmem h0 hh0
    have hb := evaluateFiveCards_bounded (cards.take 5)
      (fun c hc => hv c ((List.take_sublist 5 cards).subset hc))
      (le_of_eq (generateCombinations_length cards 5 _ hmem)) h0 hh0
    have h2 := (getHandValue_eq_spec h0 hb).2
    omega
  · exact ⟨h, c, hh, hc, hev, hall⟩

/-- The cards of a list without repetition that satisfy a test are, up to order, any
list without repetition that holds exactly these cards. -/
theorem filter_perm_of_mem {α : Type} [DecidableEq α] (l target : List α) (p : α → Bool)
    (hl : l.Nodup) (ht : target.Nodup) (h : ∀ x, x ∈ target ↔ x ∈ l ∧ p x = true) :
    (l.filter p).Perm target := by
  rw [List.perm_ext_iff_of_nodup (hl.filter p) ht]
  intro x
  rw [List.mem_filter, h]

/-- C6. For every five pairwise distinct cards of the deck `evaluateFiveCards`
returns a hand whose category is the category of the specification (`specCategory`:
straight flush topped by the Ace is RoyalFlush, A-2-3-4-5 is a straight with top rank
5) and whose tiebreak ranks are those of the specification (`specTiebreak`: all five
ranks descending for HighCard and Flush; the pair and the three kickers descending
for OnePair; high pair, low pair, kicker for TwoPair; the triple and two kickers
descending for ThreeOfAKind; triple, pair for FullHouse; quad, kicker for
FourOfAKind; the top rank for Straight, StraightFlush and RoyalFlush). -/
theorem evaluateFiveCards_standard (cards : List Card) (hlen : cards.length = 5)
    (hvalid : ∀ c ∈ cards, c.valid) (hnd : cards.Nodup) :
    ∃ h, evaluateFiveCards cards = some h ∧ h.Typ = specCategory cards ∧
      h.Ranks = specTiebreak cards := by
  obtain ⟨hkey, _⟩ := evaluateFiveCards_spec cards hlen hvalid hnd
  obtain ⟨h, hh, hk⟩ := Option.map_eq_some'.mp hkey
  refine ⟨h, hh, ?_, ?_⟩
  · exact congrArg Prod.fst hk
  · exact congrArg Prod.snd hk

/-- C6 at a sample: A♠ 2♥ 3♦ 4♣ 5♠ is a Straight with top rank 5. -/
theorem evaluateFiveCards_standard_witness :
    (∃ h, evaluateFiveCards [⟨Spades, Ace⟩, ⟨Hearts, Two⟩, ⟨Diamonds, Three⟩, ⟨Clubs, Four⟩,
        ⟨Spades, Five⟩] = some h ∧
      h.Typ = specCategory [⟨Spades, Ace⟩, ⟨Hearts, Two⟩, ⟨Diamonds, Three⟩, ⟨Clubs, Four⟩,
        ⟨Spades, Five⟩] ∧
      h.Ranks = specTiebreak [⟨Spades, Ace⟩, ⟨Hearts, Two⟩, ⟨Diamonds, Three⟩, ⟨Clubs, Four⟩,
        ⟨Spades, Five⟩]) ∧
    specCategory [⟨Spades, Ace⟩, ⟨Hearts, Two⟩, ⟨Diamonds, Three⟩, ⟨Clubs, Four⟩,
        ⟨Spades, Five⟩] = Straight ∧
    specTiebreak [⟨Spades, Ace⟩, ⟨Hearts, Two⟩, ⟨Diamonds, Three⟩, ⟨Clubs, Four⟩,
        ⟨Spades, Five⟩] = [Five] :=
  ⟨evaluateFiveCards_standard _ (by decide) (by decide) (by decide), by decide, by decide⟩



/-- The hand rank of the specification on five different ranks in descending order
that do not share a suit. -/
theorem specHandRank_distinct (a b c d e : Int) (hab : a > b) (hbc : b > c) (hcd : c > d)
    (hde : d > e) :
    specHandRank [a, b, c, d, e] false =
      if a = 14 ∧ b = 5 ∧ c = 4 ∧ d = 3 ∧ e = 2 then (Straight, [Five])
      else if a = b + 1 ∧ b = c + 1 ∧ c = d + 1 ∧ d = e + 1 then (Straight, [a])
      else (HighCard, [a, b, c, d, e]) := by
  have n1 : a ≠ b := by omega
  have m1 : b ≠ a := by omega
  have n2 : a ≠ c := by omega
  have m2 : c ≠ a := by omega
  have n3 : a ≠ d := by omega
  have m3 : d ≠ a := by omega
  have n4 : a ≠ e := by omega
  have m4 : e ≠ a := by omega
  have n5 : b ≠ c := by omega
  have m5 : c ≠ b := by omega
  have n6 : b ≠ d := by omega
  have m6 : d ≠ b := by omega
  have n7 : b ≠ e := by omega
  have m7 : e ≠ b := by omega
  have n8 : c ≠ d := by omega
  have m8 : d ≠ c := by omega
  have n9 : c ≠ e := by omega
  have m9 : e ≠ c := by omega
  have n10 : d ≠ e := by omega
  have m10 : e ≠ d := by omega
  have s1 : sortRanksDesc [a, b, c, d, e] = [a, b, c, d, e] :=
    sortRanksDesc_of_chain _
      (by simp only [List.chain'_cons, List.chain'_singleton, and_true]; omega)
  have hsp : specStraightTop [a, b, c, d, e] =
      if a = 14 ∧ b = 5 ∧ c = 4 ∧ d = 3 ∧ e = 2 then some Five
      else if a = b + 1 ∧ b = c + 1 ∧ c = d + 1 ∧ d = e + 1 then some a
      else none := by
    unfold specStraightTop
    rw [s1]
    rfl
  by_cases hw : a = 14 ∧ b = 5 ∧ c = 4 ∧ d = 3 ∧ e = 2
  · rw [if_pos hw] at hsp ⊢
    simp [specHandRank, specRanksOccurring, hsp, s1, n1, m1, n2, m2, n3, m3, n4, m4, n5, m5,
      n6, m6, n7, m7, n8, m8, n9, m9, n10, m10]
  rw [if_neg hw] at hsp ⊢
  by_cases hcons : a = b + 1 ∧ b = c + 1 ∧ c = d + 1 ∧ d = e + 1
  · rw [if_pos hcons] at hsp ⊢
    simp [specHandRank, specRanksOccurring, hsp, s1, n1, m1, n2, m2, n3, m3, n4, m4, n5, m5,
      n6, m6, n7, m7, n8, m8, n9, m9, n10, m10]
  rw [if_neg hcons] at hsp ⊢
  simp [specHandRank, specRanksOccurring, hsp, s1, n1, m1, n2, m2, n3, m3, n4, m4, n5, m5,
    n6, m6, n7, m7, n8, m8, n9, m9, n10, m10]



/-! ## The wheel in seven cards (claim C7) -/

/-- A selection of five cards out of cards with pairwise different ranks, no five of
which share a suit, is no flush. -/
theorem not_flush_of_sublist (cards c0 : List Card) (hsub : c0.Sublist cards)
    (hlen5 : c0.length = 5)
    (hsuit : ∀ s, (cards.map fun c => c.Suit).count s < 5) : specIsFlush c0 = false := by
  cases hfl : specIsFlush c0 with
  | false => rfl
  | true =>
    exfalso
    rw [← flushTest_eq_specIsFlush c0 hlen5, any_five_iff] at hfl
    obtain ⟨s, hs⟩ := hfl
    have h1 := (hsub.map (fun c : Card => c.Suit)).count_le s
    have h2 := hsuit s
    omega

/-- The ranks between Seven and King among seven different ranks that include the
five ranks of the wheel are at most two. -/
theorem mid_ranks_le_two (R : List Int) (hlen : R.length = 7)
    (hwheel : ∀ r ∈ [Ace, Two, Three, Four, Five], r ∈ R) :
    (R.filter fun r => decide (7 ≤ r) && decide (r ≤ 13)).length ≤ 2 := by
  have h1 := List.length_eq_length_filter_add (l := R)
    (fun r => decide (7 ≤ r) && decide (r ≤ 13))
  have hsub : [Ace, Two, Three, Four, Five] ⊆
      R.filter (fun r => !(decide (7 ≤ r) && decide (r ≤ 13))) := by
    intro x hx
    rw [List.mem_filter]
    refine ⟨hwheel x hx, ?_⟩
    simp only [List.mem_cons, List.mem_singleton, List.not_mem_nil, or_false] at hx
    rcases hx with rfl | rfl | rfl | rfl | rfl <;> decide
  have h2 := (List.subperm_of_subset (by decide) hsub).length_le
  simp only [List.length_cons, List.length_nil] at h2
  omega

/-- C7. For every seven cards of the deck with seven different ranks that include
Ace, Two, Three, Four and Five but not Six, no five of which share a suit,
`EvaluateHand` returns a hand of category Straight with tiebreak ranks [5]. -/
theorem EvaluateHand_wheel (cards : List Card) (hlen : cards.length = 7)
    (hvalid : ∀ c ∈ cards, c.valid)
    (hranks : (cards.map fun c => c.Rank).Nodup)
    (hwheel : ∀ r ∈ [Ace, Two, Three, Four, Five], r ∈ cards.map fun c => c.Rank)
    (hsix : Six ∉ cards.map fun c => c.Rank)
    (hsuit : ∀ s, (cards.map fun c => c.Suit).count s < 5) :
    ∃ h, EvaluateHand cards = some h ∧ h.Typ = Straight ∧ h.Ranks = [Five] := by
  have hcnd : cards.Nodup := List.Nodup.of_map _ hranks
  have hRlen : (cards.map fun c => c.Rank).length = 7 := by rw [List.length_map, hlen]
  -- every selection is the wheel or a HighCard below it
  have hcombo : ∀ c0 ∈ generateCombinations cards 5, ∀ h0, evaluateFiveCards c0 = some h0 →
      h0.key = (Straight, [Five]) ∨ (h0.Typ = HighCard ∧ getHandValue h0 < 4500000) := by
    intro c0 hc0 h0 he
    have hsub := sublist_of_mem_generateCombinations cards 5 c0 hc0
    have hlen5 := generateCombinations_length cards 5 c0 hc0
    have hfl := not_flush_of_sublist cards c0 hsub hlen5 hsuit
    obtain ⟨hkey, _⟩ := evaluateFiveCards_spec c0 hlen5
      (fun c hc => hvalid c (hsub.subset hc)) (hsub.nodup hcnd)
    rw [he, Option.map_some', Option.some.injEq, hfl] at hkey
    have hperm := sortRanksDesc_perm (c0.map fun c => c.Rank)
    have hrnd : (c0.map fun c => c.Rank).Nodup := (hsub.map _).nodup hranks
    have hl : (sortRanksDesc (c0.map fun c => c.Rank)).length = 5 := by
      rw [hperm.length_eq, List.length_map, hlen5]
    have hmemR : ∀ x ∈ sortRanksDesc (c0.map fun c => c.Rank),
        x ∈ cards.map fun c => c.Rank := by
      intro x hx
      exact (hsub.map _).subset (hperm.mem_iff.mp hx)
    have hrange : ∀ x ∈ sortRanksDesc (c0.map fun c => c.Rank), 2 ≤ x ∧ x ≤ 14 := by
      intro x hx
      obtain ⟨c, hc, rfl⟩ := List.mem_map.mp (hmemR x hx)
      have := hvalid c hc
      unfold Card.valid at this
      exact ⟨this.1, this.2.1⟩
    have hnds := hperm.nodup_iff.mpr hrnd
    have hsorted := sortRanksDesc_sorted (c0.map fun c => c.Rank)
    rw [← specHandRank_congr hperm] at hkey
    obtain ⟨a, b, c, d, e, hs⟩ := length_five _ hl
    rw [hs] at hsorted hrange hmemR hnds hkey
    simp only [List.pairwise_cons, List.mem_cons, List.mem_singleton, List.not_mem_nil, or_false,
      forall_eq_or_imp, forall_eq, IsEmpty.forall_iff, implies_true, List.Pairwise.nil,
      and_true] at hsorted
    simp only [List.nodup_cons, List.mem_cons, List.mem_singleton, List.not_mem_nil, or_false,
      not_or, not_false_eq_true, List.nodup_nil, and_true] at hnds
    have ha := hrange a (by simp)
    have he5 := hrange e (by simp)
    rw [specHandRank_distinct a b c d e (by omega) (by omega) (by omega) (by omega)] at hkey
    by_cases hw : a = 14 ∧ b = 5 ∧ c = 4 ∧ d = 3 ∧ e = 2
    · rw [if_pos hw] at hkey
      exact Or.inl hkey
    rw [if_neg hw] at hkey
    by_cases hcons : a = b + 1 ∧ b = c + 1 ∧ c = d + 1 ∧ d = e + 1
    · exfalso
      have h6 : ∀ x ∈ [a, b, c, d, e], x ≠ 6 := by
        intro x hx h
        rw [h] at hx
        exact hsix (hmemR 6 hx)
      have ha6 := h6 a (by simp)
      have hb6 := h6 b (by simp)
      have hc6 := h6 c (by simp)
      have hd6 := h6 d (by simp)
      have he6 := h6 e (by simp)
      have hsub : [c, d, e] ⊆ (cards.map fun c => c.Rank).filter
          fun r => decide (7 ≤ r) && decide (r ≤ 13) := by
        intro x hx
        rw [List.mem_filter]
        refine ⟨hmemR x (by
          simp only [List.mem_cons, List.mem_singleton, List.not_mem_nil, or_false] at hx ⊢
          tauto), ?_⟩
        simp only [List.mem_cons, List.mem_singleton, List.not_mem_nil, or_false] at hx
        simp only [Bool.and_eq_true, decide_eq_true_eq]
        omega
      have h3 := (List.subperm_of_subset (by
        simp only [List.nodup_cons, List.mem_cons, List.mem_singleton, List.not_mem_nil,
          or_false, not_or, not_false_eq_true, List.nodup_nil, and_true]
        omega) hsub).length_le
      have h2 := mid_ranks_le_two _ hRlen hwheel
      simp only [List.length_cons, List.length_nil] at h3
      omega
    rw [if_neg hcons] at hkey
    right
    have ht : h0.Typ = HighCard := congrArg Prod.fst hkey
    refine ⟨ht, ?_⟩
    have hb := evaluateFiveCards_bounded c0 (fun c hc => hvalid c (hsub.subset hc))
      (le_of_eq hlen5) h0 he
    have hval := (getHandValue_eq_spec h0 hb).1
    have hsum := (specRankSum_le h0.Ranks hb.2.2.2).1 hb.2.2.1
    unfold specHandValue at hval
    rw [ht] at hval
    unfold HighCard at hval
    omega
  -- the wheel is one of the selections
  have hwperm : ((cards.filter fun c => decide (c.Rank ≤ 5 ∨ c.Rank = 14)).map
      fun c => c.Rank).Perm [Ace, Five, Four, Three, Two] := by
    have hmf : ((cards.filter fun c => decide (c.Rank ≤ 5 ∨ c.Rank = 14)).map fun c => c.Rank)
        = (cards.map fun c => c.Rank).filter fun r => decide (r ≤ 5 ∨ r = 14) := by
      rw [List.filter_map]
      rfl
    rw [hmf]
    apply filter_perm_of_mem _ _ _ hranks (by decide)
    intro x
    constructor
    · intro hx
      refine ⟨hwheel x ?_, ?_⟩
      · simp only [List.mem_cons, List.mem_singleton, List.not_mem_nil, or_false] at hx ⊢
        tauto
      · simp only [List.mem_cons, List.mem_singleton, List.not_mem_nil, or_false] at hx
        rcases hx with rfl | rfl | rfl | rfl | rfl <;> decide
    · rintro ⟨hx, hp⟩
      obtain ⟨c, hc, rfl⟩ := List.mem_map.mp hx
      have hv := hvalid c hc
      unfold Card.valid at hv
      simp only [decide_eq_true_eq] at hp
      have h5 : c.Rank = 14 ∨ c.Rank = 5 ∨ c.Rank = 4 ∨ c.Rank = 3 ∨ c.Rank = 2 := by omega
      simp only [List.mem_cons, List.mem_singleton, List.not_mem_nil, or_false]
      exact h5
  have hwlen : (cards.filter fun c => decide (c.Rank ≤ 5 ∨ c.Rank = 14)).length = 5 := by
    have := hwperm.length_eq
    rw [List.length_map] at this
    exact this
  have hwmem : (cards.filter fun c => decide (c.Rank ≤ 5 ∨ c.Rank = 14))
      ∈ generateCombinations cards 5 := by
    have := mem_generateCombinations
      (List.filter_sublist cards :
        (cards.filter fun c => decide (c.Rank ≤ 5 ∨ c.Rank = 14)).Sublist cards)
    rw [hwlen] at this
    exact this
  have hwsub := sublist_of_mem_generateCombinations cards 5 _ hwmem
  obtain ⟨hwkey, _⟩ := evaluateFiveCards_spec _ hwlen
    (fun c hc => hvalid c (hwsub.subset hc)) (hwsub.nodup hcnd)
  rw [not_flush_of_sublist cards _ hwsub hwlen hsuit, specHandRank_congr hwperm] at hwkey
  obtain ⟨hw, hhw, hwk⟩ := Option.map_eq_some'.mp hwkey
  have hwval : getHandValue hw = 4500000 := by
    rw [getHandValue_key, hwk]
    decide
  -- the hand returned is at least the wheel
  obtain ⟨h, c, hh, hc, hev, hall⟩ := EvaluateHand_max cards hlen hvalid
  have hge := hall _ hwmem hw hhw
  refine ⟨h, hh, ?_⟩
  rcases hcombo c hc h hev with h1 | ⟨_, h2⟩
  · exact ⟨congrArg Prod.fst h1, congrArg Prod.snd h1⟩
  · omega

/-- C7 at the sample of the specification: A♠ 2♥ 3♦ 4♣ 5♠ K♣ Q♦. -/
theorem EvaluateHand_wheel_witness :
    ∃ h, EvaluateHand [⟨Spades, Ace⟩, ⟨Hearts, Two⟩, ⟨Diamonds, Three⟩, ⟨Clubs, Four⟩,
        ⟨Spades, Five⟩, ⟨Clubs, King⟩, ⟨Diamonds, Queen⟩] = some h ∧
      h.Typ = Straight ∧ h.Ranks = [Five] :=
  EvaluateHand_wheel _ (by decide) (by decide) (by decide) (by decide) (by decide)
    (by
      intro s
      have hs : s = 0 ∨ s = 1 ∨ s = 2 ∨ s = 3 ∨ s < 0 ∨ 3 < s := by omega
      rcases hs with rfl | rfl | rfl | rfl | hs | hs
      · decide
      · decide
      · decide
      · decide
      · rw [List.count_eq_zero_of_not_mem]
        · decide
        · simp [Spades, Hearts, Diamonds, Clubs]
          omega
      · rw [List.count_eq_zero_of_not_mem]
        · decide
        · simp [Spades, Hearts, Diamonds, Clubs]
          omega)



/-! ## The Royal Flush in seven cards (claim C8) -/

theorem specIsFlush_of_suit (l : List Card) (s : Int) (h : ∀ c ∈ l, c.Suit = s)
    (hne : l ≠ []) : specIsFlush l = true := by
  cases l with
  | nil => exact absurd rfl hne
  | cons c rest =>
    unfold specIsFlush
    rw [List.all_eq_true]
    intro d hd
    rw [decide_eq_true_eq, h c (List.mem_cons_self _ _), h d (List.mem_cons_of_mem _ hd)]

/-- C8. For every seven pairwise distinct cards of the deck that contain Ten, Jack,
Queen, King and Ace of one suit, `EvaluateHand` returns a hand of category RoyalFlush
with tiebreak ranks [Ace], and `CompareHands` of that hand with the evaluation of any
five pairwise distinct cards of the deck that is not a RoyalFlush (so also with every
StraightFlush) is 1. -/
theorem EvaluateHand_royal_flush (cards : List Card) (hlen : cards.length = 7)
    (hvalid : ∀ c ∈ cards, c.valid) (hnd : cards.Nodup) (s : Int)
    (hroyal : ∀ r ∈ [Ten, Jack, Queen, King, Ace], (⟨s, r⟩ : Card) ∈ cards) :
    ∃ h, EvaluateHand cards = some h ∧ h.Typ = RoyalFlush ∧ h.Ranks = [Ace] ∧
      ∀ (five : List Card) (h5 : Hand), five.length = 5 → (∀ c ∈ five, c.valid) →
        five.Nodup → evaluateFiveCards five = some h5 → h5.Typ ≠ RoyalFlush →
        CompareHands h h5 = 1 := by
  have hwperm : (cards.filter fun c => decide (c.Suit = s ∧ 10 ≤ c.Rank)).Perm
      [⟨s, Ten⟩, ⟨s, Jack⟩, ⟨s, Queen⟩, ⟨s, King⟩, ⟨s, Ace⟩] := by
    apply filter_perm_of_mem _ _ _ hnd
    · simp [Ten, Jack, Queen, King, Ace]
    · intro x
      constructor
      · intro hx
        simp only [List.mem_cons, List.mem_singleton, List.not_mem_nil, or_false] at hx
        rcases hx with rfl | rfl | rfl | rfl | rfl
        · exact ⟨hroyal Ten (by simp), decide_eq_true ⟨rfl, (by decide : (10 : Int) ≤ Ten)⟩⟩
        · exact ⟨hroyal Jack (by simp), decide_eq_true ⟨rfl, (by decide : (10 : Int) ≤ Jack)⟩⟩
        · exact ⟨hroyal Queen (by simp), decide_eq_true ⟨rfl, (by decide : (10 : Int) ≤ Queen)⟩⟩
        · exact ⟨hroyal King (by simp), decide_eq_true ⟨rfl, (by decide : (10 : Int) ≤ King)⟩⟩
        · exact ⟨hroyal Ace (by simp), decide_eq_true ⟨rfl, (by decide : (10 : Int) ≤ Ace)⟩⟩
      · rintro ⟨hx, hp⟩
        have hv := hvalid x hx
        unfold Card.valid at hv
        simp only [decide_eq_true_eq] at hp
        obtain ⟨xs, xr⟩ := x
        simp only at hp hv
        obtain ⟨rfl, h10⟩ := hp
        have hr : xr = 10 ∨ xr = 11 ∨ xr = 12 ∨ xr = 13 ∨ xr = 14 := by omega
        simp only [List.mem_cons, List.mem_singleton, List.not_mem_nil, or_false,
          Card.mk.injEq, true_and, Ten, Jack, Queen, King, Ace]
        exact hr
  have hwlen : (cards.filter fun c => decide (c.Suit = s ∧ 10 ≤ c.Rank)).length = 5 :=
    hwperm.length_eq
  have hwmem : (cards.filter fun c => decide (c.Suit = s ∧ 10 ≤ c.Rank))
      ∈ generateCombinations cards 5 := by
    have := mem_generateCombinations
      (List.filter_sublist cards :
        (cards.filter fun c => decide (c.Suit = s ∧ 10 ≤ c.Rank)).Sublist cards)
    rw [hwlen] at this
    exact this
  have hwsub := sublist_of_mem_generateCombinations cards 5 _ hwmem
  have hwflush : specIsFlush (cards.filter fun c => decide (c.Suit = s ∧ 10 ≤ c.Rank))
      = true := by
    apply specIsFlush_of_suit _ s
    · intro c hc
      have := (List.mem_filter.mp hc).2
      simp only [decide_eq_true_eq] at this
      exact this.1
    · intro hnil
      rw [hnil] at hwlen
      exact absurd hwlen (by decide)
  obtain ⟨hwkey, _⟩ := evaluateFiveCards_spec _ hwlen
    (fun c hc => hvalid c (hwsub.subset hc)) (hwsub.nodup hnd)
  have hrperm : ((cards.filter fun c => decide (c.Suit = s ∧ 10 ≤ c.Rank)).map
      fun card => card.Rank).Perm [Ten, Jack, Queen, King, Ace] :=
    hwperm.map fun card => card.Rank
  rw [hwflush, specHandRank_congr hrperm] at hwkey
  obtain ⟨hw, hhw, hwk⟩ := Option.map_eq_some'.mp hwkey
  have hwval : getHandValue hw = 10400000 := by
    rw [getHandValue_key, hwk]
    decide
  obtain ⟨h, c, hh, hc, hev, hall⟩ := EvaluateHand_max cards hlen hvalid
  have hge := hall _ hwmem hw hhw
  have hcsub := sublist_of_mem_generateCombinations cards 5 c hc
  have hkey : h.key = (RoyalFlush, [Ace]) := by
    rcases five_royal_or_below c (generateCombinations_length cards 5 c hc)
      (fun x hx => hvalid x (hcsub.subset hx)) (hcsub.nodup hnd) h hev with h1 | h1
    · exact h1
    · omega
  have hval : getHandValue h = 10400000 := by
    rw [getHandValue_key, hkey]
    decide
  refine ⟨h, hh, congrArg Prod.fst hkey, congrArg Prod.snd hkey, ?_⟩
  intro five h5 hlen5 hvalid5 hnd5 he5 hne
  have hlt : getHandValue h5 < 10400000 := by
    rcases five_royal_or_below five hlen5 hvalid5 hnd5 h5 he5 with h1 | h1
    · exact absurd (congrArg Prod.fst h1) hne
    · exact h1
  unfold CompareHands
  simp only
  rw [if_pos (by omega)]

/-- C8 at the sample of the specification: hole cards A♥ K♥ on the board
T♥ J♥ Q♥ 2♣ 5♦, compared with the StraightFlush 9♠ 8♠ 7♠ 6♠ 5♠. -/
theorem EvaluateHand_royal_flush_witness :
    ∃ h, EvaluateHand [⟨Hearts, Ace⟩, ⟨Hearts, King⟩, ⟨Hearts, Ten⟩, ⟨Hearts, Jack⟩,
        ⟨Hearts, Queen⟩, ⟨Clubs, Two⟩, ⟨Diamonds, Five⟩] = some h ∧
      h.Typ = RoyalFlush ∧ h.Ranks = [Ace] ∧
      ∀ (five : List Card) (h5 : Hand), five.length = 5 → (∀ c ∈ five, c.valid) →
        five.Nodup → evaluateFiveCards five = some h5 → h5.Typ ≠ RoyalFlush →
        CompareHands h h5 = 1 :=
  EvaluateHand_royal_flush _ (by decide) (by decide) (by decide) Hearts (by decide)

end Poker

namespace Statemachine

/-! ## The hand state machine (claims C14, C15) -/

/-- The double lookup `transitions[s][e]` in the table of `createTransitions` is the
table of the specification. -/
theorem lookup_createTransitions (s e : Int) :
    (createTransitions.lookup s).bind (fun row => row.lookup e) = specNext s e := by
  have hs : s = 0 ∨ s = 1 ∨ s = 2 ∨ s = 3 ∨ s = 4 ∨ s = 5 ∨ s = 6 ∨ (s < 0 ∨ 6 < s) := by omega
  have he : e = 0 ∨ e = 1 ∨ e = 2 ∨ e = 3 ∨ e = 4 ∨ e = 5 ∨ e = 6 ∨ e = 7 ∨ (e < 0 ∨ 7 < e) := by
    omega
  rcases hs with rfl | rfl | rfl | rfl | rfl | rfl | rfl | hs
  all_goals first
    | (rcases he with rfl | rfl | rfl | rfl | rfl | rfl | rfl | rfl | he
       all_goals first
         | rfl
         | (have h0 : (e == 0) = false := by simp; omega
            have h2 : (e == 2) = false := by simp; omega
            have h3 : (e == 3) = false := by simp; omega
            have h4 : (e == 4) = false := by simp; omega
            have h5 : (e == 5) = false := by simp; omega
            have h6 : (e == 6) = false := by simp; omega
            have h7 : (e == 7) = false := by simp; omega
            have g0 : ¬ e = 0 := by omega
            have g2 : ¬ e = 2 := by omega
            have g3 : ¬ e = 3 := by omega
            have g4 : ¬ e = 4 := by omega
            have g5 : ¬ e = 5 := by omega
            have g6 : ¬ e = 6 := by omega
            have g7 : ¬ e = 7 := by omega
            simp [createTransitions, specNext, List.lookup, WaitingForPlayers, PreFlop, Flop, Turn,
              River, Showdown, GameEnd, StartGame, BettingComplete, ShowCards, DetermineWinner,
              NextRound, PlayerLeft, GameReset, h0, h2, h3, h4, h5, h6, h7, g0, g2, g3, g4, g5,
              g6, g7]))
    | (have h0 : (s == 0) = false := by simp; omega
       have h1 : (s == 1) = false := by simp; omega
       have h2 : (s == 2) = false := by simp; omega
       have h3 : (s == 3) = false := by simp; omega
       have h4 : (s == 4) = false := by simp; omega
       have h5 : (s == 5) = false := by simp; omega
       have h6 : (s == 6) = false := by simp; omega
       have g0 : ¬ s = 0 := by omega
       have g1 : ¬ s = 1 := by omega
       have g2 : ¬ s = 2 := by omega
       have g3 : ¬ s = 3 := by omega
       have g4 : ¬ s = 4 := by omega
       have g5 : ¬ s = 5 := by omega
       have g6 : ¬ s = 6 := by omega
       have g7 : ¬ (0 ≤ s ∧ s ≤ 6) := by omega
       simp [createTransitions, specNext, List.lookup, WaitingForPlayers, PreFlop, Flop, Turn,
         River, Showdown, GameEnd, StartGame, BettingComplete, ShowCards, DetermineWinner,
         NextRound, PlayerLeft, GameReset, h0, h1, h2, h3, h4, h5, h6, g0, g1, g2, g3, g4, g5,
         g6, g7])

theorem CanTransition_eq (fsm : GameStateMachine) (e : Int) :
    fsm.CanTransition e =
      ((fsm.transitions.lookup fsm.currentState).bind (fun row => row.lookup e)).isSome := by
  unfold GameStateMachine.CanTransition
  cases fsm.transitions.lookup fsm.currentState <;> rfl

theorem transition_target_eq (fsm : GameStateMachine) (e : Int) (t : Int)
    (h : (fsm.transitions.lookup fsm.currentState).bind (fun row => row.lookup e) = some t) :
    (((fsm.transitions.lookup fsm.currentState).getD []).lookup e).getD 0 = t := by
  cases hrow : fsm.transitions.lookup fsm.currentState with
  | none => rw [hrow] at h; simp at h
  | some row =>
    rw [hrow] at h
    simp only [Option.some_bind] at h
    simp [h]

/-- The states that the table of the specification leads to. -/
theorem specNext_range (s e t : Int) (h : specNext s e = some t) :
    t = 0 ∨ t = 1 ∨ t = 2 ∨ t = 3 ∨ t = 4 ∨ t = 5 ∨ t = 6 := by
  unfold specNext at h
  repeat' split at h
  all_goals
    cases h
    try decide

/-- An event that the table does not list for the current state is refused: the call
returns an error and the machine is as it was. -/
theorem transitionDepth_refused (fsm : GameStateMachine) (e : Int)
    (hcan : fsm.CanTransition e = false) (depth : Nat) :
    fsm.transitionDepth (depth + 1) e =
      some (some ("无法从状态 " ++ GameState.String fsm.currentState ++ " 通过事件 "
        ++ GameEvent.String e ++ " 进行转换"), fsm) := by
  rw [GameStateMachine.transitionDepth]
  simp only [hcan, Bool.not_false, if_true]

/-- A call of `Transition` that returns an error leaves the machine as it was,
whatever the callbacks did before the error. -/
theorem transitionDepth_error : ∀ (depth : Nat) (fsm fsm1 : GameStateMachine) (e : Int)
    (err : String), fsm.transitionDepth depth e = some (some err, fsm1) → fsm1 = fsm := by
  intro depth
  induction depth with
  | zero =>
    intro fsm fsm1 e err h
    rw [GameStateMachine.transitionDepth] at h
    exact absurd h (by simp)
  | succ depth ih =>
    intro fsm fsm1 e err h
    rw [GameStateMachine.transitionDepth] at h
    by_cases hcan : fsm.CanTransition e = true
    · simp only [hcan, Bool.not_true, Bool.false_eq_true, if_false] at h
      generalize ht : (((fsm.transitions.lookup fsm.currentState).getD []).lookup e).getD 0 = t
        at h
      cases hc : fsm.callbacks.lookup t with
      | none =>
        simp only [hc] at h
        simp at h
      | some cb =>
        cases cb with
        | ret r =>
          cases r with
          | none =>
            simp only [hc] at h
            simp at h
          | some msg =>
            simp only [hc, Option.some.injEq, Prod.mk.injEq] at h
            rw [← h.2]
        | fire nested =>
          simp only [hc] at h
          cases hn : GameStateMachine.transitionDepth depth
              { fsm with currentState := t } nested with
          | none => rw [hn] at h; simp at h
          | some res =>
            obtain ⟨err2, fsm2⟩ := res
            rw [hn] at h
            cases err2 with
            | none => simp at h
            | some msg =>
              simp only [Option.some.injEq, Prod.mk.injEq] at h
              have h2 := ih _ _ _ _ hn
              rw [← h.2, h2]
    · have hcan1 : fsm.CanTransition e = false := by
        cases hb : fsm.CanTransition e with
        | true => exact absurd hb hcan
        | false => rfl
      simp only [hcan1, Bool.not_false, if_true, Option.some.injEq, Prod.mk.injEq] at h
      exact h.2.symm

/-- An event that the table lists, leading to a state with no callback or with a
callback that returns `nil` without calling the machine: the machine moves to the
listed state. -/
theorem transitionDepth_plain (fsm : GameStateMachine) (e t : Int)
    (htable : fsm.transitions = createTransitions)
    (hspec : specNext fsm.currentState e = some t)
    (hcb : fsm.callbacks.lookup t = none ∨ fsm.callbacks.lookup t = some (Callback.ret none))
    (depth : Nat) :
    fsm.transitionDepth (depth + 1) e = some (none, { fsm with currentState := t }) := by
  have hlook := lookup_createTransitions fsm.currentState e
  rw [← htable, hspec] at hlook
  have hcan := CanTransition_eq fsm e
  rw [hlook] at hcan
  have htarget := transition_target_eq fsm e t hlook
  rw [GameStateMachine.transitionDepth]
  simp only [hcan, Option.isSome_some, Bool.not_true, Bool.false_eq_true, if_false, htarget]
  rcases hcb with hcb | hcb
  · simp only [hcb]
  · simp only [hcb]

/-- An event that the table lists, leading to a state whose callback fires a further
event: the outer call returns what the nested call returns, and after an error the
machine is as it was before the outer call. -/
theorem transitionDepth_fire (fsm : GameStateMachine) (e t nested : Int)
    (htable : fsm.transitions = createTransitions)
    (hspec : specNext fsm.currentState e = some t)
    (hcb : fsm.callbacks.lookup t = some (Callback.fire nested)) (depth : Nat) :
    fsm.transitionDepth (depth + 1) e =
      match GameStateMachine.transitionDepth depth { fsm with currentState := t } nested with
      | none => none
      | some (some err, _) => some (some ("状态转换回调失败: " ++ err), fsm)
      | some (none, fsm2) => some (none, fsm2) := by
  have hlook := lookup_createTransitions fsm.currentState e
  rw [← htable, hspec] at hlook
  have hcan := CanTransition_eq fsm e
  rw [hlook] at hcan
  have htarget := transition_target_eq fsm e t hlook
  rw [GameStateMachine.transitionDepth]
  simp only [hcan, Option.isSome_some, Bool.not_true, Bool.false_eq_true, if_false, htarget, hcb]
  cases hn : GameStateMachine.transitionDepth depth { fsm with currentState := t } nested with
  | none => rfl
  | some res =>
    obtain ⟨err, fsm2⟩ := res
    cases err with
    | none => rfl
    | some msg =>
      have h2 := transitionDepth_error depth _ _ _ _ hn
      simp only [h2]

/-- C15. When the event is allowed and the entry callback of the target state
returns an error, `Transition` returns an error and the state machine is exactly as
it was before the call.  The same holds when the error comes out of a nested call
that the callback makes: whenever `Transition` returns an error, the machine is as
it was. -/
theorem Transition_callback_failure (fsm : GameStateMachine) (e : Int) (t : Int) (msg : String)
    (hallowed : (fsm.transitions.lookup fsm.currentState).bind (fun row => row.lookup e) = some t)
    (hfail : fsm.callbacks.lookup t = some (Callback.ret (some msg))) :
    fsm.Transition e = some (some ("状态转换回调失败: " ++ msg), fsm) ∧
    ∀ (depth : Nat) (err : String) (fsm1 : GameStateMachine),
      fsm.transitionDepth depth e = some (some err, fsm1) → fsm1 = fsm := by
  have hcan := CanTransition_eq fsm e
  rw [hallowed] at hcan
  have htarget := transition_target_eq fsm e t hallowed
  refine ⟨?_, fun depth err fsm1 h => transitionDepth_error depth fsm fsm1 e err h⟩
  unfold GameStateMachine.Transition
  rw [GameStateMachine.transitionDepth]
  simp only [hcan, Option.isSome_some, Bool.not_true, Bool.false_eq_true, if_false, htarget, hfail]

theorem Transition_callback_failure_witness :
    (NewGameStateMachine.SetStateCallback PreFlop (Callback.ret (some "deal failed"))).Transition
        StartGame =
      some (some ("状态转换回调失败: " ++ "deal failed"),
        NewGameStateMachine.SetStateCallback PreFlop (Callback.ret (some "deal failed"))) ∧
    ∀ (depth : Nat) (err : String) (fsm1 : GameStateMachine),
      (NewGameStateMachine.SetStateCallback PreFlop
        (Callback.ret (some "deal failed"))).transitionDepth depth StartGame
          = some (some err, fsm1) →
      fsm1 = NewGameStateMachine.SetStateCallback PreFlop (Callback.ret (some "deal failed")) :=
  Transition_callback_failure _ StartGame PreFlop "deal failed" (by decide) (by decide)

/-! ## The betting round (claims C16 to C20) -/

theorem finishAction_success (br : BettingRound) (playerID action : Int) :
    (br.finishAction playerID action).1.Success = true := by
  unfold BettingRound.finishAction
  split <;> rfl

theorem map_finishAction_success (o : Option BettingRound) (playerID action : Int)
    (res : ActionResult) (br1 : BettingRound)
    (h : o.map (fun b => b.finishAction playerID action) = some (res, br1)) :
    res.Success = true := by
  cases o with
  | none => simp at h
  | some b =>
    simp only [Option.map_some', Option.some.injEq] at h
    have := finishAction_success b playerID action
    rw [h] at this
    exact this

/-- C16. A call by a player who is not the current-turn player is rejected, and
every rejected call leaves the betting round exactly as it was. -/
theorem ProcessAction_rejected_unchanged (br : BettingRound) (playerID action amount : Int) :
    (playerID ≠ br.GetCurrentPlayer →
      br.ProcessAction playerID action amount =
        some ({ Success := false, Message := "不是您的操作轮次", NextEvent := 0 }, br)) ∧
    (∀ res br1, br.ProcessAction playerID action amount = some (res, br1) →
      res.Success = false → br1 = br) := by
  constructor
  · intro h
    unfold BettingRound.ProcessAction
    rw [if_pos h]
  · intro res br1 h hfalse
    unfold BettingRound.ProcessAction at h
    split at h
    · simp only [Option.some.injEq, Prod.mk.injEq] at h
      exact h.2.symm
    split at h
    · simp only [Option.some.injEq] at h
      have := finishAction_success
        ({ br.removePlayer playerID with
            playerActions := mapSet playerID Fold (br.removePlayer playerID).playerActions })
        playerID action
      rw [h] at this
      rw [this] at hfalse
      exact absurd hfalse (by decide)
    split at h
    · have := map_finishAction_success _ _ _ _ _ h
      rw [this] at hfalse
      exact absurd hfalse (by decide)
    split at h
    · split at h
      · simp only [Option.some.injEq, Prod.mk.injEq] at h
        exact h.2.symm
      · have := map_finishAction_success _ _ _ _ _ h
        rw [this] at hfalse
        exact absurd hfalse (by decide)
    split at h
    · split at h
      · simp only [Option.some.injEq, Prod.mk.injEq] at h
        exact h.2.symm
      · have := map_finishAction_success _ _ _ _ _ h
        rw [this] at hfalse
        exact absurd hfalse (by decide)
    split at h
    · split at h
      · simp only [Option.some.injEq, Prod.mk.injEq] at h
        exact h.2.symm
      · have := map_finishAction_success _ _ _ _ _ h
        rw [this] at hfalse
        exact absurd hfalse (by decide)
    split at h
    · have := map_finishAction_success _ _ _ _ _ h
      rw [this] at hfalse
      exact absurd hfalse (by decide)
    · simp only [Option.some.injEq, Prod.mk.injEq] at h
      exact h.2.symm

theorem ProcessAction_rejected_unchanged_witness :
    (NewBettingRound [1, 2]).ProcessAction 2 Check 0 =
      some ({ Success := false, Message := "不是您的操作轮次", NextEvent := 0 },
        NewBettingRound [1, 2]) :=
  (ProcessAction_rejected_unchanged (NewBettingRound [1, 2]) 2 Check 0).1 (by decide)

theorem lookup_mapSet_self {β : Type} (key : Int) (value : β) (m : List (Int × β)) :
    (mapSet key value m).lookup key = some value := by
  induction m with
  | nil => simp [mapSet, List.lookup]
  | cons e rest ih =>
    obtain ⟨k, v⟩ := e
    by_cases hk : k = key
    · subst hk; simp [mapSet, List.lookup]
    · have hk2 : (key == k) = false := by
        simp only [beq_eq_false_iff_ne, ne_eq]
        exact fun h => hk h.symm
      simp only [mapSet, if_neg hk, List.lookup, hk2, ih]

theorem finishAction_fields (br : BettingRound) (playerID action : Int) :
    (br.finishAction playerID action).2.currentBet = br.currentBet ∧
    (br.finishAction playerID action).2.playerBets = br.playerBets ∧
    (br.finishAction playerID action).2.players = br.players ∧
    (br.finishAction playerID action).2.currentPlayer = br.currentPlayer ∧
    (br.finishAction playerID action).2.playerActions = br.playerActions := by
  unfold BettingRound.finishAction
  split <;> exact ⟨rfl, rfl, rfl, rfl, rfl⟩

/-- C17 (counterexample). In a new round of players 1 and 2 the current bet is 0, and
a Call by player 1, who is in turn, is accepted. -/
theorem Call_accepted_at_zero_bet :
    (NewBettingRound [1, 2]).currentBet = 0 ∧
    (NewBettingRound [1, 2]).GetCurrentPlayer = 1 ∧
    ((NewBettingRound [1, 2]).ProcessAction 1 Call 0).map (fun r => r.1.Success) = some true := by
  decide

/-- C17 (amended). A Call by the player in turn is accepted whatever the current bet
is, and afterwards that player's contribution equals the current bet, which the
Call leaves as it was. -/
theorem Call_in_turn (br : BettingRound) (playerID amount : Int)
    (hcur : br.currentPlayer < br.players.length) (hturn : playerID = br.GetCurrentPlayer) :
    ∃ res br1, br.ProcessAction playerID Call amount = some (res, br1) ∧
      res.Success = true ∧ br1.currentBet = br.currentBet ∧
      br1.playerBets.lookup playerID = some br1.currentBet := by
  have hlen : br.players.length ≠ 0 := by omega
  have key : br.ProcessAction playerID Call amount =
      some (BettingRound.finishAction
        { br with
          playerBets := mapSet playerID br.currentBet br.playerBets,
          playerActions := mapSet playerID Call br.playerActions,
          currentPlayer := (br.currentPlayer + 1) % br.players.length } playerID Call) := by
    unfold BettingRound.ProcessAction
    rw [if_neg (by simp [hturn]), if_neg (by decide), if_pos rfl]
    simp only [BettingRound.nextPlayer, hlen, if_false, Option.map_some']
  have hs := finishAction_success
    { br with
      playerBets := mapSet playerID br.currentBet br.playerBets,
      playerActions := mapSet playerID Call br.playerActions,
      currentPlayer := (br.currentPlayer + 1) % br.players.length } playerID Call
  have hf := finishAction_fields
    { br with
      playerBets := mapSet playerID br.currentBet br.playerBets,
      playerActions := mapSet playerID Call br.playerActions,
      currentPlayer := (br.currentPlayer + 1) % br.players.length } playerID Call
  generalize BettingRound.finishAction
    { br with
      playerBets := mapSet playerID br.currentBet br.playerBets,
      playerActions := mapSet playerID Call br.playerActions,
      currentPlayer := (br.currentPlayer + 1) % br.players.length } playerID Call = r at key hs hf
  refine ⟨r.1, r.2, key, hs, hf.1, ?_⟩
  rw [hf.1, hf.2.1]
  exact lookup_mapSet_self _ _ _

theorem Call_in_turn_witness :
    ∃ res br1, (NewBettingRound [1, 2]).ProcessAction 1 Call 0 = some (res, br1) ∧
      res.Success = true ∧ br1.currentBet = (NewBettingRound [1, 2]).currentBet ∧
      br1.playerBets.lookup 1 = some br1.currentBet :=
  Call_in_turn (NewBettingRound [1, 2]) 1 0 (by decide) (by decide)

/-- C18 (counterexample). In a new round a Bet of 0 and a Bet of -5 by the player in
turn are both accepted; the second one makes the current bet -5. -/
theorem Bet_of_zero_or_negative_accepted :
    ((NewBettingRound [1, 2]).ProcessAction 1 Bet 0).map (fun r => r.1.Success) = some true ∧
    ((NewBettingRound [1, 2]).ProcessAction 1 Bet (-5)).map
      (fun r => (r.1.Success, r.2.currentBet)) = some (true, -5) := by
  decide

/-- C18 (amended). A Bet by the player in turn is accepted if and only if the current
bet is not greater than 0, whatever the amount; when it is accepted, the current bet
becomes the amount. -/
theorem Bet_in_turn (br : BettingRound) (playerID amount : Int)
    (hcur : br.currentPlayer < br.players.length) (hturn : playerID = br.GetCurrentPlayer) :
    ∃ res br1, br.ProcessAction playerID Bet amount = some (res, br1) ∧
      (res.Success = true ↔ br.currentBet ≤ 0) ∧
      (res.Success = true → br1.currentBet = amount) := by
  have hlen : br.players.length ≠ 0 := by omega
  unfold BettingRound.ProcessAction
  rw [if_neg (by simp [hturn]), if_neg (by decide), if_neg (by decide), if_neg (by decide),
    if_neg (by decide), if_pos rfl]
  by_cases hbet : br.currentBet > 0
  · rw [if_pos hbet]
    refine ⟨{ Success := false, Message := "已有人下注，请选择跟注或加注", NextEvent := 0 }, br,
      rfl, ?_, ?_⟩
    · simp only [Bool.false_eq_true, false_iff, not_le]
      exact hbet
    · intro h; exact absurd h (by decide)
  · rw [if_neg hbet]
    have key : (BettingRound.nextPlayer
          { br with
            currentBet := amount,
            playerBets := mapSet playerID amount br.playerBets,
            playerActions := mapSet playerID Bet br.playerActions }).map
          (fun br4 => br4.finishAction playerID Bet) =
        some (BettingRound.finishAction
          { br with
            currentBet := amount,
            playerBets := mapSet playerID amount br.playerBets,
            playerActions := mapSet playerID Bet br.playerActions,
            currentPlayer := (br.currentPlayer + 1) % br.players.length } playerID Bet) := by
      simp only [BettingRound.nextPlayer, hlen, if_false, Option.map_some']
    have hs := finishAction_success
      { br with
        currentBet := amount,
        playerBets := mapSet playerID amount br.playerBets,
        playerActions := mapSet playerID Bet br.playerActions,
        currentPlayer := (br.currentPlayer + 1) % br.players.length } playerID Bet
    have hf := finishAction_fields
      { br with
        currentBet := amount,
        playerBets := mapSet playerID amount br.playerBets,
        playerActions := mapSet playerID Bet br.playerActions,
        currentPlayer := (br.currentPlayer + 1) % br.players.length } playerID Bet
    generalize BettingRound.finishAction
      { br with
        currentBet := amount,
        playerBets := mapSet playerID amount br.playerBets,
        playerActions := mapSet playerID Bet br.playerActions,
        currentPlayer := (br.currentPlayer + 1) % br.players.length } playerID Bet = r
      at key hs hf
    refine ⟨r.1, r.2, key, ?_, ?_⟩
    · simp only [hs, true_iff]
      omega
    · intro _
      exact hf.1

theorem Bet_in_turn_witness :
    ∃ res br1, (NewBettingRound [1, 2]).ProcessAction 1 Bet 50 = some (res, br1) ∧
      (res.Success = true ↔ (NewBettingRound [1, 2]).currentBet ≤ 0) ∧
      (res.Success = true → br1.currentBet = 50) :=
  Bet_in_turn (NewBettingRound [1, 2]) 1 50 (by decide) (by decide)

/-- C19 (the code at the failing input). Player 1 bets 100, then player 2 goes all in
for 40: the current bet drops from 100 to 40. -/
theorem AllIn_lowers_current_bet :
    ((NewBettingRound [1, 2]).ProcessAction 1 Bet 100).map
        (fun r => (r.1.Success, r.2.currentBet, r.2.GetCurrentPlayer)) = some (true, 100, 2) ∧
    (((NewBettingRound [1, 2]).ProcessAction 1 Bet 100).bind
        (fun r => r.2.ProcessAction 2 AllIn 40)).map
        (fun r => (r.1.Success, r.2.currentBet)) = some (true, 40) := by
  decide

theorem findIdx_of_split (playerID : Int) (pre post : List Int) (hpre : playerID ∉ pre) :
    (pre ++ playerID :: post).findIdx? (fun id => id == playerID) = some pre.length := by
  induction pre with
  | nil => simp
  | cons a rest ih =>
    have ha : ¬ a = playerID := fun h => hpre (by simp [h])
    have hrest : playerID ∉ rest := fun h => hpre (List.mem_cons_of_mem _ h)
    simp only [List.cons_append, List.findIdx?_cons, beq_iff_eq, ha, if_false,
      List.findIdx?_succ, ih hrest, Option.map_some', List.length_cons, zero_add]

theorem split_at_current (br : BettingRound) (hcur : br.currentPlayer < br.players.length) :
    br.players = br.players.take br.currentPlayer ++
      br.GetCurrentPlayer :: br.players.drop (br.currentPlayer + 1) := by
  have hget : br.GetCurrentPlayer = br.players[br.currentPlayer] := by
    unfold BettingRound.GetCurrentPlayer
    rw [if_neg (by omega)]
    simp [List.getD_eq_getElem?_getD, List.getElem?_eq_getElem hcur]
  rw [hget]
  conv_lhs => rw [← List.take_append_drop br.currentPlayer br.players]
  rw [List.drop_eq_getElem_cons hcur]

/-- C20. With pairwise distinct player ids, a Fold by the player in turn is
accepted; the folder leaves the rotation, the other players stay in their order, and
when somebody is left the turn is on the player who followed the folder, the first
player when the folder was last. -/
theorem Fold_in_turn (br : BettingRound) (playerID amount : Int)
    (hnd : br.players.Nodup) (hcur : br.currentPlayer < br.players.length)
    (hturn : playerID = br.GetCurrentPlayer) :
    ∃ res br1, br.ProcessAction playerID Fold amount = some (res, br1) ∧
      res.Success = true ∧ playerID ∉ br1.players ∧
      br1.players = br.players.filter (fun id => id ≠ playerID) ∧
      (br1.players ≠ [] →
        br1.GetCurrentPlayer =
          br.players.getD ((br.currentPlayer + 1) % br.players.length) (-1)) := by
  have hsplit := split_at_current br hcur
  rw [← hturn] at hsplit
  have hlenpre : (br.players.take br.currentPlayer).length = br.currentPlayer := by
    rw [List.length_take]; omega
  rw [hsplit] at hnd
  have hparts := List.nodup_append.mp hnd
  have hpre : playerID ∉ br.players.take br.currentPlayer := by
    intro h
    exact hparts.2.2 h (List.mem_cons_self _ _) 
  have hpost : playerID ∉ br.players.drop (br.currentPlayer + 1) :=
    (List.nodup_cons.mp hparts.2.1).1
  have hfind : br.players.findIdx? (fun id => id == playerID) = some br.currentPlayer := by
    conv_lhs => rw [hsplit]
    rw [findIdx_of_split playerID _ _ hpre, hlenpre]
  have hfilter : br.players.filter (fun id => id ≠ playerID) =
      br.players.take br.currentPlayer ++ br.players.drop (br.currentPlayer + 1) := by
    conv_lhs => rw [hsplit]
    rw [List.filter_append, List.filter_cons]
    simp only [ne_eq, not_true_eq_false, decide_False, Bool.false_eq_true, if_false]
    rw [List.filter_eq_self.mpr, List.filter_eq_self.mpr]
    · intro a ha; simp only [ne_eq, decide_eq_true_eq]; exact fun h => hpost (h ▸ ha)
    · intro a ha; simp only [ne_eq, decide_eq_true_eq]; exact fun h => hpre (h ▸ ha)
  have hrem : (br.removePlayer playerID).players =
      br.players.take br.currentPlayer ++ br.players.drop (br.currentPlayer + 1) := by
    unfold BettingRound.removePlayer
    simp only [hfind, lt_self_iff_false, if_false]
    split <;> rfl
  have hremcur : (br.removePlayer playerID).currentPlayer =
      if br.currentPlayer + 1 < br.players.length then br.currentPlayer else 0 := by
    unfold BettingRound.removePlayer
    simp only [hfind, lt_self_iff_false, if_false, List.length_append, List.length_take,
      List.length_drop]
    by_cases h : br.currentPlayer + 1 < br.players.length
    · rw [if_neg (by omega), if_pos h]
    · rw [if_pos (by omega), if_neg h]
  have key : br.ProcessAction playerID Fold amount =
      some (BettingRound.finishAction
        { br.removePlayer playerID with
          playerActions := mapSet playerID Fold (br.removePlayer playerID).playerActions }
        playerID Fold) := by
    unfold BettingRound.ProcessAction
    rw [if_neg (by simp [hturn]), if_pos rfl]
  have hs := finishAction_success
    { br.removePlayer playerID with
      playerActions := mapSet playerID Fold (br.removePlayer playerID).playerActions }
    playerID Fold
  have hf := finishAction_fields
    { br.removePlayer playerID with
      playerActions := mapSet playerID Fold (br.removePlayer playerID).playerActions }
    playerID Fold
  generalize BettingRound.finishAction
    { br.removePlayer playerID with
      playerActions := mapSet playerID Fold (br.removePlayer playerID).playerActions }
    playerID Fold = r at key hs hf
  simp only [] at hf
  obtain ⟨_, _, hplayers, hcurrent, _⟩ := hf
  rw [hrem] at hplayers
  rw [hremcur] at hcurrent
  refine ⟨r.1, r.2, key, hs, ?_, ?_, ?_⟩
  · rw [hplayers]
    simp only [List.mem_append, not_or]
    exact ⟨hpre, hpost⟩
  · rw [hplayers, hfilter]
  · intro hne
    have hlen1 : r.2.players.length = br.players.length - 1 := by
      rw [hplayers, List.length_append, List.length_take, List.length_drop]; omega
    have hpos : 0 < r.2.players.length := List.length_pos.mpr hne
    unfold BettingRound.GetCurrentPlayer
    rw [hcurrent]
    by_cases h : br.currentPlayer + 1 < br.players.length
    · rw [if_pos h, if_neg (by omega), Nat.mod_eq_of_lt h, hplayers]
      rw [List.getD_eq_getElem?_getD, List.getD_eq_getElem?_getD,
        List.getElem?_append_right (by omega), hlenpre, Nat.sub_self, List.getElem?_drop]
    · rw [if_neg h, if_neg (by omega)]
      have hmod : (br.currentPlayer + 1) % br.players.length = 0 := by
        have : br.currentPlayer + 1 = br.players.length := by omega
        rw [this, Nat.mod_self]
      rw [hmod, hplayers]
      rw [List.getD_eq_getElem?_getD, List.getD_eq_getElem?_getD,
        List.getElem?_append_left (by omega), List.getElem?_take, if_pos (by omega)]

theorem Fold_in_turn_witness :
    ∃ res br1, (NewBettingRound [1, 2, 3]).ProcessAction 1 Fold 0 = some (res, br1) ∧
      res.Success = true ∧ (1 : Int) ∉ br1.players ∧
      br1.players = (NewBettingRound [1, 2, 3]).players.filter (fun id => id ≠ 1) ∧
      (br1.players ≠ [] →
        br1.GetCurrentPlayer =
          (NewBettingRound [1, 2, 3]).players.getD
            (((NewBettingRound [1, 2, 3]).currentPlayer + 1) %
              (NewBettingRound [1, 2, 3]).players.length) (-1)) :=
  Fold_in_turn (NewBettingRound [1, 2, 3]) 1 0 (by decide) (by decide) (by decide)

/-! ## A fold that leaves one player (claims C21, C26) -/

theorem first_split (playerID : Int) (l : List Int) (h : playerID ∈ l) :
    ∃ pre post, l = pre ++ playerID :: post ∧ playerID ∉ pre := by
  induction l with
  | nil => cases h
  | cons a rest ih =>
    by_cases ha : a = playerID
    · exact ⟨[], rest, by rw [ha]; rfl, List.not_mem_nil _⟩
    · have hrest : playerID ∈ rest := by
        rcases List.mem_cons.mp h with h | h
        · exact absurd h.symm ha
        · exact h
      obtain ⟨pre, post, hs, hn⟩ := ih hrest
      refine ⟨a :: pre, post, by rw [hs]; rfl, ?_⟩
      intro hmem
      rcases List.mem_cons.mp hmem with h | h
      · exact ha h.symm
      · exact hn h

theorem removePlayer_length (br : BettingRound) (playerID : Int) (h : playerID ∈ br.players) :
    (br.removePlayer playerID).players.length + 1 = br.players.length := by
  obtain ⟨pre, post, hs, hn⟩ := first_split playerID br.players h
  have hfind : br.players.findIdx? (fun id => id == playerID) = some pre.length := by
    rw [hs]; exact findIdx_of_split playerID pre post hn
  have htake : br.players.take pre.length = pre := by
    rw [hs]; simp
  have hdrop : br.players.drop (pre.length + 1) = post := by
    rw [hs]; simp
  unfold BettingRound.removePlayer
  simp only [hfind, apply_ite BettingRound.players, ite_self, htake, hdrop]
  rw [hs]
  simp only [List.length_append, List.length_cons]
  omega

/-- In a round of two players, a Fold by the player in turn is accepted, leaves one
player in the round and reports BettingComplete. -/
theorem Fold_of_two_completes (br : BettingRound) (playerID amount : Int)
    (hcur : br.currentPlayer < br.players.length) (htwo : br.players.length = 2)
    (hturn : playerID = br.GetCurrentPlayer) :
    ∃ res br1, br.ProcessAction playerID Fold amount = some (res, br1) ∧
      res.Success = true ∧ res.NextEvent = BettingComplete ∧ br1.players.length = 1 := by
  have hmem : playerID ∈ br.players := by
    have hsplit := split_at_current br hcur
    rw [← hturn] at hsplit
    rw [hsplit]
    exact List.mem_append_right _ (List.mem_cons_self _ _)
  have hlen := removePlayer_length br playerID hmem
  have hcomplete : BettingRound.isBettingComplete
      { br.removePlayer playerID with
        playerActions := mapSet playerID Fold (br.removePlayer playerID).playerActions } = true := by
    unfold BettingRound.isBettingComplete
    rw [if_pos (by show (br.removePlayer playerID).players.length ≤ 1; omega)]
  have key : br.ProcessAction playerID Fold amount =
      some (BettingRound.finishAction
        { br.removePlayer playerID with
          playerActions := mapSet playerID Fold (br.removePlayer playerID).playerActions }
        playerID Fold) := by
    unfold BettingRound.ProcessAction
    rw [if_neg (by rw [← hturn]; exact fun h => h rfl), if_pos rfl]
  have hfin : BettingRound.finishAction
      { br.removePlayer playerID with
        playerActions := mapSet playerID Fold (br.removePlayer playerID).playerActions }
      playerID Fold =
      ({ Success := true,
         Message := "玩家 " ++ toString playerID ++ " " ++ PlayerAction.String Fold
           ++ " 成功，下注轮结束",
         NextEvent := BettingComplete },
       { br.removePlayer playerID with
         playerActions := mapSet playerID Fold (br.removePlayer playerID).playerActions,
         completed := true }) := by
    unfold BettingRound.finishAction
    rw [if_pos hcomplete]
  rw [key, hfin]
  refine ⟨_, _, rfl, rfl, rfl, ?_⟩
  show (br.removePlayer playerID).players.length = 1
  omega

/-- C21 (the code at the failing input). In a fresh round of players 1, 2 and 3 the
first action, a Check of player 1, is accepted and already reports BettingComplete
and marks the round completed, although players 2 and 3 are still in the round and
have not acted: the round has no recorded action for them. -/
theorem BettingComplete_before_all_acted :
    ((NewBettingRound [1, 2, 3]).ProcessAction 1 Check 0).map
        (fun x => (x.1.Success, x.1.NextEvent, x.2.completed)) = some (true, BettingComplete, true) ∧
    ((NewBettingRound [1, 2, 3]).ProcessAction 1 Check 0).map
        (fun x => (x.2.players, x.2.playerActions)) = some ([1, 2, 3], [(1, Check)]) ∧
    ((NewBettingRound [1, 2, 3]).ProcessAction 1 Check 0).map
        (fun x => (x.2.playerActions.lookup 2, x.2.playerActions.lookup 3)) = some (none, none) := by
  decide

/-! ## The first action of a round (claim C39) -/

theorem bettingScan_single_actor (br : BettingRound) (p a : Int) (ha : a ≠ Fold)
    (hact : br.playerActions = [(p, a)])
    (hbet : (br.playerBets.lookup p).getD 0 = br.currentBet) :
    ∀ (l : List Int) (k : Nat), ∃ k1, bettingScan br l k = some k1 ∧ k ≤ k1 ∧ (p ∈ l → k < k1) := by
  intro l
  induction l with
  | nil => intro k; exact ⟨k, rfl, le_refl k, fun h => absurd h (List.not_mem_nil p)⟩
  | cons q rest ih =>
    intro k
    by_cases hq : q = p
    · obtain ⟨k1, h1, hle, _⟩ := ih (k + 1)
      refine ⟨k1, ?_, by omega, fun _ => by omega⟩
      rw [bettingScan, hact, hq]
      simp only [List.lookup_cons, beq_self_eq_true]
      rw [if_pos ha, if_neg (by rw [hbet]; exact fun h => h rfl)]
      exact h1
    · obtain ⟨k1, h1, hle, hlt⟩ := ih k
      refine ⟨k1, ?_, hle, ?_⟩
      · rw [bettingScan, hact]
        have hb : (q == p) = false := by simpa using hq
        simp only [List.lookup_cons, hb, List.lookup_nil]
        exact h1
      · intro hmem
        rcases List.mem_cons.mp hmem with h | h
        · exact absurd h.symm hq
        · exact hlt h

theorem finishAction_single_actor (br : BettingRound) (p a playerID action : Int) (ha : a ≠ Fold)
    (hlen : 2 ≤ br.players.length) (hmem : p ∈ br.players)
    (hact : br.playerActions = [(p, a)])
    (hbet : (br.playerBets.lookup p).getD 0 = br.currentBet) :
    (br.finishAction playerID action).1.NextEvent = BettingComplete ∧
    (br.finishAction playerID action).2 = { br with completed := true } := by
  have hcomplete : br.isBettingComplete = true := by
    unfold BettingRound.isBettingComplete
    rw [if_neg (by omega)]
    obtain ⟨k1, h1, _, hlt⟩ := bettingScan_single_actor br p a ha hact hbet br.players 0
    rw [h1]
    simp only [decide_eq_true_eq]
    exact hlt hmem
  unfold BettingRound.finishAction
  rw [if_pos hcomplete]
  exact ⟨rfl, rfl⟩

/-- The first action of a new round over two or more players, when it is a Check,
Call, Bet, Raise or AllIn of the first player. -/
theorem first_action_result (players : List Int) (action amount : Int)
    (hlen : 2 ≤ players.length)
    (hact : action = Check ∨ action = Call ∨ action = Bet ∨ action = Raise ∨ action = AllIn) :
    ∃ res br1,
      (NewBettingRound players).ProcessAction (players.getD 0 (-1)) action amount
        = some (res, br1) ∧
      (res.Success = true ↔ ¬ (action = Raise ∧ amount ≤ 0)) ∧
      (res.Success = true →
        res.NextEvent = BettingComplete ∧ br1.completed = true ∧ br1.players = players ∧
        ∀ q ∈ players, q ≠ players.getD 0 (-1) → br1.playerActions.lookup q = none) := by
  obtain ⟨p, rest, hp⟩ : ∃ p rest, players = p :: rest := by
    cases players with
    | nil => simp at hlen
    | cons p rest => exact ⟨p, rest, rfl⟩
  have hfirst : players.getD 0 (-1) = p := by rw [hp]; rfl
  have hmem : p ∈ players := by rw [hp]; exact List.mem_cons_self p rest
  have hcur : (NewBettingRound players).GetCurrentPlayer = p := by
    unfold BettingRound.GetCurrentPlayer NewBettingRound
    simp only
    rw [if_neg (by omega)]
    exact hfirst
  have hnext : ∀ b : BettingRound, b.players = players →
      b.nextPlayer = some { b with currentPlayer := (b.currentPlayer + 1) % b.players.length } := by
    intro b hb
    unfold BettingRound.nextPlayer
    rw [if_neg (by rw [hb]; omega)]
  have hlook : ∀ (a q : Int), q ≠ p → List.lookup q [(p, a)] = none := by
    intro a q hq
    have hb : (q == p) = false := by simpa using hq
    simp only [List.lookup_cons, hb, List.lookup_nil]
  rw [hfirst]
  have key : ∀ (b : BettingRound) (a : Int), a ≠ Fold → b.players = players →
      b.playerActions = [(p, a)] → (b.playerBets.lookup p).getD 0 = b.currentBet →
      ∃ res br1, b.nextPlayer.map (fun b1 => b1.finishAction p action) = some (res, br1) ∧
        res.Success = true ∧ res.NextEvent = BettingComplete ∧ br1.completed = true ∧
        br1.players = players ∧
        ∀ q ∈ players, q ≠ p → br1.playerActions.lookup q = none := by
    intro b a ha hb hacts hbet
    rw [hnext b hb, Option.map_some']
    obtain ⟨h1, h2⟩ := finishAction_single_actor
      { b with currentPlayer := (b.currentPlayer + 1) % b.players.length } p a p action ha
      (by show 2 ≤ b.players.length; rw [hb]; exact hlen)
      (by show p ∈ b.players; rw [hb]; exact hmem) hacts hbet
    have hs := finishAction_success
      { b with currentPlayer := (b.currentPlayer + 1) % b.players.length } p action
    generalize BettingRound.finishAction
      { b with currentPlayer := (b.currentPlayer + 1) % b.players.length } p action = x
      at h1 h2 hs
    refine ⟨x.1, x.2, rfl, hs, h1, by rw [h2], by rw [h2]; exact hb, ?_⟩
    intro q _ hq
    rw [h2]
    show b.playerActions.lookup q = none
    rw [hacts]
    exact hlook a q hq
  unfold BettingRound.ProcessAction
  rw [if_neg (by rw [hcur]; exact fun h => h rfl)]
  rcases hact with rfl | rfl | rfl | rfl | rfl
  · -- Check
    rw [if_neg (by decide), if_neg (by decide), if_neg (by decide), if_pos rfl,
      if_neg (by show ¬ (0 : Int) > 0; decide)]
    obtain ⟨res, br1, h, hs, hrest⟩ := key
      { NewBettingRound players with
        playerActions := mapSet p Check (NewBettingRound players).playerActions }
      Check (by decide) rfl rfl rfl
    exact ⟨res, br1, h, ⟨fun _ => fun hc => absurd hc.1 (by decide), fun _ => hs⟩, fun _ => hrest⟩
  · -- Call
    rw [if_neg (by decide), if_pos rfl]
    obtain ⟨res, br1, h, hs, hrest⟩ := key
      { NewBettingRound players with
        playerBets := mapSet p 0 (NewBettingRound players).playerBets,
        playerActions := mapSet p Call (NewBettingRound players).playerActions }
      Call (by decide) rfl rfl (by simp [mapSet, NewBettingRound])
    exact ⟨res, br1, h, ⟨fun _ => fun hc => absurd hc.1 (by decide), fun _ => hs⟩, fun _ => hrest⟩
  · -- Bet
    rw [if_neg (by decide), if_neg (by decide), if_neg (by decide), if_neg (by decide),
      if_pos rfl, if_neg (by show ¬ (0 : Int) > 0; decide)]
    obtain ⟨res, br1, h, hs, hrest⟩ := key
      { NewBettingRound players with
        currentBet := amount,
        playerBets := mapSet p amount (NewBettingRound players).playerBets,
        playerActions := mapSet p Bet (NewBettingRound players).playerActions }
      Bet (by decide) rfl rfl (by simp [mapSet, NewBettingRound])
    exact ⟨res, br1, h, ⟨fun _ => fun hc => absurd hc.1 (by decide), fun _ => hs⟩, fun _ => hrest⟩
  · -- Raise
    rw [if_neg (by decide), if_neg (by decide), if_pos rfl]
    by_cases hamount : amount ≤ 0
    · rw [if_pos (by show amount ≤ 0; exact hamount)]
      refine ⟨_, _, rfl, ⟨fun h => absurd h (by decide), fun h => absurd ⟨rfl, hamount⟩ h⟩, ?_⟩
      intro h
      exact absurd h (by decide)
    · rw [if_neg (by show ¬ amount ≤ 0; exact hamount)]
      obtain ⟨res, br1, h, hs, hrest⟩ := key
        { NewBettingRound players with
          currentBet := amount,
          playerBets := mapSet p amount (NewBettingRound players).playerBets,
          playerActions := mapSet p Raise (NewBettingRound players).playerActions }
        Raise (by decide) rfl rfl (by simp [mapSet, NewBettingRound])
      exact ⟨res, br1, h, ⟨fun _ => fun hc => hamount hc.2, fun _ => hs⟩, fun _ => hrest⟩
  · -- AllIn
    rw [if_neg (by decide), if_neg (by decide), if_neg (by decide), if_neg (by decide),
      if_neg (by decide), if_pos rfl]
    obtain ⟨res, br1, h, hs, hrest⟩ := key
      { NewBettingRound players with
        currentBet := amount,
        playerBets := mapSet p amount (NewBettingRound players).playerBets,
        playerActions := mapSet p AllIn (NewBettingRound players).playerActions }
      AllIn (by decide) rfl rfl (by simp [mapSet, NewBettingRound])
    exact ⟨res, br1, h, ⟨fun _ => fun hc => absurd hc.1 (by decide), fun _ => hs⟩, fun _ => hrest⟩

/-- C39. In a new betting round over two or more players (distinct or not), the
first player's Check, Call, Bet, Raise or AllIn returns without panic; it is accepted
unless it is a Raise of an amount that is not above 0; and when it is accepted it
reports BettingComplete and marks the round completed, with every player still in
the round and no action recorded for any other player. -/
theorem first_action_completes_round (players : List Int) (action amount : Int)
    (hlen : 2 ≤ players.length)
    (hact : action = Check ∨ action = Call ∨ action = Bet ∨ action = Raise ∨ action = AllIn) :
    ∃ res br1,
      (NewBettingRound players).ProcessAction (players.getD 0 (-1)) action amount
        = some (res, br1) ∧
      (res.Success = true ↔ ¬ (action = Raise ∧ amount ≤ 0)) ∧
      (res.Success = true →
        res.NextEvent = BettingComplete ∧ br1.completed = true ∧ br1.players = players ∧
        ∀ q ∈ players, q ≠ players.getD 0 (-1) → br1.playerActions.lookup q = none) :=
  first_action_result players action amount hlen hact

/-- C39 at a sample: three players, the first one checks. -/
theorem first_action_completes_round_witness :
    ∃ res br1,
      (NewBettingRound [1, 2, 3]).ProcessAction ([1, 2, 3].getD 0 (-1)) Check 0
        = some (res, br1) ∧
      (res.Success = true ↔ ¬ (Check = Raise ∧ (0 : Int) ≤ 0)) ∧
      (res.Success = true →
        res.NextEvent = BettingComplete ∧ br1.completed = true ∧ br1.players = [1, 2, 3] ∧
        ∀ q ∈ [1, 2, 3], q ≠ [1, 2, 3].getD 0 (-1) → br1.playerActions.lookup q = none) :=
  first_action_completes_round [1, 2, 3] Check 0 (by decide) (Or.inl rfl)

theorem finishAction_NextEvent (br : BettingRound) (playerID action : Int) :
    (br.finishAction playerID action).1.NextEvent = 0 ∨
      (br.finishAction playerID action).1.NextEvent = BettingComplete := by
  unfold BettingRound.finishAction
  by_cases h : br.isBettingComplete = true
  · rw [if_pos h]; exact Or.inr rfl
  · rw [if_neg h]; exact Or.inl rfl

theorem nextPlayer_finish_NextEvent (br br1 : BettingRound) (playerID action : Int)
    (res : ActionResult)
    (h : (br.nextPlayer.map fun b => b.finishAction playerID action) = some (res, br1)) :
    res.NextEvent = 0 ∨ res.NextEvent = BettingComplete := by
  obtain ⟨b, _, hb⟩ := Option.map_eq_some'.mp h
  have h1 := finishAction_NextEvent b playerID action
  rw [hb] at h1
  exact h1

/-- The event that `ProcessAction` asks for is none (0) or BettingComplete. -/
theorem ProcessAction_NextEvent (br br1 : BettingRound) (playerID action amount : Int)
    (res : ActionResult) (h : br.ProcessAction playerID action amount = some (res, br1)) :
    res.NextEvent = 0 ∨ res.NextEvent = BettingComplete := by
  have hlit : ∀ (msg : String) (b : BettingRound),
      some (({ Success := false, Message := msg, NextEvent := 0 } : ActionResult), b)
        = some (res, br1) → res.NextEvent = 0 ∨ res.NextEvent = BettingComplete := by
    intro msg b hb
    simp only [Option.some.injEq, Prod.mk.injEq] at hb
    rw [← hb.1]
    exact Or.inl rfl
  unfold BettingRound.ProcessAction at h
  by_cases h0 : playerID ≠ br.GetCurrentPlayer
  · rw [if_pos h0] at h; exact hlit _ _ h
  rw [if_neg h0] at h
  by_cases h1 : action = Fold
  · rw [if_pos h1] at h
    simp only [Option.some.injEq] at h
    have h2 := finishAction_NextEvent
      { br.removePlayer playerID with
        playerActions := mapSet playerID Fold (br.removePlayer playerID).playerActions }
      playerID action
    rw [h] at h2
    exact h2
  rw [if_neg h1] at h
  by_cases h2 : action = Call
  · rw [if_pos h2] at h
    exact nextPlayer_finish_NextEvent _ _ _ _ _ h
  rw [if_neg h2] at h
  by_cases h3 : action = Raise
  · rw [if_pos h3] at h
    by_cases h4 : amount ≤ br.currentBet
    · rw [if_pos h4] at h; exact hlit _ _ h
    · rw [if_neg h4] at h
      exact nextPlayer_finish_NextEvent _ _ _ _ _ h
  rw [if_neg h3] at h
  by_cases h4 : action = Check
  · rw [if_pos h4] at h
    by_cases h5 : br.currentBet > 0
    · rw [if_pos h5] at h; exact hlit _ _ h
    · rw [if_neg h5] at h
      exact nextPlayer_finish_NextEvent _ _ _ _ _ h
  rw [if_neg h4] at h
  by_cases h5 : action = Bet
  · rw [if_pos h5] at h
    by_cases h6 : br.currentBet > 0
    · rw [if_pos h6] at h; exact hlit _ _ h
    · rw [if_neg h6] at h
      exact nextPlayer_finish_NextEvent _ _ _ _ _ h
  rw [if_neg h5] at h
  by_cases h6 : action = AllIn
  · rw [if_pos h6] at h
    exact nextPlayer_finish_NextEvent _ _ _ _ _ h
  rw [if_neg h6] at h
  exact hlit _ _ h

end Statemachine

namespace Rooms
open Statemachine

/-! ## Seating (claim C30) -/

theorem findAvailablePosition_eq (r : Room) :
    r.findAvailablePosition =
      match (List.range r.MaxPlayers.toNat).find?
          fun (i : Nat) => !(r.Players.map fun p => p.Position).contains (i : Int) with
      | some i => (i : Int)
      | none => -1 := rfl

/-- When `findAvailablePosition` finds no seat, every index below `MaxPlayers` is
held, so the room has at least `MaxPlayers` seats. -/
theorem findAvailablePosition_none (r : Room) (h : r.findAvailablePosition = -1) :
    r.MaxPlayers ≤ r.Players.length := by
  rw [findAvailablePosition_eq] at h
  cases hf : (List.range r.MaxPlayers.toNat).find?
      fun (i : Nat) => !(r.Players.map fun p => p.Position).contains (i : Int) with
  | some i =>
    rw [hf] at h
    have h1 : (i : Int) = -1 := h
    omega
  | none =>
    rw [List.find?_range_eq_none] at hf
    have hsub : (List.range r.MaxPlayers.toNat).map (fun i : Nat => (i : Int)) ⊆
        r.Players.map (fun p => p.Position) := by
      intro x hx
      obtain ⟨i, hi, rfl⟩ := List.mem_map.mp hx
      have := hf i (List.mem_range.mp hi)
      simpa using this
    have hnd : ((List.range r.MaxPlayers.toNat).map (fun i : Nat => (i : Int))).Nodup :=
      (List.nodup_range _).map Nat.cast_injective
    have hle := (List.subperm_of_subset hnd hsub).length_le
    simp only [List.length_map, List.length_range] at hle
    omega

/-- The seat that `findAvailablePosition` finds is the lowest free index below
`MaxPlayers`. -/
theorem findAvailablePosition_some (r : Room) (h : r.findAvailablePosition ≠ -1) :
    0 ≤ r.findAvailablePosition ∧ r.findAvailablePosition < r.MaxPlayers ∧
      (∀ p ∈ r.Players, p.Position ≠ r.findAvailablePosition) ∧
      ∀ j : Int, 0 ≤ j → j < r.findAvailablePosition → ∃ p ∈ r.Players, p.Position = j := by
  rw [findAvailablePosition_eq] at h ⊢
  cases hf : (List.range r.MaxPlayers.toNat).find?
      fun (i : Nat) => !(r.Players.map fun p => p.Position).contains (i : Int) with
  | none => rw [hf] at h; exact absurd rfl h
  | some i =>
    simp only
    rw [List.find?_range_eq_some] at hf
    obtain ⟨hfree, hmem, hlow⟩ := hf
    have hi := List.mem_range.mp hmem
    refine ⟨by omega, by omega, ?_, ?_⟩
    · intro p hp hpos
      have : (r.Players.map fun p => p.Position).contains (i : Int) = true := by
        simp only [List.contains_iff_exists_mem_beq, beq_iff_eq]
        exact ⟨(i : Int), List.mem_map.mpr ⟨p, hp, hpos⟩, rfl⟩
      rw [this] at hfree
      exact absurd hfree (by decide)
    · intro j hj0 hji
      have hj := hlow j.toNat (by omega)
      have hcast : ((j.toNat : Nat) : Int) = j := Int.toNat_of_nonneg hj0
      rw [hcast] at hj
      have : (r.Players.map fun p => p.Position).contains j = true := by simpa using hj
      simp only [List.contains_iff_exists_mem_beq, beq_iff_eq] at this
      obtain ⟨x, hx, hxj⟩ := this
      obtain ⟨p, hp, hpj⟩ := List.mem_map.mp hx
      exact ⟨p, hp, by rw [hpj, hxj]⟩

theorem player_isSome_iff (r : Room) (userID : Int) :
    (r.player userID).isSome = true ↔ ∃ p ∈ r.Players, p.ID = userID := by
  unfold Room.player
  rw [List.find?_isSome]
  constructor
  · rintro ⟨p, hp, h⟩
    exact ⟨p, hp, by simpa using h⟩
  · rintro ⟨p, hp, h⟩
    exact ⟨p, hp, by simpa using h⟩

/-- The two outcomes of `AddPlayer`: one of the three guards fires and the room is
returned as it was, or none fires, a free seat exists, and the new seat is added. -/
theorem AddPlayer_cases (r : Room) (userID : Int) (username : String) (chips : Int) :
    ((r.MaxPlayers ≤ r.Players.length ∨ (∃ p ∈ r.Players, p.ID = userID) ∨
          chips < r.MinChips) ∧
        (r.AddPlayer userID username chips).1 ≠ none ∧
        (r.AddPlayer userID username chips).2 = r) ∨
    (¬ (r.MaxPlayers ≤ r.Players.length ∨ (∃ p ∈ r.Players, p.ID = userID) ∨
          chips < r.MinChips) ∧
        r.findAvailablePosition ≠ -1 ∧
        r.AddPlayer userID username chips =
          (none, { r with Players :=
            r.Players ++ [newSeat userID username chips r.findAvailablePosition] })) := by
  unfold Room.AddPlayer
  by_cases hfull : (r.Players.length : Int) ≥ r.MaxPlayers
  · rw [if_pos hfull]
    exact Or.inl ⟨Or.inl hfull, by simp, rfl⟩
  · rw [if_neg hfull]
    by_cases hseat : (r.player userID).isSome = true
    · rw [if_pos hseat]
      exact Or.inl ⟨Or.inr (Or.inl ((player_isSome_iff r userID).mp hseat)), by simp, rfl⟩
    · rw [if_neg hseat]
      by_cases hchips : chips < r.MinChips
      · rw [if_pos hchips]
        exact Or.inl ⟨Or.inr (Or.inr hchips), by simp, rfl⟩
      · rw [if_neg hchips]
        have hpos : r.findAvailablePosition ≠ -1 := fun h =>
          hfull (findAvailablePosition_none r h)
        refine Or.inr ⟨?_, hpos, ?_⟩
        · rintro (h | h | h)
          · exact hfull h
          · exact hseat ((player_isSome_iff r userID).mpr h)
          · exact hchips h
        · simp only [if_neg hpos]
          split
          · next hst =>
            have h2 := hst.2
            unfold newSeat
            rw [← h2]
          · rfl

/-- Before the first hand the room is waiting and holds at most `MaxPlayers`
seats. -/
theorem Reachable.waiting_and_bounded {r : Room} (hr : Reachable r) :
    r.Status = RoomWaiting ∧ ((r.Players.length : Int) ≤ r.MaxPlayers ∨ r.Players = []) := by
  induction hr with
  | newRoom id name chipLevel minChips smallBlind bigBlind maxPlayers isPrivate =>
    exact ⟨rfl, Or.inr rfl⟩
  | addPlayer r userID username chips _ ih =>
    rcases AddPlayer_cases r userID username chips with ⟨_, _, h⟩ | ⟨hno, _, h⟩
    · rw [h]; exact ih
    · rw [h]
      refine ⟨ih.1, Or.inl ?_⟩
      have hlt : ¬ r.MaxPlayers ≤ r.Players.length := fun h => hno (Or.inl h)
      simp only [List.length_append, List.length_singleton]
      push_cast
      omega
  | removePlayer r r1 userID err _ h ih =>
    unfold Room.RemovePlayer at h
    cases hp : r.player userID with
    | none =>
      rw [hp] at h
      simp only [Option.some.injEq, Prod.mk.injEq] at h
      rw [← h.2]; exact ih
    | some player =>
      rw [hp] at h
      have hst : ¬ (r.Status = RoomPlaying ∧ player.Status = PlayerActive) := by
        rw [ih.1]
        intro hc
        exact absurd hc.1 (by decide)
      simp only [if_neg hst, Option.map_some'] at h
      have hlen : (r.Players.filter fun p => p.ID != userID).length ≤ r.Players.length :=
        List.length_filter_le _ _
      by_cases h0 : (r.Players.filter fun p => p.ID != userID).length = 0
      · rw [if_pos h0] at h
        simp only [Option.some.injEq, Prod.mk.injEq] at h
        rw [← h.2]
        exact ⟨rfl, Or.inr (List.length_eq_zero.mp h0)⟩
      · rw [if_neg h0] at h
        simp only [Option.some.injEq, Prod.mk.injEq] at h
        rw [← h.2]
        refine ⟨ih.1, ?_⟩
        rcases ih.2 with hle | hnil
        · left
          show (((r.Players.filter fun p => p.ID != userID).length : Nat) : Int) ≤ r.MaxPlayers
          omega
        · exfalso
          apply h0
          rw [hnil]
          rfl

/-- C30. In a room that `NewRoom`, `AddPlayer` and `RemovePlayer` have produced, the
number of seats never exceeds `MaxPlayers` (or is 0); `AddPlayer` returns an error
exactly when the room is full (`MaxPlayers` seats or more), or the user is already
seated, or the chips are below `MinChips`; whenever the room is not full
`findAvailablePosition` finds a seat, so the no-seat failure does not occur; a call
that returns an error returns the room unchanged; a call that succeeds changes the
room only by adding the seat of that user, with stack `chips`, status Sitting and
the lowest index in `[0, MaxPlayers)` that no seat holds. -/
theorem AddPlayer_fails_iff (r : Room) (hr : Reachable r) (userID : Int) (username : String)
    (chips : Int) :
    ((r.Players.length : Int) ≤ max r.MaxPlayers 0) ∧
    ((r.AddPlayer userID username chips).1 ≠ none ↔
      (r.MaxPlayers ≤ r.Players.length ∨ (∃ p ∈ r.Players, p.ID = userID) ∨
        chips < r.MinChips)) ∧
    ((r.Players.length : Int) < r.MaxPlayers → r.findAvailablePosition ≠ -1) ∧
    ((r.AddPlayer userID username chips).1 ≠ none →
      (r.AddPlayer userID username chips).2 = r) ∧
    ((r.AddPlayer userID username chips).1 = none →
      ∃ position : Int, 0 ≤ position ∧ position < r.MaxPlayers ∧
        (∀ p ∈ r.Players, p.Position ≠ position) ∧
        (∀ j : Int, 0 ≤ j → j < position → ∃ p ∈ r.Players, p.Position = j) ∧
        (r.AddPlayer userID username chips).2 =
          { r with Players := r.Players ++
              [{ ID := userID, Username := username, Chips := chips, Position := position,
                 Status := PlayerSitting, Cards := [], LastAction := 0, BetAmount := 0,
                 IsDealer := false, IsSmallBlind := false, IsBigBlind := false }] }) := by
  have hb := hr.waiting_and_bounded
  refine ⟨?_, ?_, ?_, ?_, ?_⟩
  · rcases hb.2 with h | h
    · exact le_trans h (le_max_left _ _)
    · rw [h]; exact le_max_right _ _
  · rcases AddPlayer_cases r userID username chips with ⟨hc, he, _⟩ | ⟨hno, _, h⟩
    · exact ⟨fun _ => hc, fun _ => he⟩
    · rw [h]
      exact ⟨fun hne => absurd rfl hne, fun hc => absurd hc hno⟩
  · intro hlt h
    have := findAvailablePosition_none r h
    omega
  · intro hne
    rcases AddPlayer_cases r userID username chips with ⟨_, _, h⟩ | ⟨_, _, h⟩
    · exact h
    · rw [h] at hne; exact absurd rfl hne
  · intro hnone
    rcases AddPlayer_cases r userID username chips with ⟨_, he, _⟩ | ⟨_, hpos, h⟩
    · exact absurd hnone he
    · obtain ⟨h0, hlt, hfree, hlow⟩ := findAvailablePosition_some r hpos
      exact ⟨r.findAvailablePosition, h0, hlt, hfree, hlow, by rw [h]; rfl⟩

/-- C30 at a sample: a third player joins the two-seat sample room. -/
theorem AddPlayer_fails_iff_witness :
    ((headsUp.AddPlayer 3 "c" 1000).1 ≠ none ↔
      (headsUp.MaxPlayers ≤ headsUp.Players.length ∨ (∃ p ∈ headsUp.Players, p.ID = 3) ∨
        (1000 : Int) < headsUp.MinChips)) :=
  (AddPlayer_fails_iff headsUp
    (Reachable.addPlayer _ 2 "b" 1000
      (Reachable.addPlayer _ 1 "a" 1000 (Reachable.newRoom 1 "table" "low" 100 10 20 6 false)))
    3 "c" 1000).2.1

/-! ## Pot, stacks and the end of a hand (claims C22, C23, C27, C28, C29) -/

/-- C22 (the code at the failing input). Two players with 1000 chips each, blinds
10/20.  After `StartGame` the pot is 30 while no stack has gone down; then player 1
raises to 100, the call is accepted, and the room, still Playing, has pot 30 while
the bets recorded for the seats are 100 and 20 and the stacks are still 1000 each. -/
theorem Pot_ignores_accepted_bets :
    (started noShuffle headsUp).map
        (fun r => (r.Status, r.Pot, (r.Players.map fun p => p.BetAmount).sum,
          (r.Players.map fun p => p.Chips).sum)) = some ("playing", 30, 30, 2000) ∧
    ((started noShuffle headsUp).bind fun r => r.ProcessPlayerAction 1 Raise 100).map
        (fun x => (x.1.Success, x.2.1)) = some (true, none) ∧
    (thenAct (started noShuffle headsUp) 1 Raise 100).map Room.seats
      = some [(1, 1000, 100, "active"), (2, 1000, 20, "active")] ∧
    (thenAct (started noShuffle headsUp) 1 Raise 100).map
        (fun r => (r.Status, r.Pot, (r.Players.map fun p => p.BetAmount).sum,
          (r.Players.map fun p => p.Chips).sum)) = some ("playing", 30, 120, 2000) := by
  decide

/-- C23 (the code at the failing input). Two players with 1000 chips each, blinds
10/20.  `StartGame` succeeds, marks player 1 as small blind and player 2 as big
blind, records the bets 10 and 20 and sets the pot to 30, but both stacks are still
1000: stacks plus pot went from 2000 to 2030. -/
theorem StartGame_keeps_the_stacks :
    (headsUp.Pot, headsUp.Players.map fun p => (p.ID, p.Chips)) = (0, [(1, 1000), (2, 1000)]) ∧
    (headsUp.StartGame noShuffle).map (fun x => (x.1, x.2.phase))
      = some (none, "playing", PreFlop, 30) ∧
    (started noShuffle headsUp).map
        (fun r => r.Players.map fun p => (p.ID, p.IsSmallBlind, p.IsBigBlind, p.BetAmount))
      = some [(1, true, false, 10), (2, false, true, 20)] ∧
    (started noShuffle headsUp).map (fun r => r.Players.map fun p => (p.ID, p.Chips))
      = some [(1, 1000), (2, 1000)] := by
  decide

/-- C27 (the code at the failing input). Two players play a hand to the showdown.
After it the room is Waiting with both players seated, but the state machine is in
GameEnd, not in WaitingForPlayers; the following `StartGame` returns the error of
the state machine, which stays in GameEnd, and no betting round is opened. -/
theorem StartGame_fails_after_a_hand :
    checkedDown.map (fun r => (r.phase, r.Players.length)) = some (("waiting", GameEnd, 30), 2) ∧
    (checkedDown.bind fun r => r.StartGame noShuffle).map (fun x => x.1)
      = some (some "无法从状态 游戏结束 通过事件 开始游戏 进行转换") ∧
    (checkedDown.bind fun r => r.StartGame noShuffle).map
        (fun x => (x.2.StateMachine.currentState, x.2.BettingRound.isSome))
      = some (GameEnd, false) := by
  decide

/-- C28 (the code at the failing input). Three players, blinds 10/20, the hand in
the Flop state with pot 30; the middle seat, player 2, leaves.  `RemovePlayer`
returns no error, the state machine is in GameEnd and the seat is gone, but no pot
is awarded: players 1 and 3 have 1000 chips each, as before the call. -/
theorem RemovePlayer_on_the_flop_awards_nothing :
    threeSeatsFlop.map Room.phase = some ("playing", Flop, 30) ∧
    threeSeatsFlop.map Room.seats
      = some [(1, 1000, 0, "active"), (2, 1000, 10, "active"), (3, 1000, 20, "active")] ∧
    (threeSeatsFlop.bind fun r => r.RemovePlayer 2).map (fun x => x.1) = some none ∧
    flopLeave.map Room.phase = some ("waiting", GameEnd, 30) ∧
    flopLeave.map Room.seats = some [(1, 1000, 0, "active"), (3, 1000, 20, "active")] := by
  decide

/-- C29 (the code at the failing input). After the hand that ended when player 2
left on the flop, the room is Waiting with two seats and three board cards.
`StartGame` returns an error, yet the room it leaves is Playing, the board is
empty, the deck is a new one and the bets recorded for the seats have changed. -/
theorem StartGame_error_changes_the_room :
    flopLeave.map (fun r => (r.Status, r.CommunityCards.length, r.Deck.map fun d => d.index))
      = some ("waiting", 3, some 10) ∧
    flopLeave.map Room.seats = some [(1, 1000, 0, "active"), (3, 1000, 20, "active")] ∧
    (flopLeave.bind fun r => r.StartGame noShuffle).map (fun x => x.1.isSome) = some true ∧
    (flopLeave.bind fun r => r.StartGame noShuffle).map
        (fun x => (x.2.Status, x.2.CommunityCards.length, x.2.Deck.map fun d => d.index))
      = some ("playing", 0, some 0) ∧
    (flopLeave.bind fun r => r.StartGame noShuffle).map (fun x => x.2.seats)
      = some [(1, 1000, 20, "active"), (3, 1000, 10, "active")] := by
  decide

/-! ## Settlement (claims C24, C25) -/

theorem CompareHands_pos_iff (a b : Poker.Hand) :
    Poker.CompareHands a b > 0 ↔ Poker.getHandValue a > Poker.getHandValue b := by
  unfold Poker.CompareHands
  by_cases h1 : Poker.getHandValue a > Poker.getHandValue b
  · simp only [if_pos h1]; exact ⟨fun _ => h1, fun _ => by decide⟩
  · simp only [if_neg h1]
    by_cases h2 : Poker.getHandValue a < Poker.getHandValue b
    · simp only [if_pos h2]; exact ⟨fun h => absurd h (by decide), fun h => absurd h h1⟩
    · simp only [if_neg h2]; exact ⟨fun h => absurd h (by decide), fun h => absurd h h1⟩

/-- The loop of `determineWinner`, entered with a winner already chosen: it keeps
that winner when no later seat scores above the best hand so far, and otherwise
returns the first seat whose hand scores highest. -/
theorem determineWinnerLoop_spec (r : Room) :
    ∀ (ids : List Int) (best : Poker.Hand) (w : Int), w ≠ -1 →
      (∀ id ∈ ids, id ≠ -1 ∧ ∃ p, r.player id = some p ∧ p.Status ≠ PlayerFolded ∧
        (p.Cards ++ r.CommunityCards).length = 7) →
      ∃ w1, determineWinnerLoop r ids best w = some w1 ∧
        ((w1 = w ∧ ∀ id ∈ ids, ∀ h, seatHand r id = some h →
            Poker.getHandValue h ≤ Poker.getHandValue best) ∨
         (∃ pre post h1, ids = pre ++ w1 :: post ∧ seatHand r w1 = some h1 ∧
            Poker.getHandValue best < Poker.getHandValue h1 ∧
            (∀ id ∈ pre, ∀ h, seatHand r id = some h →
              Poker.getHandValue h < Poker.getHandValue h1) ∧
            (∀ id ∈ post, ∀ h, seatHand r id = some h →
              Poker.getHandValue h ≤ Poker.getHandValue h1))) := by
  intro ids
  induction ids with
  | nil =>
    intro best w _ _
    exact ⟨w, rfl, Or.inl ⟨rfl, fun id hid => absurd hid (List.not_mem_nil id)⟩⟩
  | cons id rest ih =>
    intro best w hw hall
    obtain ⟨hid, p, hp, hfold, hlen⟩ := hall id (List.mem_cons_self id rest)
    have hrest : ∀ x ∈ rest, x ≠ -1 ∧ ∃ p, r.player x = some p ∧ p.Status ≠ PlayerFolded ∧
        (p.Cards ++ r.CommunityCards).length = 7 :=
      fun x hx => hall x (List.mem_cons_of_mem id hx)
    obtain ⟨hand, hhand, _⟩ := Poker.EvaluateHand_spec (p.Cards ++ r.CommunityCards) hlen
    have hseat : seatHand r id = some hand := by
      unfold seatHand; rw [hp]; exact hhand
    have hstep : determineWinnerLoop r (id :: rest) best w =
        if Poker.CompareHands hand best > 0 then determineWinnerLoop r rest hand id
        else determineWinnerLoop r rest best w := by
      rw [determineWinnerLoop, hp]
      simp only [if_pos hfold, if_pos hlen, hhand, hw, false_or]
    rw [hstep]
    by_cases hgt : Poker.CompareHands hand best > 0
    · rw [if_pos hgt]
      have hv := (CompareHands_pos_iff hand best).mp hgt
      obtain ⟨w1, hw1, hcase⟩ := ih hand id hid hrest
      refine ⟨w1, hw1, Or.inr ?_⟩
      rcases hcase with ⟨heq, hle⟩ | ⟨pre, post, h1, hsplit, hs1, hlt, hpre, hpost⟩
      · refine ⟨[], rest, hand, by rw [heq]; rfl, by rw [heq]; exact hseat, hv, ?_, hle⟩
        intro x hx; exact absurd hx (List.not_mem_nil x)
      · refine ⟨id :: pre, post, h1, by rw [hsplit]; rfl, hs1, by omega, ?_, hpost⟩
        intro x hx h hxh
        rcases List.mem_cons.mp hx with rfl | hx
        · rw [hseat] at hxh; cases hxh; exact hlt
        · exact hpre x hx h hxh
    · rw [if_neg hgt]
      have hv : Poker.getHandValue hand ≤ Poker.getHandValue best := by
        have := (CompareHands_pos_iff hand best).not.mp hgt
        omega
      obtain ⟨w1, hw1, hcase⟩ := ih best w hw hrest
      refine ⟨w1, hw1, ?_⟩
      rcases hcase with ⟨heq, hle⟩ | ⟨pre, post, h1, hsplit, hs1, hlt, hpre, hpost⟩
      · left
        refine ⟨heq, ?_⟩
        intro x hx h hxh
        rcases List.mem_cons.mp hx with rfl | hx
        · rw [hseat] at hxh; cases hxh; exact hv
        · exact hle x hx h hxh
      · right
        refine ⟨id :: pre, post, h1, by rw [hsplit]; rfl, hs1, hlt, ?_, hpost⟩
        intro x hx h hxh
        rcases List.mem_cons.mp hx with rfl | hx
        · rw [hseat] at hxh; cases hxh; omega
        · exact hpre x hx h hxh

theorem player_of_mem_active (r : Room) (hnodup : (r.Players.map fun p => p.ID).Nodup)
    (id : Int) (hid : id ∈ r.getActivePlayerIDs) :
    ∃ p, p ∈ r.Players ∧ r.player id = some p ∧ p.ID = id ∧
      (p.Status = PlayerSitting ∨ p.Status = PlayerActive) := by
  unfold Room.getActivePlayerIDs at hid
  obtain ⟨p, hpf, hpid⟩ := List.mem_map.mp hid
  obtain ⟨hp, hst⟩ := List.mem_filter.mp hpf
  have hsome : (r.player id).isSome = true :=
    (player_isSome_iff r id).mpr ⟨p, hp, hpid⟩
  obtain ⟨q, hq⟩ := Option.isSome_iff_exists.mp hsome
  have hqmem : q ∈ r.Players := List.mem_of_find?_eq_some hq
  have hqid : q.ID = id := by
    have := List.find?_some hq
    simpa using this
  have hqp : q = p :=
    List.inj_on_of_nodup_map hnodup hqmem hp (by rw [hqid, hpid])
  refine ⟨p, hp, by rw [hq, hqp], hpid, ?_⟩
  simpa using hst

theorem modifyPlayer_active (id : Int) (f : Player → Player)
    (hf : ∀ p, (f p).ID = p.ID ∧ (f p).Status = p.Status) (players : List Player) :
    ((modifyPlayer id f players).filter
        fun p => p.Status == PlayerSitting || p.Status == PlayerActive).map (fun p => p.ID) =
      (players.filter fun p => p.Status == PlayerSitting || p.Status == PlayerActive).map
        (fun p => p.ID) := by
  unfold modifyPlayer
  rw [List.filter_map, List.map_map]
  have h1 : ((fun p : Player => p.Status == PlayerSitting || p.Status == PlayerActive) ∘
      fun p => if p.ID = id then f p else p) =
      fun p : Player => p.Status == PlayerSitting || p.Status == PlayerActive := by
    funext p
    by_cases hp : p.ID = id
    · simp only [Function.comp, if_pos hp, (hf p).2]
    · simp only [Function.comp, if_neg hp]
  have h2 : ((fun p : Player => p.ID) ∘ fun p => if p.ID = id then f p else p) =
      fun p : Player => p.ID := by
    funext p
    by_cases hp : p.ID = id
    · simp only [Function.comp, if_pos hp, (hf p).1]
    · simp only [Function.comp, if_neg hp]
  rw [h1, h2]

theorem CompareHands_of_lt (a b : Poker.Hand)
    (h : Poker.getHandValue a < Poker.getHandValue b) : Poker.CompareHands a b = -1 := by
  unfold Poker.CompareHands
  rw [if_neg (by omega), if_pos h]

theorem CompareHands_of_le (a b : Poker.Hand)
    (h : Poker.getHandValue a ≤ Poker.getHandValue b) : Poker.CompareHands a b ≤ 0 := by
  unfold Poker.CompareHands
  rw [if_neg (by omega)]
  by_cases h2 : Poker.getHandValue a < Poker.getHandValue b
  · rw [if_pos h2]; decide
  · rw [if_neg h2]

/-- With two or more seats in the list that `determineWinner` goes through, each
holding seven cards with the board, the winner is the first seat of that list whose
hand no other seat of the list beats. -/
theorem determineWinner_first_best (r : Room)
    (hn : 2 ≤ r.getActivePlayerIDs.length)
    (hnodup : (r.Players.map fun p => p.ID).Nodup)
    (hids : ∀ p ∈ r.Players, p.ID ≠ -1)
    (hcards : ∀ p ∈ r.Players, p.Status = PlayerSitting ∨ p.Status = PlayerActive →
      (p.Cards ++ r.CommunityCards).length = 7) :
    ∃ pre w post hw,
      r.getActivePlayerIDs = pre ++ w :: post ∧ w ≠ -1 ∧
      (∃ p, r.player w = some p) ∧
      seatHand r w = some hw ∧
      (∀ q ∈ pre, ∃ hq, seatHand r q = some hq ∧ Poker.CompareHands hq hw = -1) ∧
      (∀ q ∈ post, ∃ hq, seatHand r q = some hq ∧ Poker.CompareHands hq hw ≤ 0) ∧
      r.determineWinner = some w := by
  have hall : ∀ id ∈ r.getActivePlayerIDs, id ≠ -1 ∧ ∃ p, r.player id = some p ∧
      p.Status ≠ PlayerFolded ∧ (p.Cards ++ r.CommunityCards).length = 7 := by
    intro id hid
    obtain ⟨p, hp, hpl, hpid, hst⟩ := player_of_mem_active r hnodup id hid
    refine ⟨by rw [← hpid]; exact hids p hp, p, hpl, ?_, hcards p hp hst⟩
    rcases hst with h | h
    · rw [h]; decide
    · rw [h]; decide
  have hhand : ∀ id ∈ r.getActivePlayerIDs, ∃ h, seatHand r id = some h := by
    intro id hid
    obtain ⟨_, p, hpl, _, hlen⟩ := hall id hid
    obtain ⟨hand, hhand, _⟩ := Poker.EvaluateHand_spec (p.Cards ++ r.CommunityCards) hlen
    exact ⟨hand, by unfold seatHand; rw [hpl]; exact hhand⟩
  unfold Room.determineWinner
  simp only
  rw [if_neg (by omega), if_neg (by omega)]
  cases hlist : r.getActivePlayerIDs with
  | nil => rw [hlist] at hn; simp at hn
  | cons first rest =>
    rw [hlist] at hall hhand
    obtain ⟨hfirst, p, hp, hfold, hlen⟩ := hall first (List.mem_cons_self first rest)
    obtain ⟨hand, hhandeq, _⟩ := Poker.EvaluateHand_spec (p.Cards ++ r.CommunityCards) hlen
    have hseat : seatHand r first = some hand := by
      unfold seatHand; rw [hp]; exact hhandeq
    have hstep : determineWinnerLoop r (first :: rest) { Cards := [], Typ := 0, Ranks := [] }
        (-1) = determineWinnerLoop r rest hand first := by
      rw [determineWinnerLoop, hp]
      simp only [if_pos hfold, if_pos hlen, hhandeq, true_or, if_true]
    rw [hstep]
    obtain ⟨w1, hw1, hcase⟩ := determineWinnerLoop_spec r rest hand first hfirst
      (fun x hx => hall x (List.mem_cons_of_mem first hx))
    rcases hcase with ⟨heq, hle⟩ | ⟨pre, post, h1, hsplit, hs1, hlt, hpre, hpost⟩
    · refine ⟨[], first, rest, hand, rfl, hfirst, ⟨p, hp⟩, hseat, ?_, ?_, by rw [hw1, heq]⟩
      · intro q hq; exact absurd hq (List.not_mem_nil q)
      · intro q hq
        obtain ⟨h, hh⟩ := hhand q (List.mem_cons_of_mem first hq)
        exact ⟨h, hh, CompareHands_of_le h hand (hle q hq h hh)⟩
    · have hw1mem : w1 ∈ first :: rest := by
        rw [hsplit]; exact List.mem_cons_of_mem first (List.mem_append_right pre (List.mem_cons_self w1 post))
      obtain ⟨hw1ne, p1, hp1, _, _⟩ := hall w1 hw1mem
      refine ⟨first :: pre, w1, post, h1, by rw [hsplit]; rfl, hw1ne, ⟨p1, hp1⟩, hs1, ?_, ?_, hw1⟩
      · intro q hq
        rcases List.mem_cons.mp hq with rfl | hq
        · exact ⟨hand, hseat, CompareHands_of_lt hand h1 hlt⟩
        · have hqmem : q ∈ first :: rest := by
            rw [hsplit]; exact List.mem_cons_of_mem first (List.mem_append_left _ hq)
          obtain ⟨h, hh⟩ := hhand q hqmem
          exact ⟨h, hh, CompareHands_of_lt h h1 (hpre q hq h hh)⟩
      · intro q hq
        have hqmem : q ∈ first :: rest := by
          rw [hsplit]
          exact List.mem_cons_of_mem first (List.mem_append_right pre (List.mem_cons_of_mem w1 hq))
        obtain ⟨h, hh⟩ := hhand q hqmem
        exact ⟨h, hh, CompareHands_of_le h h1 (hpost q hq h hh)⟩

/-- C24 (the code at the failing input). Two players; player 1, holding A♠ 3♠, goes
all in before the flop and player 2, holding 4♠ 5♠, checks down.  At settlement the
board has five cards and both seats are non-folded (AllIn and Active); the hand of
player 1, the flush A K J 9 8, beats the flush K J 9 8 7 of player 2 under
`CompareHands`, yet the pot of 30 is added to the stack of player 2. -/
theorem AllIn_seat_is_passed_over :
    allInFirst.map Room.phase = some ("waiting", GameEnd, 30) ∧
    allInFirst.map Room.seats = some [(1, 1000, 1000, "allin"), (2, 1030, 0, "active")] ∧
    allInFirst.map (fun r => r.CommunityCards.length) = some 5 ∧
    allInFirst.bind (fun r => (seatHand r 1).map fun h => (h.Typ, h.Ranks))
      = some (Poker.Flush, [14, 13, 11, 9, 8]) ∧
    allInFirst.bind (fun r => (seatHand r 2).map fun h => (h.Typ, h.Ranks))
      = some (Poker.Flush, [13, 11, 9, 8, 7]) ∧
    allInFirst.bind (fun r => (seatHand r 1).bind fun h1 =>
      (seatHand r 2).map fun h2 => Poker.CompareHands h1 h2) = some 1 := by
  decide

/-- C25 (counterexample). Two players check down a board on which both hold the
flush K J 9 8 7; `CompareHands` returns 0 for the two hands, yet player 1 receives
the whole pot of 30 and player 2 nothing, where an even split gives 15 to each. -/
theorem tie_pays_one_seat :
    checkedDown.map Room.phase = some ("waiting", GameEnd, 30) ∧
    checkedDown.map Room.seats = some [(1, 1030, 0, "active"), (2, 1000, 20, "active")] ∧
    checkedDown.bind (fun r => (seatHand r 1).map fun h => (h.Typ, h.Ranks))
      = some (Poker.Flush, [13, 11, 9, 8, 7]) ∧
    checkedDown.bind (fun r => (seatHand r 2).map fun h => (h.Typ, h.Ranks))
      = some (Poker.Flush, [13, 11, 9, 8, 7]) ∧
    checkedDown.bind (fun r => (seatHand r 1).bind fun h1 =>
      (seatHand r 2).map fun h2 => Poker.CompareHands h1 h2) = some 0 := by
  decide

/-- C25 (amended). At settlement in a room whose seats have pairwise different ids,
none of them -1 (the value with which `determineWinner` marks that no winner is
chosen yet), with two or more seats in the list that `determineWinner` goes through
(the Sitting and Active seats, in the order of the loop over the seats), each
holding seven cards with the board, the whole pot goes to one seat: the first seat
of that list whose hand no seat of the list beats.  Every seat before it has a hand
that loses to it, the seats after it lose or tie, and a seat that ties with it
receives nothing: the stacks after `endGame` are the stacks before, with the pot
added (in 64-bit arithmetic) to the winner only. -/
theorem endGame_pays_first_best (r : Room)
    (hn : 2 ≤ r.getActivePlayerIDs.length)
    (hnodup : (r.Players.map fun p => p.ID).Nodup)
    (hids : ∀ p ∈ r.Players, p.ID ≠ -1)
    (hcards : ∀ p ∈ r.Players, p.Status = PlayerSitting ∨ p.Status = PlayerActive →
      (p.Cards ++ r.CommunityCards).length = 7) :
    ∃ pre w post hw r1,
      r.getActivePlayerIDs = pre ++ w :: post ∧
      seatHand r w = some hw ∧
      (∀ q ∈ pre, ∃ hq, seatHand r q = some hq ∧ Poker.CompareHands hq hw = -1) ∧
      (∀ q ∈ post, ∃ hq, seatHand r q = some hq ∧ Poker.CompareHands hq hw ≤ 0) ∧
      r.endGame = some r1 ∧
      r1.Players = modifyPlayer w
        (fun p => { p with Chips := Poker.wrapInt (p.Chips + r.Pot) }) r.Players := by
  obtain ⟨pre, w, post, hw, hsplit, hwne, ⟨p, hp⟩, hseat, hpre, hpost, hdw⟩ :=
    determineWinner_first_best r hn hnodup hids hcards
  have hactive : Room.getActivePlayerIDs
      { r with
        Players := modifyPlayer w
          (fun p => { p with Chips := Poker.wrapInt (p.Chips + r.Pot) }) r.Players,
        CurrentGame := r.CurrentGame.map fun g => { g with WinnerID := w, WinAmount := r.Pot } }
      = r.getActivePlayerIDs := by
    unfold Room.getActivePlayerIDs
    exact modifyPlayer_active w
      (fun p => { p with Chips := Poker.wrapInt (p.Chips + r.Pot) }) (fun p => ⟨rfl, rfl⟩)
      r.Players
  have hend : ∃ r1, r.endGame = some r1 ∧ r1.Players = modifyPlayer w
      (fun p => { p with Chips := Poker.wrapInt (p.Chips + r.Pot) }) r.Players := by
    unfold Room.endGame
    rw [hdw]
    simp only [if_pos hwne, hp]
    rw [hactive, if_neg (by omega)]
    exact ⟨_, rfl, rfl⟩
  obtain ⟨r1, h1, h2⟩ := hend
  exact ⟨pre, w, post, hw, r1, hsplit, hseat, hpre, hpost, h1, h2⟩

/-- C25 (amended) at a sample: in `tieRoom` both seats hold the same flush and the
pot goes to seat 1. -/
theorem endGame_pays_first_best_witness :
    ∃ pre w post hw r1,
      tieRoom.getActivePlayerIDs = pre ++ w :: post ∧
      seatHand tieRoom w = some hw ∧
      (∀ q ∈ pre, ∃ hq, seatHand tieRoom q = some hq ∧ Poker.CompareHands hq hw = -1) ∧
      (∀ q ∈ post, ∃ hq, seatHand tieRoom q = some hq ∧ Poker.CompareHands hq hw ≤ 0) ∧
      tieRoom.endGame = some r1 ∧
      r1.Players = modifyPlayer w
        (fun p => { p with Chips := Poker.wrapInt (p.Chips + tieRoom.Pot) }) tieRoom.Players :=
  endGame_pays_first_best tieRoom (by decide) (by decide) (by decide) (by decide)

/-! ## Streets (claim C26) -/

theorem deal_some (r : Room) (d : Poker.Deck) (hd : r.Deck = some d)
    (hlt : d.index < d.cards.length) :
    ∃ card, r.deal = some (card, { r with Deck := some { d with index := d.index + 1 } }) := by
  unfold Room.deal
  rw [hd]
  simp only
  unfold Poker.Deck.Deal
  rw [if_neg (by omega), List.getElem?_eq_getElem hlt]
  exact ⟨_, rfl⟩

theorem dealCommunity_some : ∀ (k : Nat) (r : Room) (d : Poker.Deck), r.Deck = some d →
    d.index + k ≤ d.cards.length →
    ∃ r1, Room.dealCommunity k r = some r1 ∧ r1.Players = r.Players ∧ r1.Pot = r.Pot ∧
      r1.Status = r.Status ∧ r1.StateMachine = r.StateMachine ∧
      r1.CommunityCards.length = r.CommunityCards.length + k := by
  intro k
  induction k with
  | zero =>
    intro r d _ _
    exact ⟨r, rfl, rfl, rfl, rfl, rfl, rfl⟩
  | succ k ih =>
    intro r d hd hle
    obtain ⟨card, hcard⟩ := deal_some r d hd (by omega)
    rw [Room.dealCommunity, hcard]
    simp only
    obtain ⟨r1, h1, hp, hpot, hst, hsm, hlen⟩ := ih
      { r with Deck := some { d with index := d.index + 1 },
               CommunityCards := r.CommunityCards ++ [card] }
      { d with index := d.index + 1 } rfl (by show d.index + 1 + k ≤ d.cards.length; omega)
    refine ⟨r1, h1, hp, hpot, hst, hsm, ?_⟩
    rw [hlen]
    simp only [List.length_append, List.length_singleton]
    omega

theorem dealStreet_some (k : Nat) (r : Room) (d : Poker.Deck) (hd : r.Deck = some d)
    (hle : d.index + (k + 1) ≤ d.cards.length) :
    ∃ r1, Room.dealStreet k r = some r1 ∧ r1.Players = r.Players ∧ r1.Pot = r.Pot ∧
      r1.Status = r.Status ∧ r1.StateMachine = r.StateMachine ∧
      r1.CommunityCards.length = r.CommunityCards.length + k ∧
      r1.BettingRound = some (NewBettingRound r.getActivePlayerIDs) := by
  obtain ⟨card, hcard⟩ := deal_some r d hd (by omega)
  obtain ⟨r1, h1, hp, hpot, hst, hsm, hlen⟩ := dealCommunity_some k
    { r with Deck := some { d with index := d.index + 1 } }
    { d with index := d.index + 1 } rfl (by show d.index + 1 + k ≤ d.cards.length; omega)
  unfold Room.dealStreet
  rw [hcard]
  simp only
  rw [h1]
  refine ⟨_, rfl, hp, hpot, hst, hsm, hlen, ?_⟩
  simp only [Room.getActivePlayerIDs, hp]

/-- From PreFlop, Flop or Turn the event BettingComplete moves the state machine of a
room to the next street: the callback burns a card, deals the board cards of that
street and opens a new betting round; seats, pot and status stay as they are. -/
theorem Transition_BettingComplete (r : Room) (d : Poker.Deck) (s : Int)
    (hs : s = PreFlop ∨ s = Flop ∨ s = Turn)
    (hstate : r.StateMachine.currentState = s)
    (htable : r.StateMachine.transitions = createTransitions)
    (hcb : (r.StateMachine.callbacks.lookup (s + 1)).isSome = true)
    (hd : r.Deck = some d) (hle : d.index + 4 ≤ d.cards.length) :
    ∃ r1, r.Transition BettingComplete = some (none, r1) ∧
      r1.StateMachine.currentState = s + 1 ∧ r1.Players = r.Players ∧ r1.Pot = r.Pot ∧
      r1.Status = r.Status ∧
      r1.CommunityCards.length = r.CommunityCards.length + (if s = PreFlop then 3 else 1) ∧
      r1.BettingRound = some (NewBettingRound r.getActivePlayerIDs) := by
  obtain ⟨cb, hcb1⟩ := Option.isSome_iff_exists.mp hcb
  have hcan : r.StateMachine.CanTransition BettingComplete = true := by
    rw [CanTransition_eq, htable, hstate]
    rcases hs with rfl | rfl | rfl <;> rfl
  have htarget : (((r.StateMachine.transitions.lookup r.StateMachine.currentState).getD []).lookup
      BettingComplete).getD 0 = s + 1 := by
    rw [htable, hstate]
    rcases hs with rfl | rfl | rfl <;> rfl
  unfold Room.Transition
  rw [Room.transitionDepth]
  simp only [hcan, Bool.not_true, Bool.false_eq_true, if_false, htarget, hcb1]
  have hstreet : ∃ r1, Room.callback (Room.transitionDepth 7) (s + 1)
      { r with StateMachine := { r.StateMachine with currentState := s + 1 } } = some (none, r1) ∧
      r1.StateMachine.currentState = s + 1 ∧ r1.Players = r.Players ∧ r1.Pot = r.Pot ∧
      r1.Status = r.Status ∧
      r1.CommunityCards.length = r.CommunityCards.length + (if s = PreFlop then 3 else 1) ∧
      r1.BettingRound = some (NewBettingRound r.getActivePlayerIDs) := by
    rcases hs with rfl | rfl | rfl
    · obtain ⟨r1, h1, hp, hpot, hst, hsm, hlen, hbr⟩ := dealStreet_some 3
        { r with StateMachine := { r.StateMachine with currentState := PreFlop + 1 } } d hd
        (by omega)
      refine ⟨r1, ?_, by rw [hsm], hp, hpot, hst, by rw [hlen, if_pos rfl], hbr⟩
      unfold Room.callback
      rw [if_neg (by decide), if_pos (by decide)]
      unfold Room.dealFlop
      rw [h1]; rfl
    · obtain ⟨r1, h1, hp, hpot, hst, hsm, hlen, hbr⟩ := dealStreet_some 1
        { r with StateMachine := { r.StateMachine with currentState := Flop + 1 } } d hd
        (by omega)
      refine ⟨r1, ?_, by rw [hsm], hp, hpot, hst, by rw [hlen, if_neg (by decide)], hbr⟩
      unfold Room.callback
      rw [if_neg (by decide), if_neg (by decide), if_pos (by decide)]
      unfold Room.dealTurn
      rw [h1]; rfl
    · obtain ⟨r1, h1, hp, hpot, hst, hsm, hlen, hbr⟩ := dealStreet_some 1
        { r with StateMachine := { r.StateMachine with currentState := Turn + 1 } } d hd
        (by omega)
      refine ⟨r1, ?_, by rw [hsm], hp, hpot, hst, by rw [hlen, if_neg (by decide)], hbr⟩
      unfold Room.callback
      rw [if_neg (by decide), if_neg (by decide), if_neg (by decide), if_pos (by decide)]
      unfold Room.dealRiver
      rw [h1]; rfl
  obtain ⟨r1, h1, hrest⟩ := hstreet
  rw [h1]
  exact ⟨r1, rfl, hrest⟩

theorem modifyPlayer_map {β : Type} (g : Player → β) (id : Int) (f : Player → Player)
    (hf : ∀ p, g (f p) = g p) (players : List Player) :
    (modifyPlayer id f players).map g = players.map g := by
  unfold modifyPlayer
  rw [List.map_map]
  apply List.map_congr_left
  intro p _
  by_cases hp : p.ID = id
  · simp only [Function.comp, if_pos hp, hf]
  · simp only [Function.comp, if_neg hp]

/-- C26 (counterexample). Two players, blinds 10/20; player 1 is the small blind
and folds before the flop.  The call is accepted and reports BettingComplete; after
it the state machine is in Flop with three board cards dealt, the room is still
Playing, and both stacks are 1000 as before: the big blind has not been paid the
pot of 30. -/
theorem Fold_heads_up_deals_the_flop :
    (started noShuffle headsUp).map
        (fun r => r.Players.map fun p => (p.ID, p.Chips, p.IsSmallBlind, p.IsBigBlind))
      = some [(1, 1000, true, false), (2, 1000, false, true)] ∧
    ((started noShuffle headsUp).bind fun r => r.ProcessPlayerAction 1 Fold 0).map
        (fun x => (x.1.Success, x.1.NextEvent, x.2.1))
      = some (true, BettingComplete, none) ∧
    (thenAct (started noShuffle headsUp) 1 Fold 0).map Room.phase
      = some ("playing", Flop, 30) ∧
    (thenAct (started noShuffle headsUp) 1 Fold 0).map (fun r => r.CommunityCards.length)
      = some 3 ∧
    (thenAct (started noShuffle headsUp) 1 Fold 0).map Room.seats
      = some [(1, 1000, 0, "folded"), (2, 1000, 20, "active")] := by
  decide

/-- C26 (amended). In a room that is Playing on the street `s` (PreFlop, Flop or
Turn), with the transition table and the callbacks of `NewRoom` and four cards or
more left in the deck, a Fold by the player in turn of a two-player betting round is
accepted and reports BettingComplete, and the hand does not go to settlement: the
state machine moves to the next street, whose board cards are dealt (three for the
flop, one otherwise), a new betting round is opened, the room stays Playing, and
the pot and every stack are as before. -/
theorem Fold_to_one_seat_enters_next_street (r : Room) (br : BettingRound) (d : Poker.Deck)
    (p : Player) (userID amount s : Int)
    (hplayer : r.player userID = some p)
    (hstatus : r.Status = RoomPlaying)
    (hround : r.BettingRound = some br)
    (hcur : br.currentPlayer < br.players.length)
    (htwo : br.players.length = 2)
    (hturn : userID = br.GetCurrentPlayer)
    (hs : s = PreFlop ∨ s = Flop ∨ s = Turn)
    (hstate : r.StateMachine.currentState = s)
    (htable : r.StateMachine.transitions = createTransitions)
    (hcb : (r.StateMachine.callbacks.lookup (s + 1)).isSome = true)
    (hd : r.Deck = some d) (hle : d.index + 4 ≤ d.cards.length) :
    ∃ res r1, r.ProcessPlayerAction userID Fold amount = some (res, none, r1) ∧
      res.Success = true ∧ res.NextEvent = BettingComplete ∧
      r1.StateMachine.currentState = s + 1 ∧ r1.Status = RoomPlaying ∧ r1.Pot = r.Pot ∧
      r1.Players.map (fun q => (q.ID, q.Chips)) = r.Players.map (fun q => (q.ID, q.Chips)) ∧
      r1.CommunityCards.length = r.CommunityCards.length + (if s = PreFlop then 3 else 1) ∧
      r1.BettingRound.isSome = true := by
  obtain ⟨res, br1, hpa, hsucc, hev, _⟩ := Fold_of_two_completes br userID amount hcur htwo hturn
  obtain ⟨r1, h1, hst1, hp1, hpot1, hstatus1, hlen1, hbr1⟩ := Transition_BettingComplete
    { r with
      BettingRound := some br1,
      Players := modifyPlayer userID (fun p =>
        { p with
          LastAction := Fold,
          BetAmount := amount,
          Status :=
            if Fold = Statemachine.Fold then PlayerFolded
            else if Fold = Statemachine.AllIn then PlayerAllIn
            else p.Status }) r.Players }
    d s hs hstate htable hcb hd hle
  have hne : res.NextEvent ≠ 0 := by rw [hev]; decide
  refine ⟨res, r1, ?_, hsucc, hev, hst1, by rw [hstatus1]; exact hstatus, hpot1, ?_, hlen1,
    by rw [hbr1]; rfl⟩
  · unfold Room.ProcessPlayerAction
    rw [hplayer]
    simp only
    rw [if_neg (by rw [hstatus]; exact fun h => h rfl), hround]
    simp only
    rw [hpa]
    simp only [hsucc, if_true, if_pos hne]
    rw [hev]
    exact congrArg (Option.map fun x => (res, (none : Option String), x.2)) h1
  · rw [hp1]
    exact modifyPlayer_map (fun q => (q.ID, q.Chips)) userID
      (fun p =>
        { p with
          LastAction := Fold,
          BetAmount := amount,
          Status :=
            if Fold = Statemachine.Fold then PlayerFolded
            else if Fold = Statemachine.AllIn then PlayerAllIn
            else p.Status })
      (fun q => rfl) r.Players

/-- C26 (amended) at the sample: heads-up, the small blind folds before the flop. -/
theorem Fold_to_one_seat_enters_next_street_witness :
    ∃ res r1, headsUpPreFlop.ProcessPlayerAction 1 Fold 0 = some (res, none, r1) ∧
      res.Success = true ∧ res.NextEvent = BettingComplete ∧
      r1.StateMachine.currentState = PreFlop + 1 ∧ r1.Status = RoomPlaying ∧
      r1.Pot = headsUpPreFlop.Pot ∧
      r1.Players.map (fun q => (q.ID, q.Chips)) =
        headsUpPreFlop.Players.map (fun q => (q.ID, q.Chips)) ∧
      r1.CommunityCards.length =
        headsUpPreFlop.CommunityCards.length + (if PreFlop = PreFlop then 3 else 1) ∧
      r1.BettingRound.isSome = true :=
  Fold_to_one_seat_enters_next_street headsUpPreFlop (NewBettingRound [1, 2])
    { cards := Poker.NewDeck.cards, index := 4 }
    { newSeat 1 "a" 1000 0 with
      Status := PlayerActive, BetAmount := 10, IsDealer := true, IsSmallBlind := true,
      Cards := [⟨Poker.Spades, Poker.Two⟩, ⟨Poker.Spades, Poker.Three⟩] }
    1 0 PreFlop (by decide) (by decide) (by decide) (by decide) (by decide) (by decide)
    (by decide) (by decide) (by decide) (by decide) (by decide) (by decide)

/-! ## The snapshot of a room and the end of a hand (claims C35, C40) -/

/-- C35 (the code at the failing input). Two rooms that differ only in the hole
cards of seat 2 have different snapshots: `GetRoomInfo` has no viewer and copies
every seat with its hole cards, so the snapshot shows the cards of seat 2 to
whoever receives it. -/
theorem GetRoomInfo_shows_all_hole_cards :
    (withHoleCards tieRoom 2 [⟨Poker.Hearts, Poker.Ace⟩, ⟨Poker.Hearts, Poker.King⟩]).Players.map
        (fun p => (p.ID, p.Cards))
      = [(1, [⟨Poker.Spades, Poker.Two⟩, ⟨Poker.Spades, Poker.Three⟩]),
         (2, [⟨Poker.Hearts, Poker.Ace⟩, ⟨Poker.Hearts, Poker.King⟩])] ∧
    tieRoom.GetRoomInfo.players.map (fun p => (p.ID, p.Cards))
      = [(1, [⟨Poker.Spades, Poker.Two⟩, ⟨Poker.Spades, Poker.Three⟩]),
         (2, [⟨Poker.Spades, Poker.Four⟩, ⟨Poker.Spades, Poker.Five⟩])] ∧
    (withHoleCards tieRoom 2
        [⟨Poker.Hearts, Poker.Ace⟩, ⟨Poker.Hearts, Poker.King⟩]).GetRoomInfo.players.map
        (fun p => (p.ID, p.Cards))
      = [(1, [⟨Poker.Spades, Poker.Two⟩, ⟨Poker.Spades, Poker.Three⟩]),
         (2, [⟨Poker.Hearts, Poker.Ace⟩, ⟨Poker.Hearts, Poker.King⟩])] ∧
    tieRoom.GetRoomInfo ≠
      (withHoleCards tieRoom 2
        [⟨Poker.Hearts, Poker.Ace⟩, ⟨Poker.Hearts, Poker.King⟩]).GetRoomInfo := by
  decide

/-- C40 (the code at the failing input). Two players; player 1 goes all in before
the flop, so on the flop seat 1 is AllIn and seat 2 is the only Active seat; then
player 2 leaves.  `RemovePlayer` folds seat 2 and fires PlayerLeft, and `endGame`
runs with no seat Sitting or Active: `determineWinner` returns -1 and the dealer
advance is a remainder by 0, a panic. -/
theorem RemovePlayer_last_active_seat_panics :
    allInFlop.map Room.phase = some ("playing", Flop, 30) ∧
    allInFlop.map Room.seats = some [(1, 1000, 1000, "allin"), (2, 1000, 20, "active")] ∧
    allInFlop.map (fun r => r.BettingRound.isSome) = some true ∧
    (allInFlop.bind fun r => r.RemovePlayer 2) = none ∧
    allInFlopLeft.map Room.seats = some [(1, 1000, 1000, "allin"), (2, 1000, 20, "folded")] ∧
    allInFlopLeft.map (fun r => (r.getActivePlayerIDs, r.determineWinner))
      = some ([], some (-1)) ∧
    (allInFlopLeft.bind fun r => r.endGame) = none := by
  decide

/-! ## The order of a betting round (claim C34) -/

/-- C34 (counterexample). Heads-up, player 1 is dealer and small blind.  The
pre-flop round is [1, 2] with the dealer first to act; after the dealer's Check the
flop round is again [1, 2] with the dealer first to act, not last.  With four seats
(dealer 1, small blind 2, big blind 3) the pre-flop round is [1, 2, 3, 4] and starts
with the dealer, not with seat 4, the seat after the big blind. -/
theorem rounds_start_with_the_first_seat :
    (started noShuffle headsUp).map (fun r => r.Players.map fun p => (p.ID, p.IsDealer))
      = some [(1, true), (2, false)] ∧
    (started noShuffle headsUp).map (fun r => r.Players.map fun p => (p.ID, p.IsSmallBlind))
      = some [(1, true), (2, false)] ∧
    (started noShuffle headsUp).bind (fun r => r.BettingRound.map fun b => b.players)
      = some [1, 2] ∧
    (started noShuffle headsUp).bind (fun r => r.BettingRound.map fun b => b.GetCurrentPlayer)
      = some 1 ∧
    (thenAct (started noShuffle headsUp) 1 Check 0).map (fun r => r.StateMachine.currentState)
      = some Flop ∧
    (thenAct (started noShuffle headsUp) 1 Check 0).bind
        (fun r => r.BettingRound.map fun b => b.players) = some [1, 2] ∧
    (thenAct (started noShuffle headsUp) 1 Check 0).bind
        (fun r => r.BettingRound.map fun b => b.GetCurrentPlayer) = some 1 ∧
    (started noShuffle fourSeats).map (fun r => r.Players.map fun p => (p.ID, p.Position))
      = some [(1, 0), (2, 1), (3, 2), (4, 3)] ∧
    (started noShuffle fourSeats).map (fun r => r.Players.map fun p => (p.ID, p.IsDealer))
      = some [(1, true), (2, false), (3, false), (4, false)] ∧
    (started noShuffle fourSeats).map (fun r => r.Players.map fun p => (p.ID, p.IsBigBlind))
      = some [(1, false), (2, false), (3, true), (4, false)] ∧
    (started noShuffle fourSeats).bind (fun r => r.BettingRound.map fun b => b.players)
      = some [1, 2, 3, 4] ∧
    (started noShuffle fourSeats).bind (fun r => r.BettingRound.map fun b => b.GetCurrentPlayer)
      = some 1 := by
  decide

theorem player_of_active (r : Room) (id : Int) (h : id ∈ r.getActivePlayerIDs) :
    ∃ p, r.player id = some p := by
  unfold Room.getActivePlayerIDs at h
  obtain ⟨p, hp, hid⟩ := List.mem_map.mp h
  have hmem := (List.mem_filter.mp hp).1
  apply Option.isSome_iff_exists.mp
  unfold Room.player
  rw [List.find?_isSome]
  exact ⟨p, hmem, by rw [hid]; exact beq_self_eq_true id⟩

/-- C34 (amended). On the street `s` (PreFlop, Flop or Turn) of a room that is
Playing, with the transition table and the callbacks of `NewRoom` and four cards or
more left in the deck, let the betting round be a new round over the Sitting and
Active seats, two or more, in any order `ids` (the order of the walk that opened
it).  The first seat of `ids` is the one to act; its Check is accepted and ends the
round, and the round opened on the next street is the new round over the Sitting and
Active seats in the order of the new walk of `getActivePlayerIDs` (the order of the
list `r.Players`), whatever the order `ids` was and whatever the positions of dealer
and blinds; the first seat of the new walk is first to act. -/
theorem next_round_takes_the_new_walk (r : Room) (d : Poker.Deck) (ids : List Int)
    (userID s : Int)
    (hstatus : r.Status = RoomPlaying)
    (hround : r.BettingRound = some (NewBettingRound ids))
    (hperm : ids.Perm r.getActivePlayerIDs)
    (htwo : 2 ≤ ids.length)
    (hfirst : userID = ids.getD 0 (-1))
    (hs : s = PreFlop ∨ s = Flop ∨ s = Turn)
    (hstate : r.StateMachine.currentState = s)
    (htable : r.StateMachine.transitions = createTransitions)
    (hcb : (r.StateMachine.callbacks.lookup (s + 1)).isSome = true)
    (hd : r.Deck = some d) (hle : d.index + 4 ≤ d.cards.length) :
    (NewBettingRound ids).GetCurrentPlayer = userID ∧
    ∃ res r1, r.ProcessPlayerAction userID Check 0 = some (res, none, r1) ∧
      res.Success = true ∧ res.NextEvent = BettingComplete ∧
      r1.StateMachine.currentState = s + 1 ∧
      r1.BettingRound = some (NewBettingRound r.getActivePlayerIDs) ∧
      (r1.BettingRound.map fun b => b.GetCurrentPlayer)
        = some (r.getActivePlayerIDs.getD 0 (-1)) := by
  have hcur : (NewBettingRound ids).GetCurrentPlayer = userID := by
    unfold BettingRound.GetCurrentPlayer NewBettingRound
    simp only
    rw [if_neg (by omega), hfirst]
  have hmem : userID ∈ r.getActivePlayerIDs := by
    apply hperm.mem_iff.mp
    cases ids with
    | nil => simp at htwo
    | cons a rest => rw [hfirst]; exact List.mem_cons_self a rest
  obtain ⟨p, hplayer⟩ := player_of_active r userID hmem
  have hlen : 2 ≤ r.getActivePlayerIDs.length := by rw [← hperm.length_eq]; exact htwo
  have hcur1 : (NewBettingRound r.getActivePlayerIDs).GetCurrentPlayer
      = r.getActivePlayerIDs.getD 0 (-1) := by
    unfold BettingRound.GetCurrentPlayer NewBettingRound
    simp only
    rw [if_neg (by omega)]
  obtain ⟨res, br1, hpa, hiff, himp⟩ := first_action_result ids Check 0 htwo (Or.inl rfl)
  rw [← hfirst] at hpa
  have hsucc : res.Success = true := hiff.mpr (fun hc => absurd hc.1 (by decide))
  obtain ⟨hev, _, _, _⟩ := himp hsucc
  have hne : res.NextEvent ≠ 0 := by rw [hev]; decide
  have hactive : Room.getActivePlayerIDs
      { r with
        BettingRound := some br1,
        Players := modifyPlayer userID (fun p =>
          { p with
            LastAction := Check,
            BetAmount := 0,
            Status :=
              if Check = Statemachine.Fold then PlayerFolded
              else if Check = Statemachine.AllIn then PlayerAllIn
              else p.Status }) r.Players } = r.getActivePlayerIDs := by
    unfold Room.getActivePlayerIDs
    exact modifyPlayer_active userID
      (fun p =>
        { p with
          LastAction := Check,
          BetAmount := 0,
          Status :=
            if Check = Statemachine.Fold then PlayerFolded
            else if Check = Statemachine.AllIn then PlayerAllIn
            else p.Status })
      (fun p => ⟨rfl, rfl⟩) r.Players
  obtain ⟨r1, h1, hst1, _, _, _, _, hbr1⟩ := Transition_BettingComplete
    { r with
      BettingRound := some br1,
      Players := modifyPlayer userID (fun p =>
        { p with
          LastAction := Check,
          BetAmount := 0,
          Status :=
            if Check = Statemachine.Fold then PlayerFolded
            else if Check = Statemachine.AllIn then PlayerAllIn
            else p.Status }) r.Players }
    d s hs hstate htable hcb hd hle
  rw [hactive] at hbr1
  refine ⟨hcur, res, r1, ?_, hsucc, hev, hst1, hbr1, by rw [hbr1, Option.map_some', hcur1]⟩
  unfold Room.ProcessPlayerAction
  rw [hplayer]
  simp only
  rw [if_neg (by rw [hstatus]; exact fun h => h rfl), hround]
  simp only
  rw [hpa]
  simp only [hsucc, if_true, if_pos hne]
  rw [hev]
  exact congrArg (Option.map fun x => (res, (none : Option String), x.2)) h1

/-- C34 (amended) at a sample: heads-up before the flop, the round is [1, 2] and the
dealer, seat 1, checks; the walk that opens the flop round returns seat 2 first, so
the flop round is [2, 1] and seat 2 is first to act. -/
theorem next_round_takes_the_new_walk_witness :
    headsUpRewalked.getActivePlayerIDs = [2, 1] ∧
    (NewBettingRound [1, 2]).GetCurrentPlayer = 1 ∧
    ∃ res r1, headsUpRewalked.ProcessPlayerAction 1 Check 0 = some (res, none, r1) ∧
      res.Success = true ∧ res.NextEvent = BettingComplete ∧
      r1.StateMachine.currentState = PreFlop + 1 ∧
      r1.BettingRound = some (NewBettingRound headsUpRewalked.getActivePlayerIDs) ∧
      (r1.BettingRound.map fun b => b.GetCurrentPlayer)
        = some (headsUpRewalked.getActivePlayerIDs.getD 0 (-1)) :=
  ⟨by decide, next_round_takes_the_new_walk headsUpRewalked
    { cards := Poker.NewDeck.cards, index := 4 } [1, 2] 1 PreFlop
    (by decide) (by decide) (by decide) (by decide) (by decide) (by decide) (by decide)
    (by decide) (by decide) (by decide) (by decide)⟩

/-! ## Starting a hand (claims C31, C33) -/

theorem getActivePlayerIDs_reset (r : Room) :
    r.resetRoomState.getActivePlayerIDs = r.Players.map fun p => p.ID := by
  unfold Room.getActivePlayerIDs Room.resetRoomState
  simp only
  rw [List.filter_map, List.map_map]
  have hall : (r.Players.filter ((fun p : Player =>
      p.Status == PlayerSitting || p.Status == PlayerActive) ∘ fun p =>
        { p with Status := PlayerActive, Cards := [], LastAction := 0, BetAmount := 0,
                 IsDealer := false, IsSmallBlind := false, IsBigBlind := false })) = r.Players := by
    apply List.filter_eq_self.mpr
    intro p _
    simp [Function.comp, PlayerActive]
  rw [hall]
  rfl

theorem getElem?_of_lt (ids : List Int) (i : Nat) (h : i < ids.length) :
    ∃ x, ids[i]? = some x ∧ x ∈ ids :=
  ⟨ids[i], List.getElem?_eq_getElem h, List.getElem_mem h⟩

/-- The five writes of `setupBlinds` through the seat pointers, as one pass over the
seats. -/
theorem blind_writes (dealerID smallBlindID bigBlindID sb bb : Int) (players : List Player) :
    modifyPlayer bigBlindID (fun p => { p with BetAmount := bb })
      (modifyPlayer bigBlindID (fun p => { p with IsBigBlind := true })
        (modifyPlayer smallBlindID (fun p => { p with BetAmount := sb })
          (modifyPlayer smallBlindID (fun p => { p with IsSmallBlind := true })
            (modifyPlayer dealerID (fun p => { p with IsDealer := true }) players)))) =
      players.map fun p =>
        { p with
          BetAmount :=
            if p.ID = bigBlindID then bb else if p.ID = smallBlindID then sb else p.BetAmount,
          IsDealer := if p.ID = dealerID then true else p.IsDealer,
          IsSmallBlind := if p.ID = smallBlindID then true else p.IsSmallBlind,
          IsBigBlind := if p.ID = bigBlindID then true else p.IsBigBlind } := by
  unfold modifyPlayer
  simp only [List.map_map]
  apply List.map_congr_left
  intro p _
  by_cases h1 : p.ID = dealerID <;> by_cases h2 : p.ID = smallBlindID <;>
    by_cases h3 : p.ID = bigBlindID <;> (try subst h1) <;> (try subst h2) <;>
    (try subst h3) <;> simp [Function.comp, *]

/-- Go `setupBlinds` on a room with two or more seats, all of them Sitting or
Active: the dealer is the seat at the dealer position of the list of seats (position
0 when the stored position is past the end), the blinds are the one or two seats
after it, and the pot is the sum of the blinds. -/
theorem setupBlinds_eq (R : Room) (hids : R.getActivePlayerIDs = R.Players.map fun p => p.ID)
    (hn : 2 ≤ R.Players.length) :
    ∃ dealerID nextID secondID,
      (R.Players.map fun p => p.ID)[if R.DealerPosition ≥ R.Players.length then 0
          else R.DealerPosition]? = some dealerID ∧
      (R.Players.map fun p => p.ID)[((if R.DealerPosition ≥ R.Players.length then 0
          else R.DealerPosition) + 1) % R.Players.length]? = some nextID ∧
      (R.Players.map fun p => p.ID)[((if R.DealerPosition ≥ R.Players.length then 0
          else R.DealerPosition) + 2) % R.Players.length]? = some secondID ∧
      R.setupBlinds = some
        { R with
          Pot := Poker.wrapInt (R.SmallBlind + R.BigBlind),
          DealerPosition := if R.DealerPosition ≥ R.Players.length then 0 else R.DealerPosition,
          Players := R.Players.map fun p =>
            { p with
              BetAmount :=
                if p.ID = (if R.Players.length = 2 then nextID else secondID) then R.BigBlind
                else if p.ID = (if R.Players.length = 2 then dealerID else nextID) then
                  R.SmallBlind
                else p.BetAmount,
              IsDealer := if p.ID = dealerID then true else p.IsDealer,
              IsSmallBlind :=
                if p.ID = (if R.Players.length = 2 then dealerID else nextID) then true
                else p.IsSmallBlind,
              IsBigBlind :=
                if p.ID = (if R.Players.length = 2 then nextID else secondID) then true
                else p.IsBigBlind } } := by
  have hlen : (R.Players.map fun p => p.ID).length = R.Players.length := List.length_map _ _
  have hpos : 0 < R.Players.length := by omega
  have hdp : (if R.DealerPosition ≥ R.Players.length then 0 else R.DealerPosition)
      < (R.Players.map fun p => p.ID).length := by
    rw [hlen]; split <;> omega
  obtain ⟨dealerID, hdealer, _⟩ := getElem?_of_lt _ _ hdp
  obtain ⟨nextID, hnext, _⟩ := getElem?_of_lt (R.Players.map fun p => p.ID)
    (((if R.DealerPosition ≥ R.Players.length then 0 else R.DealerPosition) + 1)
      % R.Players.length) (by rw [hlen]; exact Nat.mod_lt _ hpos)
  obtain ⟨secondID, hsecond, _⟩ := getElem?_of_lt (R.Players.map fun p => p.ID)
    (((if R.DealerPosition ≥ R.Players.length then 0 else R.DealerPosition) + 2)
      % R.Players.length) (by rw [hlen]; exact Nat.mod_lt _ hpos)
  refine ⟨dealerID, nextID, secondID, hdealer, hnext, hsecond, ?_⟩
  unfold Room.setupBlinds
  simp only [hids, hlen]
  rw [if_neg (by omega)]
  by_cases hge : R.DealerPosition ≥ R.Players.length
  · rw [if_pos hge] at hdealer hnext hsecond ⊢
    simp only [if_pos hge]
    rw [hdealer, hnext, hsecond]
    simp only [blind_writes]
  · rw [if_neg hge] at hdealer hnext hsecond ⊢
    simp only [if_neg hge]
    rw [hdealer, hnext, hsecond]
    simp only [blind_writes]

theorem Deal_of_lt (d : Poker.Deck) (h : d.index < d.cards.length) :
    d.Deal = (some d.cards[d.index], { d with index := d.index + 1 }) := by
  unfold Poker.Deck.Deal
  rw [if_neg (by omega), List.getElem?_eq_getElem h]

theorem Deal_of_ge (d : Poker.Deck) (h : d.cards.length ≤ d.index) : d.Deal = (none, d) := by
  unfold Poker.Deck.Deal
  rw [if_pos (by omega)]

/-- The loop of `startPreFlop` over seats that are all Active, with enough cards in
the deck: it returns, the cursor moves by two per seat, every seat holds two cards
and is otherwise as before, and the hole cards in the order of the seats are the
cards of the deck from the cursor on. -/
theorem dealHoleCards_active : ∀ (players : List Player) (d : Poker.Deck),
    (∀ p ∈ players, p.Status = PlayerActive) →
    d.index + 2 * players.length ≤ d.cards.length →
    ∃ ps, dealHoleCards players (some d) =
        some (ps, some { d with index := d.index + 2 * players.length }) ∧
      ps.map (fun p => { p with Cards := [] }) = players.map (fun p => { p with Cards := [] }) ∧
      (∀ p ∈ ps, p.Cards.length = 2) ∧
      ps.flatMap (fun p => p.Cards) = (d.cards.drop d.index).take (2 * players.length) := by
  intro players
  induction players with
  | nil =>
    intro d _ _
    exact ⟨[], rfl, rfl, fun p hp => absurd hp (List.not_mem_nil p), by simp⟩
  | cons p rest ih =>
    intro d hact hle
    simp only [List.length_cons] at hle
    have h0 : d.index < d.cards.length := by omega
    have h1 : d.index + 1 < d.cards.length := by omega
    obtain ⟨ps, hps, hmap, hlen2, hflat⟩ := ih { d with index := d.index + 1 + 1 }
      (fun q hq => hact q (List.mem_cons_of_mem p hq))
      (by show d.index + 1 + 1 + 2 * rest.length ≤ d.cards.length; omega)
    refine ⟨{ p with Cards := [d.cards[d.index], d.cards[d.index + 1]] } :: ps, ?_, ?_, ?_, ?_⟩
    · rw [dealHoleCards, if_pos (hact p (List.mem_cons_self p rest))]
      rw [Deal_of_lt d h0]
      simp only
      rw [Deal_of_lt { d with index := d.index + 1 } h1]
      simp only
      rw [hps]
      simp only [Option.map_some', List.length_cons]
      congr 4
      omega
    · simp only [List.map_cons, hmap]
    · intro q hq
      rcases List.mem_cons.mp hq with rfl | hq
      · rfl
      · exact hlen2 q hq
    · simp only [List.flatMap_cons, hflat, List.length_cons]
      show d.cards[d.index] :: d.cards[d.index + 1] ::
          List.take (2 * rest.length) (List.drop (d.index + 1 + 1) d.cards) =
        List.take (2 * (rest.length + 1)) (List.drop d.index d.cards)
      rw [List.drop_eq_getElem_cons h0, List.drop_eq_getElem_cons h1]
      have : 2 * (rest.length + 1) = 2 * rest.length + 1 + 1 := by omega
      rw [this, List.take_succ_cons, List.take_succ_cons]

/-- When the loop of `startPreFlop` over seats that are all Active returns, the
deck had two cards per seat left and the cursor has moved by that number. -/
theorem dealHoleCards_cursor : ∀ (players : List Player) (d : Poker.Deck)
    (ps : List Player) (od : Option Poker.Deck),
    (∀ p ∈ players, p.Status = PlayerActive) →
    dealHoleCards players (some d) = some (ps, od) →
    d.index + 2 * players.length ≤ d.cards.length ∨ players = [] := by
  intro players
  induction players with
  | nil => intro d ps od _ _; exact Or.inr rfl
  | cons p rest ih =>
    intro d ps od hact h
    left
    rw [dealHoleCards, if_pos (hact p (List.mem_cons_self p rest))] at h
    by_cases h0 : d.index < d.cards.length
    · rw [Deal_of_lt d h0] at h
      simp only at h
      by_cases h1 : d.index + 1 < d.cards.length
      · rw [Deal_of_lt { d with index := d.index + 1 } h1] at h
        simp only at h
        cases hrec : dealHoleCards rest (some { d with index := d.index + 1 + 1 }) with
        | none => rw [hrec] at h; simp at h
        | some x =>
          rcases ih { d with index := d.index + 1 + 1 } x.1 x.2
            (fun q hq => hact q (List.mem_cons_of_mem p hq)) hrec with hle | hnil
          · simp only [List.length_cons]
            have : d.index + 1 + 1 + 2 * rest.length ≤ d.cards.length := hle
            omega
          · rw [hnil]
            simp only [List.length_cons, List.length_nil]
            omega
      · rw [Deal_of_ge { d with index := d.index + 1 } (by show d.cards.length ≤ d.index + 1; omega)]
          at h
        simp at h
    · rw [Deal_of_ge d (by omega)] at h
      simp at h

/-! ## Transitions of the state machine of a room -/

/-- An event that the table does not list for the current state: `Transition` returns
an error and the room as it was. -/
theorem Transition_refused (r : Room) (e : Int)
    (htable : r.StateMachine.transitions = createTransitions)
    (hspec : specNext r.StateMachine.currentState e = none) :
    ∃ msg, r.Transition e = some (some msg, r) := by
  have hcan : r.StateMachine.CanTransition e = false := by
    rw [CanTransition_eq, htable, lookup_createTransitions, hspec]
    rfl
  unfold Room.Transition
  rw [Room.transitionDepth]
  simp only [hcan, Bool.not_false, if_true]
  exact ⟨_, rfl⟩

/-- An event that the table lists for the current state, with a callback installed
under the target state: `Transition` moves to the target, runs the callback, and
moves back when the callback returns an error. -/
theorem transitionDepth_allowed (k : Nat) (r : Room) (e t : Int)
    (htable : r.StateMachine.transitions = createTransitions)
    (hspec : specNext r.StateMachine.currentState e = some t)
    (hcb : (r.StateMachine.callbacks.lookup t).isSome = true) :
    Room.transitionDepth (k + 1) r e =
      match Room.callback (Room.transitionDepth k) t
          { r with StateMachine := { r.StateMachine with currentState := t } } with
      | none => none
      | some (some err, r2) =>
        some (some ("状态转换回调失败: " ++ err),
          { r2 with StateMachine :=
              { r2.StateMachine with currentState := r.StateMachine.currentState } })
      | some (none, r2) => some (none, r2) := by
  obtain ⟨cb, hcb1⟩ := Option.isSome_iff_exists.mp hcb
  have hbind : (r.StateMachine.transitions.lookup r.StateMachine.currentState).bind
      (fun row => row.lookup e) = some t := by
    rw [htable, lookup_createTransitions, hspec]
  have hcan : r.StateMachine.CanTransition e = true := by
    rw [CanTransition_eq, hbind]
    rfl
  have htarget := transition_target_eq r.StateMachine e t hbind
  rw [Room.transitionDepth]
  simp only [hcan, Bool.not_true, Bool.false_eq_true, if_false, htarget, hcb1]

theorem Transition_allowed (r : Room) (e t : Int)
    (htable : r.StateMachine.transitions = createTransitions)
    (hspec : specNext r.StateMachine.currentState e = some t)
    (hcb : (r.StateMachine.callbacks.lookup t).isSome = true) :
    r.Transition e =
      match Room.callback (Room.transitionDepth 7) t
          { r with StateMachine := { r.StateMachine with currentState := t } } with
      | none => none
      | some (some err, r2) =>
        some (some ("状态转换回调失败: " ++ err),
          { r2 with StateMachine :=
              { r2.StateMachine with currentState := r.StateMachine.currentState } })
      | some (none, r2) => some (none, r2) :=
  transitionDepth_allowed 7 r e t htable hspec hcb

theorem getActivePlayerIDs_congr (r1 r2 : Room)
    (h : r1.Players.map (fun p => { p with Cards := [] })
      = r2.Players.map (fun p => { p with Cards := [] })) :
    r1.getActivePlayerIDs = r2.getActivePlayerIDs := by
  have key : ∀ l : List Player,
      (l.filter fun p => p.Status == PlayerSitting || p.Status == PlayerActive).map (fun p => p.ID)
        = ((l.map fun p => { p with Cards := [] }).filter
            fun p => p.Status == PlayerSitting || p.Status == PlayerActive).map (fun p => p.ID) := by
    intro l
    rw [List.filter_map, List.map_map]
    rfl
  unfold Room.getActivePlayerIDs
  rw [key r1.Players, key r2.Players, h]

/-- Go `resetRoomState` followed by `setupBlinds`, field by field, for two or more
seats. -/
theorem setupBlinds_reset (r : Room) (hn : 2 ≤ r.Players.length) :
    ∃ dealerID nextID secondID R,
      (r.Players.map fun p => p.ID)[if r.DealerPosition ≥ r.Players.length then 0
          else r.DealerPosition]? = some dealerID ∧
      (r.Players.map fun p => p.ID)[((if r.DealerPosition ≥ r.Players.length then 0
          else r.DealerPosition) + 1) % r.Players.length]? = some nextID ∧
      (r.Players.map fun p => p.ID)[((if r.DealerPosition ≥ r.Players.length then 0
          else r.DealerPosition) + 2) % r.Players.length]? = some secondID ∧
      r.resetRoomState.setupBlinds = some R ∧
      R.Status = r.Status ∧ R.StateMachine = r.StateMachine ∧ R.Deck = r.Deck ∧
      R.CommunityCards = [] ∧ R.Pot = Poker.wrapInt (r.SmallBlind + r.BigBlind) ∧
      R.Players = r.Players.map (fun p =>
        { p with
          Status := PlayerActive, Cards := [], LastAction := 0,
          BetAmount :=
            if p.ID = (if r.Players.length = 2 then nextID else secondID) then r.BigBlind
            else if p.ID = (if r.Players.length = 2 then dealerID else nextID) then r.SmallBlind
            else 0,
          IsDealer := if p.ID = dealerID then true else false,
          IsSmallBlind :=
            if p.ID = (if r.Players.length = 2 then dealerID else nextID) then true else false,
          IsBigBlind :=
            if p.ID = (if r.Players.length = 2 then nextID else secondID) then true else false }) := by
  have hRlen : r.resetRoomState.Players.length = r.Players.length := by
    simp [Room.resetRoomState]
  have hRids : (r.resetRoomState.Players.map fun p => p.ID) = r.Players.map fun p => p.ID := by
    simp [Room.resetRoomState, List.map_map, Function.comp]
  have hRdp : r.resetRoomState.DealerPosition = r.DealerPosition := rfl
  obtain ⟨dealerID, nextID, secondID, hdealer, hnext, hsecond, hblinds⟩ := setupBlinds_eq
    r.resetRoomState (by rw [getActivePlayerIDs_reset, hRids]) (by rw [hRlen]; exact hn)
  rw [hRids, hRlen, hRdp] at hdealer hnext hsecond
  rw [hRlen] at hblinds
  refine ⟨dealerID, nextID, secondID, _, hdealer, hnext, hsecond, hblinds, rfl, rfl, rfl, rfl,
    rfl, ?_⟩
  show r.resetRoomState.Players.map _ = _
  unfold Room.resetRoomState
  simp only [List.map_map]
  rfl

theorem getActivePlayerIDs_all_active (r : Room) (h : ∀ p ∈ r.Players, p.Status = PlayerActive) :
    r.getActivePlayerIDs = r.Players.map fun p => p.ID := by
  unfold Room.getActivePlayerIDs
  have hall : (r.Players.filter fun p => p.Status == PlayerSitting || p.Status == PlayerActive)
      = r.Players := by
    apply List.filter_eq_self.mpr
    intro p hp
    simp [h p hp]
  rw [hall]

/-- The event StartGame on a room whose state machine is in WaitingForPlayers (table
and PreFlop callback of `NewRoom`), with all seats Active and two cards per seat left
in the deck: the machine enters PreFlop, every seat gets two cards, and the betting
round over all seats is opened. -/
theorem Transition_StartGame (X : Room) (d : Poker.Deck)
    (hstate : X.StateMachine.currentState = WaitingForPlayers)
    (htable : X.StateMachine.transitions = createTransitions)
    (hcb : (X.StateMachine.callbacks.lookup PreFlop).isSome = true)
    (hact : ∀ p ∈ X.Players, p.Status = PlayerActive)
    (hd : X.Deck = some d) (hle : d.index + 2 * X.Players.length ≤ d.cards.length) :
    ∃ r1, X.Transition StartGame = some (none, r1) ∧
      r1.Status = X.Status ∧
      r1.StateMachine = { X.StateMachine with currentState := PreFlop } ∧
      r1.CommunityCards = X.CommunityCards ∧ r1.Pot = X.Pot ∧
      r1.Deck = some { d with index := d.index + 2 * X.Players.length } ∧
      r1.BettingRound = some (NewBettingRound (X.Players.map fun p => p.ID)) ∧
      r1.Players.map (fun p => { p with Cards := [] })
        = X.Players.map (fun p => { p with Cards := [] }) ∧
      (∀ p ∈ r1.Players, p.Cards.length = 2) ∧
      r1.Players.flatMap (fun p => p.Cards)
        = (d.cards.drop d.index).take (2 * X.Players.length) := by
  obtain ⟨ps, hps, hmap, hlen2, hflat⟩ := dealHoleCards_active X.Players d hact hle
  have hids : Room.getActivePlayerIDs
      { X with
        StateMachine := { X.StateMachine with currentState := PreFlop },
        Players := ps,
        Deck := some { d with index := d.index + 2 * X.Players.length } }
      = X.Players.map fun p => p.ID := by
    rw [getActivePlayerIDs_congr _ X hmap]
    exact getActivePlayerIDs_all_active X hact
  have hcall : Room.callback (Room.transitionDepth 7) PreFlop
      { X with StateMachine := { X.StateMachine with currentState := PreFlop } } =
      some (none,
        { X with
          StateMachine := { X.StateMachine with currentState := PreFlop },
          Players := ps,
          Deck := some { d with index := d.index + 2 * X.Players.length },
          BettingRound := some (NewBettingRound (X.Players.map fun p => p.ID)) }) := by
    unfold Room.callback
    rw [if_pos rfl]
    unfold Room.startPreFlop
    simp only
    rw [hd, hps]
    simp only [Option.map_some']
    rw [hids]
  rw [Transition_allowed X StartGame PreFlop htable (by rw [hstate]; rfl) hcb, hcall]
  exact ⟨_, rfl, rfl, rfl, rfl, rfl, rfl, rfl, hmap, hlen2, hflat⟩

/-- Go `StartGame` on a waiting room with 2 to 26 seats whose state machine is in
WaitingForPlayers with the table and the PreFlop callback of `NewRoom`: the call
returns no error; the room is Playing in PreFlop with an empty board, the pot of the
blinds, a deck that is a permutation of the 52 cards with the cursor after two cards
per seat, and the betting round over all seats; every seat is Active with two hole
cards, flagged and charged as `setupBlinds` decides. -/
theorem StartGame_succeeds (r : Room) (intn : Nat → Nat) (hintn : ∀ n, 0 < n → intn n < n)
    (hn : 2 ≤ r.Players.length) (hn26 : r.Players.length ≤ 26)
    (hstatus : r.Status = RoomWaiting)
    (hstate : r.StateMachine.currentState = WaitingForPlayers)
    (htable : r.StateMachine.transitions = createTransitions)
    (hcb : (r.StateMachine.callbacks.lookup PreFlop).isSome = true) :
    ∃ deck dealerID nextID secondID r1,
      Poker.NewDeck.Shuffle intn = some deck ∧ deck.cards.Perm Poker.NewDeck.cards ∧
      (r.Players.map fun p => p.ID)[if r.DealerPosition ≥ r.Players.length then 0
          else r.DealerPosition]? = some dealerID ∧
      (r.Players.map fun p => p.ID)[((if r.DealerPosition ≥ r.Players.length then 0
          else r.DealerPosition) + 1) % r.Players.length]? = some nextID ∧
      (r.Players.map fun p => p.ID)[((if r.DealerPosition ≥ r.Players.length then 0
          else r.DealerPosition) + 2) % r.Players.length]? = some secondID ∧
      r.StartGame intn = some (none, r1) ∧
      r1.Status = RoomPlaying ∧
      r1.StateMachine = { r.StateMachine with currentState := PreFlop } ∧
      r1.CommunityCards = [] ∧
      r1.Pot = Poker.wrapInt (r.SmallBlind + r.BigBlind) ∧
      r1.Deck = some { cards := deck.cards, index := 2 * r.Players.length } ∧
      r1.BettingRound = some (NewBettingRound (r.Players.map fun p => p.ID)) ∧
      r1.Players.map (fun p => { p with Cards := [] }) = r.Players.map (fun p =>
        { p with
          Status := PlayerActive, Cards := [], LastAction := 0,
          BetAmount :=
            if p.ID = (if r.Players.length = 2 then nextID else secondID) then r.BigBlind
            else if p.ID = (if r.Players.length = 2 then dealerID else nextID) then r.SmallBlind
            else 0,
          IsDealer := if p.ID = dealerID then true else false,
          IsSmallBlind :=
            if p.ID = (if r.Players.length = 2 then dealerID else nextID) then true else false,
          IsBigBlind :=
            if p.ID = (if r.Players.length = 2 then nextID else secondID) then true else false }) ∧
      (∀ p ∈ r1.Players, p.Cards.length = 2) ∧
      r1.Players.flatMap (fun p => p.Cards) = deck.cards.take (2 * r.Players.length) := by
  obtain ⟨deck, hshuffle, hidx, hperm⟩ :=
    Poker.Shuffle_perm intn hintn Poker.NewDeck (by decide)
  have hdlen : deck.cards.length = 52 := by
    rw [hperm.length_eq]; decide
  obtain ⟨dealerID, nextID, secondID, R, hdealer, hnext, hsecond, hblinds, hRstatus, hRsm,
      hRdeck, hRboard, hRpot, hRplayers⟩ := setupBlinds_reset
    { r with
      CurrentGame := some { Participants := r.getActivePlayerIDs, WinnerID := 0, WinAmount := 0 },
      Deck := some deck } hn
  have hRlen : R.Players.length = r.Players.length := by
    rw [hRplayers]; exact List.length_map _ _
  have hRids : (R.Players.map fun p => p.ID) = r.Players.map fun p => p.ID := by
    rw [hRplayers, List.map_map]; rfl
  have hRact : ∀ p ∈ R.Players, p.Status = PlayerActive := by
    intro p hp
    rw [hRplayers] at hp
    obtain ⟨q, _, rfl⟩ := List.mem_map.mp hp
    rfl
  obtain ⟨r1, h1, hstatus1, hsm1, hboard1, hpot1, hdeck1, hbr1, hmap1, hlen1, hflat1⟩ :=
    Transition_StartGame { R with Status := RoomPlaying } deck
      (by show R.StateMachine.currentState = WaitingForPlayers; rw [hRsm]; exact hstate)
      (by show R.StateMachine.transitions = createTransitions; rw [hRsm]; exact htable)
      (by show (R.StateMachine.callbacks.lookup PreFlop).isSome = true; rw [hRsm]; exact hcb)
      hRact (by show R.Deck = some deck; rw [hRdeck])
      (by show deck.index + 2 * R.Players.length ≤ deck.cards.length; rw [hRlen]; omega)
  refine ⟨deck, dealerID, nextID, secondID, r1, hshuffle, hperm, hdealer, hnext, hsecond, ?_,
    hstatus1, ?_, ?_, ?_, ?_, ?_, ?_, hlen1, ?_⟩
  · unfold Room.StartGame
    rw [if_neg (by omega), if_neg (by rw [hstatus]; exact fun h => h rfl)]
    simp only
    rw [hshuffle]
    simp only
    rw [hblinds]
    exact h1
  · rw [hsm1]; show _ = _; simp only [hRsm]
  · rw [hboard1]; exact hRboard
  · rw [hpot1]; exact hRpot
  · rw [hdeck1]
    show some ({ cards := deck.cards, index := deck.index + 2 * R.Players.length } : Poker.Deck) = _
    rw [hidx, hRlen, Nat.zero_add]
  · rw [hbr1]; show some (NewBettingRound (R.Players.map fun p => p.ID)) = _; rw [hRids]
  · rw [hmap1]
    show R.Players.map _ = _
    rw [hRplayers, List.map_map]
    rfl
  · rw [hflat1]
    show (deck.cards.drop deck.index).take (2 * R.Players.length) = _
    rw [hidx, hRlen, List.drop_zero]

/-! ## The first hand of a room (claims C31, C33) -/

/-- Before the first hand the state machine of a room is the one `NewRoom` builds, in
WaitingForPlayers, and no two seats have the same user. -/
theorem Reachable.fresh {r : Room} (hr : Reachable r) :
    r.StateMachine = sampleRoom.StateMachine ∧ (r.Players.map fun p => p.ID).Nodup := by
  induction hr with
  | newRoom id name chipLevel minChips smallBlind bigBlind maxPlayers isPrivate =>
    exact ⟨rfl, List.nodup_nil⟩
  | addPlayer r userID username chips _ ih =>
    rcases AddPlayer_cases r userID username chips with ⟨_, _, h⟩ | ⟨hno, _, h⟩
    · rw [h]; exact ih
    · rw [h]
      refine ⟨ih.1, ?_⟩
      show (List.map (fun p => p.ID)
        (r.Players ++ [newSeat userID username chips r.findAvailablePosition])).Nodup
      rw [List.map_append, List.nodup_append]
      refine ⟨ih.2, List.nodup_singleton _, ?_⟩
      intro a ha hb
      rw [List.map_singleton, List.mem_singleton] at hb
      obtain ⟨p, hp, rfl⟩ := List.mem_map.mp ha
      exact hno (Or.inr (Or.inl ⟨p, hp, hb⟩))
  | removePlayer r r1 userID err hr0 h ih =>
    have hw := (Reachable.waiting_and_bounded hr0).1
    unfold Room.RemovePlayer at h
    cases hp : r.player userID with
    | none =>
      rw [hp] at h
      simp only [Option.some.injEq, Prod.mk.injEq] at h
      rw [← h.2]; exact ih
    | some player =>
      rw [hp] at h
      have hst : ¬ (r.Status = RoomPlaying ∧ player.Status = PlayerActive) := by
        rw [hw]
        intro hc
        exact absurd hc.1 (by decide)
      simp only [if_neg hst, Option.map_some'] at h
      have hnd : ((r.Players.filter fun p => p.ID != userID).map fun p => p.ID).Nodup :=
        (List.filter_sublist _).map _ |>.nodup ih.2
      by_cases h0 : (r.Players.filter fun p => p.ID != userID).length = 0
      · rw [if_pos h0] at h
        simp only [Option.some.injEq, Prod.mk.injEq] at h
        rw [← h.2]
        refine ⟨?_, hnd⟩
        show r.StateMachine.Reset = _
        rw [ih.1]
        rfl
      · rw [if_neg h0] at h
        simp only [Option.some.injEq, Prod.mk.injEq] at h
        rw [← h.2]
        exact ⟨ih.1, hnd⟩

/-- The guards of `StartGame`: with fewer than two seats, or in a status other than
Waiting, the call returns an error and leaves the room as it is. -/
theorem StartGame_refused (r : Room) (intn : Nat → Nat)
    (h : r.Players.length < 2 ∨ r.Status ≠ RoomWaiting) :
    ∃ msg, r.StartGame intn = some (some msg, r) := by
  unfold Room.StartGame
  by_cases h2 : r.Players.length < 2
  · rw [if_pos h2]; exact ⟨_, rfl⟩
  · rw [if_neg h2]
    rcases h with h | h
    · exact absurd h h2
    · rw [if_pos h]; exact ⟨_, rfl⟩

theorem wrapInt_of_range (x : Int) (h1 : -9223372036854775808 ≤ x)
    (h2 : x < 9223372036854775808) : Poker.wrapInt x = x := by
  unfold Poker.wrapInt
  omega

/-- C31. `StartGame` on a room before its first hand (`NewRoom` followed by calls of
`AddPlayer` and `RemovePlayer`) with n seats, 2 ≤ n ≤ 10, returns no error and leaves
the room Playing, the state machine in PreFlop, the board empty, the pot at small
blind + big blind (in 64-bit arithmetic; the plain sum when that is in range), the
same n seats, every seat Active with exactly two hole cards, the 2n hole cards
pairwise distinct, and a betting round over the n seats that is not completed and
has no action recorded.  On every room with fewer than two seats or a status other
than Waiting, `StartGame` returns an error and leaves the room as it is. -/
theorem StartGame_on_waiting_room (r : Room) (intn : Nat → Nat) :
    (Reachable r → (∀ n, 0 < n → intn n < n) → 2 ≤ r.Players.length →
      r.Players.length ≤ 10 →
      ∃ r1, r.StartGame intn = some (none, r1) ∧
        r1.Status = RoomPlaying ∧
        r1.StateMachine.currentState = PreFlop ∧
        r1.CommunityCards = [] ∧
        r1.Pot = Poker.wrapInt (r.SmallBlind + r.BigBlind) ∧
        (-9223372036854775808 ≤ r.SmallBlind + r.BigBlind →
          r.SmallBlind + r.BigBlind < 9223372036854775808 →
          r1.Pot = r.SmallBlind + r.BigBlind) ∧
        (r1.Players.map fun p => p.ID) = (r.Players.map fun p => p.ID) ∧
        (∀ p ∈ r1.Players, p.Status = PlayerActive ∧ p.Cards.length = 2) ∧
        (r1.Players.flatMap fun p => p.Cards).length = 2 * r.Players.length ∧
        (r1.Players.flatMap fun p => p.Cards).Nodup ∧
        r1.BettingRound = some (NewBettingRound (r1.Players.map fun p => p.ID)) ∧
        (NewBettingRound (r1.Players.map fun p => p.ID)).completed = false ∧
        (NewBettingRound (r1.Players.map fun p => p.ID)).players.length = r.Players.length) ∧
    (r.Players.length < 2 ∨ r.Status ≠ RoomWaiting →
      ∃ msg, r.StartGame intn = some (some msg, r)) := by
  refine ⟨?_, StartGame_refused r intn⟩
  intro hr hintn hn hn10
  have hfresh := (Reachable.fresh hr).1
  obtain ⟨deck, dealerID, nextID, secondID, r1, _, hperm, _, _, _, h1, hstatus, hsm, hboard,
      hpot, _, hbr, hmap, hlen2, hflat⟩ :=
    StartGame_succeeds r intn hintn hn (by omega) (Reachable.waiting_and_bounded hr).1
      (by rw [hfresh]; rfl) (by rw [hfresh]; rfl) (by rw [hfresh]; rfl)
  have hids : (r1.Players.map fun p => p.ID) = (r.Players.map fun p => p.ID) := by
    have h := congrArg (List.map fun p : Player => p.ID) hmap
    rw [List.map_map, List.map_map] at h
    exact h
  have hdlen : deck.cards.length = 52 := by
    rw [hperm.length_eq]; decide
  refine ⟨r1, h1, hstatus, by rw [hsm], hboard, hpot, ?_, hids, ?_, ?_, ?_, by rw [hbr, hids],
    rfl, ?_⟩
  · intro hlo hhi
    rw [hpot, wrapInt_of_range _ hlo hhi]
  · intro p hp
    refine ⟨?_, hlen2 p hp⟩
    have hmem : ({ p with Cards := [] } : Player) ∈
        r1.Players.map (fun p => { p with Cards := [] }) := List.mem_map_of_mem _ hp
    rw [hmap] at hmem
    obtain ⟨q, _, hq⟩ := List.mem_map.mp hmem
    have hs := congrArg Player.Status hq
    exact hs.symm
  · rw [hflat, List.length_take, hdlen]
    omega
  · rw [hflat]
    exact (List.take_sublist _ _).nodup
      (hperm.nodup_iff.mpr (by decide))
  · show (r1.Players.map fun p => p.ID).length = _
    rw [hids, List.length_map]

/-- C31 at a sample: the two-seat sample room, with a random source that leaves the
deck in its order. -/
theorem StartGame_on_waiting_room_witness :
    ∃ r1, headsUp.StartGame noShuffle = some (none, r1) ∧
      r1.Status = RoomPlaying ∧
      r1.StateMachine.currentState = PreFlop ∧
      r1.CommunityCards = [] ∧
      r1.Pot = Poker.wrapInt (headsUp.SmallBlind + headsUp.BigBlind) ∧
      (-9223372036854775808 ≤ headsUp.SmallBlind + headsUp.BigBlind →
        headsUp.SmallBlind + headsUp.BigBlind < 9223372036854775808 →
        r1.Pot = headsUp.SmallBlind + headsUp.BigBlind) ∧
      (r1.Players.map fun p => p.ID) = (headsUp.Players.map fun p => p.ID) ∧
      (∀ p ∈ r1.Players, p.Status = PlayerActive ∧ p.Cards.length = 2) ∧
      (r1.Players.flatMap fun p => p.Cards).length = 2 * headsUp.Players.length ∧
      (r1.Players.flatMap fun p => p.Cards).Nodup ∧
      r1.BettingRound = some (NewBettingRound (r1.Players.map fun p => p.ID)) ∧
      (NewBettingRound (r1.Players.map fun p => p.ID)).completed = false ∧
      (NewBettingRound (r1.Players.map fun p => p.ID)).players.length
        = headsUp.Players.length :=
  (StartGame_on_waiting_room headsUp noShuffle).1
    (Reachable.addPlayer _ 2 "b" 1000
      (Reachable.addPlayer _ 1 "a" 1000 (Reachable.newRoom 1 "table" "low" 100 10 20 6 false)))
    (fun n hn => Nat.sub_lt hn Nat.one_pos) (by decide) (by decide)

theorem succ_mod_ne (dp n : Nat) (hdp : dp < n) (hn : 2 ≤ n) : (dp + 1) % n ≠ dp := by
  by_cases h : dp + 1 < n
  · rw [Nat.mod_eq_of_lt h]; omega
  · have h1 : dp + 1 = n := by omega
    rw [h1, Nat.mod_self]; omega

theorem succ_succ_mod_ne (dp n : Nat) (hdp : dp < n) (hn : 3 ≤ n) :
    (dp + 2) % n ≠ dp ∧ (dp + 2) % n ≠ (dp + 1) % n := by
  by_cases h : dp + 2 < n
  · rw [Nat.mod_eq_of_lt h, Nat.mod_eq_of_lt (by omega : dp + 1 < n)]; omega
  · by_cases h1 : dp + 1 < n
    · have h2 : dp + 2 = n := by omega
      rw [h2, Nat.mod_self, Nat.mod_eq_of_lt h1]; omega
    · have h2 : dp + 1 = n := by omega
      have h3 : dp + 2 = 1 + n := by omega
      rw [h2, h3, Nat.mod_self, Nat.add_mod_right, Nat.mod_eq_of_lt (by omega : 1 < n)]
      omega

theorem ite_eq_decide (P : Prop) [Decidable P] : (if P then true else false) = decide P := by
  by_cases h : P <;> simp [h]

theorem mem_of_getElem?_some (ids : List Int) (i : Nat) (a : Int) (h : ids[i]? = some a) :
    a ∈ ids := by
  obtain ⟨h1, h2⟩ := List.getElem?_eq_some.mp h
  rw [← h2]
  exact List.getElem_mem h1

/-- In a list without repetition, different indices hold different values. -/
theorem getElem?_ne_of_nodup (ids : List Int) (hnd : ids.Nodup) (i j : Nat) (a b : Int)
    (hi : ids[i]? = some a) (hj : ids[j]? = some b) (hij : i ≠ j) : a ≠ b := by
  intro hab
  obtain ⟨hi1, hi2⟩ := List.getElem?_eq_some.mp hi
  obtain ⟨hj1, hj2⟩ := List.getElem?_eq_some.mp hj
  exact hij ((List.Nodup.getElem_inj_iff hnd).mp (by rw [hi2, hj2, hab]))

/-- A flag that is set on exactly the seat of user `x` is carried by one seat. -/
theorem flag_count (ps : List Player) (f : Player → Bool) (x : Int)
    (hf : ∀ p ∈ ps, f p = decide (p.ID = x))
    (hnd : (ps.map fun p => p.ID).Nodup) (hx : x ∈ ps.map fun p => p.ID) :
    (ps.filter f).length = 1 := by
  have h1 : ps.filter f = ps.filter fun p => p.ID == x := by
    apply List.filter_congr
    intro p hp
    rw [hf p hp]
    rfl
  rw [h1, ← List.countP_eq_length_filter]
  have h2 : List.countP (fun p : Player => p.ID == x) ps
      = List.count x (ps.map fun p => p.ID) := by
    rw [List.count, List.countP_map]
    rfl
  rw [h2]
  exact List.count_eq_one_of_mem hnd hx

/-- C33. Take a waiting room whose seats have pairwise different users, with n
seats, 2 ≤ n ≤ 26 (the deck has two hole cards for each of at most 26 seats), and
whose state machine is in WaitingForPlayers with the table and the PreFlop callback
of `NewRoom`.  `StartGame` returns without an error, and in the room it leaves there
are users `dealer`, `sb` and `bb` among the seats such that a seat is flagged dealer,
small blind or big blind exactly when its user is `dealer`, `sb` or `bb`; exactly one
seat carries each flag; with two seats `sb` is `dealer` and `bb` is the other seat;
with three or more seats the three users differ. -/
theorem StartGame_flags (r : Room) (intn : Nat → Nat)
    (hintn : ∀ n, 0 < n → intn n < n) (hn : 2 ≤ r.Players.length)
    (hn26 : r.Players.length ≤ 26)
    (hnd : (r.Players.map fun p => p.ID).Nodup)
    (hstatus : r.Status = RoomWaiting)
    (hstate : r.StateMachine.currentState = WaitingForPlayers)
    (htable : r.StateMachine.transitions = createTransitions)
    (hcb : (r.StateMachine.callbacks.lookup PreFlop).isSome = true) :
    ∃ r1 dealer sb bb, r.StartGame intn = some (none, r1) ∧
      (∀ p ∈ r1.Players, p.IsDealer = decide (p.ID = dealer) ∧
        p.IsSmallBlind = decide (p.ID = sb) ∧ p.IsBigBlind = decide (p.ID = bb)) ∧
      (∃ p ∈ r1.Players, p.ID = dealer) ∧ (∃ p ∈ r1.Players, p.ID = sb) ∧
      (∃ p ∈ r1.Players, p.ID = bb) ∧
      (r1.Players.filter fun p => p.IsDealer).length = 1 ∧
      (r1.Players.filter fun p => p.IsSmallBlind).length = 1 ∧
      (r1.Players.filter fun p => p.IsBigBlind).length = 1 ∧
      (r.Players.length = 2 → sb = dealer ∧ bb ≠ dealer) ∧
      (3 ≤ r.Players.length → sb ≠ dealer ∧ bb ≠ dealer ∧ bb ≠ sb) := by
  obtain ⟨deck, dealerID, nextID, secondID, r1, _, _, hdealer, hnext, hsecond, h1, _, _, _,
      _, _, _, hmap, _, _⟩ :=
    StartGame_succeeds r intn hintn hn hn26 hstatus hstate htable hcb
  have hids : (r1.Players.map fun p => p.ID) = (r.Players.map fun p => p.ID) := by
    have h := congrArg (List.map fun p : Player => p.ID) hmap
    rw [List.map_map, List.map_map] at h
    exact h
  have hlen : (r.Players.map fun p => p.ID).length = r.Players.length := List.length_map _ _
  have hdp : (if r.DealerPosition ≥ r.Players.length then 0 else r.DealerPosition)
      < r.Players.length := by
    split <;> omega
  generalize (if r.DealerPosition ≥ r.Players.length then 0 else r.DealerPosition) = dp
    at hdealer hnext hsecond hdp
  have hne1 : nextID ≠ dealerID :=
    getElem?_ne_of_nodup _ hnd _ _ _ _ hnext hdealer (succ_mod_ne dp _ hdp hn)
  have hflags : ∀ p ∈ r1.Players,
      p.IsDealer = decide (p.ID = dealerID) ∧
      p.IsSmallBlind = decide (p.ID = if r.Players.length = 2 then dealerID else nextID) ∧
      p.IsBigBlind = decide (p.ID = if r.Players.length = 2 then nextID else secondID) := by
    intro p hp
    have hmem : ({ p with Cards := [] } : Player) ∈
        r1.Players.map (fun p => { p with Cards := [] }) := List.mem_map_of_mem _ hp
    rw [hmap] at hmem
    obtain ⟨q, _, hq⟩ := List.mem_map.mp hmem
    have hid := congrArg Player.ID hq
    have hd := congrArg Player.IsDealer hq
    have hs := congrArg Player.IsSmallBlind hq
    have hb := congrArg Player.IsBigBlind hq
    simp only at hid hd hs hb
    rw [hid] at hd hs hb
    exact ⟨by rw [← hd, ite_eq_decide], by rw [← hs, ite_eq_decide],
      by rw [← hb, ite_eq_decide]⟩
  have hmemd : dealerID ∈ r1.Players.map fun p => p.ID := by
    rw [hids]; exact mem_of_getElem?_some _ _ _ hdealer
  have hmemn : nextID ∈ r1.Players.map fun p => p.ID := by
    rw [hids]; exact mem_of_getElem?_some _ _ _ hnext
  have hmems : secondID ∈ r1.Players.map fun p => p.ID := by
    rw [hids]; exact mem_of_getElem?_some _ _ _ hsecond
  have hmemsb : (if r.Players.length = 2 then dealerID else nextID)
      ∈ r1.Players.map fun p => p.ID := by
    split
    · exact hmemd
    · exact hmemn
  have hmembb : (if r.Players.length = 2 then nextID else secondID)
      ∈ r1.Players.map fun p => p.ID := by
    split
    · exact hmemn
    · exact hmems
  have hnd1 : (r1.Players.map fun p => p.ID).Nodup := by rw [hids]; exact hnd
  have hex : ∀ x, x ∈ r1.Players.map (fun p => p.ID) → ∃ p ∈ r1.Players, p.ID = x := by
    intro x hx
    obtain ⟨p, hp, h⟩ := List.mem_map.mp hx
    exact ⟨p, hp, h⟩
  refine ⟨r1, dealerID, if r.Players.length = 2 then dealerID else nextID,
    if r.Players.length = 2 then nextID else secondID, h1, hflags, hex _ hmemd, hex _ hmemsb,
    hex _ hmembb, ?_, ?_, ?_, ?_, ?_⟩
  · exact flag_count _ _ dealerID (fun p hp => (hflags p hp).1) hnd1 hmemd
  · exact flag_count _ _ _ (fun p hp => (hflags p hp).2.1) hnd1 hmemsb
  · exact flag_count _ _ _ (fun p hp => (hflags p hp).2.2) hnd1 hmembb
  · intro h2
    rw [if_pos h2, if_pos h2]
    exact ⟨rfl, hne1⟩
  · intro h3
    have h2 : ¬ r.Players.length = 2 := by omega
    rw [if_neg h2, if_neg h2]
    obtain ⟨ha, hb⟩ := succ_succ_mod_ne dp _ hdp h3
    exact ⟨hne1, getElem?_ne_of_nodup _ hnd _ _ _ _ hsecond hdealer ha,
      getElem?_ne_of_nodup _ hnd _ _ _ _ hsecond hnext hb⟩

/-- C33 at a sample: the three-seat sample room, with a random source that leaves
the deck in its order. -/
theorem StartGame_flags_witness :
    ∃ r1 dealer sb bb, threeSeats.StartGame noShuffle = some (none, r1) ∧
      (∀ p ∈ r1.Players, p.IsDealer = decide (p.ID = dealer) ∧
        p.IsSmallBlind = decide (p.ID = sb) ∧ p.IsBigBlind = decide (p.ID = bb)) ∧
      (∃ p ∈ r1.Players, p.ID = dealer) ∧ (∃ p ∈ r1.Players, p.ID = sb) ∧
      (∃ p ∈ r1.Players, p.ID = bb) ∧
      (r1.Players.filter fun p => p.IsDealer).length = 1 ∧
      (r1.Players.filter fun p => p.IsSmallBlind).length = 1 ∧
      (r1.Players.filter fun p => p.IsBigBlind).length = 1 ∧
      (threeSeats.Players.length = 2 → sb = dealer ∧ bb ≠ dealer) ∧
      (3 ≤ threeSeats.Players.length → sb ≠ dealer ∧ bb ≠ dealer ∧ bb ≠ sb) :=
  StartGame_flags threeSeats noShuffle (fun n hn => Nat.sub_lt hn Nat.one_pos)
    (by decide) (by decide) (by decide) (by decide) (by decide) (by decide) (by decide)

/-! ## The deck and the board through a hand (claims C32, C37) -/

/-- When `r.Deck.Deal()` returns, the deck had a card left and only its cursor has
moved. -/
theorem deal_frame (r r1 : Room) (card : Poker.Card) (h : r.deal = some (card, r1)) :
    ∃ d, r.Deck = some d ∧ d.index < d.cards.length ∧ d.cards[d.index]? = some card ∧
      r1 = { r with Deck := some { d with index := d.index + 1 } } := by
  unfold Room.deal at h
  cases hd : r.Deck with
  | none => rw [hd] at h; exact absurd h (by simp)
  | some d =>
    rw [hd] at h
    simp only at h
    unfold Poker.Deck.Deal at h
    by_cases hlt : d.index ≥ d.cards.length
    · rw [if_pos hlt] at h; exact absurd h (by simp)
    · rw [if_neg hlt] at h
      have hlt1 : d.index < d.cards.length := by omega
      rw [List.getElem?_eq_getElem hlt1] at h
      simp only [Option.some.injEq, Prod.mk.injEq] at h
      exact ⟨d, rfl, hlt1, by rw [List.getElem?_eq_getElem hlt1, h.1], h.2.symm⟩

theorem dealCommunity_frame : ∀ (k : Nat) (r r1 : Room) (d : Poker.Deck), r.Deck = some d →
    Room.dealCommunity k r = some r1 →
    r1.StateMachine = r.StateMachine ∧ r1.Status = r.Status ∧
      r1.CommunityCards.length = r.CommunityCards.length + k ∧
      r1.Deck = some { d with index := d.index + k } ∧
      r1.CommunityCards = r.CommunityCards ++ (d.cards.drop d.index).take k := by
  intro k
  induction k with
  | zero =>
    intro r r1 d hd h
    rw [Room.dealCommunity, Option.some.injEq] at h
    rw [← h]
    exact ⟨rfl, rfl, rfl, hd, by rw [List.take_zero, List.append_nil]⟩
  | succ k ih =>
    intro r r1 d hd h
    rw [Room.dealCommunity] at h
    cases hdeal : r.deal with
    | none => rw [hdeal] at h; exact absurd h (by simp)
    | some x =>
      obtain ⟨card, r2⟩ := x
      rw [hdeal] at h
      simp only at h
      obtain ⟨d1, hd1, hlt, hcard, hr2⟩ := deal_frame r r2 card hdeal
      rw [hd] at hd1
      cases Option.some.inj hd1
      obtain ⟨hsm, hst, hlen, hdeck, hcards⟩ := ih
        { r2 with CommunityCards := r2.CommunityCards ++ [card] } r1
        { d with index := d.index + 1 } (by rw [hr2]) h
      rw [hr2] at hsm hst hlen hcards
      refine ⟨hsm, hst, ?_, ?_, ?_⟩
      · rw [hlen]
        simp only [List.length_append, List.length_singleton]
        omega
      · rw [hdeck]
        show some ({ cards := d.cards, index := d.index + 1 + k } : Poker.Deck) = _
        rw [Nat.add_assoc, Nat.add_comm 1 k]
      · rw [hcards]
        show (r.CommunityCards ++ [card]) ++ (d.cards.drop (d.index + 1)).take k = _
        rw [List.getElem?_eq_getElem hlt, Option.some.injEq] at hcard
        rw [List.drop_eq_getElem_cons hlt, List.take_succ_cons, hcard, List.append_assoc]
        rfl

/-- When `dealFlop`, `dealTurn` or `dealRiver` returns, the cursor of the deck has
moved by the burn card and the board cards, the board has grown by the board cards,
and state machine and status are as before. -/
theorem dealStreet_frame (k : Nat) (r r1 : Room) (d : Poker.Deck) (hd : r.Deck = some d)
    (h : Room.dealStreet k r = some r1) :
    r1.StateMachine = r.StateMachine ∧ r1.Status = r.Status ∧
      r1.CommunityCards.length = r.CommunityCards.length + k ∧
      r1.Deck = some { d with index := d.index + (k + 1) } ∧
      r1.CommunityCards = r.CommunityCards ++ (d.cards.drop (d.index + 1)).take k := by
  unfold Room.dealStreet at h
  cases hdeal : r.deal with
  | none => rw [hdeal] at h; exact absurd h (by simp)
  | some x =>
    obtain ⟨card, r2⟩ := x
    rw [hdeal] at h
    simp only at h
    obtain ⟨d1, hd1, _, _, hr2⟩ := deal_frame r r2 card hdeal
    rw [hd] at hd1
    cases Option.some.inj hd1
    obtain ⟨r3, h3, h4⟩ := Option.map_eq_some'.mp h
    obtain ⟨hsm, hst, hlen, hdeck, hcards⟩ := dealCommunity_frame k r2 r3
      { d with index := d.index + 1 } (by rw [hr2]) h3
    rw [hr2] at hsm hst hlen hcards
    rw [← h4]
    refine ⟨hsm, hst, hlen, ?_, hcards⟩
    show r3.Deck = _
    rw [hdeck]
    show some ({ cards := d.cards, index := d.index + 1 + k } : Poker.Deck) = _
    rw [Nat.add_assoc, Nat.add_comm 1 k]

/-- When `endGame` returns, the state machine is as before. -/
theorem endGame_frame (r r1 : Room) (h : r.endGame = some r1) :
    r1.StateMachine = r.StateMachine := by
  unfold Room.endGame at h
  cases hw : r.determineWinner with
  | none => rw [hw] at h; exact absurd h (by simp)
  | some winnerID =>
    rw [hw] at h
    simp only at h
    by_cases hne : winnerID ≠ -1
    · rw [if_pos hne] at h
      cases hp : r.player winnerID with
      | none => rw [hp] at h; exact absurd h (by simp)
      | some pl =>
        rw [hp] at h
        simp only at h
        split at h
        · exact absurd h (by simp)
        · rw [Option.some.injEq] at h
          rw [← h]
    · rw [if_neg hne] at h
      simp only at h
      split at h
      · exact absurd h (by simp)
      · rw [Option.some.injEq] at h
        rw [← h]

theorem HandInvariant_congr (n : Nat) (r r1 : Room) (hsm : r1.StateMachine = r.StateMachine)
    (hst : r1.Status = r.Status) (hd : r1.Deck = r.Deck)
    (hb : r1.CommunityCards = r.CommunityCards) (h : HandInvariant n r) :
    HandInvariant n r1 := by
  unfold HandInvariant at *
  rw [hsm, hst, hd, hb]
  exact h

theorem HandInvariant_outside (n : Nat) (r : Room)
    (htable : r.StateMachine.transitions = createTransitions)
    (hcbs : r.StateMachine.callbacks = sampleRoom.StateMachine.callbacks)
    (hs : r.StateMachine.currentState = WaitingForPlayers ∨
      r.StateMachine.currentState = GameEnd) : HandInvariant n r := by
  refine ⟨htable, hcbs, ?_⟩
  rcases hs with hs | hs
  · exact Or.inl hs
  · exact Or.inr (Or.inl hs)

/-- A transition into GameEnd that returns has run `endGame` without an error. -/
theorem transitionDepth_GameEnd (k : Nat) (r r1 : Room) (e : Int) (err : Option String)
    (htable : r.StateMachine.transitions = createTransitions)
    (hcbs : r.StateMachine.callbacks = sampleRoom.StateMachine.callbacks)
    (hspec : specNext r.StateMachine.currentState e = some GameEnd)
    (h : Room.transitionDepth (k + 1) r e = some (err, r1)) :
    err = none ∧ r1.StateMachine = { r.StateMachine with currentState := GameEnd } := by
  rw [transitionDepth_allowed k r e GameEnd htable hspec (by rw [hcbs]; rfl)] at h
  have hcall : Room.callback (Room.transitionDepth k) GameEnd
      { r with StateMachine := { r.StateMachine with currentState := GameEnd } }
      = (Room.endGame
          { r with StateMachine := { r.StateMachine with currentState := GameEnd } }).map
        fun r1 => (none, r1) := by
    unfold Room.callback
    rw [if_neg (by decide), if_neg (by decide), if_neg (by decide), if_neg (by decide),
      if_neg (by decide), if_pos rfl]
  rw [hcall] at h
  cases hend : Room.endGame
      { r with StateMachine := { r.StateMachine with currentState := GameEnd } } with
  | none => rw [hend] at h; exact absurd h (by simp)
  | some r2 =>
    rw [hend] at h
    simp only [Option.map_some', Option.some.injEq, Prod.mk.injEq] at h
    refine ⟨h.1.symm, ?_⟩
    rw [← h.2, endGame_frame _ _ hend]

/-- A street callback that returns keeps the invariant. -/
theorem Transition_street (k c b : Nat) (r r1 : Room) (t : Int) (err : Option String)
    (d : Poker.Deck)
    (htable : r.StateMachine.transitions = createTransitions)
    (hcbs : r.StateMachine.callbacks = sampleRoom.StateMachine.callbacks)
    (hspec : specNext r.StateMachine.currentState BettingComplete = some t)
    (hcbt : (sampleRoom.StateMachine.callbacks.lookup t).isSome = true)
    (hcall : ∀ f (x : Room), Room.callback f t x = (Room.dealStreet k x).map fun y => (none, y))
    (hd : r.Deck = some d) (hidx : d.index = c) (hboard : r.CommunityCards.length = b)
    (h : r.Transition BettingComplete = some (err, r1)) :
    r1.StateMachine = { r.StateMachine with currentState := t } ∧ r1.Status = r.Status ∧
      r1.CommunityCards.length = b + k ∧
      r1.Deck = some { d with index := c + (k + 1) } ∧
      r1.CommunityCards = r.CommunityCards ++ (d.cards.drop (c + 1)).take k := by
  rw [Transition_allowed r BettingComplete t htable hspec (by rw [hcbs]; exact hcbt),
    hcall] at h
  cases hs : Room.dealStreet k
      { r with StateMachine := { r.StateMachine with currentState := t } } with
  | none => rw [hs] at h; exact absurd h (by simp)
  | some r2 =>
    rw [hs] at h
    simp only [Option.map_some', Option.some.injEq, Prod.mk.injEq] at h
    obtain ⟨hsm, hst, hlen, hdeck, hcards⟩ := dealStreet_frame k
      { r with StateMachine := { r.StateMachine with currentState := t } } r2 d hd hs
    rw [← h.2, hsm, hst, hlen, hdeck, hcards, hidx]
    exact ⟨rfl, rfl, by rw [← hboard], rfl, rfl⟩

/-- The events that `ProcessPlayerAction` and `RemovePlayer` fire keep the
invariant of the hand, when the transition returns. -/
theorem Transition_inv (n : Nat) (r r1 : Room) (e : Int) (err : Option String)
    (hI : HandInvariant n r) (he : e = BettingComplete ∨ e = PlayerLeft)
    (h : r.Transition e = some (err, r1)) : HandInvariant n r1 := by
  obtain ⟨htable, hcbs, hs⟩ := hI
  have hrefused : specNext r.StateMachine.currentState e = none → HandInvariant n r1 := by
    intro hspec
    obtain ⟨msg, hmsg⟩ := Transition_refused r e htable hspec
    rw [hmsg] at h
    simp only [Option.some.injEq, Prod.mk.injEq] at h
    rw [← h.2]
    exact ⟨htable, hcbs, hs⟩
  have hend : specNext r.StateMachine.currentState e = some GameEnd → HandInvariant n r1 := by
    intro hspec
    obtain ⟨_, hsm⟩ := transitionDepth_GameEnd 7 r r1 e err htable hcbs hspec h
    exact HandInvariant_outside n r1 (by rw [hsm]; exact htable) (by rw [hsm]; exact hcbs)
      (Or.inr (by rw [hsm]))
  rcases hs with hs | hs | ⟨hplay, d, hd, hlen, hs⟩
  · apply hrefused
    rw [hs]
    rcases he with rfl | rfl <;> rfl
  · apply hrefused
    rw [hs]
    rcases he with rfl | rfl <;> rfl
  · rcases he with rfl | rfl
    · rcases hs with ⟨hs, hidx, hb⟩ | ⟨hs, hidx, hb⟩ | ⟨hs, hidx, hb⟩ | ⟨hs, hidx, hb⟩
      · obtain ⟨hb, hcards⟩ := hb
        obtain ⟨hsm, hst, hboard, hdeck, hcards1⟩ := Transition_street 3 _ _ r r1 Flop err d htable hcbs
          (by rw [hs]; rfl) (by decide)
          (by
            intro f x
            unfold Room.callback
            rw [if_neg (by decide), if_pos rfl]
            rfl)
          hd hidx hb h
        refine ⟨by rw [hsm]; exact htable, by rw [hsm]; exact hcbs, Or.inr (Or.inr ?_)⟩
        refine ⟨by rw [hst]; exact hplay, _, hdeck, hlen, Or.inr (Or.inl ?_)⟩
        exact ⟨by rw [hsm], rfl, hboard, by rw [hcards1, hcards]; rfl⟩
      · obtain ⟨hb, hcards⟩ := hb
        obtain ⟨hsm, hst, hboard, hdeck, hcards1⟩ := Transition_street 1 _ _ r r1 Turn err d htable hcbs
          (by rw [hs]; rfl) (by decide)
          (by
            intro f x
            unfold Room.callback
            rw [if_neg (by decide), if_neg (by decide), if_pos rfl]
            rfl)
          hd hidx hb h
        refine ⟨by rw [hsm]; exact htable, by rw [hsm]; exact hcbs, Or.inr (Or.inr ?_)⟩
        refine ⟨by rw [hst]; exact hplay, _, hdeck, hlen, Or.inr (Or.inr (Or.inl ?_))⟩
        exact ⟨by rw [hsm], rfl, hboard, by rw [hcards1, hcards]⟩
      · obtain ⟨hb, hcards⟩ := hb
        obtain ⟨hsm, hst, hboard, hdeck, hcards1⟩ := Transition_street 1 _ _ r r1 River err d htable hcbs
          (by rw [hs]; rfl) (by decide)
          (by
            intro f x
            unfold Room.callback
            rw [if_neg (by decide), if_neg (by decide), if_neg (by decide), if_pos rfl]
            rfl)
          hd hidx hb h
        refine ⟨by rw [hsm]; exact htable, by rw [hsm]; exact hcbs, Or.inr (Or.inr ?_)⟩
        refine ⟨by rw [hst]; exact hplay, _, hdeck, hlen, Or.inr (Or.inr (Or.inr ?_))⟩
        exact ⟨by rw [hsm], rfl, hboard, by rw [hcards1, hcards]⟩
      · rw [Transition_allowed r BettingComplete Showdown htable (by rw [hs]; rfl)
          (by rw [hcbs]; rfl)] at h
        have hcall : Room.callback (Room.transitionDepth 7) Showdown
            { r with StateMachine := { r.StateMachine with currentState := Showdown } }
            = Room.transitionDepth 7
              { r with StateMachine := { r.StateMachine with currentState := Showdown } }
              DetermineWinner := by
          unfold Room.callback
          rw [if_neg (by decide), if_neg (by decide), if_neg (by decide), if_neg (by decide),
            if_pos rfl]
        rw [hcall] at h
        cases hx : Room.transitionDepth 7
            { r with StateMachine := { r.StateMachine with currentState := Showdown } }
            DetermineWinner with
        | none => rw [hx] at h; exact absurd h (by simp)
        | some x =>
          obtain ⟨err2, r2⟩ := x
          obtain ⟨herr2, hsm⟩ := transitionDepth_GameEnd 6
            { r with StateMachine := { r.StateMachine with currentState := Showdown } }
            r2 DetermineWinner err2 htable hcbs rfl hx
          rw [hx, herr2] at h
          simp only [Option.some.injEq, Prod.mk.injEq] at h
          rw [← h.2]
          exact HandInvariant_outside n r2 (by rw [hsm]; exact htable)
            (by rw [hsm]; exact hcbs) (Or.inr (by rw [hsm]))
    · apply hend
      rcases hs with ⟨hs, _⟩ | ⟨hs, _⟩ | ⟨hs, _⟩ | ⟨hs, _⟩ <;> rw [hs] <;> rfl

/-- `ProcessPlayerAction`, when it returns, keeps the invariant of the hand. -/
theorem ProcessPlayerAction_inv (n : Nat) (r r1 : Room) (userID action amount : Int)
    (res : ActionResult) (err : Option String) (hI : HandInvariant n r)
    (h : r.ProcessPlayerAction userID action amount = some (res, err, r1)) :
    HandInvariant n r1 := by
  unfold Room.ProcessPlayerAction at h
  cases hp : r.player userID with
  | none =>
    rw [hp] at h
    simp only [Option.some.injEq, Prod.mk.injEq] at h
    rw [← h.2.2]; exact hI
  | some pl =>
    rw [hp] at h
    simp only at h
    by_cases hst : r.Status ≠ RoomPlaying
    · rw [if_pos hst] at h
      simp only [Option.some.injEq, Prod.mk.injEq] at h
      rw [← h.2.2]; exact hI
    rw [if_neg hst] at h
    cases hbr : r.BettingRound with
    | none =>
      rw [hbr] at h
      simp only [Option.some.injEq, Prod.mk.injEq] at h
      rw [← h.2.2]; exact hI
    | some br =>
      rw [hbr] at h
      simp only at h
      cases hpa : br.ProcessAction userID action amount with
      | none => rw [hpa] at h; exact absurd h (by simp)
      | some x =>
        obtain ⟨result, br1⟩ := x
        rw [hpa] at h
        simp only at h
        by_cases hsucc : result.Success = true
        · rw [if_pos hsucc] at h
          by_cases hev : result.NextEvent ≠ 0
          · rw [if_pos hev] at h
            obtain ⟨x, hx, hx2⟩ := Option.map_eq_some'.mp h
            obtain ⟨err2, r2⟩ := x
            simp only [Prod.mk.injEq] at hx2
            rw [← hx2.2.2]
            have hbc : result.NextEvent = BettingComplete := by
              rcases ProcessAction_NextEvent br br1 userID action amount result hpa with h0 | h0
              · exact absurd h0 hev
              · exact h0
            rw [hbc] at hx
            refine Transition_inv n _ r2 BettingComplete err2 ?_ (Or.inl rfl) hx
            exact HandInvariant_congr n r _ rfl rfl rfl rfl hI
          · rw [if_neg hev] at h
            simp only [Option.some.injEq, Prod.mk.injEq] at h
            rw [← h.2.2]
            exact HandInvariant_congr n r _ rfl rfl rfl rfl hI
        · rw [if_neg hsucc] at h
          simp only [Option.some.injEq, Prod.mk.injEq] at h
          rw [← h.2.2]
          exact HandInvariant_congr n r _ rfl rfl rfl rfl hI

/-- `RemovePlayer`, when it returns, keeps the invariant of the hand. -/
theorem RemovePlayer_inv (n : Nat) (r r1 : Room) (userID : Int) (err : Option String)
    (hI : HandInvariant n r) (h : r.RemovePlayer userID = some (err, r1)) :
    HandInvariant n r1 := by
  unfold Room.RemovePlayer at h
  cases hp : r.player userID with
  | none =>
    rw [hp] at h
    simp only [Option.some.injEq, Prod.mk.injEq] at h
    rw [← h.2]; exact hI
  | some pl =>
    rw [hp] at h
    simp only at h
    obtain ⟨r2, hleft, hr1⟩ := Option.map_eq_some'.mp h
    have hI2 : HandInvariant n r2 := by
      by_cases hc : r.Status = RoomPlaying ∧ pl.Status = PlayerActive
      · rw [if_pos hc] at hleft
        by_cases hbr : r.BettingRound.isSome = true
        · rw [if_pos hbr] at hleft
          obtain ⟨x, hx, hx2⟩ := Option.map_eq_some'.mp hleft
          obtain ⟨err2, r3⟩ := x
          simp only at hx2
          rw [← hx2]
          refine Transition_inv n _ r3 PlayerLeft err2 ?_ (Or.inr rfl) hx
          exact HandInvariant_congr n r _ rfl rfl rfl rfl hI
        · rw [if_neg hbr, Option.some.injEq] at hleft
          rw [← hleft]
          exact HandInvariant_congr n r _ rfl rfl rfl rfl hI
      · rw [if_neg hc, Option.some.injEq] at hleft
        rw [← hleft]; exact hI
    by_cases h0 : (r2.Players.filter fun p => p.ID != userID).length = 0
    · rw [if_pos h0] at hr1
      simp only [Prod.mk.injEq] at hr1
      rw [← hr1.2]
      exact HandInvariant_outside n _ hI2.1 hI2.2.1 (Or.inl rfl)
    · rw [if_neg h0] at hr1
      simp only [Prod.mk.injEq] at hr1
      rw [← hr1.2]
      exact HandInvariant_congr n r2 _ rfl rfl rfl rfl hI2

/-- `AddPlayer` keeps the invariant of the hand. -/
theorem AddPlayer_inv (n : Nat) (r : Room) (userID : Int) (username : String) (chips : Int)
    (hI : HandInvariant n r) : HandInvariant n (r.AddPlayer userID username chips).2 := by
  rcases AddPlayer_cases r userID username chips with ⟨_, _, h⟩ | ⟨_, _, h⟩
  · rw [h]; exact hI
  · rw [h]
    exact HandInvariant_congr n r _ rfl rfl rfl rfl hI

/-- Past its guards, `StartGame` is the transition StartGame on a Playing room with a
shuffled deck of 52 cards, an empty board and all seats Active. -/
theorem StartGame_eq (r : Room) (intn : Nat → Nat) (hintn : ∀ n, 0 < n → intn n < n)
    (hn : 2 ≤ r.Players.length) (hstatus : r.Status = RoomWaiting) :
    ∃ (deck : Poker.Deck) (R : Room), deck.cards.length = 52 ∧ deck.index = 0 ∧
      R.StateMachine = r.StateMachine ∧ R.Status = RoomPlaying ∧ R.Deck = some deck ∧
      R.CommunityCards = [] ∧ R.Players.length = r.Players.length ∧
      (∀ p ∈ R.Players, p.Status = PlayerActive) ∧
      r.StartGame intn = R.Transition StartGame := by
  obtain ⟨deck, hshuffle, hidx, hperm⟩ :=
    Poker.Shuffle_perm intn hintn Poker.NewDeck (by decide)
  have hdlen : deck.cards.length = 52 := by
    rw [hperm.length_eq]; decide
  obtain ⟨dealerID, nextID, secondID, R, _, _, _, hblinds, _, hRsm, hRdeck, hRboard, _,
      hRplayers⟩ := setupBlinds_reset
    { r with
      CurrentGame := some { Participants := r.getActivePlayerIDs, WinnerID := 0, WinAmount := 0 },
      Deck := some deck } hn
  refine ⟨deck, { R with Status := RoomPlaying }, hdlen, hidx, hRsm, rfl, hRdeck, hRboard, ?_,
    ?_, ?_⟩
  · show R.Players.length = _
    rw [hRplayers]; exact List.length_map _ _
  · intro p hp
    have hp1 : p ∈ R.Players := hp
    rw [hRplayers] at hp1
    obtain ⟨q, _, rfl⟩ := List.mem_map.mp hp1
    rfl
  · unfold Room.StartGame
    rw [if_neg (by omega), if_neg (by rw [hstatus]; exact fun h => h rfl)]
    simp only
    rw [hshuffle]
    simp only
    rw [hblinds]

/-- `StartGame`, when it returns, keeps the invariant of the hand; a call that
returns without an error has started a hand for the seats of the room. -/
theorem StartGame_inv (n : Nat) (r r1 : Room) (intn : Nat → Nat) (err : Option String)
    (hintn : ∀ n, 0 < n → intn n < n) (hI : HandInvariant n r)
    (h : r.StartGame intn = some (err, r1)) :
    (err = none → HandInvariant r.Players.length r1) ∧ (err ≠ none → HandInvariant n r1) := by
  by_cases hg : r.Players.length < 2 ∨ r.Status ≠ RoomWaiting
  · obtain ⟨msg, hmsg⟩ := StartGame_refused r intn hg
    rw [hmsg] at h
    simp only [Option.some.injEq, Prod.mk.injEq] at h
    rw [← h.1, ← h.2]
    exact ⟨fun hc => absurd hc (by simp), fun _ => hI⟩
  · have hn : 2 ≤ r.Players.length := by
      by_contra hc
      exact hg (Or.inl (by omega))
    have hstatus : r.Status = RoomWaiting := by
      by_contra hc
      exact hg (Or.inr hc)
    obtain ⟨deck, R, hdlen, hidx, hRsm, hRstatus, hRdeck, hRboard, hRlen, hRact, heq⟩ :=
      StartGame_eq r intn hintn hn hstatus
    rw [heq] at h
    obtain ⟨htable, hcbs, hs⟩ := hI
    rcases hs with hs | hs | ⟨hplay, _⟩
    · by_cases hle : 2 * r.Players.length ≤ 52
      · obtain ⟨r2, h2, hst2, hsm2, hboard2, _, hdeck2, _⟩ :=
          Transition_StartGame R deck (by rw [hRsm]; exact hs) (by rw [hRsm]; exact htable)
            (by rw [hRsm, hcbs]; rfl) hRact hRdeck (by rw [hRlen]; omega)
        rw [h2] at h
        simp only [Option.some.injEq, Prod.mk.injEq] at h
        rw [← h.1, ← h.2]
        refine ⟨fun _ => ?_, fun hc => absurd rfl hc⟩
        refine ⟨by rw [hsm2, hRsm]; exact htable, by rw [hsm2, hRsm]; exact hcbs,
          Or.inr (Or.inr ⟨by rw [hst2]; exact hRstatus, _, hdeck2, hdlen, Or.inl ?_⟩)⟩
        refine ⟨by rw [hsm2], ?_, by rw [hboard2, hRboard]; rfl, by rw [hboard2, hRboard]⟩
        show deck.index + 2 * R.Players.length = _
        rw [hidx, hRlen, Nat.zero_add]
      · exfalso
        rw [Transition_allowed R StartGame PreFlop (by rw [hRsm]; exact htable)
          (by rw [hRsm, hs]; rfl) (by rw [hRsm, hcbs]; rfl)] at h
        have hcall : Room.callback (Room.transitionDepth 7) PreFlop
            { R with StateMachine := { R.StateMachine with currentState := PreFlop } }
            = none := by
          unfold Room.callback
          rw [if_pos rfl]
          unfold Room.startPreFlop
          simp only
          rw [hRdeck]
          cases hdeal : dealHoleCards R.Players (some deck) with
          | none => rfl
          | some x =>
            exfalso
            obtain ⟨ps, od⟩ := x
            rcases dealHoleCards_cursor R.Players deck ps od hRact hdeal with hc | hc
            · rw [hRlen] at hc; omega
            · rw [hc] at hRlen
              simp only [List.length_nil] at hRlen
              omega
        rw [hcall] at h
        exact absurd h (by simp)
    · obtain ⟨msg, hmsg⟩ := Transition_refused R StartGame (by rw [hRsm]; exact htable)
        (by rw [hRsm, hs]; rfl)
      rw [hmsg] at h
      simp only [Option.some.injEq, Prod.mk.injEq] at h
      rw [← h.1, ← h.2]
      refine ⟨fun hc => absurd hc (by simp), fun _ => ?_⟩
      exact HandInvariant_outside n R (by rw [hRsm]; exact htable) (by rw [hRsm]; exact hcbs)
        (Or.inr (by rw [hRsm]; exact hs))
    · rw [hstatus] at hplay
      exact absurd hplay (by decide)

/-- Every room in play satisfies the invariant of the hand. -/
theorem Played.inv {n : Nat} {r : Room} (h : Played n r) : HandInvariant n r := by
  induction h with
  | fresh r hr =>
    have hfresh := (Reachable.fresh hr).1
    exact HandInvariant_outside 0 r (by rw [hfresh]; rfl) (by rw [hfresh])
      (Or.inl (by rw [hfresh]; rfl))
  | startGame n r r1 intn _ hintn h ih => exact (StartGame_inv n r r1 intn none hintn ih h).1 rfl
  | startGameError n r r1 intn msg _ hintn h ih =>
    exact (StartGame_inv n r r1 intn (some msg) hintn ih h).2 (by simp)
  | addPlayer n r userID username chips _ ih => exact AddPlayer_inv n r userID username chips ih
  | removePlayer n r r1 userID err _ h ih => exact RemovePlayer_inv n r r1 userID err ih h
  | action n r r1 userID action amount res err _ h ih =>
    exact ProcessPlayerAction_inv n r r1 userID action amount res err ih h

/-- A further call of `ProcessPlayerAction` in a run of calls from a room in play. -/
theorem Played.thenAct {n : Nat} (o : Option Room) (userID action amount : Int)
    (h : ∀ r, o = some r → Played n r) :
    ∀ r, thenAct o userID action amount = some r → Played n r := by
  intro r1 h1
  unfold Rooms.thenAct at h1
  obtain ⟨r, hr, h2⟩ := Option.bind_eq_some.mp h1
  obtain ⟨x, hx, hx2⟩ := Option.map_eq_some'.mp h2
  obtain ⟨res, err, r2⟩ := x
  simp only at hx2
  rw [← hx2]
  exact Played.action n r r2 userID action amount res err (h r hr) hx

/-- The sample room on the river is a room in play whose hand dealt to two seats. -/
theorem headsUpRiver_played : Played 2 headsUpRiver := by
  have hstart : ∀ r, started noShuffle headsUp = some r → Played 2 r := by
    intro r hr
    have h0 : started noShuffle headsUp = some headsUpPreFlop := rfl
    rw [h0, Option.some.injEq] at hr
    rw [← hr]
    exact Played.startGame 0 headsUp headsUpPreFlop noShuffle
      (Played.fresh _ (Reachable.addPlayer _ 2 "b" 1000
        (Reachable.addPlayer _ 1 "a" 1000
          (Reachable.newRoom 1 "table" "low" 100 10 20 6 false))))
      (fun k hk => Nat.sub_lt hk Nat.one_pos) rfl
  exact Played.thenAct _ 1 Check 0 (Played.thenAct _ 1 Check 0
    (Played.thenAct _ 1 Check 0 hstart)) headsUpRiver rfl

/-- C32. In every room in play, with n the number of seats at the `StartGame` that
began the running hand: in PreFlop the board is empty and the cursor of the 52-card
deck is 2n; in Flop the board has exactly 3 cards and the cursor is 2n+4; in Turn 4
cards and 2n+6; in River 5 cards and 2n+8.  The card under the cursor on entering
each of the three later streets is burnt: the board holds the cards at the positions
2n+1, 2n+2, 2n+3 of the deck, then the one at 2n+5, then the one at 2n+7. -/
theorem board_and_cursor_by_street (n : Nat) (r : Room) (h : Played n r) :
    (r.StateMachine.currentState = PreFlop →
      r.CommunityCards.length = 0 ∧
      ∃ d, r.Deck = some d ∧ d.cards.length = 52 ∧ d.index = 2 * n) ∧
    (r.StateMachine.currentState = Flop →
      r.CommunityCards.length = 3 ∧
      ∃ d, r.Deck = some d ∧ d.cards.length = 52 ∧ d.index = 2 * n + 4 ∧
        r.CommunityCards = (d.cards.drop (2 * n + 1)).take 3) ∧
    (r.StateMachine.currentState = Turn →
      r.CommunityCards.length = 4 ∧
      ∃ d, r.Deck = some d ∧ d.cards.length = 52 ∧ d.index = 2 * n + 6 ∧
        r.CommunityCards = (d.cards.drop (2 * n + 1)).take 3
          ++ (d.cards.drop (2 * n + 5)).take 1) ∧
    (r.StateMachine.currentState = River →
      r.CommunityCards.length = 5 ∧
      ∃ d, r.Deck = some d ∧ d.cards.length = 52 ∧ d.index = 2 * n + 8 ∧
        r.CommunityCards = (d.cards.drop (2 * n + 1)).take 3
          ++ (d.cards.drop (2 * n + 5)).take 1 ++ (d.cards.drop (2 * n + 7)).take 1) := by
  obtain ⟨_, _, hs⟩ := Played.inv h
  refine ⟨?_, ?_, ?_, ?_⟩ <;> intro hstate <;> rw [hstate] at hs
  · rcases hs with hs | hs | ⟨_, d, hd, hlen, hs⟩
    · exact absurd hs (by decide)
    · exact absurd hs (by decide)
    · rcases hs with ⟨_, hidx, hb, _⟩ | ⟨hs, _⟩ | ⟨hs, _⟩ | ⟨hs, _⟩
      · exact ⟨hb, d, hd, hlen, hidx⟩
      all_goals exact absurd hs (by decide)
  · rcases hs with hs | hs | ⟨_, d, hd, hlen, hs⟩
    · exact absurd hs (by decide)
    · exact absurd hs (by decide)
    · rcases hs with ⟨hs, _⟩ | ⟨_, hidx, hb, hc⟩ | ⟨hs, _⟩ | ⟨hs, _⟩
      · exact absurd hs (by decide)
      · exact ⟨hb, d, hd, hlen, hidx, hc⟩
      all_goals exact absurd hs (by decide)
  · rcases hs with hs | hs | ⟨_, d, hd, hlen, hs⟩
    · exact absurd hs (by decide)
    · exact absurd hs (by decide)
    · rcases hs with ⟨hs, _⟩ | ⟨hs, _⟩ | ⟨_, hidx, hb, hc⟩ | ⟨hs, _⟩
      · exact absurd hs (by decide)
      · exact absurd hs (by decide)
      · exact ⟨hb, d, hd, hlen, hidx, hc⟩
      · exact absurd hs (by decide)
  · rcases hs with hs | hs | ⟨_, d, hd, hlen, hs⟩
    · exact absurd hs (by decide)
    · exact absurd hs (by decide)
    · rcases hs with ⟨hs, _⟩ | ⟨hs, _⟩ | ⟨hs, _⟩ | ⟨_, hidx, hb, hc⟩
      · exact absurd hs (by decide)
      · exact absurd hs (by decide)
      · exact absurd hs (by decide)
      · exact ⟨hb, d, hd, hlen, hidx, hc⟩

/-- C32 at a sample: the two-seat sample room on the river has five board cards and
the cursor at 2·2 + 8. -/
theorem board_and_cursor_by_street_witness :
    headsUpRiver.CommunityCards.length = 5 ∧
    ∃ d, headsUpRiver.Deck = some d ∧ d.cards.length = 52 ∧ d.index = 2 * 2 + 8 ∧
      headsUpRiver.CommunityCards = (d.cards.drop (2 * 2 + 1)).take 3
        ++ (d.cards.drop (2 * 2 + 5)).take 1 ++ (d.cards.drop (2 * 2 + 7)).take 1 :=
  (board_and_cursor_by_street 2 headsUpRiver headsUpRiver_played).2.2.2 rfl

/-- Past its guards or not, `StartGame` on a room in play with at most 26 seats
returns: dealing the hole cards does not exhaust the deck. -/
theorem StartGame_isSome (n : Nat) (r : Room) (intn : Nat → Nat)
    (hintn : ∀ k, 0 < k → intn k < k) (hI : HandInvariant n r)
    (hlen : r.Players.length ≤ 26) : (r.StartGame intn).isSome = true := by
  by_cases hg : r.Players.length < 2 ∨ r.Status ≠ RoomWaiting
  · obtain ⟨msg, hmsg⟩ := StartGame_refused r intn hg
    rw [hmsg]; rfl
  · have hn : 2 ≤ r.Players.length := by
      by_contra hc
      exact hg (Or.inl (by omega))
    have hstatus : r.Status = RoomWaiting := by
      by_contra hc
      exact hg (Or.inr hc)
    obtain ⟨deck, R, hdlen, hidx, hRsm, hRstatus, hRdeck, hRboard, hRlen, hRact, heq⟩ :=
      StartGame_eq r intn hintn hn hstatus
    rw [heq]
    obtain ⟨htable, hcbs, hs⟩ := hI
    rcases hs with hs | hs | ⟨hplay, _⟩
    · obtain ⟨r2, h2, _⟩ :=
        Transition_StartGame R deck (by rw [hRsm]; exact hs) (by rw [hRsm]; exact htable)
          (by rw [hRsm, hcbs]; rfl) hRact hRdeck (by rw [hRlen]; omega)
      rw [h2]; rfl
    · obtain ⟨msg, hmsg⟩ := Transition_refused R StartGame (by rw [hRsm]; exact htable)
        (by rw [hRsm, hs]; rfl)
      rw [hmsg]; rfl
    · rw [hstatus] at hplay
      exact absurd hplay (by decide)

/-- The cursor of the deck in the four streets of a hand that dealt to `n` seats. -/
theorem Played.cursor {n : Nat} {r : Room} (h : Played n r)
    (hs : r.StateMachine.currentState = PreFlop ∨ r.StateMachine.currentState = Flop ∨
      r.StateMachine.currentState = Turn ∨ r.StateMachine.currentState = River) :
    ∃ d, r.Deck = some d ∧ d.cards.length = 52 ∧
      (r.StateMachine.currentState = PreFlop → d.index = 2 * n) ∧
      (r.StateMachine.currentState = Flop → d.index = 2 * n + 4) ∧
      (r.StateMachine.currentState = Turn → d.index = 2 * n + 6) ∧
      (r.StateMachine.currentState = River → d.index = 2 * n + 8) := by
  obtain ⟨_, _, hI⟩ := Played.inv h
  rcases hI with hw | hw | ⟨_, d, hd, hlen, hI⟩
  · rw [hw] at hs
    rcases hs with hs | hs | hs | hs <;> exact absurd hs (by decide)
  · rw [hw] at hs
    rcases hs with hs | hs | hs | hs <;> exact absurd hs (by decide)
  · refine ⟨d, hd, hlen, ?_⟩
    rcases hI with ⟨hst, hidx, _⟩ | ⟨hst, hidx, _⟩ | ⟨hst, hidx, _⟩ | ⟨hst, hidx, _⟩ <;>
      rw [hst] <;>
      refine ⟨fun hc => ?_, fun hc => ?_, fun hc => ?_, fun hc => ?_⟩ <;>
      first
        | exact hidx
        | exact absurd hc (by decide)

theorem dealStreet_isSome (k : Nat) (r : Room) (d : Poker.Deck) (hd : r.Deck = some d)
    (hle : d.index + (k + 1) ≤ d.cards.length) : (Room.dealStreet k r).isSome = true := by
  obtain ⟨r1, h1, _⟩ := dealStreet_some k r d hd hle
  rw [h1]; rfl

/-- C37. In every room in play whose running hand began with n ≤ 10 seats: in each
of the four streets the deck holds 52 cards and its cursor is at most 2n + 8 ≤ 28,
and on the river it is exactly 2n + 8; the deals of the next street (`dealFlop` in
PreFlop, `dealTurn` in Flop, `dealRiver` in Turn), on the room or on any room with
the same deck, return; and `StartGame` on the room with at most 10 seats returns, so
dealing the hole cards does not exhaust the deck either. -/
theorem deck_is_never_exhausted (n : Nat) (r : Room) (h : Played n r) (hn : n ≤ 10) :
    (r.StateMachine.currentState = PreFlop ∨ r.StateMachine.currentState = Flop ∨
        r.StateMachine.currentState = Turn ∨ r.StateMachine.currentState = River →
      ∃ d, r.Deck = some d ∧ d.cards.length = 52 ∧ d.index ≤ 2 * n + 8 ∧ 2 * n + 8 ≤ 28 ∧
        (r.StateMachine.currentState = River → d.index = 2 * n + 8)) ∧
    (r.StateMachine.currentState = PreFlop →
      ∀ r2 : Room, r2.Deck = r.Deck → r2.dealFlop.isSome = true) ∧
    (r.StateMachine.currentState = Flop →
      ∀ r2 : Room, r2.Deck = r.Deck → r2.dealTurn.isSome = true) ∧
    (r.StateMachine.currentState = Turn →
      ∀ r2 : Room, r2.Deck = r.Deck → r2.dealRiver.isSome = true) ∧
    (∀ intn : Nat → Nat, (∀ k, 0 < k → intn k < k) → r.Players.length ≤ 10 →
      (r.StartGame intn).isSome = true) := by
  refine ⟨?_, ?_, ?_, ?_, ?_⟩
  · intro hs
    obtain ⟨d, hd, hlen, h1, h2, h3, h4⟩ := Played.cursor h hs
    refine ⟨d, hd, hlen, ?_, by omega, h4⟩
    rcases hs with hs | hs | hs | hs
    · have := h1 hs; omega
    · have := h2 hs; omega
    · have := h3 hs; omega
    · have := h4 hs; omega
  · intro hs r2 hdeck
    obtain ⟨d, hd, hlen, h1, _⟩ := Played.cursor h (Or.inl hs)
    have := h1 hs
    exact dealStreet_isSome 3 r2 d (by rw [hdeck, hd]) (by omega)
  · intro hs r2 hdeck
    obtain ⟨d, hd, hlen, _, h2, _⟩ := Played.cursor h (Or.inr (Or.inl hs))
    have := h2 hs
    exact dealStreet_isSome 1 r2 d (by rw [hdeck, hd]) (by omega)
  · intro hs r2 hdeck
    obtain ⟨d, hd, hlen, _, _, h3, _⟩ := Played.cursor h (Or.inr (Or.inr (Or.inl hs)))
    have := h3 hs
    exact dealStreet_isSome 1 r2 d (by rw [hdeck, hd]) (by omega)
  · intro intn hintn hlen
    exact StartGame_isSome n r intn hintn (Played.inv h) (by omega)

/-- C37 at a sample: the two-seat sample room on the river, with the cursor of the
deck at 12. -/
theorem deck_is_never_exhausted_witness :
    ∃ d, headsUpRiver.Deck = some d ∧ d.cards.length = 52 ∧ d.index ≤ 2 * 2 + 8 ∧
      2 * 2 + 8 ≤ 28 ∧ (headsUpRiver.StateMachine.currentState = River → d.index = 2 * 2 + 8) :=
  (deck_is_never_exhausted 2 headsUpRiver headsUpRiver_played (by decide)).1
    (Or.inr (Or.inr (Or.inr rfl)))

/-! ## The state machine with the callbacks of a room (claim C14) -/

/-- C14 (counterexample). Heads-up on the river, in a room built by `NewRoom`: the
state machine is in River with the table of `createTransitions`, and the table lists
BettingComplete as leading to Showdown.  `Transition(BettingComplete)` returns no
error, no callback fails, and the machine is then in GameEnd, not in Showdown: the
callback of Showdown fires DetermineWinner before the call returns.  The same is
seen on the room. -/
theorem River_BettingComplete_ends_in_GameEnd :
    headsUpRiver.StateMachine.currentState = River ∧
    headsUpRiver.StateMachine.transitions = createTransitions ∧
    specNext River BettingComplete = some Showdown ∧
    headsUpRiver.StateMachine.callbacks.lookup Showdown
      = some (Callback.fire DetermineWinner) ∧
    headsUpRiver.StateMachine.Transition BettingComplete =
      some (none, { headsUpRiver.StateMachine with currentState := GameEnd }) ∧
    (headsUpRiver.Transition BettingComplete).map
      (fun x => (x.1, x.2.StateMachine.currentState)) = some (none, GameEnd) := by
  decide

/-- C14 (amended). With the table of `createTransitions`, `CanTransition` is true
exactly on the pairs that the table of the specification lists; on every other pair
`Transition` returns an error and leaves the machine as it was.  On a listed pair
`Transition` moves the machine to the listed state and runs the callback installed
for that state: with no callback there, or one that returns `nil` without calling
the machine, it returns no error and the machine is in the listed state.  With the
callbacks that `NewRoom` installs, `Transition` on a listed pair returns no error and
the machine is in the listed state, except that the pairs listed as leading to
Showdown end in GameEnd, because the callback of Showdown fires DetermineWinner. -/
theorem Transition_follows_table_or_passes_Showdown (fsm : GameStateMachine) (e : Int)
    (htable : fsm.transitions = createTransitions) :
    fsm.CanTransition e = (specNext fsm.currentState e).isSome ∧
    (specNext fsm.currentState e = none → ∃ msg, fsm.Transition e = some (some msg, fsm)) ∧
    (∀ t, specNext fsm.currentState e = some t →
      fsm.callbacks.lookup t = none ∨ fsm.callbacks.lookup t = some (Callback.ret none) →
      fsm.Transition e = some (none, { fsm with currentState := t })) ∧
    (∀ t, specNext fsm.currentState e = some t →
      fsm.callbacks = (NewRoom 1 "table" "low" 100 10 20 6 false).StateMachine.callbacks →
      fsm.Transition e =
        some (none, { fsm with currentState := if t = Showdown then GameEnd else t })) := by
  have hlook := lookup_createTransitions fsm.currentState e
  rw [← htable] at hlook
  have hcan := CanTransition_eq fsm e
  rw [hlook] at hcan
  refine ⟨hcan, ?_, ?_, ?_⟩
  · intro hnone
    rw [hnone] at hcan
    exact ⟨_, transitionDepth_refused fsm e hcan 7⟩
  · intro t ht hcb
    exact transitionDepth_plain fsm e t htable ht hcb 7
  · intro t ht hcbs
    have hrange := specNext_range _ _ _ ht
    by_cases h5 : t = Showdown
    · rw [if_pos h5]
      subst h5
      have hfire : fsm.callbacks.lookup Showdown = some (Callback.fire DetermineWinner) := by
        rw [hcbs]; rfl
      unfold GameStateMachine.Transition
      rw [transitionDepth_fire fsm e Showdown DetermineWinner htable ht hfire 7]
      rw [transitionDepth_plain { fsm with currentState := Showdown } DetermineWinner GameEnd
        htable rfl (Or.inr (by show fsm.callbacks.lookup GameEnd = _; rw [hcbs]; rfl)) 6]
    · rw [if_neg h5]
      refine transitionDepth_plain fsm e t htable ht ?_ 7
      rw [hcbs]
      rcases hrange with rfl | rfl | rfl | rfl | rfl | rfl | rfl
      · exact Or.inl rfl
      · exact Or.inr rfl
      · exact Or.inr rfl
      · exact Or.inr rfl
      · exact Or.inr rfl
      · exact absurd rfl h5
      · exact Or.inr rfl

/-- C14 (amended) at a sample: the machine of the heads-up room on the river and the
event BettingComplete. -/
theorem Transition_follows_table_or_passes_Showdown_witness :
    headsUpRiver.StateMachine.CanTransition BettingComplete =
      (specNext headsUpRiver.StateMachine.currentState BettingComplete).isSome ∧
    (specNext headsUpRiver.StateMachine.currentState BettingComplete = none →
      ∃ msg, headsUpRiver.StateMachine.Transition BettingComplete
        = some (some msg, headsUpRiver.StateMachine)) ∧
    (∀ t, specNext headsUpRiver.StateMachine.currentState BettingComplete = some t →
      headsUpRiver.StateMachine.callbacks.lookup t = none ∨
        headsUpRiver.StateMachine.callbacks.lookup t = some (Callback.ret none) →
      headsUpRiver.StateMachine.Transition BettingComplete =
        some (none, { headsUpRiver.StateMachine with currentState := t })) ∧
    (∀ t, specNext headsUpRiver.StateMachine.currentState BettingComplete = some t →
      headsUpRiver.StateMachine.callbacks
        = (NewRoom 1 "table" "low" 100 10 20 6 false).StateMachine.callbacks →
      headsUpRiver.StateMachine.Transition BettingComplete =
        some (none, { headsUpRiver.StateMachine with
          currentState := if t = Showdown then GameEnd else t })) :=
  Transition_follows_table_or_passes_Showdown headsUpRiver.StateMachine BettingComplete
    (by decide)

/-! ## The state machine of a room and the state machine alone -/

theorem startPreFlop_machine (r r1 : Room) (h : r.startPreFlop = some r1) :
    r1.StateMachine = r.StateMachine := by
  unfold Room.startPreFlop at h
  obtain ⟨x, _, hx⟩ := Option.map_eq_some'.mp h
  rw [← hx]

theorem dealStreet_machine (k : Nat) (r r1 : Room) (h : Room.dealStreet k r = some r1) :
    r1.StateMachine = r.StateMachine := by
  cases hdeal : r.deal with
  | none =>
    unfold Room.dealStreet at h
    rw [hdeal] at h
    exact absurd h (by simp)
  | some x =>
    obtain ⟨card, r0⟩ := x
    obtain ⟨d, hd, _, _, _⟩ := deal_frame r r0 card hdeal
    exact (dealStreet_frame k r r1 d hd h).1

/-- A callback that works on the room alone: when it returns, it returns `nil` and
the state machine is the one it was called on. -/
theorem callback_plain (f : Room → Option Room)
    (hf : ∀ x y, f x = some y → y.StateMachine = x.StateMachine) (x r1 : Room) (old : Int)
    (err : Option String)
    (h : (match (f x).map (fun r1 => ((none : Option String), r1)) with
      | none => none
      | some (some err, r2) =>
        some (some ("状态转换回调失败: " ++ err),
          { r2 with StateMachine := { r2.StateMachine with currentState := old } })
      | some (none, r2) => some (none, r2)) = some (err, r1)) :
    err = none ∧ r1.StateMachine = x.StateMachine := by
  cases hfx : f x with
  | none => rw [hfx] at h; exact absurd h (by simp)
  | some y =>
    rw [hfx] at h
    simp only [Option.map_some', Option.some.injEq, Prod.mk.injEq] at h
    exact ⟨h.1.symm, by rw [← h.2]; exact hf x y hfx⟩

/-- The two models of `Transition` agree: when the call returns on a room with the
callbacks of `NewRoom`, the state machine of the room after the call is what
`GameStateMachine.Transition` gives on the state machine alone, with the same
error. -/
theorem transitionDepth_machine : ∀ (depth : Nat) (r r1 : Room) (e : Int) (err : Option String),
    r.StateMachine.callbacks = (NewRoom 1 "table" "low" 100 10 20 6 false).StateMachine.callbacks →
    Room.transitionDepth depth r e = some (err, r1) →
    r.StateMachine.transitionDepth depth e = some (err, r1.StateMachine) := by
  intro depth
  induction depth with
  | zero =>
    intro r r1 e err _ h
    rw [Room.transitionDepth] at h
    exact absurd h (by simp)
  | succ depth ih =>
    intro r r1 e err hcbs h
    rw [Room.transitionDepth] at h
    rw [GameStateMachine.transitionDepth]
    by_cases hcan : r.StateMachine.CanTransition e = true
    · simp only [hcan, Bool.not_true, Bool.false_eq_true, if_false] at h ⊢
      generalize ht : (((r.StateMachine.transitions.lookup r.StateMachine.currentState).getD
        []).lookup e).getD 0 = t at h ⊢
      by_cases h5 : t = 5
      · subst h5
        have hl : r.StateMachine.callbacks.lookup 5 = some (Callback.fire 4) := by
          rw [hcbs]; rfl
        simp only [hl] at h ⊢
        have hcall : Room.callback (Room.transitionDepth depth) 5
            { r with StateMachine := { r.StateMachine with currentState := 5 } } =
            Room.transitionDepth depth
              { r with StateMachine := { r.StateMachine with currentState := 5 } } 4 := rfl
        rw [hcall] at h
        cases hn : Room.transitionDepth depth
            { r with StateMachine := { r.StateMachine with currentState := 5 } } 4 with
        | none => rw [hn] at h; exact absurd h (by simp)
        | some res =>
          obtain ⟨err2, r2⟩ := res
          rw [hn] at h
          have h2 := ih _ _ _ _ (by show r.StateMachine.callbacks = _; exact hcbs) hn
          have h3 : GameStateMachine.transitionDepth depth
              { r.StateMachine with currentState := 5 } 4 = some (err2, r2.StateMachine) := h2
          rw [h3]
          cases err2 with
          | none =>
            simp only [Option.some.injEq, Prod.mk.injEq] at h ⊢
            exact ⟨h.1, by rw [← h.2]⟩
          | some msg =>
            simp only [Option.some.injEq, Prod.mk.injEq] at h ⊢
            exact ⟨h.1, by rw [← h.2]⟩
      · have hother : t = 1 ∨ t = 2 ∨ t = 3 ∨ t = 4 ∨ t = 6 ∨
            (t ≠ 1 ∧ t ≠ 2 ∧ t ≠ 3 ∧ t ≠ 4 ∧ t ≠ 5 ∧ t ≠ 6) := by omega
        rcases hother with rfl | rfl | rfl | rfl | rfl | hother
        · have hl : r.StateMachine.callbacks.lookup 1 = some (Callback.ret none) := by
            rw [hcbs]; rfl
          simp only [hl] at h ⊢
          obtain ⟨h1, h2⟩ := callback_plain Room.startPreFlop startPreFlop_machine _ _ _ _ h
          rw [h1, h2]
        · have hl : r.StateMachine.callbacks.lookup 2 = some (Callback.ret none) := by
            rw [hcbs]; rfl
          simp only [hl] at h ⊢
          obtain ⟨h1, h2⟩ := callback_plain Room.dealFlop (dealStreet_machine 3) _ _ _ _ h
          rw [h1, h2]
        · have hl : r.StateMachine.callbacks.lookup 3 = some (Callback.ret none) := by
            rw [hcbs]; rfl
          simp only [hl] at h ⊢
          obtain ⟨h1, h2⟩ := callback_plain Room.dealTurn (dealStreet_machine 1) _ _ _ _ h
          rw [h1, h2]
        · have hl : r.StateMachine.callbacks.lookup 4 = some (Callback.ret none) := by
            rw [hcbs]; rfl
          simp only [hl] at h ⊢
          obtain ⟨h1, h2⟩ := callback_plain Room.dealRiver (dealStreet_machine 1) _ _ _ _ h
          rw [h1, h2]
        · have hl : r.StateMachine.callbacks.lookup 6 = some (Callback.ret none) := by
            rw [hcbs]; rfl
          simp only [hl] at h ⊢
          obtain ⟨h1, h2⟩ := callback_plain Room.endGame endGame_frame _ _ _ _ h
          rw [h1, h2]
        · have hl : r.StateMachine.callbacks.lookup t = none := by
            rw [hcbs]
            obtain ⟨g1, g2, g3, g4, g5, g6⟩ := hother
            show List.lookup t [(1, Callback.ret none), (2, Callback.ret none),
              (3, Callback.ret none), (4, Callback.ret none), (5, Callback.fire 4),
              (6, Callback.ret none)] = none
            simp only [List.lookup, beq_eq_false_iff_ne.mpr g1, beq_eq_false_iff_ne.mpr g2,
              beq_eq_false_iff_ne.mpr g3, beq_eq_false_iff_ne.mpr g4,
              beq_eq_false_iff_ne.mpr g5, beq_eq_false_iff_ne.mpr g6]
          simp only [hl, Option.some.injEq, Prod.mk.injEq] at h ⊢
          exact ⟨h.1, by rw [← h.2]⟩
    · have hcan1 : r.StateMachine.CanTransition e = false := by
        cases hb : r.StateMachine.CanTransition e with
        | true => exact absurd hb hcan
        | false => rfl
      simp only [hcan1, Bool.not_false, if_true, Option.some.injEq, Prod.mk.injEq] at h ⊢
      exact ⟨h.1, by rw [← h.2]⟩

end Rooms

namespace Websocket

/-! ## The hub (claim C36) -/

/-- What the hub keeps true: every entry of `userClients` is stored under the user
of its client, and that client is registered. -/
theorem indexed_step_delete (h : Hub) (client : Client)
    (hinv : ∀ u c, (u, c) ∈ h.userClients → c ∈ h.clients ∧ c.UserID = u) :
    ∀ u c, (u, c) ∈ mapDelete client.UserID h.userClients →
      c ∈ (h.clients.filter fun c => c != client) ∧ c.UserID = u := by
  intro u c hmem
  unfold mapDelete at hmem
  obtain ⟨hin, hkey⟩ := List.mem_filter.mp hmem
  obtain ⟨hc, hu⟩ := hinv u c hin
  refine ⟨List.mem_filter.mpr ⟨hc, ?_⟩, hu⟩
  have hne : u ≠ client.UserID := by simpa using hkey
  have : c ≠ client := fun heq => hne (by rw [← hu, heq])
  simpa using this

theorem mem_mapSet {β : Type} (key : Int) (value : β) (m : List (Int × β)) (k : Int) (v : β)
    (h : (k, v) ∈ Statemachine.mapSet key value m) : (k, v) = (key, value) ∨ (k, v) ∈ m := by
  induction m with
  | nil =>
    rw [Statemachine.mapSet] at h
    exact Or.inl (List.mem_singleton.mp h)
  | cons kv rest ih =>
    obtain ⟨k0, v0⟩ := kv
    rw [Statemachine.mapSet] at h
    by_cases hk : k0 = key
    · rw [if_pos hk] at h
      rcases List.mem_cons.mp h with h | h
      · left; rw [h, hk]
      · exact Or.inr (List.mem_cons_of_mem _ h)
    · rw [if_neg hk] at h
      rcases List.mem_cons.mp h with h | h
      · right; rw [h]; exact List.mem_cons_self _ _
      · rcases ih h with h | h
        · exact Or.inl h
        · exact Or.inr (List.mem_cons_of_mem _ h)

theorem broadcastLoop_indexed (full : Client → Bool) :
    ∀ (l : List Client) (h : Hub),
      (∀ u c, (u, c) ∈ h.userClients → c ∈ h.clients ∧ c.UserID = u) →
      ∀ u c, (u, c) ∈ (broadcastLoop full l h).userClients →
        c ∈ (broadcastLoop full l h).clients ∧ c.UserID = u := by
  intro l
  induction l with
  | nil => intro h hinv; exact hinv
  | cons client rest ih =>
    intro h hinv
    rw [broadcastLoop]
    by_cases hf : full client = true
    · rw [if_pos hf]
      exact ih _ (indexed_step_delete h client hinv)
    · rw [if_neg hf]
      exact ih h hinv

/-- In every state that the hub reaches, each entry of `userClients` is stored under
the user of its client and that client is in `clients`. -/
theorem HubReachable.indexed {h : Hub} (hr : HubReachable h) :
    ∀ u c, (u, c) ∈ h.userClients → c ∈ h.clients ∧ c.UserID = u := by
  induction hr with
  | newHub => intro u c hmem; exact absurd hmem (List.not_mem_nil _)
  | register h client _ ih =>
    intro u c hmem
    unfold Hub.register at hmem ⊢
    simp only at hmem ⊢
    rcases mem_mapSet client.UserID client h.userClients u c hmem with heq | hold
    · have hu : u = client.UserID := congrArg Prod.fst heq
      have hc : c = client := congrArg Prod.snd heq
      refine ⟨?_, by rw [hc, hu]⟩
      rw [hc]
      by_cases hin : client ∈ h.clients
      · rw [if_pos hin]; exact hin
      · rw [if_neg hin]; exact List.mem_append_right _ (List.mem_singleton.mpr rfl)
    · obtain ⟨hc, hu⟩ := ih u c hold
      refine ⟨?_, hu⟩
      by_cases hin : client ∈ h.clients
      · rw [if_pos hin]; exact hc
      · rw [if_neg hin]; exact List.mem_append_left _ hc
  | unregister h client _ ih =>
    unfold Hub.unregister
    by_cases hin : client ∈ h.clients
    · rw [if_pos hin]
      exact indexed_step_delete h client ih
    · rw [if_neg hin]
      exact ih
  | broadcast h full _ ih =>
    unfold Hub.broadcast
    exact broadcastLoop_indexed full h.clients h ih

/-- C36 (counterexample). Two clients of user 7 register one after the other: both
are in `clients` afterwards, and `userClients` points at the second. -/
theorem register_keeps_earlier_client :
    ((NewHub.register { addr := 1, ID := "client_1", UserID := 7 }).register
        { addr := 2, ID := "client_2", UserID := 7 }).clients
      = [{ addr := 1, ID := "client_1", UserID := 7 },
         { addr := 2, ID := "client_2", UserID := 7 }] ∧
    ((NewHub.register { addr := 1, ID := "client_1", UserID := 7 }).register
        { addr := 2, ID := "client_2", UserID := 7 }).userClients
      = [(7, { addr := 2, ID := "client_2", UserID := 7 })] := by
  decide

/-- C36 (amended). In every state that the hub reaches through register, unregister
and broadcast steps, every value of `userClients` is a member of `clients` and is
stored under its own user; registering a client puts it into `clients`, makes
`userClients` point at it for its user, and keeps every client that was registered
before, also one of the same user. -/
theorem register_indexes_without_evicting (h : Hub) (hr : HubReachable h) (client : Client) :
    (∀ u c, (u, c) ∈ h.userClients → c ∈ h.clients ∧ c.UserID = u) ∧
    client ∈ (h.register client).clients ∧
    (h.register client).userClients.lookup client.UserID = some client ∧
    (∀ c ∈ h.clients, c ∈ (h.register client).clients) := by
  refine ⟨hr.indexed, ?_, ?_, ?_⟩
  · unfold Hub.register
    simp only
    by_cases hin : client ∈ h.clients
    · rw [if_pos hin]; exact hin
    · rw [if_neg hin]; exact List.mem_append_right _ (List.mem_singleton.mpr rfl)
  · unfold Hub.register
    exact Statemachine.lookup_mapSet_self client.UserID client h.userClients
  · intro c hc
    unfold Hub.register
    simp only
    by_cases hin : client ∈ h.clients
    · rw [if_pos hin]; exact hc
    · rw [if_neg hin]; exact List.mem_append_left _ hc

/-- C36 (amended) at a sample: a second client of user 7 registers. -/
theorem register_indexes_without_evicting_witness :
    (∀ u c, (u, c) ∈ (NewHub.register { addr := 1, ID := "client_1", UserID := 7 }).userClients →
      c ∈ (NewHub.register { addr := 1, ID := "client_1", UserID := 7 }).clients ∧
        c.UserID = u) ∧
    ({ addr := 2, ID := "client_2", UserID := 7 } : Client) ∈
      ((NewHub.register { addr := 1, ID := "client_1", UserID := 7 }).register
        { addr := 2, ID := "client_2", UserID := 7 }).clients ∧
    ((NewHub.register { addr := 1, ID := "client_1", UserID := 7 }).register
        { addr := 2, ID := "client_2", UserID := 7 }).userClients.lookup 7
      = some { addr := 2, ID := "client_2", UserID := 7 } ∧
    (∀ c ∈ (NewHub.register { addr := 1, ID := "client_1", UserID := 7 }).clients,
      c ∈ ((NewHub.register { addr := 1, ID := "client_1", UserID := 7 }).register
        { addr := 2, ID := "client_2", UserID := 7 }).clients) :=
  register_indexes_without_evicting _
    (HubReachable.register _ { addr := 1, ID := "client_1", UserID := 7 } HubReachable.newHub)
    { addr := 2, ID := "client_2", UserID := 7 }

end Websocket
